import Mathlib

/-!
# Marble maze: grid level queries, ball physics and mesh generators

A shallow embedding of `Level` and `LevelManager` (src/src/Level.cpp,
src/include/Level.h), `Ball` (src/src/Ball.cpp, src/include/Ball.h),
`Primitives` (src/src/Primitives.cpp), `BoardGenerator`
(src/src/BoardGenerator.cpp) and the face reader of `Model::loadFromFile`
(src/src/Model.cpp).

Modelling conventions.

* `float` is embedded twice, over an arbitrary linearly ordered field `α` with
  a floor function.  In the first embedding arithmetic is exact (no rounding,
  no NaN, no overflow).  In the second one, the definitions whose name ends in
  `F`, every operation is the exact operation followed by `F32.round`, the
  rounding to the nearest binary32 number with ties to even and gradual
  underflow; a literal such as 0.3f is `F32.round 0.3`; `std::sqrt` is the
  correctly rounded square root; each expression is evaluated operation by
  operation in single precision (no fused multiply-add, no excess precision).
  Overflow to infinity and NaN are not modelled: the theorems about the
  rounded operations bound their inputs so that no operation overflows.  The
  statements whose truth depends on rounding are made about the second
  embedding.  The definitions are computable and run on `ℚ`; general theorems
  are instantiated on `ℝ` where a genuine square root exists.
* `std::sqrt` and `std::sin` are parameters `sqrt sin : α → α` of the functions
  that call them; the mesh generators take the math library as a `Libm α`.
  Theorems that depend on what a square root is assume `IsSqrt sqrt`.
* `int` is embedded as `Int` (grid sizes are assumed to fit an `int`).  The
  sector, side and stack counts of the mesh generators are `Nat`: the claims
  concern counts of at least 1, and for a negative count no loop body runs.
* `std::vector<std::string>` is a `List (List Char)`, a vertex or index buffer
  is a `List`.  An indexing operation that would leave a vector or string is
  modelled by `none`.
* The tangent fields that a generator leaves unset until its tangent pass are
  the zero vector.
* A `std::istringstream` is the list of its unread characters with a flag for
  `good()`; formatted extraction of an `int` and `peek` follow the C++11 rules
  of the classic locale.
-/

set_option linter.unusedSectionVars false

namespace Cgpr

/-! ## Vectors -/

/-- The type glm::vec3. -/
structure Vec3 (α : Type) where
  x : α
  y : α
  z : α
deriving DecidableEq, Repr

/-- The type glm::vec2. -/
structure Vec2 (α : Type) where
  x : α
  y : α
deriving DecidableEq, Repr

/-- The type glm::ivec2. -/
structure IVec2 where
  x : Int
  y : Int
deriving DecidableEq, Repr

/-! ## Config.h -/

namespace Config

variable {α : Type} [LinearOrderedField α]

/-- Ball size. -/
def BALL_RADIUS : α := 0.25
/-- Gravity strength. -/
def BALL_GRAVITY : α := 60.0
/-- Friction/damping factor. -/
def BALL_FRICTION : α := 0.985
/-- Maximum speed the ball can reach. -/
def BALL_MAX_SPEED : α := 50.0
/-- Bounce energy retention when hitting walls. -/
def BALL_BOUNCE : α := 0.3
/-- Size of each grid cell in world units. -/
def CELL_SIZE : α := 1.0
end Config

/-! ## Level -/

/-- The class Level: the grid and the fields derived from it. -/
structure Level (α : Type) where
  grid : List (List Char)
  width : Int
  height : Int
  cellSize : α
  startPos : IVec2
  goalPos : IVec2
  holePoss : List IVec2

/-- The part of a Level that the constructor's scan loop writes. -/
structure Scan where
  width : Int
  startPos : IVec2
  goalPos : IVec2
  holePoss : List IVec2
deriving DecidableEq, Repr

/-- Body of the inner loop of the constructor, at column x of row y. -/
def scanCell (y x : Int) (c : Char) (s : Scan) : Scan :=
  if c = 'S' then { s with startPos := ⟨x, y⟩ }
  else if c = 'G' then { s with goalPos := ⟨x, y⟩ }
  else if c = 'O' then { s with holePoss := s.holePoss ++ [⟨x, y⟩] }
  else s

/-- Inner loop of the constructor over the rest of row y, from column x on. -/
def scanCells (y : Int) : Int → List Char → Scan → Scan
  | _, [], s => s
  | x, c :: cs, s => scanCells y (x + 1) cs (scanCell y x c s)

/-- Outer loop of the constructor over the remaining rows, from row y on. -/
def scanRows : Int → List (List Char) → Scan → Scan
  | _, [], s => s
  | y, row :: rows, s =>
    scanRows (y + 1) rows
      (scanCells y 0 row { s with width := max s.width (row.length : Int) })

/-- The constructor Level::Level(gridData, cellSize) (a Lean declaration cannot
share the name of its structure). -/
def Level.fromGrid {α : Type} (gridData : List (List Char)) (cellSize : α) : Level α :=
  let s := scanRows 0 gridData ⟨0, ⟨0, 0⟩, ⟨0, 0⟩, []⟩
  { grid := gridData
    width := s.width
    height := (gridData.length : Int)
    cellSize := cellSize
    startPos := s.startPos
    goalPos := s.goalPos
    holePoss := s.holePoss }

section LevelOps

variable {α : Type} [LinearOrderedField α] [FloorRing α]

/-- Level::getCell.  The result is `none` exactly when the code would index
`grid` or a row outside its range. -/
def Level.getCell (L : Level α) (x y : Int) : Option Char :=
  if y < 0 ∨ y ≥ L.height then some '#'
  else
    match L.grid[y.toNat]? with
    | none => none
    | some row =>
      if x < 0 ∨ x ≥ (row.length : Int) then some '#'
      else row[x.toNat]?

/-- Level::getBoardWidth. -/
def Level.getBoardWidth (L : Level α) : α := (L.width : α) * L.cellSize

/-- Level::getBoardDepth. -/
def Level.getBoardDepth (L : Level α) : α := (L.height : α) * L.cellSize

/-- Level::gridToWorld(int, int). -/
def Level.gridToWorld (L : Level α) (x y : Int) : Vec3 α :=
  let worldX := ((x : α) + 0.5) * L.cellSize - L.getBoardWidth / 2.0
  let worldZ := ((y : α) + 0.5) * L.cellSize - L.getBoardDepth / 2.0
  ⟨worldX, 0.0, worldZ⟩

/-- The conversion static_cast<int>(float): truncation toward zero. -/
def truncToInt (v : α) : Int := if 0 ≤ v then ⌊v⌋ else ⌈v⌉

/-- Level::worldToGrid. -/
def Level.worldToGrid (L : Level α) (worldPos : Vec3 α) : IVec2 :=
  let localX := worldPos.x + L.getBoardWidth / 2.0
  let localZ := worldPos.z + L.getBoardDepth / 2.0
  ⟨truncToInt (localX / L.cellSize), truncToInt (localZ / L.cellSize)⟩

/-- The value glm::length(glm::vec2(dx, dz)). -/
def length2 (sqrt : α → α) (dx dz : α) : α := sqrt (dx * dx + dz * dz)

/-- Level::isOverHole. -/
def Level.isOverHole (sqrt : α → α) (L : Level α) (worldPos : Vec3 α) (_radius : α) : Bool :=
  let cell := L.worldToGrid worldPos
  if L.getCell cell.x cell.y = some 'O' then
    let holeCenter := L.gridToWorld cell.x cell.y
    let dist := length2 sqrt (worldPos.x - holeCenter.x) (worldPos.z - holeCenter.z)
    decide (dist < L.cellSize * 0.3)
  else false

/-- Level::isAtGoal. -/
def Level.isAtGoal (sqrt : α → α) (L : Level α) (worldPos : Vec3 α) (_radius : α) : Bool :=
  let cell := L.worldToGrid worldPos
  if L.getCell cell.x cell.y = some 'G' then
    let goalCenter := L.gridToWorld cell.x cell.y
    let dist := length2 sqrt (worldPos.x - goalCenter.x) (worldPos.z - goalCenter.z)
    decide (dist < L.cellSize * 0.4)
  else false

/-- The function std::clamp(v, lo, hi). -/
def clamp (v lo hi : α) : α := if v < lo then lo else if hi < v then hi else v

/-- Body of the double loop of Level::resolveWallCollision for the neighbour
at offset (dx, dy) of `cell`, acting on the running `result`. -/
def Level.resolveCell (sqrt : α → α) (L : Level α) (radius : α) (cell : IVec2)
    (result : Vec3 α) (d : Int × Int) : Vec3 α :=
  let nx := cell.x + d.1
  let ny := cell.y + d.2
  if L.getCell nx ny = some '#' then
    let wallCenter := L.gridToWorld nx ny
    let halfSize := L.cellSize / 2.0
    let closestX := clamp result.x (wallCenter.x - halfSize) (wallCenter.x + halfSize)
    let closestZ := clamp result.z (wallCenter.z - halfSize) (wallCenter.z + halfSize)
    let distX := result.x - closestX
    let distZ := result.z - closestZ
    let dist := sqrt (distX * distX + distZ * distZ)
    if dist < radius ∧ dist > 0.0001 then
      let overlap := radius - dist
      { result with
        x := result.x + (distX / dist) * overlap
        z := result.z + (distZ / dist) * overlap }
    else result
  else result

/-- The offsets (dx, dy) in the order the double loop visits them: dy outer,
dx inner, each from -1 to 1. -/
def neighbourOffsets : List (Int × Int) :=
  ([-1, 0, 1] : List Int).flatMap fun dy => ([-1, 0, 1] : List Int).map fun dx => (dx, dy)

/-- Level::resolveWallCollision. -/
def Level.resolveWallCollision (sqrt : α → α) (L : Level α) (pos : Vec3 α) (radius : α) :
    Vec3 α :=
  let cell := L.worldToGrid pos
  neighbourOffsets.foldl (L.resolveCell sqrt radius cell) pos

end LevelOps

/-! ## Ball -/

/-- The class Ball. -/
structure Ball (α : Type) where
  position : Vec3 α
  velocity : Vec3 α
  radius : α
  isFalling : Bool
  fallProgress : α

section BallOps

variable {α : Type} [LinearOrderedField α] [FloorRing α]

/-- The default-constructed Ball of Ball.h. -/
def Ball.default : Ball α :=
  { position := ⟨0.0, 0.0, 0.0⟩
    velocity := ⟨0.0, 0.0, 0.0⟩
    radius := 0.35
    isFalling := false
    fallProgress := 0.0 }

/-- Ball::reset. -/
def Ball.reset (L : Level α) (b : Ball α) : Ball α :=
  let p := L.gridToWorld L.startPos.x L.startPos.y
  { b with
    position := { p with y := b.radius }
    velocity := ⟨0.0, 0.0, 0.0⟩
    isFalling := false
    fallProgress := 0.0 }

/-- Ball::update. -/
def Ball.update (sqrt sin : α → α) (dt : α) (tiltRadians : Vec2 α) (L : Level α)
    (b : Ball α) : Ball α :=
  if b.isFalling then
    let fallProgress := b.fallProgress + dt * 3.0
    { b with
      fallProgress := fallProgress
      position := { b.position with y := b.radius * (1.0 - fallProgress * 2.0) } }
  else
    -- Acceleration from tilt
    let ax := -Config.BALL_GRAVITY * sin tiltRadians.x
    let az := Config.BALL_GRAVITY * sin tiltRadians.y
    let v1 : Vec3 α := { b.velocity with x := b.velocity.x + ax * dt, z := b.velocity.z + az * dt }
    let v2 : Vec3 α :=
      ⟨v1.x * Config.BALL_FRICTION, v1.y * Config.BALL_FRICTION, v1.z * Config.BALL_FRICTION⟩
    let speed := sqrt (v2.x * v2.x + v2.z * v2.z)
    let v3 : Vec3 α :=
      if speed > Config.BALL_MAX_SPEED then
        { v2 with
          x := (v2.x / speed) * Config.BALL_MAX_SPEED
          z := (v2.z / speed) * Config.BALL_MAX_SPEED }
      else v2
    let oldPos : Vec3 α :=
      { b.position with x := b.position.x + v3.x * dt, z := b.position.z + v3.z * dt }
    let position := L.resolveWallCollision sqrt oldPos b.radius
    let v4 : Vec3 α :=
      if |position.x - oldPos.x| > 0.001 then { v3 with x := -v3.x * Config.BALL_BOUNCE } else v3
    let v5 : Vec3 α :=
      if |position.z - oldPos.z| > 0.001 then { v4 with z := -v4.z * Config.BALL_BOUNCE } else v4
    if L.isOverHole sqrt position b.radius then
      { b with
        isFalling := true
        fallProgress := 0.0
        velocity := ⟨0.0, 0.0, 0.0⟩
        position := { position with y := b.radius } }
    else
      { b with
        velocity := v5
        position := { position with y := b.radius } }

/-- Ball::hasFallenInHole. -/
def Ball.hasFallenInHole (b : Ball α) : Bool := b.isFalling && decide (b.fallProgress ≥ 1.0)

/-- A run of Ball::update calls on one Level, one call per tick; a tick is the
pair of its step size dt and its tilt. -/
def Ball.updates (sqrt sin : α → α) (L : Level α) (b : Ball α)
    (ticks : List (α × Vec2 α)) : Ball α :=
  ticks.foldl (fun b t => b.update sqrt sin t.1 t.2 L) b

/-- The elapsed time of a run of ticks: the sum of their step sizes. -/
def elapsed (ticks : List (α × Vec2 α)) : α := (ticks.map Prod.fst).sum

end BallOps

/-! ## The stages of a Rolling tick

The intermediate values of Ball::update, named so that theorems can speak of
them. -/

section Stages

variable {α : Type} [LinearOrderedField α] [FloorRing α]

/-- Velocity after the acceleration from tilt and the friction scaling. -/
def Ball.frictionVelocity (sin : α → α) (dt : α) (tilt : Vec2 α) (b : Ball α) : Vec3 α :=
  ⟨(b.velocity.x + -Config.BALL_GRAVITY * sin tilt.x * dt) * Config.BALL_FRICTION,
    b.velocity.y * Config.BALL_FRICTION,
    (b.velocity.z + Config.BALL_GRAVITY * sin tilt.y * dt) * Config.BALL_FRICTION⟩

/-- Velocity after the speed clamp. -/
def Ball.clampedVelocity (sqrt sin : α → α) (dt : α) (tilt : Vec2 α) (b : Ball α) : Vec3 α :=
  let v := b.frictionVelocity sin dt tilt
  let speed := sqrt (v.x * v.x + v.z * v.z)
  if speed > Config.BALL_MAX_SPEED then
    { v with x := (v.x / speed) * Config.BALL_MAX_SPEED, z := (v.z / speed) * Config.BALL_MAX_SPEED }
  else v

/-- The tentative position handed to resolveWallCollision (oldPos). -/
def Ball.tentative (sqrt sin : α → α) (dt : α) (tilt : Vec2 α) (b : Ball α) : Vec3 α :=
  { b.position with
    x := b.position.x + (b.clampedVelocity sqrt sin dt tilt).x * dt
    z := b.position.z + (b.clampedVelocity sqrt sin dt tilt).z * dt }

/-- The collision-resolved position. -/
def Ball.resolved (sqrt sin : α → α) (dt : α) (tilt : Vec2 α) (L : Level α) (b : Ball α) :
    Vec3 α :=
  L.resolveWallCollision sqrt (b.tentative sqrt sin dt tilt) b.radius

/-- Velocity after the two independent bounce tests. -/
def Ball.bouncedVelocity (sqrt sin : α → α) (dt : α) (tilt : Vec2 α) (L : Level α)
    (b : Ball α) : Vec3 α :=
  let v := b.clampedVelocity sqrt sin dt tilt
  let p := b.resolved sqrt sin dt tilt L
  let o := b.tentative sqrt sin dt tilt
  ⟨if |p.x - o.x| > 0.001 then -v.x * Config.BALL_BOUNCE else v.x, v.y,
    if |p.z - o.z| > 0.001 then -v.z * Config.BALL_BOUNCE else v.z⟩

/-- Planar speed of a ball: sqrt (velocity.x^2 + velocity.z^2). -/
def Ball.planarSpeed (sqrt : α → α) (b : Ball α) : α :=
  sqrt (b.velocity.x * b.velocity.x + b.velocity.z * b.velocity.z)

end Stages

/-! ## What a square root is -/

/-- The real-number contract of std::sqrt on non-negative arguments. -/
def IsSqrt {α : Type} [LinearOrderedField α] (sqrt : α → α) : Prop :=
  ∀ s, 0 ≤ s → 0 ≤ sqrt s ∧ sqrt s * sqrt s = s

/-! ## Derived quantities -/

/-- The cells of the rest of row y, from column x on, that hold the hole
character, in increasing column order. -/
def holesIn (y : Int) : Int → List Char → List IVec2
  | _, [] => []
  | x, c :: cs => (if c = 'O' then [⟨x, y⟩] else []) ++ holesIn y (x + 1) cs

/-- The hole cells of the remaining rows, from row y on, in row-major order. -/
def holesInRows : Int → List (List Char) → List IVec2
  | _, [] => []
  | y, row :: rows => holesIn y 0 row ++ holesInRows (y + 1) rows

/-- Planar (XZ) distance from the point p to the centre of the cell (x, y). -/
def Level.centreDist {α : Type} [LinearOrderedField α] [FloorRing α] (sqrt : α → α)
    (L : Level α) (p : Vec3 α) (x y : Int) : α :=
  length2 sqrt (p.x - (L.gridToWorld x y).x) (p.z - (L.gridToWorld x y).z)

/-- Planar distance from the point p to the closest point of the square
footprint of the cell (nx, ny), the quantity `dist` of resolveWallCollision. -/
def Level.wallDist {α : Type} [LinearOrderedField α] [FloorRing α] (sqrt : α → α)
    (L : Level α) (p : Vec3 α) (nx ny : Int) : α :=
  let wallCenter := L.gridToWorld nx ny
  let halfSize := L.cellSize / 2.0
  let closestX := clamp p.x (wallCenter.x - halfSize) (wallCenter.x + halfSize)
  let closestZ := clamp p.z (wallCenter.z - halfSize) (wallCenter.z + halfSize)
  length2 sqrt (p.x - closestX) (p.z - closestZ)

/-! ## Sample data -/

/-- The level grid of the specification's scenario. -/
def sampleGrid : List (List Char) :=
  ["#####".toList, "#S.G#".toList, "#####".toList]

/-- The scenario level, cell size 1, over the rationals. -/
def sampleLevel : Level ℚ := Level.fromGrid sampleGrid 1

/-- A one-cell level whose only cell is a hole, cell size 1, over the reals. -/
def holeLevel : Level ℝ := Level.fromGrid ["O".toList] 1

/-- A ball in the state in which the hole-detecting tick of Ball::update leaves
it: in mode Falling with zero progress and zero velocity, resting on the floor
plane. -/
def enteredFalling : Ball ℝ :=
  { position := ⟨0, 0.35, 0⟩
    velocity := ⟨0, 0, 0⟩
    radius := 0.35
    isFalling := true
    fallProgress := 0 }

/-- A ball in mode Falling that carries a planar velocity of 100 along X. -/
def fastFalling : Ball ℝ :=
  { position := ⟨0, 0.35, 0⟩
    velocity := ⟨100, 0, 0⟩
    radius := 0.35
    isFalling := true
    fallProgress := 0 }

/-- A Rolling ball at the centre of the one-cell level, moving at 80 along X. -/
def fastRolling : Ball ℝ :=
  { position := ⟨0, 0.35, 0⟩
    velocity := ⟨80, 0, 0⟩
    radius := 0.35
    isFalling := false
    fallProgress := 0 }

/-- A level without walls or holes in reach of its centre cell. -/
def floorLevel : Level ℝ := Level.fromGrid ["...".toList, "...".toList, "...".toList] 1

/-- A Rolling ball at rest at the centre of the floor level, as Ball::reset
would leave it there. -/
def floorBall : Ball ℝ :=
  { position := ⟨0, 0.35, 0⟩
    velocity := ⟨0, 0, 0⟩
    radius := 0.35
    isFalling := false
    fallProgress := 0 }

/-- A one-cell-wide passage between two wall cells, cell size 1. -/
def corridorLevel : Level ℝ := Level.fromGrid ["...".toList, "#.#".toList, "...".toList] 1

/-- A Rolling ball at rest in the corridor, 0.3 from the left wall, Y at its
radius 0.35. -/
def corridorBall : Ball ℝ :=
  { position := ⟨-0.2, 0.35, 0⟩
    velocity := ⟨0, 0, 0⟩
    radius := 0.35
    isFalling := false
    fallProgress := 0 }

/-- A floor level whose centre cell is a hole, cell size 1. -/
def pitLevel : Level ℝ := Level.fromGrid ["...".toList, ".O.".toList, "...".toList] 1

/-! ## LevelManager -/

/-- The class LevelManager. -/
structure LevelManager (α : Type) where
  levels : List (Level α)
  currentLevelIndex : Int

/-- LevelManager::hasNextLevel. -/
def LevelManager.hasNextLevel {α : Type} (m : LevelManager α) : Bool :=
  decide (m.currentLevelIndex + 1 < (m.levels.length : Int))

/-- LevelManager::nextLevel: the returned flag and the manager after the call. -/
def LevelManager.nextLevel {α : Type} (m : LevelManager α) : Bool × LevelManager α :=
  if m.hasNextLevel then
    (true, { m with currentLevelIndex := m.currentLevelIndex + 1 })
  else
    (false, m)

/-- LevelManager::getCurrentLevel, the read levels[currentLevelIndex]; `none`
when the index lies outside the level list. -/
def LevelManager.getCurrentLevel {α : Type} (m : LevelManager α) : Option (Level α) :=
  if m.currentLevelIndex < 0 then none else m.levels[m.currentLevelIndex.toNat]?

/-- LevelManager::restartLevel (its body is empty). -/
def LevelManager.restartLevel {α : Type} (m : LevelManager α) : LevelManager α := m

/-- The manager after n successive calls of nextLevel. -/
def LevelManager.nextLevels {α : Type} (m : LevelManager α) : Nat → LevelManager α
  | 0 => m
  | n + 1 => (m.nextLevels n).nextLevel.2

/-- The manager that loadBuiltInLevels leaves when no level file could be
loaded: an empty list, index 0. -/
def LevelManager.empty {α : Type} : LevelManager α := ⟨[], 0⟩

/-! ## Reachable ball states -/

/-- The ball states reachable from Ball::reset by Ball::update calls with
non-negative step sizes; the Level and the tilt may change from call to call. -/
inductive Ball.Reachable {α : Type} [LinearOrderedField α] [FloorRing α]
    (sqrt sin : α → α) : Ball α → Prop
  | reset (L : Level α) (b : Ball α) : Ball.Reachable sqrt sin (b.reset L)
  | update (L : Level α) (dt : α) (tilt : Vec2 α) (b : Ball α) (hdt : 0 ≤ dt)
      (hb : Ball.Reachable sqrt sin b) : Ball.Reachable sqrt sin (b.update sqrt sin dt tilt L)

/-- A level in which the start cell lies next to a hole, away from any wall. -/
def rollLevel : Level ℝ :=
  Level.fromGrid [".....".toList, ".SO.G".toList, ".....".toList] 1

/-- The ball that Ball::reset leaves on the roll level: at the centre of the
start cell (1, 1). -/
def rollStart : Ball ℝ :=
  { position := ⟨-1, 0.35, 0⟩
    velocity := ⟨0, 0, 0⟩
    radius := 0.35
    isFalling := false
    fallProgress := 0 }

/-- The ball one tick of 0.13 s later, the board tilted by -pi/2 about X: it
has rolled onto the hole and entered Falling. -/
def rollEntered : Ball ℝ :=
  { position := ⟨-0.00121, 0.35, 0⟩
    velocity := ⟨0, 0, 0⟩
    radius := 0.35
    isFalling := true
    fallProgress := 0 }

/-! ## Mesh.h -/

/-- The struct Vertex. -/
structure Vertex (α : Type) where
  Position : Vec3 α
  Normal : Vec3 α
  TexCoords : Vec2 α
  Tangent : Vec3 α
  Bitangent : Vec3 α

/-- The class Mesh: its vertex and index buffers (the GPU handles are not
modelled). -/
structure Mesh (α : Type) where
  vertices : List (Vertex α)
  indices : List Nat

/-- The functions and the constant of the C math library that the generators
call: sqrt (inside glm::normalize), sinf, cosf, atan2f and M_PI. -/
structure Libm (α : Type) where
  sqrt : α → α
  sin : α → α
  cos : α → α
  atan2 : α → α → α
  pi : α

section Glm

variable {α : Type} [LinearOrderedField α]

/-- The zero vector: a value-initialised glm::vec3.  It also stands for the
tangent fields a generator leaves unset before the tangent pass. -/
def Vec3.zero : Vec3 α := ⟨0, 0, 0⟩

/-- Difference of two glm::vec3. -/
def Vec3.sub (a b : Vec3 α) : Vec3 α := ⟨a.x - b.x, a.y - b.y, a.z - b.z⟩

/-- The function glm::dot. -/
def Vec3.dot (a b : Vec3 α) : α := a.x * b.x + a.y * b.y + a.z * b.z

/-- The function glm::cross. -/
def Vec3.cross (a b : Vec3 α) : Vec3 α :=
  ⟨a.y * b.z - a.z * b.y, a.z * b.x - a.x * b.z, a.x * b.y - a.y * b.x⟩

/-- The function glm::normalize: v * inversesqrt(dot(v, v)). -/
def Vec3.normalize (sqrt : α → α) (v : Vec3 α) : Vec3 α :=
  ⟨v.x * (1 / sqrt (v.dot v)), v.y * (1 / sqrt (v.dot v)), v.z * (1 / sqrt (v.dot v))⟩

end Glm

/-! ## Primitives -/

namespace Primitives

section Generators

variable {α : Type} [LinearOrderedField α]

/-- The tangent and bitangent that computeTangent writes to its three vertices. -/
def computeTangent (sqrt : α → α) (v0 v1 v2 : Vertex α) : Vec3 α × Vec3 α :=
  let edge1 := v1.Position.sub v0.Position
  let edge2 := v2.Position.sub v0.Position
  let deltaUV1 : Vec2 α := ⟨v1.TexCoords.x - v0.TexCoords.x, v1.TexCoords.y - v0.TexCoords.y⟩
  let deltaUV2 : Vec2 α := ⟨v2.TexCoords.x - v0.TexCoords.x, v2.TexCoords.y - v0.TexCoords.y⟩
  let f := 1.0 / (deltaUV1.x * deltaUV2.y - deltaUV2.x * deltaUV1.y + 0.0001)
  let tangent : Vec3 α :=
    Vec3.normalize sqrt
      ⟨f * (deltaUV2.y * edge1.x - deltaUV1.y * edge2.x),
        f * (deltaUV2.y * edge1.y - deltaUV1.y * edge2.y),
        f * (deltaUV2.y * edge1.z - deltaUV1.y * edge2.z)⟩
  let bitangent : Vec3 α :=
    Vec3.normalize sqrt
      ⟨f * (-deltaUV2.x * edge1.x + deltaUV1.x * edge2.x),
        f * (-deltaUV2.x * edge1.y + deltaUV1.x * edge2.y),
        f * (-deltaUV2.x * edge1.z + deltaUV1.x * edge2.z)⟩
  (tangent, bitangent)

/-- A vertex with its Tangent and Bitangent overwritten. -/
def withTangent (v : Vertex α) (tb : Vec3 α × Vec3 α) : Vertex α :=
  { v with Tangent := tb.1, Bitangent := tb.2 }

/-- The loop `for (i = 0; i < indices.size(); i += 3) computeTangent(
vertices[indices[i]], vertices[indices[i + 1]], vertices[indices[i + 2]])`.
The result is `none` when the loop would read past the end of `indices` or of
`vertices`. -/
def tangentPass (sqrt : α → α) : List (Vertex α) → List Nat → Option (List (Vertex α))
  | vs, [] => some vs
  | vs, i0 :: i1 :: i2 :: rest =>
    match vs[i0]?, vs[i1]?, vs[i2]? with
    | some v0, some v1, some v2 =>
      tangentPass sqrt
        (((vs.set i0 (withTangent v0 (computeTangent sqrt v0 v1 v2))).set i1
            (withTangent v1 (computeTangent sqrt v0 v1 v2))).set i2
          (withTangent v2 (computeTangent sqrt v0 v1 v2)))
        rest
    | _, _, _ => none
  | _, _ => none

/-- The mesh a generator returns: the vertices after the tangent pass, with
the index buffer. -/
def finish (sqrt : α → α) (vertices : List (Vertex α)) (indices : List Nat) :
    Option (Mesh α) :=
  (tangentPass sqrt vertices indices).map fun vs => ⟨vs, indices⟩

/-- The vertex loop of createSphere. -/
def sphereVertices (m : Libm α) (radius : α) (sectors stackCount : Nat) : List (Vertex α) :=
  let sectorStep := 2 * m.pi / (sectors : α)
  let stackStep := m.pi / (stackCount : α)
  (List.range (stackCount + 1)).flatMap fun (i : Nat) =>
    let stackAngle := m.pi / 2 - (i : α) * stackStep
    let xy := radius * m.cos stackAngle
    let z := radius * m.sin stackAngle
    (List.range (sectors + 1)).map fun (j : Nat) =>
      let sectorAngle := (j : α) * sectorStep
      let position : Vec3 α := ⟨xy * m.cos sectorAngle, z, xy * m.sin sectorAngle⟩
      { Position := position
        Normal := position.normalize m.sqrt
        TexCoords := ⟨(j : α) / (sectors : α), (i : α) / (stackCount : α)⟩
        Tangent := Vec3.zero
        Bitangent := Vec3.zero }

/-- The index loop of createSphere. -/
def sphereIndices (sectors stackCount : Nat) : List Nat :=
  (List.range stackCount).flatMap fun (i : Nat) =>
    (List.range sectors).flatMap fun (j : Nat) =>
      let k1 := i * (sectors + 1) + j
      let k2 := k1 + sectors + 1
      (if i ≠ 0 then [k1, k1 + 1, k2] else []) ++
        (if i ≠ stackCount - 1 then [k1 + 1, k2 + 1, k2] else [])

/-- Primitives::createSphere. -/
def createSphere (m : Libm α) (radius : α) (sectors stackCount : Nat) : Option (Mesh α) :=
  finish m.sqrt (sphereVertices m radius sectors stackCount) (sphereIndices sectors stackCount)

/-- The vertex initialiser list of createCube, s = size / 2. -/
def cubeVertices (size : α) : List (Vertex α) :=
  let s := size / 2.0
  [ -- Front face
    ⟨⟨-s, -s, s⟩, ⟨0, 0, 1⟩, ⟨0, 0⟩, Vec3.zero, Vec3.zero⟩,
    ⟨⟨s, -s, s⟩, ⟨0, 0, 1⟩, ⟨1, 0⟩, Vec3.zero, Vec3.zero⟩,
    ⟨⟨s, s, s⟩, ⟨0, 0, 1⟩, ⟨1, 1⟩, Vec3.zero, Vec3.zero⟩,
    ⟨⟨-s, s, s⟩, ⟨0, 0, 1⟩, ⟨0, 1⟩, Vec3.zero, Vec3.zero⟩,
    -- Back face
    ⟨⟨s, -s, -s⟩, ⟨0, 0, -1⟩, ⟨0, 0⟩, Vec3.zero, Vec3.zero⟩,
    ⟨⟨-s, -s, -s⟩, ⟨0, 0, -1⟩, ⟨1, 0⟩, Vec3.zero, Vec3.zero⟩,
    ⟨⟨-s, s, -s⟩, ⟨0, 0, -1⟩, ⟨1, 1⟩, Vec3.zero, Vec3.zero⟩,
    ⟨⟨s, s, -s⟩, ⟨0, 0, -1⟩, ⟨0, 1⟩, Vec3.zero, Vec3.zero⟩,
    -- Top face
    ⟨⟨-s, s, s⟩, ⟨0, 1, 0⟩, ⟨0, 0⟩, Vec3.zero, Vec3.zero⟩,
    ⟨⟨s, s, s⟩, ⟨0, 1, 0⟩, ⟨1, 0⟩, Vec3.zero, Vec3.zero⟩,
    ⟨⟨s, s, -s⟩, ⟨0, 1, 0⟩, ⟨1, 1⟩, Vec3.zero, Vec3.zero⟩,
    ⟨⟨-s, s, -s⟩, ⟨0, 1, 0⟩, ⟨0, 1⟩, Vec3.zero, Vec3.zero⟩,
    -- Bottom face
    ⟨⟨-s, -s, -s⟩, ⟨0, -1, 0⟩, ⟨0, 0⟩, Vec3.zero, Vec3.zero⟩,
    ⟨⟨s, -s, -s⟩, ⟨0, -1, 0⟩, ⟨1, 0⟩, Vec3.zero, Vec3.zero⟩,
    ⟨⟨s, -s, s⟩, ⟨0, -1, 0⟩, ⟨1, 1⟩, Vec3.zero, Vec3.zero⟩,
    ⟨⟨-s, -s, s⟩, ⟨0, -1, 0⟩, ⟨0, 1⟩, Vec3.zero, Vec3.zero⟩,
    -- Right face
    ⟨⟨s, -s, s⟩, ⟨1, 0, 0⟩, ⟨0, 0⟩, Vec3.zero, Vec3.zero⟩,
    ⟨⟨s, -s, -s⟩, ⟨1, 0, 0⟩, ⟨1, 0⟩, Vec3.zero, Vec3.zero⟩,
    ⟨⟨s, s, -s⟩, ⟨1, 0, 0⟩, ⟨1, 1⟩, Vec3.zero, Vec3.zero⟩,
    ⟨⟨s, s, s⟩, ⟨1, 0, 0⟩, ⟨0, 1⟩, Vec3.zero, Vec3.zero⟩,
    -- Left face
    ⟨⟨-s, -s, -s⟩, ⟨-1, 0, 0⟩, ⟨0, 0⟩, Vec3.zero, Vec3.zero⟩,
    ⟨⟨-s, -s, s⟩, ⟨-1, 0, 0⟩, ⟨1, 0⟩, Vec3.zero, Vec3.zero⟩,
    ⟨⟨-s, s, s⟩, ⟨-1, 0, 0⟩, ⟨1, 1⟩, Vec3.zero, Vec3.zero⟩,
    ⟨⟨-s, s, -s⟩, ⟨-1, 0, 0⟩, ⟨0, 1⟩, Vec3.zero, Vec3.zero⟩ ]

/-- The index initialiser list of createCube. -/
def cubeIndices : List Nat :=
  [ 0, 1, 2, 0, 2, 3, -- front
    4, 5, 6, 4, 6, 7, -- back
    8, 9, 10, 8, 10, 11, -- top
    12, 13, 14, 12, 14, 15, -- bottom
    16, 17, 18, 16, 18, 19, -- right
    20, 21, 22, 20, 22, 23 ] -- left

/-- Primitives::createCube. -/
def createCube (sqrt : α → α) (size : α) : Option (Mesh α) :=
  finish sqrt (cubeVertices size) cubeIndices

/-- The two side rings of createFrustum (and, with both radii equal and the
slope 0, of createCylinder): ring i = 0 at -halfHeight with bottomRadius, ring
i = 1 at halfHeight with topRadius; `slope` is the Y component of the normal
before normalisation. -/
def sideRings (m : Libm α) (bottomRadius topRadius halfHeight slope : α) (sectors : Nat) :
    List (Vertex α) :=
  let sectorStep := 2 * m.pi / (sectors : α)
  (List.range 2).flatMap fun (i : Nat) =>
    let y := if i = 0 then -halfHeight else halfHeight
    let r := if i = 0 then bottomRadius else topRadius
    (List.range (sectors + 1)).map fun (j : Nat) =>
      let angle := (j : α) * sectorStep
      { Position := ⟨r * m.cos angle, y, r * m.sin angle⟩
        Normal := Vec3.normalize m.sqrt ⟨m.cos angle, slope, m.sin angle⟩
        TexCoords := ⟨(j : α) / (sectors : α), (i : α)⟩
        Tangent := Vec3.zero
        Bitangent := Vec3.zero }

/-- The side index loop of createCylinder and createFrustum. -/
def sideIndices (sectors : Nat) : List Nat :=
  (List.range sectors).flatMap fun (j : Nat) =>
    let k1 := j
    let k2 := j + sectors + 1
    [k1, k2, k1 + 1, k1 + 1, k2, k2 + 1]

/-- A cap of createCylinder, createCone and createFrustum: the centre vertex
followed by its ring of sectors + 1 vertices, at height y with normal
(0, ny, 0). -/
def capVertices (m : Libm α) (radius y ny : α) (sectors : Nat) : List (Vertex α) :=
  let sectorStep := 2 * m.pi / (sectors : α)
  ({ Position := ⟨0, y, 0⟩
     Normal := ⟨0, ny, 0⟩
     TexCoords := ⟨0.5, 0.5⟩
     Tangent := Vec3.zero
     Bitangent := Vec3.zero } : Vertex α) ::
    (List.range (sectors + 1)).map fun (j : Nat) =>
      let angle := (j : α) * sectorStep
      { Position := ⟨radius * m.cos angle, y, radius * m.sin angle⟩
        Normal := ⟨0, ny, 0⟩
        TexCoords := ⟨m.cos angle * 0.5 + 0.5, m.sin angle * 0.5 + 0.5⟩
        Tangent := Vec3.zero
        Bitangent := Vec3.zero }

/-- The index loop of a top cap whose centre vertex has index topCenter. -/
def topCapIndices (topCenter sectors : Nat) : List Nat :=
  (List.range sectors).flatMap fun (j : Nat) => [topCenter, topCenter + j + 1, topCenter + j + 2]

/-- The index loop of a bottom cap whose centre vertex has index bottomCenter. -/
def bottomCapIndices (bottomCenter sectors : Nat) : List Nat :=
  (List.range sectors).flatMap fun (j : Nat) =>
    [bottomCenter, bottomCenter + j + 2, bottomCenter + j + 1]

/-- The vertex buffer of createCylinder before the tangent pass. -/
def cylinderVertices (m : Libm α) (radius height : α) (sectors : Nat) : List (Vertex α) :=
  let halfHeight := height / 2.0
  sideRings m radius radius halfHeight 0 sectors ++
    capVertices m radius halfHeight 1 sectors ++
    capVertices m radius (-halfHeight) (-1) sectors

/-- The index buffer of createCylinder (and of createFrustum); topCenter and
bottomCenter are the values vertices.size() has when the code reads it: after
the two side rings, and after the top cap. -/
def cylinderIndices (sectors : Nat) : List Nat :=
  let topCenter := 2 * (sectors + 1)
  let bottomCenter := topCenter + 1 + (sectors + 1)
  sideIndices sectors ++ topCapIndices topCenter sectors ++
    bottomCapIndices bottomCenter sectors

/-- Primitives::createCylinder. -/
def createCylinder (m : Libm α) (radius height : α) (sectors : Nat) : Option (Mesh α) :=
  finish m.sqrt (cylinderVertices m radius height sectors) (cylinderIndices sectors)

/-- The vertex buffer of createCone before the tangent pass: the apex, the base
ring, and the bottom cap. -/
def coneVertices (m : Libm α) (radius height : α) (sectors : Nat) : List (Vertex α) :=
  let sectorStep := 2 * m.pi / (sectors : α)
  let slopeAngle := m.atan2 radius height
  (({ Position := ⟨0, height, 0⟩
      Normal := ⟨0, 1, 0⟩
      TexCoords := ⟨0.5, 1.0⟩
      Tangent := Vec3.zero
      Bitangent := Vec3.zero } : Vertex α) ::
    (List.range (sectors + 1)).map fun (j : Nat) =>
      let angle := (j : α) * sectorStep
      { Position := ⟨radius * m.cos angle, 0, radius * m.sin angle⟩
        Normal := Vec3.normalize m.sqrt
          ⟨m.cos angle * m.cos slopeAngle, m.sin slopeAngle, m.sin angle * m.cos slopeAngle⟩
        TexCoords := ⟨(j : α) / (sectors : α), 0⟩
        Tangent := Vec3.zero
        Bitangent := Vec3.zero }) ++
    capVertices m radius 0 (-1) sectors

/-- The index buffer of createCone; bottomCenter is vertices.size() after the
apex and the base ring. -/
def coneIndices (sectors : Nat) : List Nat :=
  let bottomCenter := 1 + (sectors + 1)
  ((List.range sectors).flatMap fun (j : Nat) => [0, j + 2, j + 1]) ++
    bottomCapIndices bottomCenter sectors

/-- Primitives::createCone. -/
def createCone (m : Libm α) (radius height : α) (sectors : Nat) : Option (Mesh α) :=
  finish m.sqrt (coneVertices m radius height sectors) (coneIndices sectors)

/-- The vertex buffer of createFrustum before the tangent pass. -/
def frustumVertices (m : Libm α) (sides : Nat) (bottomRadius topRadius height : α) :
    List (Vertex α) :=
  let halfHeight := height / 2.0
  let slopeFactor := (bottomRadius - topRadius) / height
  sideRings m bottomRadius topRadius halfHeight slopeFactor sides ++
    capVertices m topRadius halfHeight 1 sides ++
    capVertices m bottomRadius (-halfHeight) (-1) sides

/-- Primitives::createFrustum. -/
def createFrustum (m : Libm α) (sides : Nat) (bottomRadius topRadius height : α) :
    Option (Mesh α) :=
  finish m.sqrt (frustumVertices m sides bottomRadius topRadius height) (cylinderIndices sides)

/-- Primitives::createPrism. -/
def createPrism (m : Libm α) (sides : Nat) (radius height : α) : Option (Mesh α) :=
  createFrustum m sides radius radius height

/-- Primitives::createPlane (it runs no tangent pass). -/
def createPlane (width depth : α) : Mesh α :=
  let w := width / 2.0
  let d := depth / 2.0
  { vertices :=
      [ ⟨⟨-w, 0, d⟩, ⟨0, 1, 0⟩, ⟨0, 0⟩, ⟨1, 0, 0⟩, ⟨0, 0, 1⟩⟩,
        ⟨⟨w, 0, d⟩, ⟨0, 1, 0⟩, ⟨1, 0⟩, ⟨1, 0, 0⟩, ⟨0, 0, 1⟩⟩,
        ⟨⟨w, 0, -d⟩, ⟨0, 1, 0⟩, ⟨1, 1⟩, ⟨1, 0, 0⟩, ⟨0, 0, 1⟩⟩,
        ⟨⟨-w, 0, -d⟩, ⟨0, 1, 0⟩, ⟨0, 1⟩, ⟨1, 0, 0⟩, ⟨0, 0, 1⟩⟩ ]
    indices := [0, 1, 2, 0, 2, 3] }

end Generators

end Primitives
/-! ## BoardGenerator -/

namespace BoardGenerator

/-- The struct BoardMeshes. -/
structure BoardMeshes (α : Type) where
  floor : Mesh α
  walls : Mesh α
  frame : Mesh α
  holeMarker : Mesh α
  startMarker : Mesh α
  goalMarker : Mesh α

/-- The four buffers that the cell loop of generateBoard fills. -/
structure Buffers (α : Type) where
  floorVerts : List (Vertex α)
  floorInds : List Nat
  wallVerts : List (Vertex α)
  wallInds : List Nat

section Board

variable {α : Type} [LinearOrderedField α] [FloorRing α]

/-- The copy newV of a template vertex v that the cell loop pushes: X and Z
translated by pos, Y scaled by yScale and translated. -/
def placeVertex (pos : Vec3 α) (yScale : α) (v : Vertex α) : Vertex α :=
  { v with
    Position := ⟨v.Position.x + pos.x, v.Position.y * yScale + pos.y, v.Position.z + pos.z⟩ }

/-- Body of the cell loop of generateBoard at the cell (x, y). -/
def cellStep (L : Level α) (floorTile wallBlock : Mesh α) (b : Buffers α) (c : Nat × Nat) :
    Buffers α :=
  let cellSize := L.cellSize
  let wallHeight := cellSize * 0.6
  let floorThickness := cellSize * 0.15
  let cell := L.getCell (c.1 : Int) (c.2 : Int)
  let worldPos := L.gridToWorld (c.1 : Int) (c.2 : Int)
  if cell = some '#' then
    let wallPos : Vec3 α := { worldPos with y := wallHeight / 2.0 }
    let wallVerts :=
      b.wallVerts ++ wallBlock.vertices.map (placeVertex wallPos (wallHeight / cellSize))
    let baseIdx := wallVerts.length - wallBlock.vertices.length
    { b with
      wallVerts := wallVerts
      wallInds := b.wallInds ++ wallBlock.indices.map fun idx => baseIdx + idx }
  else
    -- Floor tile for walkable cells (including holes, start, goal)
    let floorPos : Vec3 α := { worldPos with y := -floorThickness / 2.0 }
    let floorVerts :=
      b.floorVerts ++ floorTile.vertices.map (placeVertex floorPos (floorThickness / cellSize))
    let baseIdx := floorVerts.length - floorTile.vertices.length
    { b with
      floorVerts := floorVerts
      floorInds := b.floorInds ++ floorTile.indices.map fun idx => baseIdx + idx }

/-- The cell loop of generateBoard: y outer over the height, x inner over the
width. -/
def cellLoop (L : Level α) (floorTile wallBlock : Mesh α) : Buffers α :=
  (List.range L.height.toNat).foldl
    (fun b y => (List.range L.width.toNat).foldl (fun b x => cellStep L floorTile wallBlock b (x, y)) b)
    ⟨[], [], [], []⟩

/-- The copy of a template vertex that createFrameMesh pushes for a wall. -/
def frameVertex (pos scale : Vec3 α) (v : Vertex α) : Vertex α :=
  { v with
    Position :=
      ⟨v.Position.x * scale.x + pos.x, v.Position.y * scale.y + pos.y,
        v.Position.z * scale.z + pos.z⟩ }

/-- The list `walls` of createFrameMesh: position and scale of each box. -/
def frameWalls (width depth height thickness : α) : List (Vec3 α × Vec3 α) :=
  let halfW := width / 2.0
  let halfD := depth / 2.0
  let halfH := height / 2.0
  [ (⟨0, halfH, -halfD - thickness / 2⟩, ⟨width + thickness * 2, height, thickness⟩),
    (⟨0, halfH, halfD + thickness / 2⟩, ⟨width + thickness * 2, height, thickness⟩),
    (⟨-halfW - thickness / 2, halfH, 0⟩, ⟨thickness, height, depth⟩),
    (⟨halfW + thickness / 2, halfH, 0⟩, ⟨thickness, height, depth⟩) ]

/-- BoardGenerator::createFrameMesh (the Mesh it builds runs no tangent pass of
its own; the template's tangents are copied). -/
def createFrameMesh (sqrt : α → α) (width depth height thickness : α) : Option (Mesh α) :=
  (Primitives.createCube sqrt 1.0).map fun wallTemplate =>
    (frameWalls width depth height thickness).foldl
      (fun (mesh : Mesh α) wall =>
        let baseIdx := mesh.vertices.length
        { vertices := mesh.vertices ++ wallTemplate.vertices.map (frameVertex wall.1 wall.2)
          indices := mesh.indices ++ wallTemplate.indices.map fun idx => baseIdx + idx })
      ⟨[], []⟩

/-- BoardGenerator::generateBoard; `none` when one of the generators it calls
would read out of range. -/
def generateBoard (m : Libm α) (L : Level α) : Option (BoardMeshes α) :=
  let cellSize := L.cellSize
  let wallHeight := cellSize * 0.6
  (Primitives.createCube m.sqrt cellSize).bind fun floorTile =>
  (Primitives.createCube m.sqrt cellSize).bind fun wallBlock =>
  let b := cellLoop L floorTile wallBlock
  (createFrameMesh m.sqrt L.getBoardWidth L.getBoardDepth (wallHeight * 1.2)
    (cellSize * 0.3)).bind fun frame =>
  -- All markers use the same cylinder shape
  (Primitives.createCylinder m (cellSize * 0.3) 0.02 16).bind fun holeMarker =>
  (Primitives.createCylinder m (cellSize * 0.35) 0.02 16).bind fun startMarker =>
  (Primitives.createCylinder m (cellSize * 0.35) 0.02 16).bind fun goalMarker =>
  some
    { floor := if !b.floorVerts.isEmpty then ⟨b.floorVerts, b.floorInds⟩ else ⟨[], []⟩
      walls := if !b.wallVerts.isEmpty then ⟨b.wallVerts, b.wallInds⟩ else ⟨[], []⟩
      frame := frame
      holeMarker := holeMarker
      startMarker := startMarker
      goalMarker := goalMarker }

end Board

end BoardGenerator
/-- A mesh whose index buffer is a whole number of triangles and names only
existing vertices. -/
def Mesh.WellIndexed {α : Type} (mesh : Mesh α) : Prop :=
  mesh.indices.length % 3 = 0 ∧ ∀ i ∈ mesh.indices, i < mesh.vertices.length


/-- The index triples of an index buffer, in order. -/
def triangles : List Nat → List (Nat × Nat × Nat)
  | i0 :: i1 :: i2 :: rest => (i0, i1, i2) :: triangles rest
  | _ => []

/-- For the triangle (i0, i1, i2) over the vertex positions ps: the dot product
of the cross product (p1 - p0) x (p2 - p0) with the stored normal of vertex k;
`none` when an index names no vertex. -/
def windingDot {α : Type} [LinearOrderedField α] (ps ns : List (Vec3 α))
    (i0 i1 i2 k : Nat) : Option α :=
  match ps[i0]?, ps[i1]?, ps[i2]?, ns[k]? with
  | some p0, some p1, some p2, some n => some (((p1.sub p0).cross (p2.sub p0)).dot n)
  | _, _, _, _ => none

/-- Every triangle of the mesh is wound counter-clockwise when viewed from
outside: its cross product has a positive dot product with the stored normal of
each of its three vertices. -/
def Mesh.OutwardWound {α : Type} [LinearOrderedField α] (mesh : Mesh α) : Prop :=
  ∀ t ∈ triangles mesh.indices, ∀ k ∈ [t.1, t.2.1, t.2.2],
    ∃ d, windingDot (mesh.vertices.map Vertex.Position) (mesh.vertices.map Vertex.Normal)
      t.1 t.2.1 t.2.2 k = some d ∧ 0 < d

/-- The cells of a w x h grid in row-major order: y outer, x inner. -/
def rowMajor (w h : Nat) : List (Nat × Nat) :=
  (List.range h).flatMap fun (y : Nat) => (List.range w).map fun (x : Nat) => (x, y)

/-- The cells of the level that getCell reports as wall, in row-major order. -/
def Level.wallCells {α : Type} (L : Level α) : List (Nat × Nat) :=
  (rowMajor L.width.toNat L.height.toNat).filter fun c =>
    decide (L.getCell (c.1 : Int) (c.2 : Int) = some '#')

/-- The other cells of the level, in row-major order. -/
def Level.floorCells {α : Type} (L : Level α) : List (Nat × Nat) :=
  (rowMajor L.width.toNat L.height.toNat).filter fun c =>
    !decide (L.getCell (c.1 : Int) (c.2 : Int) = some '#')

/-- The index buffer of `count` copies of a template with n vertices, the k-th
copy offset by base + n * k. -/
def copiedIndices (template : List Nat) (n base count : Nat) : List Nat :=
  (List.range count).flatMap fun (k : Nat) => template.map fun idx => base + n * k + idx

/-! ## Ball states reachable on one Level -/

/-- The ball states reachable from Ball::reset on the Level L by Ball::update
calls on that same Level, with any step sizes and tilts. -/
inductive Ball.ReachableOn {α : Type} [LinearOrderedField α] [FloorRing α]
    (sqrt sin : α → α) (L : Level α) : Ball α → Prop
  | reset (b : Ball α) : Ball.ReachableOn sqrt sin L (b.reset L)
  | update (dt : α) (tilt : Vec2 α) (b : Ball α) (hb : Ball.ReachableOn sqrt sin L b) :
      Ball.ReachableOn sqrt sin L (b.update sqrt sin dt tilt L)

/-- The eight corners of the axis-aligned box [x0, x1] x [y0, y1] x [z0, z1]. -/
def boxCorners {α : Type} (x0 x1 y0 y1 z0 z1 : α) : List (Vec3 α) :=
  [⟨x0, y0, z0⟩, ⟨x0, y0, z1⟩, ⟨x0, y1, z0⟩, ⟨x0, y1, z1⟩,
    ⟨x1, y0, z0⟩, ⟨x1, y0, z1⟩, ⟨x1, y1, z0⟩, ⟨x1, y1, z1⟩]

/-- The vertex positions of one box of the frame: those of the unit cube
template, scaled by `scale` and translated by `pos`. -/
def BoardGenerator.boxPositions {α : Type} [LinearOrderedField α] (pos scale : Vec3 α) :
    List (Vec3 α) :=
  ((Primitives.cubeVertices (1.0 : α)).map Vertex.Position).map fun p =>
    ⟨p.x * scale.x + pos.x, p.y * scale.y + pos.y, p.z * scale.z + pos.z⟩

/-! ## Model -/

/-- The state of a std::istringstream that matters to the face reader of
Model::loadFromFile: the characters not yet read, and whether the stream is
good() (neither eofbit nor failbit is set). -/
structure IStream where
  rest : List Char
  good : Bool
deriving DecidableEq, Repr

namespace IStream

/-- The test std::isspace in the classic locale: the space and the control
characters 9 to 13. -/
def isSpace (c : Char) : Bool := c = ' ' || (9 ≤ c.toNat && c.toNat ≤ 13)

/-- A decimal digit. -/
def isDigit (c : Char) : Bool := 48 ≤ c.toNat && c.toNat ≤ 57

/-- The value of a run of decimal digits, most significant first. -/
def digitsValue (ds : List Char) : Nat := ds.foldl (fun acc c => acc * 10 + (c.toNat - 48)) 0

/-- The formatted extraction `stream >> value` for an int: the value stored and
the stream afterwards.  A stream that is not good is left alone and stores
nothing; leading white space is skipped; the end of the data before any
character stores nothing and fails; an optional sign and the longest run of
digits are consumed; no digit stores 0 and fails; a value outside the range of
int stores the nearest bound and fails; reading the digits up to the end of the
data sets eofbit, so the stream is no longer good. -/
def readInt (s : IStream) (value : Int) : Int × IStream :=
  if !s.good then (value, s)
  else
    match s.rest.dropWhile isSpace with
    | [] => (value, ⟨[], false⟩)
    | c :: cs =>
      let body := if c = '-' ∨ c = '+' then cs else c :: cs
      let ds := body.takeWhile isDigit
      let rest := body.dropWhile isDigit
      if ds.isEmpty then (0, ⟨rest, false⟩)
      else
        let v : Int := if c = '-' then -(digitsValue ds : Int) else (digitsValue ds : Int)
        if v > 2147483647 then (2147483647, ⟨rest, false⟩)
        else if v < -2147483648 then (-2147483648, ⟨rest, false⟩)
        else (v, ⟨rest, !rest.isEmpty⟩)

/-- The call stream.peek(): the next character, `none` for EOF (which is also
the answer of a stream that is not good). -/
def peek (s : IStream) : Option Char := if s.good then s.rest.head? else none

end IStream

namespace Model

/-- The three indices that the face loop of Model::loadFromFile reads from a
vertex reference: (posIdx, texIdx, normIdx). -/
def faceIndices (vertexStr : List Char) : Int × Int × Int :=
  -- Replace '/' with space for easier parsing
  let replaced := vertexStr.map fun c => if c = '/' then ' ' else c
  let viss : IStream := ⟨replaced, true⟩
  let r1 := viss.readInt 0
  -- Handle different OBJ face formats
  if r1.2.peek = some ' ' then
    let r2 := r1.2.readInt 0
    if r2.2.peek = some ' ' then (r1.1, r2.1, (r2.2.readInt 0).1) else (r1.1, r2.1, 0)
  else (r1.1, 0, 0)

/-- The vertex that the face loop of Model::loadFromFile creates for a vertex
reference `vertexStr` it has not seen before, given the positions, texture
coordinates and normals read so far. -/
def faceVertex {α : Type} [LinearOrderedField α] (positions : List (Vec3 α))
    (texCoords : List (Vec2 α)) (normals : List (Vec3 α)) (vertexStr : List Char) :
    Vertex α :=
  let posIdx := (faceIndices vertexStr).1
  let texIdx := (faceIndices vertexStr).2.1
  let normIdx := (faceIndices vertexStr).2.2
  -- Vertex vertex = {}; OBJ indices are 1-based
  { Position :=
      if posIdx > 0 ∧ posIdx ≤ (positions.length : Int) then
        (positions[(posIdx - 1).toNat]?).getD Vec3.zero
      else Vec3.zero
    Normal :=
      if normIdx > 0 ∧ normIdx ≤ (normals.length : Int) then
        (normals[(normIdx - 1).toNat]?).getD Vec3.zero
      else Vec3.zero
    TexCoords :=
      if texIdx > 0 ∧ texIdx ≤ (texCoords.length : Int) then
        (texCoords[(texIdx - 1).toNat]?).getD ⟨0, 0⟩
      else ⟨0, 0⟩
    Tangent := Vec3.zero
    Bitangent := Vec3.zero }

end Model

/-! ## Binary32 rounding

The `float` operations of the program round their exact result to the nearest
binary32 number, a tie going to the number with an even significand.  Overflow
to infinity and NaN are not modelled: the theorems that use the rounded
operations bound their inputs so that no operation overflows. -/

namespace F32

section Rounding

variable {α : Type} [LinearOrderedField α] [FloorRing α]

/-- Rounding to the nearest integer, a tie going to the even one. -/
def roundEven (t : α) : Int :=
  if t - (⌊t⌋ : α) < 1 / 2 then ⌊t⌋
  else if 1 / 2 < t - (⌊t⌋ : α) then ⌊t⌋ + 1
  else if ⌊t⌋ % 2 = 0 then ⌊t⌋ else ⌊t⌋ + 1

/-- The exponent of the spacing of the binary32 numbers at the magnitude of x:
the exponent of x less 23 (a significand of 24 bits), and -149 in the subnormal
range. -/
def ulpExp (x : α) : Int := max (Int.log 2 |x| - 23) (-149)

/-- The binary32 number nearest to x, ties to even. -/
def round (x : α) : α := (roundEven (x / 2 ^ ulpExp x) : α) * 2 ^ ulpExp x

end Rounding

end F32

/-! ## The float operations of the program

Each arithmetic operation on `float` operands is the exact operation followed
by one rounding to binary32; an `int` operand is first converted to `float`.
`std::sqrt` is the correctly rounded square root: the functions below take the
exact square root as the parameter `sqrt` and round it.  The definitions with
the suffix `F` repeat those above operation by operation with these rounded
operations. -/

namespace F32

section Ops

variable {α : Type} [LinearOrderedField α] [FloorRing α]

/-- Float addition. -/
def add (a b : α) : α := round (a + b)

/-- Float subtraction. -/
def sub (a b : α) : α := round (a - b)

/-- Float multiplication. -/
def mul (a b : α) : α := round (a * b)

/-- Float division. -/
def div (a b : α) : α := round (a / b)

/-- The conversion of an int to float. -/
def ofInt (n : Int) : α := round (n : α)

/-- The function std::sqrt on float. -/
def fsqrt (sqrt : α → α) (x : α) : α := round (sqrt x)

end Ops

end F32

section LevelOpsF

variable {α : Type} [LinearOrderedField α] [FloorRing α]

/-- Level::getBoardWidth, in float arithmetic. -/
def Level.getBoardWidthF (L : Level α) : α := F32.mul (F32.ofInt L.width) L.cellSize

/-- Level::getBoardDepth, in float arithmetic. -/
def Level.getBoardDepthF (L : Level α) : α := F32.mul (F32.ofInt L.height) L.cellSize

/-- Level::gridToWorld(int, int), in float arithmetic. -/
def Level.gridToWorldF (L : Level α) (x y : Int) : Vec3 α :=
  let worldX :=
    F32.sub (F32.mul (F32.add (F32.ofInt x) 0.5) L.cellSize) (F32.div L.getBoardWidthF 2.0)
  let worldZ :=
    F32.sub (F32.mul (F32.add (F32.ofInt y) 0.5) L.cellSize) (F32.div L.getBoardDepthF 2.0)
  ⟨worldX, 0.0, worldZ⟩

/-- Level::worldToGrid, in float arithmetic. -/
def Level.worldToGridF (L : Level α) (worldPos : Vec3 α) : IVec2 :=
  let localX := F32.add worldPos.x (F32.div L.getBoardWidthF 2.0)
  let localZ := F32.add worldPos.z (F32.div L.getBoardDepthF 2.0)
  ⟨truncToInt (F32.div localX L.cellSize), truncToInt (F32.div localZ L.cellSize)⟩

/-- The value glm::length(glm::vec2(dx, dz)), in float arithmetic. -/
def length2F (sqrt : α → α) (dx dz : α) : α :=
  F32.fsqrt sqrt (F32.add (F32.mul dx dx) (F32.mul dz dz))

/-- The float distance that isOverHole computes between the point and the
centre of the cell (x, y). -/
def Level.centreDistF (sqrt : α → α) (L : Level α) (p : Vec3 α) (x y : Int) : α :=
  length2F sqrt (F32.sub p.x (L.gridToWorldF x y).x) (F32.sub p.z (L.gridToWorldF x y).z)

/-- Level::isOverHole, in float arithmetic. -/
def Level.isOverHoleF (sqrt : α → α) (L : Level α) (worldPos : Vec3 α) (_radius : α) : Bool :=
  let cell := L.worldToGridF worldPos
  if L.getCell cell.x cell.y = some 'O' then
    let holeCenter := L.gridToWorldF cell.x cell.y
    let dist :=
      length2F sqrt (F32.sub worldPos.x holeCenter.x) (F32.sub worldPos.z holeCenter.z)
    decide (dist < F32.mul L.cellSize (F32.round 0.3))
  else false

/-- The float distance `dist` that the loop body of resolveWallCollision
computes between the point p and the footprint of the cell (nx, ny). -/
def Level.wallDistF (sqrt : α → α) (L : Level α) (p : Vec3 α) (nx ny : Int) : α :=
  let wallCenter := L.gridToWorldF nx ny
  let halfSize := F32.div L.cellSize 2.0
  let closestX := clamp p.x (F32.sub wallCenter.x halfSize) (F32.add wallCenter.x halfSize)
  let closestZ := clamp p.z (F32.sub wallCenter.z halfSize) (F32.add wallCenter.z halfSize)
  F32.fsqrt sqrt
    (F32.add (F32.mul (F32.sub p.x closestX) (F32.sub p.x closestX))
      (F32.mul (F32.sub p.z closestZ) (F32.sub p.z closestZ)))

/-- Body of the double loop of Level::resolveWallCollision, in float
arithmetic. -/
def Level.resolveCellF (sqrt : α → α) (L : Level α) (radius : α) (cell : IVec2)
    (result : Vec3 α) (d : Int × Int) : Vec3 α :=
  let nx := cell.x + d.1
  let ny := cell.y + d.2
  if L.getCell nx ny = some '#' then
    let wallCenter := L.gridToWorldF nx ny
    let halfSize := F32.div L.cellSize 2.0
    let closestX :=
      clamp result.x (F32.sub wallCenter.x halfSize) (F32.add wallCenter.x halfSize)
    let closestZ :=
      clamp result.z (F32.sub wallCenter.z halfSize) (F32.add wallCenter.z halfSize)
    let distX := F32.sub result.x closestX
    let distZ := F32.sub result.z closestZ
    let dist := F32.fsqrt sqrt (F32.add (F32.mul distX distX) (F32.mul distZ distZ))
    if dist < radius ∧ dist > F32.round 0.0001 then
      let overlap := F32.sub radius dist
      { result with
        x := F32.add result.x (F32.mul (F32.div distX dist) overlap)
        z := F32.add result.z (F32.mul (F32.div distZ dist) overlap) }
    else result
  else result

/-- Level::resolveWallCollision, in float arithmetic. -/
def Level.resolveWallCollisionF (sqrt : α → α) (L : Level α) (pos : Vec3 α) (radius : α) :
    Vec3 α :=
  let cell := L.worldToGridF pos
  neighbourOffsets.foldl (L.resolveCellF sqrt radius cell) pos

end LevelOpsF

section BallOpsF

variable {α : Type} [LinearOrderedField α] [FloorRing α]

/-- Velocity after the acceleration from tilt and the friction scaling, in
float arithmetic; `sin` is std::sin on float. -/
def Ball.frictionVelocityF (sin : α → α) (dt : α) (tilt : Vec2 α) (b : Ball α) : Vec3 α :=
  let ax := F32.mul (-Config.BALL_GRAVITY) (sin tilt.x)
  let az := F32.mul Config.BALL_GRAVITY (sin tilt.y)
  ⟨F32.mul (F32.add b.velocity.x (F32.mul ax dt)) (F32.round Config.BALL_FRICTION),
    F32.mul b.velocity.y (F32.round Config.BALL_FRICTION),
    F32.mul (F32.add b.velocity.z (F32.mul az dt)) (F32.round Config.BALL_FRICTION)⟩

/-- The speed clamp of Ball::update on a velocity v, in float arithmetic. -/
def clampSpeedF (sqrt : α → α) (v : Vec3 α) : Vec3 α :=
  let speed := F32.fsqrt sqrt (F32.add (F32.mul v.x v.x) (F32.mul v.z v.z))
  if speed > Config.BALL_MAX_SPEED then
    { v with
      x := F32.mul (F32.div v.x speed) Config.BALL_MAX_SPEED
      z := F32.mul (F32.div v.z speed) Config.BALL_MAX_SPEED }
  else v

/-- Velocity after the speed clamp, in float arithmetic. -/
def Ball.clampedVelocityF (sqrt sin : α → α) (dt : α) (tilt : Vec2 α) (b : Ball α) : Vec3 α :=
  clampSpeedF sqrt (b.frictionVelocityF sin dt tilt)

/-- The tentative position handed to resolveWallCollision (oldPos), in float
arithmetic. -/
def Ball.tentativeF (sqrt sin : α → α) (dt : α) (tilt : Vec2 α) (b : Ball α) : Vec3 α :=
  { b.position with
    x := F32.add b.position.x (F32.mul (b.clampedVelocityF sqrt sin dt tilt).x dt)
    z := F32.add b.position.z (F32.mul (b.clampedVelocityF sqrt sin dt tilt).z dt) }

/-- The two bounce tests of Ball::update on the velocity v, for the resolved
position p and the tentative position o, in float arithmetic. -/
def bounceF (p o v : Vec3 α) : Vec3 α :=
  ⟨if |F32.sub p.x o.x| > F32.round 0.001 then F32.mul (-v.x) (F32.round Config.BALL_BOUNCE)
    else v.x,
    v.y,
    if |F32.sub p.z o.z| > F32.round 0.001 then F32.mul (-v.z) (F32.round Config.BALL_BOUNCE)
    else v.z⟩

/-- Ball::update, in float arithmetic. -/
def Ball.updateF (sqrt sin : α → α) (dt : α) (tiltRadians : Vec2 α) (L : Level α)
    (b : Ball α) : Ball α :=
  if b.isFalling then
    let fallProgress := F32.add b.fallProgress (F32.mul dt 3.0)
    { b with
      fallProgress := fallProgress
      position :=
        { b.position with y := F32.mul b.radius (F32.sub 1.0 (F32.mul fallProgress 2.0)) } }
  else
    let v3 := b.clampedVelocityF sqrt sin dt tiltRadians
    let oldPos := b.tentativeF sqrt sin dt tiltRadians
    let position := L.resolveWallCollisionF sqrt oldPos b.radius
    let v5 := bounceF position oldPos v3
    if L.isOverHoleF sqrt position b.radius then
      { b with
        isFalling := true
        fallProgress := 0.0
        velocity := ⟨0.0, 0.0, 0.0⟩
        position := { position with y := b.radius } }
    else
      { b with
        velocity := v5
        position := { position with y := b.radius } }

/-- A run of Ball::update calls in float arithmetic, one call per tick. -/
def Ball.updatesF (sqrt sin : α → α) (L : Level α) (b : Ball α)
    (ticks : List (α × Vec2 α)) : Ball α :=
  ticks.foldl (fun b t => b.updateF sqrt sin t.1 t.2 L) b

end BallOpsF

namespace BoardGenerator

section FrameF

variable {α : Type} [LinearOrderedField α] [FloorRing α]

/-- The copy of a template vertex that createFrameMesh pushes for a wall, in
float arithmetic. -/
def frameVertexF (pos scale : Vec3 α) (v : Vertex α) : Vertex α :=
  { v with
    Position :=
      ⟨F32.add (F32.mul v.Position.x scale.x) pos.x,
        F32.add (F32.mul v.Position.y scale.y) pos.y,
        F32.add (F32.mul v.Position.z scale.z) pos.z⟩ }

/-- The list `walls` of createFrameMesh, in float arithmetic. -/
def frameWallsF (width depth height thickness : α) : List (Vec3 α × Vec3 α) :=
  let halfW := F32.div width 2.0
  let halfD := F32.div depth 2.0
  let halfH := F32.div height 2.0
  [ (⟨0, halfH, F32.sub (-halfD) (F32.div thickness 2)⟩,
      ⟨F32.add width (F32.mul thickness 2), height, thickness⟩),
    (⟨0, halfH, F32.add halfD (F32.div thickness 2)⟩,
      ⟨F32.add width (F32.mul thickness 2), height, thickness⟩),
    (⟨F32.sub (-halfW) (F32.div thickness 2), halfH, 0⟩, ⟨thickness, height, depth⟩),
    (⟨F32.add halfW (F32.div thickness 2), halfH, 0⟩, ⟨thickness, height, depth⟩) ]

/-- BoardGenerator::createFrameMesh with the vertex copies computed in float
arithmetic.  The template createCube(1.0f) has the positions of the exact
model, every coordinate being 0.5 or -0.5. -/
def createFrameMeshF (sqrt : α → α) (width depth height thickness : α) : Option (Mesh α) :=
  (Primitives.createCube sqrt 1.0).map fun wallTemplate =>
    (frameWallsF width depth height thickness).foldl
      (fun (mesh : Mesh α) wall =>
        let baseIdx := mesh.vertices.length
        { vertices := mesh.vertices ++ wallTemplate.vertices.map (frameVertexF wall.1 wall.2)
          indices := mesh.indices ++ wallTemplate.indices.map fun idx => baseIdx + idx })
      ⟨[], []⟩

/-- The vertex positions of one box of the frame, in float arithmetic. -/
def boxPositionsF (pos scale : Vec3 α) : List (Vec3 α) :=
  ((Primitives.cubeVertices (1.0 : α)).map Vertex.Position).map fun p =>
    ⟨F32.add (F32.mul p.x scale.x) pos.x, F32.add (F32.mul p.y scale.y) pos.y,
      F32.add (F32.mul p.z scale.z) pos.z⟩

end FrameF

end BoardGenerator

section FootprintF

variable {α : Type} [LinearOrderedField α] [FloorRing α]

/-- The exact distance from the point p to the footprint of the cell (nx, ny),
the square whose edges are the floats that resolveWallCollision computes. -/
def Level.footDistF (sqrt : α → α) (L : Level α) (p : Vec3 α) (nx ny : Int) : α :=
  let wallCenter := L.gridToWorldF nx ny
  let halfSize := F32.div L.cellSize 2.0
  let closestX := clamp p.x (F32.sub wallCenter.x halfSize) (F32.add wallCenter.x halfSize)
  let closestZ := clamp p.z (F32.sub wallCenter.z halfSize) (F32.add wallCenter.z halfSize)
  length2 sqrt (p.x - closestX) (p.z - closestZ)

end FootprintF

/-- The vertex positions of the cube copy that the cell loop of generateBoard
appends for a cell whose gridToWorld position is g: those of the template
createCube(cellSize), X and Z translated by g, Y scaled by yScale and
translated by yPos. -/
def BoardGenerator.cellPositions {α : Type} [LinearOrderedField α] (cellSize : α) (g : Vec3 α)
    (yScale yPos : α) : List (Vec3 α) :=
  ((Primitives.cubeVertices cellSize).map Vertex.Position).map fun p =>
    ⟨p.x + g.x, p.y * yScale + yPos, p.z + g.z⟩

/-- A level of one row of 16777218 floor cells (2^24 + 2), cell size 1. -/
def wideLevel : Level ℝ := Level.fromGrid [List.replicate 16777218 '.'] 1

/-- A level of one row with two adjacent holes, cell size 1. -/
def twoHoleLevel : Level ℝ := Level.fromGrid ["OO".toList] 1

/-- A level of one row with a wall in its first cell, cell size 1. -/
def skipLevel : Level ℝ := Level.fromGrid ["#....".toList] 1

/-- A position in the cell (1, 0) of skipLevel whose board-local x coordinate
2 - 2^-24 rounds to 2.0 as a float. -/
def skipPos : Vec3 ℝ := ⟨-0.500000059604644775390625, 0, 0⟩

/-- The point list ps is the corner set of an axis-aligned box whose bounds lie
within ex, ey and ez of the bounds x0, x1, y0, y1, z0, z1. -/
def NearBox {α : Type} [LinearOrderedField α] (ps : List (Vec3 α))
    (x0 x1 y0 y1 z0 z1 ex ey ez : α) : Prop :=
  ∃ a0 a1 b0 b1 c0 c1 : α, (∀ p, p ∈ ps ↔ p ∈ boxCorners a0 a1 b0 b1 c0 c1) ∧
    |a0 - x0| ≤ ex ∧ |a1 - x1| ≤ ex ∧ |b0 - y0| ≤ ey ∧ |b1 - y1| ≤ ey ∧
    |c0 - z0| ≤ ez ∧ |c1 - z1| ≤ ez

/-- A Rolling ball at the centre of floorLevel with velocity (1, 0, 54). -/
def clampBall : Ball ℝ :=
  { position := ⟨0, 0.35, 0⟩
    velocity := ⟨1, 0, 54⟩
    radius := 0.35
    isFalling := false
    fallProgress := 0 }

/-! ## Grid queries -/

theorem neighbourOffsets_eq :
    neighbourOffsets =
      [(-1, -1), (0, -1), (1, -1), (-1, 0), (0, 0), (1, 0), (-1, 1), (0, 1), (1, 1)] := by
  rfl

theorem local_coord {α : Type} [LinearOrderedField α] (c w : α) (x : Int) (hc : c ≠ 0) :
    (((x : α) + 0.5) * c - w / 2.0 + w / 2.0) / c = (x : α) + 0.5 := by
  field_simp

section LevelFacts

variable {α : Type} [LinearOrderedField α] [FloorRing α]

theorem truncToInt_add_half (x : Int) (hx : 0 ≤ x) : truncToInt ((x : α) + 0.5) = x := by
  have h0 : (0 : α) ≤ (x : α) := by exact_mod_cast hx
  have h1 : (0 : α) ≤ (x : α) + 0.5 := by norm_num; linarith
  unfold truncToInt
  rw [if_pos h1, Int.floor_eq_iff]
  constructor <;> norm_num

theorem worldToGrid_centre (L : Level α) (hc : L.cellSize ≠ 0) (x y : Int)
    (hx : 0 ≤ x) (hy : 0 ≤ y) :
    L.worldToGrid (L.gridToWorld x y) = ⟨x, y⟩ := by
  simp only [Level.worldToGrid, Level.gridToWorld]
  rw [local_coord _ _ x hc, local_coord _ _ y hc, truncToInt_add_half x hx,
    truncToInt_add_half y hy]

end LevelFacts

theorem getCell_of_row {α : Type} (L : Level α) (x y : Int) (row : List Char) (hy : 0 ≤ y)
    (hh : L.height = (L.grid.length : Int)) (hrow : L.grid[y.toNat]? = some row) :
    L.getCell x y =
      if x < 0 ∨ x ≥ (row.length : Int) then some '#' else row[x.toNat]? := by
  have hlt : y.toNat < L.grid.length := by
    by_contra hge
    rw [List.getElem?_eq_none (not_lt.mp hge)] at hrow
    exact absurd hrow (by simp)
  have hy' : ¬ (y < 0 ∨ y ≥ L.height) := by
    rw [hh]; omega
  simp only [Level.getCell, if_neg hy', hrow]

/-- C10: on every constructed Level, getCell returns the wall character when y
is negative or at least the height, or x is negative or at least the length of
row y (also where x is below the width, on a short row), and otherwise the
stored character of row y at column x; no index ever leaves the grid (the
result is never `none`). -/
theorem getCell_fromGrid {α : Type} (gridData : List (List Char)) (cellSize : α) (x y : Int) :
    (Level.fromGrid gridData cellSize).height = (gridData.length : Int) ∧
    ((y < 0 ∨ (Level.fromGrid gridData cellSize).height ≤ y) →
        (Level.fromGrid gridData cellSize).getCell x y = some '#') ∧
    (∀ row, 0 ≤ y → gridData[y.toNat]? = some row → (x < 0 ∨ (row.length : Int) ≤ x) →
        (Level.fromGrid gridData cellSize).getCell x y = some '#') ∧
    (∀ row ch, 0 ≤ y → gridData[y.toNat]? = some row → 0 ≤ x → row[x.toNat]? = some ch →
        (Level.fromGrid gridData cellSize).getCell x y = some ch) ∧
    (Level.fromGrid gridData cellSize).getCell x y ≠ none := by
  have hh : (Level.fromGrid gridData cellSize).height =
      ((Level.fromGrid gridData cellSize).grid.length : Int) := rfl
  refine ⟨rfl, ?_, ?_, ?_, ?_⟩
  · intro h
    have h' : y < 0 ∨ y ≥ (Level.fromGrid gridData cellSize).height := h
    simp only [Level.getCell, if_pos h']
  · intro row hy hrow hx
    rw [getCell_of_row _ x y row hy hh hrow, if_pos hx]
  · intro row ch hy hrow hx hch
    have hlen : x.toNat < row.length := by
      by_contra hge
      rw [List.getElem?_eq_none (not_lt.mp hge)] at hch
      exact absurd hch (by simp)
    have hx' : ¬ (x < 0 ∨ x ≥ (row.length : Int)) := by omega
    rw [getCell_of_row _ x y row hy hh hrow, if_neg hx', hch]
  · by_cases hy : y < 0 ∨ y ≥ (Level.fromGrid gridData cellSize).height
    · simp only [Level.getCell, if_pos hy]; simp
    · have hy0 : 0 ≤ y := by omega
      have hlt : y.toNat < gridData.length := by
        have : y < (gridData.length : Int) := by
          have := not_or.mp hy
          rw [hh] at this
          exact lt_of_not_ge this.2
        omega
      have hrow : (Level.fromGrid gridData cellSize).grid[y.toNat]? = some gridData[y.toNat] :=
        List.getElem?_eq_getElem hlt
      rw [getCell_of_row _ x y _ hy0 hh hrow]
      by_cases hx : x < 0 ∨ x ≥ ((gridData[y.toNat]).length : Int)
      · rw [if_pos hx]; simp
      · rw [if_neg hx]
        have : x.toNat < (gridData[y.toNat]).length := by omega
        rw [List.getElem?_eq_getElem this]; simp


/-! ## The constructor's scan -/

theorem scanCells_holePoss (y : Int) (cs : List Char) (x : Int) (s : Scan) :
    (scanCells y x cs s).holePoss = s.holePoss ++ holesIn y x cs := by
  induction cs generalizing x s with
  | nil => simp [scanCells, holesIn]
  | cons c cs ih =>
    rw [scanCells, ih, holesIn]
    by_cases hO : c = 'O'
    · subst hO
      simp [scanCell]
    · by_cases hS : c = 'S'
      · subst hS; simp [scanCell]
      · by_cases hG : c = 'G'
        · subst hG; simp [scanCell]
        · simp [scanCell, hO, hS, hG]

theorem scanRows_holePoss (rows : List (List Char)) (y : Int) (s : Scan) :
    (scanRows y rows s).holePoss = s.holePoss ++ holesInRows y rows := by
  induction rows generalizing y s with
  | nil => simp [scanRows, holesInRows]
  | cons row rows ih =>
    rw [scanRows, ih, scanCells_holePoss, holesInRows]
    simp

theorem fromGrid_holePoss {α : Type} (gridData : List (List Char)) (cellSize : α) :
    (Level.fromGrid gridData cellSize).holePoss = holesInRows 0 gridData := by
  simp [Level.fromGrid, scanRows_holePoss]

theorem mem_holesIn (y : Int) (cs : List Char) (x : Int) (h : IVec2) :
    h ∈ holesIn y x cs ↔ h.y = y ∧ x ≤ h.x ∧ cs[(h.x - x).toNat]? = some 'O' := by
  induction cs generalizing x with
  | nil => simp [holesIn]
  | cons c cs ih =>
    rw [holesIn, List.mem_append, ih]
    constructor
    · rintro (h1 | ⟨h1, h2, h3⟩)
      · by_cases hO : c = 'O'
        · rw [if_pos hO] at h1
          have : h = ⟨x, y⟩ := by simpa using h1
          subst this
          simp [hO]
        · rw [if_neg hO] at h1
          exact absurd h1 (by simp)
      · refine ⟨h1, by omega, ?_⟩
        have : (h.x - x).toNat = (h.x - (x + 1)).toNat + 1 := by omega
        rw [this, List.getElem?_cons_succ]
        exact h3
    · rintro ⟨h1, h2, h3⟩
      by_cases hx : h.x = x
      · left
        have h0 : (h.x - x).toNat = 0 := by omega
        rw [h0, List.getElem?_cons_zero] at h3
        have hO : c = 'O' := by simpa using h3
        rw [if_pos hO]
        obtain ⟨hx', hy'⟩ := h
        simp only at hx h1
        simp [hx, h1]
      · right
        refine ⟨h1, by omega, ?_⟩
        have : (h.x - x).toNat = (h.x - (x + 1)).toNat + 1 := by omega
        rw [this, List.getElem?_cons_succ] at h3
        exact h3

theorem mem_holesInRows (rows : List (List Char)) (y : Int) (h : IVec2) :
    h ∈ holesInRows y rows ↔
      y ≤ h.y ∧ 0 ≤ h.x ∧
        ∃ row, rows[(h.y - y).toNat]? = some row ∧ row[h.x.toNat]? = some 'O' := by
  induction rows generalizing y with
  | nil => simp [holesInRows]
  | cons row rows ih =>
    rw [holesInRows, List.mem_append, ih, mem_holesIn]
    constructor
    · rintro (⟨h1, h2, h3⟩ | ⟨h1, h2, r, h3, h4⟩)
      · refine ⟨by omega, h2, row, ?_, ?_⟩
        · have : (h.y - y).toNat = 0 := by omega
          rw [this, List.getElem?_cons_zero]
        · simpa using h3
      · refine ⟨by omega, h2, r, ?_, h4⟩
        have : (h.y - y).toNat = (h.y - (y + 1)).toNat + 1 := by omega
        rw [this, List.getElem?_cons_succ]
        exact h3
    · rintro ⟨h1, h2, r, h3, h4⟩
      by_cases hy : h.y = y
      · left
        have h0 : (h.y - y).toNat = 0 := by omega
        rw [h0, List.getElem?_cons_zero] at h3
        have : row = r := by simpa using h3
        subst this
        exact ⟨hy, h2, by simpa using h4⟩
      · right
        refine ⟨by omega, h2, r, ?_, h4⟩
        have : (h.y - y).toNat = (h.y - (y + 1)).toNat + 1 := by omega
        rw [this, List.getElem?_cons_succ] at h3
        exact h3

theorem getCell_of_mem_holePoss {α : Type} (gridData : List (List Char)) (cellSize : α)
    (h : IVec2) (hh : h ∈ (Level.fromGrid gridData cellSize).holePoss) :
    0 ≤ h.x ∧ 0 ≤ h.y ∧ (Level.fromGrid gridData cellSize).getCell h.x h.y = some 'O' := by
  rw [fromGrid_holePoss, mem_holesInRows] at hh
  obtain ⟨h1, h2, row, h3, h4⟩ := hh
  refine ⟨h2, h1, ?_⟩
  have h3' : (Level.fromGrid gridData cellSize).grid[h.y.toNat]? = some row := by
    simpa using h3
  have hlen : h.x.toNat < row.length := by
    by_contra hge
    rw [List.getElem?_eq_none (not_lt.mp hge)] at h4
    exact absurd h4 (by simp)
  have hx' : ¬ (h.x < 0 ∨ h.x ≥ (row.length : Int)) := by omega
  rw [getCell_of_row _ h.x h.y row h1 rfl h3', if_neg hx', h4]

theorem mem_holePoss_of_getCell {α : Type} (gridData : List (List Char)) (cellSize : α)
    (x y : Int) (hc : (Level.fromGrid gridData cellSize).getCell x y = some 'O') :
    (⟨x, y⟩ : IVec2) ∈ (Level.fromGrid gridData cellSize).holePoss := by
  rw [fromGrid_holePoss, mem_holesInRows]
  by_cases hy : y < 0 ∨ y ≥ (Level.fromGrid gridData cellSize).height
  · simp only [Level.getCell, if_pos hy] at hc
    exact absurd hc (by decide)
  · have hh : (Level.fromGrid gridData cellSize).height = (gridData.length : Int) := rfl
    have hy0 : 0 ≤ y := by omega
    have hlt : y.toNat < gridData.length := by omega
    have hrow : (Level.fromGrid gridData cellSize).grid[y.toNat]? = some gridData[y.toNat] :=
      List.getElem?_eq_getElem hlt
    rw [getCell_of_row _ x y _ hy0 rfl hrow] at hc
    by_cases hx : x < 0 ∨ x ≥ ((gridData[y.toNat]).length : Int)
    · rw [if_pos hx] at hc
      exact absurd hc (by decide)
    · rw [if_neg hx] at hc
      have hx0 : 0 ≤ x := by omega
      refine ⟨hy0, hx0, gridData[y.toNat], ?_, hc⟩
      simp


/-! ## Square roots -/

section SqrtFacts

variable {α : Type} [LinearOrderedField α]

theorem IsSqrt.zero {sqrt : α → α} (hs : IsSqrt sqrt) : sqrt 0 = 0 := by
  have h := (hs 0 le_rfl).2
  exact mul_self_eq_zero.mp h

theorem IsSqrt.le_of_le_sq {sqrt : α → α} (hs : IsSqrt sqrt) {s m : α} (h0 : 0 ≤ s)
    (hm : 0 ≤ m) (hsm : s ≤ m * m) : sqrt s ≤ m := by
  obtain ⟨h1, h2⟩ := hs s h0
  by_contra hlt
  have hlt' : m < sqrt s := lt_of_not_ge hlt
  have : m * m < sqrt s * sqrt s := mul_self_lt_mul_self hm hlt'
  linarith

theorem IsSqrt.sqrt_sq {sqrt : α → α} (hs : IsSqrt sqrt) {m : α} (hm : 0 ≤ m) :
    sqrt (m * m) = m := by
  obtain ⟨h1, h2⟩ := hs (m * m) (mul_self_nonneg m)
  exact (mul_self_inj h1 hm).mp h2

end SqrtFacts

theorem isSqrt_real : IsSqrt Real.sqrt := fun s h0 =>
  ⟨Real.sqrt_nonneg s, Real.mul_self_sqrt h0⟩

/-! ## Hole and goal detection -/

section Detection

variable {α : Type} [LinearOrderedField α] [FloorRing α]

theorem isOverHole_eq_true (sqrt : α → α) (L : Level α) (worldPos : Vec3 α) (radius : α) :
    L.isOverHole sqrt worldPos radius = true ↔
      L.getCell (L.worldToGrid worldPos).x (L.worldToGrid worldPos).y = some 'O' ∧
        L.centreDist sqrt worldPos (L.worldToGrid worldPos).x (L.worldToGrid worldPos).y
          < 0.3 * L.cellSize := by
  unfold Level.isOverHole Level.centreDist
  by_cases hcell : L.getCell (L.worldToGrid worldPos).x (L.worldToGrid worldPos).y = some 'O'
  · simp only [hcell, if_true, decide_eq_true_eq, true_and, mul_comm L.cellSize]
  · simp [hcell]

theorem centreDist_centre {sqrt : α → α} (hs : IsSqrt sqrt) (L : Level α) (x y : Int) :
    L.centreDist sqrt (L.gridToWorld x y) x y = 0 := by
  simp [Level.centreDist, length2, hs.zero]

end Detection


/-! ## The fall animation -/

section Falling

variable {α : Type} [LinearOrderedField α] [FloorRing α]

theorem update_of_falling (sqrt sin : α → α) (dt : α) (tilt : Vec2 α) (L : Level α)
    (b : Ball α) (hf : b.isFalling = true) :
    b.update sqrt sin dt tilt L =
      { b with
        fallProgress := b.fallProgress + dt * 3.0
        position :=
          { b.position with y := b.radius * (1.0 - (b.fallProgress + dt * 3.0) * 2.0) } } := by
  simp [Ball.update, hf]

theorem updates_cons (sqrt sin : α → α) (L : Level α) (b : Ball α) (t : α × Vec2 α)
    (ticks : List (α × Vec2 α)) :
    b.updates sqrt sin L (t :: ticks) = (b.update sqrt sin t.1 t.2 L).updates sqrt sin L ticks :=
  rfl

/-- C6: Falling is absorbing under Ball::update: from a state with isFalling
true, one update, and any run of updates, with any step sizes, tilts and Level,
ends with isFalling true; Ball::reset ends with isFalling false. -/
theorem falling_absorbing (sqrt sin : α → α) (dt : α) (tilt : Vec2 α) (L : Level α)
    (b : Ball α) (ticks : List (α × Vec2 α)) (hf : b.isFalling = true) :
    (b.update sqrt sin dt tilt L).isFalling = true ∧
      (b.updates sqrt sin L ticks).isFalling = true ∧
      (b.reset L).isFalling = false := by
  refine ⟨by rw [update_of_falling _ _ _ _ _ _ hf]; exact hf, ?_, rfl⟩
  induction ticks generalizing b with
  | nil => exact hf
  | cons t ticks ih =>
    rw [updates_cons]
    apply ih
    rw [update_of_falling _ _ _ _ _ _ hf]; exact hf

theorem falling_absorbing_witness :
    enteredFalling.isFalling = true ∧
      (enteredFalling.update Real.sqrt Real.sin 0.1 ⟨0, 0⟩ holeLevel).isFalling = true ∧
      (enteredFalling.updates Real.sqrt Real.sin holeLevel [(0.1, ⟨0, 0⟩)]).isFalling = true ∧
      (enteredFalling.reset holeLevel).isFalling = false :=
  ⟨rfl, falling_absorbing Real.sqrt Real.sin 0.1 ⟨0, 0⟩ holeLevel enteredFalling
    [(0.1, ⟨0, 0⟩)] rfl⟩

theorem updates_of_falling (sqrt sin : α → α) (L : Level α) (ticks : List (α × Vec2 α))
    (b : Ball α) (hf : b.isFalling = true) :
    (b.updates sqrt sin L ticks).isFalling = true ∧
      (b.updates sqrt sin L ticks).radius = b.radius ∧
      (b.updates sqrt sin L ticks).fallProgress = b.fallProgress + 3 * elapsed ticks ∧
      (ticks ≠ [] →
        (b.updates sqrt sin L ticks).position.y =
          b.radius * (1 - 2 * (b.updates sqrt sin L ticks).fallProgress)) := by
  induction ticks generalizing b with
  | nil => simp [Ball.updates, elapsed, hf]
  | cons t ticks ih =>
    have hu := update_of_falling sqrt sin t.1 t.2 L b hf
    have hf' : (b.update sqrt sin t.1 t.2 L).isFalling = true := by rw [hu]; exact hf
    obtain ⟨h1, h2, h3, h4⟩ := ih (b.update sqrt sin t.1 t.2 L) hf'
    rw [updates_cons]
    refine ⟨h1, ?_, ?_, ?_⟩
    · rw [h2, hu]
    · rw [h3, hu]
      simp only [elapsed, List.map_cons, List.sum_cons]
      norm_num
      ring
    · intro _
      by_cases hnil : ticks = []
      · subst hnil
        simp only [Ball.updates, List.foldl_nil]
        rw [hu]
        norm_num
        left
        ring
      · rw [h4 hnil, hu]

theorem update_of_rolling (sqrt sin : α → α) (dt : α) (tilt : Vec2 α) (L : Level α)
    (b : Ball α) (hr : b.isFalling = false) :
    b.update sqrt sin dt tilt L =
      if L.isOverHole sqrt (b.resolved sqrt sin dt tilt L) b.radius then
        { b with
          isFalling := true
          fallProgress := 0.0
          velocity := ⟨0.0, 0.0, 0.0⟩
          position := { b.resolved sqrt sin dt tilt L with y := b.radius } }
      else
        { b with
          velocity := b.bouncedVelocity sqrt sin dt tilt L
          position := { b.resolved sqrt sin dt tilt L with y := b.radius } } := by
  unfold Ball.update Ball.bouncedVelocity Ball.resolved Ball.tentative Ball.clampedVelocity
    Ball.frictionVelocity
  simp only [hr, Bool.false_eq_true, if_false]
  split_ifs <;> rfl

/-- The tick of Ball::update that detects the hole leaves the ball in the state
from which the fall animation is counted: Falling, progress 0, Y at radius,
velocity zero. -/
theorem update_enters_falling (sqrt sin : α → α) (dt : α) (tilt : Vec2 α) (L : Level α)
    (b : Ball α) (hr : b.isFalling = false)
    (hf : (b.update sqrt sin dt tilt L).isFalling = true) :
    (b.update sqrt sin dt tilt L).fallProgress = 0 ∧
      (b.update sqrt sin dt tilt L).position.y = (b.update sqrt sin dt tilt L).radius ∧
      (b.update sqrt sin dt tilt L).velocity = ⟨0, 0, 0⟩ := by
  rw [update_of_rolling _ _ _ _ _ _ hr] at hf ⊢
  split_ifs at hf ⊢ with h
  · refine ⟨by norm_num, rfl, ?_⟩
    have e : (0.0 : α) = 0 := by norm_num
    simp only [e]
  · simp [hr] at hf

end Falling


/-! ## The speed clamp -/

section Speed

variable {α : Type} [LinearOrderedField α] [FloorRing α]

theorem clampedVelocity_sq_le {sqrt : α → α} (hs : IsSqrt sqrt) (sin : α → α) (dt : α)
    (tilt : Vec2 α) (b : Ball α) :
    (b.clampedVelocity sqrt sin dt tilt).x * (b.clampedVelocity sqrt sin dt tilt).x +
      (b.clampedVelocity sqrt sin dt tilt).z * (b.clampedVelocity sqrt sin dt tilt).z
        ≤ 50 * 50 := by
  unfold Ball.clampedVelocity Config.BALL_MAX_SPEED
  generalize b.frictionVelocity sin dt tilt = v
  have h0 : 0 ≤ v.x * v.x + v.z * v.z := add_nonneg (mul_self_nonneg _) (mul_self_nonneg _)
  obtain ⟨h1, h2⟩ := hs _ h0
  have e : (50.0 : α) = 50 := by norm_num
  simp only [e]
  split_ifs with hgt
  · have hpos : 0 < sqrt (v.x * v.x + v.z * v.z) := lt_trans (by norm_num) hgt
    have hne : sqrt (v.x * v.x + v.z * v.z) ≠ 0 := ne_of_gt hpos
    have key : v.x / sqrt (v.x * v.x + v.z * v.z) * 50 * (v.x / sqrt (v.x * v.x + v.z * v.z) * 50) +
        v.z / sqrt (v.x * v.x + v.z * v.z) * 50 * (v.z / sqrt (v.x * v.x + v.z * v.z) * 50)
        = (v.x * v.x + v.z * v.z) /
            (sqrt (v.x * v.x + v.z * v.z) * sqrt (v.x * v.x + v.z * v.z)) * (50 * 50) := by
      field_simp
      ring
    show v.x / sqrt (v.x * v.x + v.z * v.z) * 50 * (v.x / sqrt (v.x * v.x + v.z * v.z) * 50) +
        v.z / sqrt (v.x * v.x + v.z * v.z) * 50 * (v.z / sqrt (v.x * v.x + v.z * v.z) * 50)
        ≤ 50 * 50
    rw [key, h2, div_self (by rw [← h2]; exact mul_ne_zero hne hne), one_mul]
  · have hle : sqrt (v.x * v.x + v.z * v.z) ≤ 50 := not_lt.mp hgt
    calc v.x * v.x + v.z * v.z
        = sqrt (v.x * v.x + v.z * v.z) * sqrt (v.x * v.x + v.z * v.z) := h2.symm
      _ ≤ 50 * 50 := mul_le_mul hle hle h1 (by norm_num)

theorem bounce_sq_le (v : α) (c : Prop) [Decidable c] :
    (if c then -v * Config.BALL_BOUNCE else v) * (if c then -v * Config.BALL_BOUNCE else v)
      ≤ v * v := by
  unfold Config.BALL_BOUNCE
  split_ifs
  · have : -v * 0.3 * (-v * 0.3) = (0.09 : α) * (v * v) := by norm_num; ring
    rw [this]
    have hv : 0 ≤ v * v := mul_self_nonneg v
    have : (0.09 : α) * (v * v) ≤ 1 * (v * v) :=
      mul_le_mul_of_nonneg_right (by norm_num) hv
    linarith
  · exact le_rfl

theorem bouncedVelocity_sq_le {sqrt : α → α} (hs : IsSqrt sqrt) (sin : α → α) (dt : α)
    (tilt : Vec2 α) (L : Level α) (b : Ball α) :
    (b.bouncedVelocity sqrt sin dt tilt L).x * (b.bouncedVelocity sqrt sin dt tilt L).x +
      (b.bouncedVelocity sqrt sin dt tilt L).z * (b.bouncedVelocity sqrt sin dt tilt L).z
        ≤ 50 * 50 := by
  have h := clampedVelocity_sq_le hs sin dt tilt b
  have hx := bounce_sq_le (b.clampedVelocity sqrt sin dt tilt).x
    (|(b.resolved sqrt sin dt tilt L).x - (b.tentative sqrt sin dt tilt).x| > 0.001)
  have hz := bounce_sq_le (b.clampedVelocity sqrt sin dt tilt).z
    (|(b.resolved sqrt sin dt tilt L).z - (b.tentative sqrt sin dt tilt).z| > 0.001)
  simp only [Ball.bouncedVelocity]
  linarith

end Speed


/-! ## A ball at rest -/

section Rest

variable {α : Type} [LinearOrderedField α] [FloorRing α]

theorem clampedVelocity_rest (sqrt sin : α → α) (hsin : sin 0 = 0) (dt : α) (b : Ball α)
    (hv : b.velocity = ⟨0, 0, 0⟩) :
    b.clampedVelocity sqrt sin dt ⟨0, 0⟩ = ⟨0, 0, 0⟩ := by
  unfold Ball.clampedVelocity Ball.frictionVelocity
  simp only [hv, hsin]
  split_ifs <;> simp

theorem tentative_rest (sqrt sin : α → α) (hsin : sin 0 = 0) (dt : α) (b : Ball α)
    (hv : b.velocity = ⟨0, 0, 0⟩) :
    b.tentative sqrt sin dt ⟨0, 0⟩ = b.position := by
  unfold Ball.tentative
  rw [clampedVelocity_rest sqrt sin hsin dt b hv]
  simp

theorem update_rest (sqrt sin : α → α) (hsin : sin 0 = 0) (dt : α) (L : Level α) (b : Ball α)
    (hr : b.isFalling = false) (hv : b.velocity = ⟨0, 0, 0⟩) (hy : b.position.y = b.radius)
    (hwall : L.resolveWallCollision sqrt b.position b.radius = b.position)
    (hhole : L.isOverHole sqrt b.position b.radius = false) :
    b.update sqrt sin dt ⟨0, 0⟩ L = b := by
  have hres : b.resolved sqrt sin dt ⟨0, 0⟩ L = b.position := by
    unfold Ball.resolved
    rw [tentative_rest sqrt sin hsin dt b hv, hwall]
  have hbv : b.bouncedVelocity sqrt sin dt ⟨0, 0⟩ L = ⟨0, 0, 0⟩ := by
    unfold Ball.bouncedVelocity
    simp only [hres, tentative_rest sqrt sin hsin dt b hv,
      clampedVelocity_rest sqrt sin hsin dt b hv]
    simp
  rw [update_of_rolling _ _ _ _ _ _ hr, hres, hhole, hbv]
  simp only [Bool.false_eq_true, if_false]
  obtain ⟨p, v, r, f, fp⟩ := b
  obtain ⟨px, py, pz⟩ := p
  simp only at hv hy
  simp [hv, hy]

/-- C4 (amended): for every Level and every Rolling ball with zero velocity
whose Y is its radius, that resolveWallCollision leaves in place (it overlaps no
wall) and that is not over a hole, any number of Ball::update calls with zero
tilt, for any step sizes, leaves the ball's position unchanged. -/
theorem rest_position_unchanged (sqrt sin : α → α) (hsin : sin 0 = 0) (L : Level α)
    (b : Ball α) (hr : b.isFalling = false) (hv : b.velocity = ⟨0, 0, 0⟩)
    (hy : b.position.y = b.radius)
    (hwall : L.resolveWallCollision sqrt b.position b.radius = b.position)
    (hhole : L.isOverHole sqrt b.position b.radius = false)
    (ticks : List (α × Vec2 α)) (hz : ∀ t ∈ ticks, t.2 = ⟨0, 0⟩) :
    (b.updates sqrt sin L ticks).position = b.position := by
  have hfix : b.updates sqrt sin L ticks = b := by
    induction ticks with
    | nil => rfl
    | cons t ticks ih =>
      have ht : t.2 = ⟨0, 0⟩ := hz t (List.mem_cons_self _ _)
      rw [updates_cons, ht, update_rest sqrt sin hsin t.1 L b hr hv hy hwall hhole]
      exact ih (fun t' h' => hz t' (List.mem_cons_of_mem _ h'))
  rw [hfix]

end Rest


/-! ## Wall collision -/

theorem foldl_fixed {β γ : Type} (f : β → γ → β) (q : β) (l : List γ)
    (h : ∀ d ∈ l, f q d = q) : l.foldl f q = q := by
  induction l with
  | nil => rfl
  | cons a l ih =>
    rw [List.foldl_cons, h a (List.mem_cons_self _ _)]
    exact ih (fun d hd => h d (List.mem_cons_of_mem _ hd))

theorem foldl_single {β γ : Type} (f : β → γ → β) (w : γ) (p : β) (l : List γ)
    (hw : w ∈ l) (hnd : l.Nodup)
    (h1 : ∀ d ∈ l, d ≠ w → f p d = p) (h2 : ∀ d ∈ l, d ≠ w → f (f p w) d = f p w) :
    l.foldl f p = f p w := by
  induction l with
  | nil => exact absurd hw (List.not_mem_nil _)
  | cons a l ih =>
    rw [List.foldl_cons]
    have hnd' := List.nodup_cons.mp hnd
    by_cases ha : a = w
    · subst ha
      apply foldl_fixed
      intro d hd
      exact h2 d (List.mem_cons_of_mem _ hd) (fun e => hnd'.1 (e ▸ hd))
    · rw [h1 a (List.mem_cons_self _ _) ha]
      have hw' : w ∈ l := by
        rcases List.mem_cons.mp hw with e | e
        · exact absurd e.symm ha
        · exact e
      exact ih hw' hnd'.2 (fun d hd => h1 d (List.mem_cons_of_mem _ hd))
        (fun d hd => h2 d (List.mem_cons_of_mem _ hd))

theorem clamp_push {α : Type} [LinearOrderedField α] (v lo hi k : α) (hlh : lo ≤ hi)
    (hk : 0 ≤ k) : clamp (v + (v - clamp v lo hi) * k) lo hi = clamp v lo hi := by
  unfold clamp
  by_cases h1 : v < lo
  · have : (v - lo) * k ≤ 0 := mul_nonpos_of_nonpos_of_nonneg (by linarith) hk
    have h1' : v + (v - lo) * k < lo := by linarith
    simp only [if_pos h1, if_pos h1']
  · by_cases h2 : hi < v
    · have : 0 ≤ (v - hi) * k := mul_nonneg (by linarith) hk
      have h1' : ¬ (v + (v - hi) * k < lo) := by
        have := not_lt.mp h1
        exact not_lt.mpr (by linarith)
      have h2' : hi < v + (v - hi) * k := by linarith
      simp only [if_neg h1, if_pos h2, if_neg h1', if_pos h2']
    · simp only [if_neg h1, if_neg h2, sub_self, zero_mul, add_zero]

section Collision

variable {α : Type} [LinearOrderedField α] [FloorRing α]

theorem resolveCell_of_not_wall (sqrt : α → α) (L : Level α) (radius : α) (cell : IVec2)
    (p : Vec3 α) (d : Int × Int) (h : L.getCell (cell.x + d.1) (cell.y + d.2) ≠ some '#') :
    L.resolveCell sqrt radius cell p d = p := by
  simp only [Level.resolveCell, if_neg h]

theorem resolveCell_of_clear (sqrt : α → α) (L : Level α) (radius : α) (cell : IVec2)
    (p : Vec3 α) (d : Int × Int)
    (h : radius ≤ L.wallDist sqrt p (cell.x + d.1) (cell.y + d.2)) :
    L.resolveCell sqrt radius cell p d = p := by
  unfold Level.wallDist length2 at h
  unfold Level.resolveCell
  simp only
  split_ifs with h1 h2
  · exact absurd h2.1 (not_lt.mpr h)
  · rfl
  · rfl

theorem resolveCell_of_overlap (sqrt : α → α) (L : Level α) (radius : α) (cell : IVec2)
    (p : Vec3 α) (d : Int × Int)
    (hwall : L.getCell (cell.x + d.1) (cell.y + d.2) = some '#')
    (hlo : 0.0001 < L.wallDist sqrt p (cell.x + d.1) (cell.y + d.2))
    (hhi : L.wallDist sqrt p (cell.x + d.1) (cell.y + d.2) < radius) :
    L.resolveCell sqrt radius cell p d =
      { p with
        x := p.x + (p.x - clamp p.x
              ((L.gridToWorld (cell.x + d.1) (cell.y + d.2)).x - L.cellSize / 2.0)
              ((L.gridToWorld (cell.x + d.1) (cell.y + d.2)).x + L.cellSize / 2.0)) *
            ((radius - L.wallDist sqrt p (cell.x + d.1) (cell.y + d.2)) /
              L.wallDist sqrt p (cell.x + d.1) (cell.y + d.2))
        z := p.z + (p.z - clamp p.z
              ((L.gridToWorld (cell.x + d.1) (cell.y + d.2)).z - L.cellSize / 2.0)
              ((L.gridToWorld (cell.x + d.1) (cell.y + d.2)).z + L.cellSize / 2.0)) *
            ((radius - L.wallDist sqrt p (cell.x + d.1) (cell.y + d.2)) /
              L.wallDist sqrt p (cell.x + d.1) (cell.y + d.2)) } := by
  unfold Level.wallDist length2 at hlo hhi ⊢
  unfold Level.resolveCell
  simp only [if_pos hwall]
  rw [if_pos ⟨hhi, hlo⟩]
  congr 1 <;> ring

theorem wallDist_resolveCell {sqrt : α → α} (hs : IsSqrt sqrt) (L : Level α)
    (hc : 0 ≤ L.cellSize) (radius : α) (cell : IVec2) (p : Vec3 α) (d : Int × Int)
    (hwall : L.getCell (cell.x + d.1) (cell.y + d.2) = some '#')
    (hlo : 0.0001 < L.wallDist sqrt p (cell.x + d.1) (cell.y + d.2))
    (hhi : L.wallDist sqrt p (cell.x + d.1) (cell.y + d.2) < radius) :
    L.wallDist sqrt (L.resolveCell sqrt radius cell p d) (cell.x + d.1) (cell.y + d.2)
      = radius := by
  rw [resolveCell_of_overlap sqrt L radius cell p d hwall hlo hhi]
  have hpos : 0 < L.wallDist sqrt p (cell.x + d.1) (cell.y + d.2) :=
    lt_trans (by norm_num) hlo
  have hne : L.wallDist sqrt p (cell.x + d.1) (cell.y + d.2) ≠ 0 := ne_of_gt hpos
  have hk : 0 ≤ (radius - L.wallDist sqrt p (cell.x + d.1) (cell.y + d.2)) /
      L.wallDist sqrt p (cell.x + d.1) (cell.y + d.2) :=
    div_nonneg (by linarith) (le_of_lt hpos)
  have hr : 0 ≤ radius := by linarith
  have hhalf : 0 ≤ L.cellSize / 2.0 := div_nonneg hc (by norm_num)
  have hsq : L.wallDist sqrt p (cell.x + d.1) (cell.y + d.2) *
      L.wallDist sqrt p (cell.x + d.1) (cell.y + d.2) =
      (p.x - clamp p.x
          ((L.gridToWorld (cell.x + d.1) (cell.y + d.2)).x - L.cellSize / 2.0)
          ((L.gridToWorld (cell.x + d.1) (cell.y + d.2)).x + L.cellSize / 2.0)) *
        (p.x - clamp p.x
          ((L.gridToWorld (cell.x + d.1) (cell.y + d.2)).x - L.cellSize / 2.0)
          ((L.gridToWorld (cell.x + d.1) (cell.y + d.2)).x + L.cellSize / 2.0)) +
      (p.z - clamp p.z
          ((L.gridToWorld (cell.x + d.1) (cell.y + d.2)).z - L.cellSize / 2.0)
          ((L.gridToWorld (cell.x + d.1) (cell.y + d.2)).z + L.cellSize / 2.0)) *
        (p.z - clamp p.z
          ((L.gridToWorld (cell.x + d.1) (cell.y + d.2)).z - L.cellSize / 2.0)
          ((L.gridToWorld (cell.x + d.1) (cell.y + d.2)).z + L.cellSize / 2.0)) :=
    (hs _ (add_nonneg (mul_self_nonneg _) (mul_self_nonneg _))).2
  generalize L.wallDist sqrt p (cell.x + d.1) (cell.y + d.2) = dist at hpos hne hk hsq ⊢
  unfold Level.wallDist length2
  simp only
  rw [clamp_push _ _ _ _ (by linarith) hk, clamp_push _ _ _ _ (by linarith) hk]
  generalize clamp p.x
    ((L.gridToWorld (cell.x + d.1) (cell.y + d.2)).x - L.cellSize / 2.0)
    ((L.gridToWorld (cell.x + d.1) (cell.y + d.2)).x + L.cellSize / 2.0) = qx at hsq ⊢
  generalize clamp p.z
    ((L.gridToWorld (cell.x + d.1) (cell.y + d.2)).z - L.cellSize / 2.0)
    ((L.gridToWorld (cell.x + d.1) (cell.y + d.2)).z + L.cellSize / 2.0) = qz at hsq ⊢
  have key : (p.x + (p.x - qx) * ((radius - dist) / dist) - qx) *
        (p.x + (p.x - qx) * ((radius - dist) / dist) - qx) +
      (p.z + (p.z - qz) * ((radius - dist) / dist) - qz) *
        (p.z + (p.z - qz) * ((radius - dist) / dist) - qz) = radius * radius := by
    have e1 : p.x + (p.x - qx) * ((radius - dist) / dist) - qx = (p.x - qx) * (radius / dist) := by
      field_simp
      ring
    have e2 : p.z + (p.z - qz) * ((radius - dist) / dist) - qz = (p.z - qz) * (radius / dist) := by
      field_simp
      ring
    rw [e1, e2]
    have : (p.x - qx) * (radius / dist) * ((p.x - qx) * (radius / dist)) +
        (p.z - qz) * (radius / dist) * ((p.z - qz) * (radius / dist)) =
        ((p.x - qx) * (p.x - qx) + (p.z - qz) * (p.z - qz)) * (radius * radius) / (dist * dist) := by
      field_simp
      ring
    rw [this, ← hsq]
    field_simp
  rw [key, hs.sqrt_sq hr]

end Collision


/-! ## Wall collision: one overlapped wall -/

section SingleWall

variable {α : Type} [LinearOrderedField α] [FloorRing α]

theorem neighbourOffsets_nodup : neighbourOffsets.Nodup := by decide

end SingleWall

/-! ### The corridor level, evaluated -/

theorem real_sqrt_of_sq (s m : ℝ) (hm : 0 ≤ m) (h : s = m * m) : Real.sqrt s = m := by
  rw [h]; exact Real.sqrt_mul_self hm

theorem corridor_width : corridorLevel.width = 3 := by decide

theorem corridor_height : corridorLevel.height = 3 := by decide

theorem corridor_cellSize : corridorLevel.cellSize = 1 := rfl

theorem corridor_gridToWorld (x y : Int) :
    corridorLevel.gridToWorld x y = ⟨(x : ℝ) - 1, 0, (y : ℝ) - 1⟩ := by
  simp only [Level.gridToWorld, Level.getBoardWidth, Level.getBoardDepth, corridor_width,
    corridor_height, corridor_cellSize]
  norm_num
  constructor <;> ring

theorem corridor_worldToGrid (x y : ℝ) (h0 : -0.5 ≤ x) (h1 : x < 0.5) :
    corridorLevel.worldToGrid ⟨x, y, 0⟩ = ⟨1, 1⟩ := by
  simp only [Level.worldToGrid, Level.getBoardWidth, Level.getBoardDepth, corridor_width,
    corridor_height, corridor_cellSize, truncToInt]
  norm_num at h0 h1 ⊢
  have hx : (0 : ℝ) ≤ x + 3 / 2 := by linarith
  rw [if_pos hx, Int.floor_eq_iff]
  constructor <;> norm_num <;> linarith

theorem corridor_wallDist_left (x y : ℝ) (h0 : -0.5 ≤ x) :
    corridorLevel.wallDist Real.sqrt ⟨x, y, 0⟩ 0 1 = x + 0.5 := by
  simp only [Level.wallDist, corridor_gridToWorld, corridor_cellSize, clamp, length2]
  norm_num at h0 ⊢
  have h1 : ¬ (x < -(3 / 2)) := by linarith
  rcases lt_or_eq_of_le h0 with h2 | h2
  · rw [if_neg h1, if_pos h2]
    apply real_sqrt_of_sq
    · linarith
    · ring
  · subst h2
    norm_num

theorem corridor_wallDist_right (x y : ℝ) (h1 : x ≤ 0.5) :
    corridorLevel.wallDist Real.sqrt ⟨x, y, 0⟩ 2 1 = 0.5 - x := by
  simp only [Level.wallDist, corridor_gridToWorld, corridor_cellSize, clamp, length2]
  norm_num at h1 ⊢
  rcases lt_or_eq_of_le h1 with h | h
  · rw [if_pos h]
    apply real_sqrt_of_sq
    · linarith
    · ring
  · subst h
    norm_num

theorem corridor_push_left (x y r : ℝ) (h0 : -0.5 + 0.0001 < x) (h1 : x + 0.5 < r) :
    corridorLevel.resolveCell Real.sqrt r ⟨1, 1⟩ ⟨x, y, 0⟩ (-1, 0) = ⟨r - 0.5, y, 0⟩ := by
  have hx : (-0.5 : ℝ) ≤ x := by norm_num at h0 ⊢; linarith
  have hd : corridorLevel.wallDist Real.sqrt ⟨x, y, 0⟩ ((⟨1, 1⟩ : IVec2).x + (-1, 0).1)
      ((⟨1, 1⟩ : IVec2).y + ((-1, 0) : Int × Int).2) = x + 0.5 := corridor_wallDist_left x y hx
  have hpos : x + 0.5 ≠ 0 := by norm_num at h0 ⊢; linarith
  have hlt : (-(0.5 : ℝ)) < x := by norm_num at h0 ⊢; linarith
  rw [resolveCell_of_overlap _ _ _ _ _ _ (by decide) (by rw [hd]; linarith) (by rw [hd]; exact h1),
    hd]
  simp only [corridor_gridToWorld, corridor_cellSize, clamp]
  norm_num at hlt ⊢
  have h1' : ¬ (x < -(3 / 2)) := by linarith
  rw [if_neg h1', if_pos hlt]
  have hne : x + 1 / 2 ≠ 0 := by linarith
  have e : x - -(1 / 2) = x + 1 / 2 := by ring
  have hcancel : (x + 1 / 2) * ((r - (x + 1 / 2)) / (x + 1 / 2)) = r - (x + 1 / 2) := by
    rw [mul_comm, div_mul_cancel₀ _ hne]
  rw [e, hcancel]
  ring

theorem corridor_push_right (x y r : ℝ) (h0 : x < 0.5 - 0.0001) (h1 : 0.5 - x < r) :
    corridorLevel.resolveCell Real.sqrt r ⟨1, 1⟩ ⟨x, y, 0⟩ (1, 0) = ⟨0.5 - r, y, 0⟩ := by
  have hx : x ≤ (0.5 : ℝ) := by norm_num at h0 ⊢; linarith
  have hd : corridorLevel.wallDist Real.sqrt ⟨x, y, 0⟩ ((⟨1, 1⟩ : IVec2).x + (1, 0).1)
      ((⟨1, 1⟩ : IVec2).y + ((1, 0) : Int × Int).2) = 0.5 - x := corridor_wallDist_right x y hx
  have hlt : x < (0.5 : ℝ) := by norm_num at h0 ⊢; linarith
  rw [resolveCell_of_overlap _ _ _ _ _ _ (by decide) (by rw [hd]; linarith) (by rw [hd]; exact h1),
    hd]
  simp only [corridor_gridToWorld, corridor_cellSize, clamp]
  norm_num at hlt ⊢
  rw [if_pos hlt]
  have hne : 1 / 2 - x ≠ 0 := by linarith
  have e : x - 1 / 2 = -(1 / 2 - x) := by ring
  have hcancel : (1 / 2 - x) * ((r - (1 / 2 - x)) / (1 / 2 - x)) = r - (1 / 2 - x) := by
    rw [mul_comm, div_mul_cancel₀ _ hne]
  rw [e, neg_mul, hcancel]
  ring

theorem corridor_not_wall (r : ℝ) (p : Vec3 ℝ) (d : Int × Int)
    (h : corridorLevel.getCell ((⟨1, 1⟩ : IVec2).x + d.1) ((⟨1, 1⟩ : IVec2).y + d.2) ≠ some '#') :
    corridorLevel.resolveCell Real.sqrt r ⟨1, 1⟩ p d = p :=
  resolveCell_of_not_wall _ _ _ _ _ _ h

theorem corridor_resolve (x y r : ℝ) (hx0 : -0.5 + 0.0001 < x) (hx1 : x < 0.5)
    (h1 : x + 0.5 < r) (h2 : 1 < 2 * r) (h3 : r < 0.9) :
    corridorLevel.resolveWallCollision Real.sqrt ⟨x, y, 0⟩ r = ⟨0.5 - r, y, 0⟩ := by
  have hx : (-0.5 : ℝ) ≤ x := by norm_num at hx0 ⊢; linarith
  unfold Level.resolveWallCollision
  rw [corridor_worldToGrid x y hx hx1, neighbourOffsets_eq]
  simp only [List.foldl_cons, List.foldl_nil]
  rw [corridor_not_wall r _ (-1, -1) (by decide), corridor_not_wall r _ (0, -1) (by decide),
    corridor_not_wall r _ (1, -1) (by decide), corridor_push_left x y r hx0 h1,
    corridor_not_wall r _ (0, 0) (by decide),
    corridor_push_right (r - 0.5) y r (by norm_num at h3 ⊢; linarith) (by norm_num; linarith),
    corridor_not_wall r _ (-1, 1) (by decide), corridor_not_wall r _ (0, 1) (by decide),
    corridor_not_wall r _ (1, 1) (by decide)]

theorem corridor_clear_right (x y r : ℝ) (h1 : x ≤ 0.5) (h2 : r ≤ 0.5 - x) :
    corridorLevel.resolveCell Real.sqrt r ⟨1, 1⟩ ⟨x, y, 0⟩ (1, 0) = ⟨x, y, 0⟩ := by
  apply resolveCell_of_clear
  have hd : corridorLevel.wallDist Real.sqrt ⟨x, y, 0⟩ ((⟨1, 1⟩ : IVec2).x + (1, 0).1)
      ((⟨1, 1⟩ : IVec2).y + ((1, 0) : Int × Int).2) = 0.5 - x := corridor_wallDist_right x y h1
  rw [hd]
  exact h2

theorem corridor_resolve_narrow (x y r : ℝ) (hx0 : -0.5 + 0.0001 < x) (hx1 : x < 0.5)
    (h1 : x + 0.5 < r) (h2 : r ≤ 0.5) :
    corridorLevel.resolveWallCollision Real.sqrt ⟨x, y, 0⟩ r = ⟨r - 0.5, y, 0⟩ := by
  have hx : (-0.5 : ℝ) ≤ x := by norm_num at hx0 ⊢; linarith
  unfold Level.resolveWallCollision
  rw [corridor_worldToGrid x y hx hx1, neighbourOffsets_eq]
  simp only [List.foldl_cons, List.foldl_nil]
  rw [corridor_not_wall r _ (-1, -1) (by decide), corridor_not_wall r _ (0, -1) (by decide),
    corridor_not_wall r _ (1, -1) (by decide), corridor_push_left x y r hx0 h1,
    corridor_not_wall r _ (0, 0) (by decide),
    corridor_clear_right (r - 0.5) y r (by norm_num at h2 ⊢; linarith)
      (by norm_num at h2 ⊢; linarith),
    corridor_not_wall r _ (-1, 1) (by decide), corridor_not_wall r _ (0, 1) (by decide),
    corridor_not_wall r _ (1, 1) (by decide)]

theorem clamp_dist_sq (v lo hi m : ℝ) (hlh : lo ≤ hi) (hm : 0 ≤ m)
    (h : v + m ≤ lo ∨ hi + m ≤ v) :
    m * m ≤ (v - clamp v lo hi) * (v - clamp v lo hi) := by
  unfold clamp
  rcases h with h | h
  · split_ifs <;> nlinarith
  · split_ifs <;> nlinarith

theorem corridor_far (x y : ℝ) (hx0 : -0.5 ≤ x) (hx1 : x ≤ 0.5) (nx ny : Int)
    (h : nx ≤ -1 ∨ 3 ≤ nx ∨ ny ≤ -1 ∨ 3 ≤ ny) :
    1 ≤ corridorLevel.wallDist Real.sqrt ⟨x, y, 0⟩ nx ny := by
  simp only [Level.wallDist, corridor_gridToWorld, corridor_cellSize, length2]
  rw [Real.le_sqrt' one_pos]
  have e : (1 : ℝ) / 2.0 = 0.5 := by norm_num
  rw [e]
  have hX := mul_self_nonneg
    (x - clamp x ((nx : ℝ) - 1 - 0.5) ((nx : ℝ) - 1 + 0.5))
  have hZ := mul_self_nonneg
    ((0 : ℝ) - clamp 0 ((ny : ℝ) - 1 - 0.5) ((ny : ℝ) - 1 + 0.5))
  norm_num at hx0 hx1
  rcases h with h | h | h | h
  · have hc : (nx : ℝ) ≤ -1 := by exact_mod_cast h
    have := clamp_dist_sq x ((nx : ℝ) - 1 - 0.5) ((nx : ℝ) - 1 + 0.5) 1 (by norm_num; linarith)
      zero_le_one (Or.inr (by norm_num; linarith))
    nlinarith
  · have hc : (3 : ℝ) ≤ nx := by exact_mod_cast h
    have := clamp_dist_sq x ((nx : ℝ) - 1 - 0.5) ((nx : ℝ) - 1 + 0.5) 1 (by norm_num; linarith)
      zero_le_one (Or.inl (by norm_num; linarith))
    nlinarith
  · have hc : (ny : ℝ) ≤ -1 := by exact_mod_cast h
    have := clamp_dist_sq 0 ((ny : ℝ) - 1 - 0.5) ((ny : ℝ) - 1 + 0.5) 1 (by norm_num; linarith)
      zero_le_one (Or.inr (by norm_num; linarith))
    nlinarith
  · have hc : (3 : ℝ) ≤ ny := by exact_mod_cast h
    have := clamp_dist_sq 0 ((ny : ℝ) - 1 - 0.5) ((ny : ℝ) - 1 + 0.5) 1 (by norm_num; linarith)
      zero_le_one (Or.inl (by norm_num; linarith))
    nlinarith

theorem corridor_only_left (nx ny : Int) (hne : (nx, ny) ≠ ((0, 1) : Int × Int))
    (hw : corridorLevel.getCell nx ny = some '#') :
    0.6 ≤ corridorLevel.wallDist Real.sqrt ⟨-0.2, 0, 0⟩ nx ny := by
  by_cases hin : (0 ≤ nx ∧ nx ≤ 2) ∧ (0 ≤ ny ∧ ny ≤ 2)
  · obtain ⟨⟨h1, h2⟩, h3, h4⟩ := hin
    have hnx : nx = 0 ∨ nx = 1 ∨ nx = 2 := by omega
    have hny : ny = 0 ∨ ny = 1 ∨ ny = 2 := by omega
    rcases hnx with rfl | rfl | rfl <;> rcases hny with rfl | rfl | rfl
    · exact absurd hw (by decide)
    · exact absurd rfl hne
    · exact absurd hw (by decide)
    · exact absurd hw (by decide)
    · exact absurd hw (by decide)
    · exact absurd hw (by decide)
    · exact absurd hw (by decide)
    · rw [corridor_wallDist_right (-0.2) 0 (by norm_num)]; norm_num
    · exact absurd hw (by decide)
  · have h : nx ≤ -1 ∨ 3 ≤ nx ∨ ny ≤ -1 ∨ 3 ≤ ny := by omega
    have := corridor_far (-0.2) 0 (by norm_num) (by norm_num) nx ny h
    have h06 : (0.6 : ℝ) ≤ 1 := by norm_num
    exact le_trans h06 this

/-! ### The floor level, evaluated -/

theorem floor_worldToGrid : floorLevel.worldToGrid ⟨0, 0.35, 0⟩ = ⟨1, 1⟩ := by
  have hw : floorLevel.width = 3 := by decide
  have hh : floorLevel.height = 3 := by decide
  have hc : floorLevel.cellSize = 1 := rfl
  simp only [Level.worldToGrid, Level.getBoardWidth, Level.getBoardDepth, hw, hh, hc, truncToInt]
  norm_num

theorem floor_resolve (r : ℝ) :
    floorLevel.resolveWallCollision Real.sqrt ⟨0, 0.35, 0⟩ r = ⟨0, 0.35, 0⟩ := by
  unfold Level.resolveWallCollision
  rw [floor_worldToGrid]
  apply foldl_fixed
  intro d hd
  apply resolveCell_of_not_wall
  revert d
  decide

theorem floor_isOverHole (r : ℝ) :
    floorLevel.isOverHole Real.sqrt ⟨0, 0.35, 0⟩ r = false := by
  unfold Level.isOverHole
  rw [floor_worldToGrid]
  simp only
  rw [if_neg (by decide)]

theorem rest_position_unchanged_witness :
    (floorBall.updates Real.sqrt Real.sin floorLevel
      [(0.016, ⟨0, 0⟩), (0.02, ⟨0, 0⟩)]).position = floorBall.position :=
  rest_position_unchanged Real.sqrt Real.sin Real.sin_zero floorLevel floorBall rfl rfl rfl
    (floor_resolve 0.35) (floor_isOverHole 0.35) [(0.016, ⟨0, 0⟩), (0.02, ⟨0, 0⟩)]
    (by intro t ht; simp only [List.mem_cons, List.mem_singleton, List.not_mem_nil,
          or_false] at ht; rcases ht with rfl | rfl <;> rfl)

/-! ### The pit level, evaluated -/

theorem pit_worldToGrid : pitLevel.worldToGrid ⟨0, 0.35, 0⟩ = ⟨1, 1⟩ := by
  have hw : pitLevel.width = 3 := by decide
  have hh : pitLevel.height = 3 := by decide
  have hc : pitLevel.cellSize = 1 := rfl
  simp only [Level.worldToGrid, Level.getBoardWidth, Level.getBoardDepth, hw, hh, hc, truncToInt]
  norm_num

theorem pit_resolve (r : ℝ) :
    pitLevel.resolveWallCollision Real.sqrt ⟨0, 0.35, 0⟩ r = ⟨0, 0.35, 0⟩ := by
  unfold Level.resolveWallCollision
  rw [pit_worldToGrid]
  apply foldl_fixed
  intro d hd
  apply resolveCell_of_not_wall
  revert d
  decide

theorem pit_isOverHole (r : ℝ) :
    pitLevel.isOverHole Real.sqrt ⟨0, 0.35, 0⟩ r = true := by
  have hw : pitLevel.width = 3 := by decide
  have hh : pitLevel.height = 3 := by decide
  have hc : pitLevel.cellSize = 1 := rfl
  rw [isOverHole_eq_true, pit_worldToGrid]
  refine ⟨by decide, ?_⟩
  simp only [Level.centreDist, length2, Level.gridToWorld, Level.getBoardWidth,
    Level.getBoardDepth, hw, hh, hc]
  norm_num

theorem pit_first_tick (dt : ℝ) :
    floorBall.update Real.sqrt Real.sin dt ⟨0, 0⟩ pitLevel = enteredFalling := by
  have hres : floorBall.resolved Real.sqrt Real.sin dt ⟨0, 0⟩ pitLevel = ⟨0, 0.35, 0⟩ := by
    unfold Ball.resolved
    rw [tentative_rest Real.sqrt Real.sin Real.sin_zero dt floorBall rfl]
    exact pit_resolve 0.35
  rw [update_of_rolling _ _ _ _ _ _ rfl, hres]
  have hh : pitLevel.isOverHole Real.sqrt ⟨0, 0.35, 0⟩ floorBall.radius = true :=
    pit_isOverHole _
  rw [if_pos hh]
  simp only [floorBall, enteredFalling]
  norm_num

/-- C4 as stated fails, each time with zero velocity, zero tilt and a step of
0.1: a ball in mode Falling has its Y lowered from 0.35 to 0.14 by a tick; a
default-constructed ball (position at the origin) has its Y set to its radius
0.35 by the first tick; a ball at rest 0.3 from a wall, radius 0.35, is pushed
from x = -0.2 to x = -0.15 by the first tick; and a ball at rest on the centre of
a hole starts to fall in the first tick and is lowered by the second. -/
theorem rest_position_counterexample :
    (enteredFalling.velocity = ⟨0, 0, 0⟩ ∧ (0 : ℝ) ≤ 0.1 ∧
      (enteredFalling.updates Real.sqrt Real.sin holeLevel [(0.1, ⟨0, 0⟩)]).position
        ≠ enteredFalling.position) ∧
    ((Ball.default : Ball ℝ).velocity = ⟨0, 0, 0⟩ ∧
      ((Ball.default : Ball ℝ).updates Real.sqrt Real.sin floorLevel [(0.1, ⟨0, 0⟩)]).position
        ≠ (Ball.default : Ball ℝ).position) ∧
    (corridorBall.velocity = ⟨0, 0, 0⟩ ∧
      (corridorBall.updates Real.sqrt Real.sin corridorLevel [(0.1, ⟨0, 0⟩)]).position
        ≠ corridorBall.position) ∧
    (floorBall.velocity = ⟨0, 0, 0⟩ ∧
      (floorBall.updates Real.sqrt Real.sin pitLevel [(0.1, ⟨0, 0⟩), (0.1, ⟨0, 0⟩)]).position
        ≠ floorBall.position) := by
  refine ⟨⟨rfl, by norm_num, ?_⟩, ⟨?_, ?_⟩, ⟨rfl, ?_⟩, ⟨rfl, ?_⟩⟩
  · simp only [Ball.updates, List.foldl_cons, List.foldl_nil]
    rw [update_of_falling _ _ _ _ _ _ rfl]
    simp only [enteredFalling]
    intro h
    have hy := congrArg Vec3.y h
    norm_num at hy
  · simp only [Ball.default]
    norm_num
  · simp only [Ball.updates, List.foldl_cons, List.foldl_nil]
    rw [update_of_rolling _ _ _ _ _ _ rfl]
    intro h
    have hy := congrArg Vec3.y h
    split_ifs at hy <;> simp only [Ball.default] at hy <;> norm_num at hy
  · simp only [Ball.updates, List.foldl_cons, List.foldl_nil]
    have hres : corridorBall.resolved Real.sqrt Real.sin 0.1 ⟨0, 0⟩ corridorLevel =
        ⟨0.35 - 0.5, 0.35, 0⟩ := by
      unfold Ball.resolved
      rw [tentative_rest Real.sqrt Real.sin Real.sin_zero 0.1 corridorBall rfl]
      exact corridor_resolve_narrow (-0.2) 0.35 0.35 (by norm_num) (by norm_num) (by norm_num)
        (by norm_num)
    rw [update_of_rolling _ _ _ _ _ _ rfl, hres]
    intro h
    have hx := congrArg Vec3.x h
    split_ifs at hx <;> simp only [corridorBall] at hx <;> norm_num at hx
  · simp only [Ball.updates, List.foldl_cons, List.foldl_nil]
    rw [pit_first_tick, update_of_falling _ _ _ _ _ _ rfl]
    simp only [enteredFalling, floorBall]
    intro h
    have hy := congrArg Vec3.y h
    norm_num at hy

/-! ## Ball::reset -/

section Reset

variable {α : Type} [LinearOrderedField α] [FloorRing α]

/-- C11: for every ball state and every Level, Ball::reset sets position to
(gridToWorld(startPos).x, radius, gridToWorld(startPos).z), velocity to
(0, 0, 0), isFalling to false and fallProgress to 0, whatever the state it is
called in; the radius is kept. -/
theorem reset_spec (L : Level α) (b : Ball α) :
    (b.reset L).position =
        ⟨(L.gridToWorld L.startPos.x L.startPos.y).x, b.radius,
          (L.gridToWorld L.startPos.x L.startPos.y).z⟩ ∧
      (b.reset L).velocity = ⟨0, 0, 0⟩ ∧
      (b.reset L).isFalling = false ∧
      (b.reset L).fallProgress = 0 ∧
      (b.reset L).radius = b.radius := by
  refine ⟨rfl, ?_, rfl, ?_, rfl⟩
  · simp only [Ball.reset]
    norm_num
  · simp only [Ball.reset]
    norm_num

theorem reachable_fallProgress (sqrt sin : α → α) (b : Ball α)
    (hb : Ball.Reachable sqrt sin b) :
    0 ≤ b.fallProgress ∧ (b.isFalling = false → b.fallProgress = 0) := by
  induction hb with
  | reset L b =>
    have h0 : (b.reset L).fallProgress = 0 := by
      simp only [Ball.reset]
      norm_num
    exact ⟨le_of_eq h0.symm, fun _ => h0⟩
  | update L dt tilt b hdt _ ih =>
    cases hf : b.isFalling with
    | true =>
      rw [update_of_falling _ _ _ _ _ _ hf]
      refine ⟨?_, fun h => ?_⟩
      · have : (0 : α) ≤ dt * 3.0 := mul_nonneg hdt (by norm_num)
        exact add_nonneg ih.1 this
      · simp [hf] at h
    | false =>
      rw [update_of_rolling _ _ _ _ _ _ hf]
      have h0 := ih.2 hf
      split_ifs
      · refine ⟨?_, fun _ => ?_⟩ <;> norm_num
      · exact ⟨le_of_eq h0.symm, fun _ => h0⟩

/-- C12 (amended): in every ball state reachable from Ball::reset by any
sequence of Ball::update calls with dt >= 0, the fall-progress scalar is at
least 0, and it is 0 while the ball is Rolling; it has no upper bound. -/
theorem fallProgress_nonneg (sqrt sin : α → α) (b : Ball α)
    (hb : Ball.Reachable sqrt sin b) :
    0 ≤ b.fallProgress ∧ (b.isFalling = false → b.fallProgress = 0) :=
  reachable_fallProgress sqrt sin b hb

end Reset

/-! ### The roll level, evaluated -/

theorem roll_reset (b : Ball ℝ) (hr : b.radius = 0.35) : b.reset rollLevel = rollStart := by
  have hs : rollLevel.startPos = ⟨1, 1⟩ := by decide
  have hw : rollLevel.width = 5 := by decide
  have hh : rollLevel.height = 3 := by decide
  have hc : rollLevel.cellSize = 1 := rfl
  simp only [Ball.reset, hs, Level.gridToWorld, Level.getBoardWidth, Level.getBoardDepth, hw, hh,
    hc, rollStart, hr]
  norm_num

theorem roll_worldToGrid : rollLevel.worldToGrid ⟨-0.00121, 0.35, 0⟩ = ⟨2, 1⟩ := by
  have hw : rollLevel.width = 5 := by decide
  have hh : rollLevel.height = 3 := by decide
  have hc : rollLevel.cellSize = 1 := rfl
  simp only [Level.worldToGrid, Level.getBoardWidth, Level.getBoardDepth, hw, hh, hc, truncToInt]
  norm_num

theorem roll_resolve (r : ℝ) :
    rollLevel.resolveWallCollision Real.sqrt ⟨-0.00121, 0.35, 0⟩ r = ⟨-0.00121, 0.35, 0⟩ := by
  unfold Level.resolveWallCollision
  rw [roll_worldToGrid]
  apply foldl_fixed
  intro d hd
  apply resolveCell_of_not_wall
  revert d
  decide

theorem roll_isOverHole (r : ℝ) :
    rollLevel.isOverHole Real.sqrt ⟨-0.00121, 0.35, 0⟩ r = true := by
  have hw : rollLevel.width = 5 := by decide
  have hh : rollLevel.height = 3 := by decide
  have hc : rollLevel.cellSize = 1 := rfl
  rw [isOverHole_eq_true, roll_worldToGrid]
  refine ⟨by decide, ?_⟩
  simp only [Level.centreDist, length2, Level.gridToWorld, Level.getBoardWidth,
    Level.getBoardDepth, hw, hh, hc]
  have hsq : Real.sqrt ((-0.00121 - ((((2 : Int) : ℝ) + 0.5) * 1 - ((5 : Int) : ℝ) * 1 / 2.0)) *
      (-0.00121 - ((((2 : Int) : ℝ) + 0.5) * 1 - ((5 : Int) : ℝ) * 1 / 2.0)) +
      (0 - ((((1 : Int) : ℝ) + 0.5) * 1 - ((3 : Int) : ℝ) * 1 / 2.0)) *
      (0 - ((((1 : Int) : ℝ) + 0.5) * 1 - ((3 : Int) : ℝ) * 1 / 2.0))) = 0.00121 := by
    apply real_sqrt_of_sq <;> norm_num
  rw [hsq]
  norm_num

theorem roll_first_tick :
    rollStart.update Real.sqrt Real.sin 0.13 ⟨-(Real.pi / 2), 0⟩ rollLevel = rollEntered := by
  have hsin : Real.sin (-(Real.pi / 2)) = -1 := by
    rw [Real.sin_neg, Real.sin_pi_div_two]
  have hfv : rollStart.frictionVelocity Real.sin 0.13 ⟨-(Real.pi / 2), 0⟩ = ⟨7.683, 0, 0⟩ := by
    simp only [Ball.frictionVelocity, rollStart, hsin, Real.sin_zero, Config.BALL_GRAVITY,
      Config.BALL_FRICTION]
    norm_num
  have hcv : rollStart.clampedVelocity Real.sqrt Real.sin 0.13 ⟨-(Real.pi / 2), 0⟩
      = ⟨7.683, 0, 0⟩ := by
    unfold Ball.clampedVelocity
    rw [hfv]
    have hsq : Real.sqrt ((7.683 : ℝ) * 7.683 + 0 * 0) = 7.683 := by
      apply real_sqrt_of_sq <;> norm_num
    simp only [hsq, Config.BALL_MAX_SPEED]
    norm_num
  have hten : rollStart.tentative Real.sqrt Real.sin 0.13 ⟨-(Real.pi / 2), 0⟩
      = ⟨-0.00121, 0.35, 0⟩ := by
    unfold Ball.tentative
    rw [hcv]
    simp only [rollStart]
    norm_num
  have hres : rollStart.resolved Real.sqrt Real.sin 0.13 ⟨-(Real.pi / 2), 0⟩ rollLevel
      = ⟨-0.00121, 0.35, 0⟩ := by
    unfold Ball.resolved
    rw [hten]
    exact roll_resolve _
  rw [update_of_rolling _ _ _ _ _ _ rfl, hres]
  have hh : rollLevel.isOverHole Real.sqrt ⟨-0.00121, 0.35, 0⟩ rollStart.radius = true :=
    roll_isOverHole _
  rw [if_pos hh]
  simp only [rollStart, rollEntered]
  norm_num

theorem roll_reachable :
    Ball.Reachable Real.sqrt Real.sin
      (rollEntered.updates Real.sqrt Real.sin rollLevel [(0.2, ⟨0, 0⟩), (0.2, ⟨0, 0⟩)]) := by
  have h0 : Ball.Reachable Real.sqrt Real.sin rollStart := by
    rw [← roll_reset (Ball.default : Ball ℝ) rfl]
    exact Ball.Reachable.reset _ _
  have h1 : Ball.Reachable Real.sqrt Real.sin rollEntered := by
    rw [← roll_first_tick]
    exact Ball.Reachable.update _ _ _ _ (by norm_num) h0
  simp only [Ball.updates, List.foldl_cons, List.foldl_nil]
  exact Ball.Reachable.update _ _ _ _ (by norm_num)
    (Ball.Reachable.update _ _ _ _ (by norm_num) h1)

theorem fallProgress_nonneg_witness :
    0 ≤ (rollEntered.updates Real.sqrt Real.sin rollLevel
          [(0.2, ⟨0, 0⟩), (0.2, ⟨0, 0⟩)]).fallProgress :=
  (fallProgress_nonneg Real.sqrt Real.sin _ roll_reachable).1

/-- C12 as stated fails: reset on a level whose start cell lies next to a hole,
one tick that rolls the ball onto the hole, and two Falling ticks of 0.2 s give
a reachable state with fallProgress 1.2, above 1. -/
theorem fallProgress_counterexample :
    (Ball.default : Ball ℝ).reset rollLevel = rollStart ∧
    rollStart.update Real.sqrt Real.sin 0.13 ⟨-(Real.pi / 2), 0⟩ rollLevel = rollEntered ∧
    Ball.Reachable Real.sqrt Real.sin
      (rollEntered.updates Real.sqrt Real.sin rollLevel [(0.2, ⟨0, 0⟩), (0.2, ⟨0, 0⟩)]) ∧
    ¬ ((rollEntered.updates Real.sqrt Real.sin rollLevel
          [(0.2, ⟨0, 0⟩), (0.2, ⟨0, 0⟩)]).fallProgress ≤ 1) := by
  refine ⟨roll_reset _ rfl, roll_first_tick, roll_reachable, ?_⟩
  rw [(updates_of_falling Real.sqrt Real.sin rollLevel _ rollEntered rfl).2.2.1]
  simp only [rollEntered, elapsed, List.map_cons, List.map_nil, List.sum_cons, List.sum_nil]
  norm_num
/-! ## LevelManager -/

section Manager

variable {α : Type}

theorem nextLevel_eq (m : LevelManager α) :
    m.nextLevel =
      if m.currentLevelIndex + 1 < (m.levels.length : Int) then
        (true, { m with currentLevelIndex := m.currentLevelIndex + 1 })
      else (false, m) := by
  unfold LevelManager.nextLevel LevelManager.hasNextLevel
  by_cases h : m.currentLevelIndex + 1 < (m.levels.length : Int)
  · simp [h]
  · simp [h]

theorem nextLevels_invariant (m : LevelManager α) (h0 : m.currentLevelIndex = 0)
    (hne : m.levels ≠ []) (n : Nat) :
    (m.nextLevels n).levels = m.levels ∧ 0 ≤ (m.nextLevels n).currentLevelIndex ∧
      (m.nextLevels n).currentLevelIndex < (m.levels.length : Int) := by
  have hpos : 0 < m.levels.length := List.length_pos.mpr hne
  induction n with
  | zero =>
    refine ⟨rfl, ?_, ?_⟩
    · show 0 ≤ m.currentLevelIndex
      omega
    · show m.currentLevelIndex < (m.levels.length : Int)
      omega
  | succ n ih =>
    obtain ⟨h1, h2, h3⟩ := ih
    show ((m.nextLevels n).nextLevel.2).levels = m.levels ∧
      0 ≤ ((m.nextLevels n).nextLevel.2).currentLevelIndex ∧
      ((m.nextLevels n).nextLevel.2).currentLevelIndex < (m.levels.length : Int)
    rw [nextLevel_eq]
    split_ifs with h
    · rw [h1] at h
      exact ⟨h1, by show 0 ≤ (m.nextLevels n).currentLevelIndex + 1; omega, h⟩
    · exact ⟨h1, h2, h3⟩

/-- C18: nextLevel increments currentLevelIndex by exactly one and returns true
when currentLevelIndex + 1 < levels.size(), and otherwise returns false and
leaves the manager unchanged; hence, from index 0 on a non-empty list, after any
number of calls the level list is the same, the index lies in
[0, levels.size()), and a further call never lowers it and raises it by at most
one (no wrap-around). -/
theorem nextLevel_index (m : LevelManager α) (h0 : m.currentLevelIndex = 0)
    (hne : m.levels ≠ []) (n : Nat) :
    (∀ k : LevelManager α,
      k.nextLevel =
        if k.currentLevelIndex + 1 < (k.levels.length : Int) then
          (true, { k with currentLevelIndex := k.currentLevelIndex + 1 })
        else (false, k)) ∧
    (m.nextLevels n).levels = m.levels ∧
    0 ≤ (m.nextLevels n).currentLevelIndex ∧
    (m.nextLevels n).currentLevelIndex < (m.levels.length : Int) ∧
    (m.nextLevels n).currentLevelIndex ≤ (m.nextLevels (n + 1)).currentLevelIndex ∧
    (m.nextLevels (n + 1)).currentLevelIndex ≤ (m.nextLevels n).currentLevelIndex + 1 := by
  obtain ⟨h1, h2, h3⟩ := nextLevels_invariant m h0 hne n
  refine ⟨nextLevel_eq, h1, h2, h3, ?_, ?_⟩
  · show (m.nextLevels n).currentLevelIndex ≤ ((m.nextLevels n).nextLevel.2).currentLevelIndex
    rw [nextLevel_eq]
    split_ifs
    · show (m.nextLevels n).currentLevelIndex ≤ (m.nextLevels n).currentLevelIndex + 1
      omega
    · exact le_rfl
  · show ((m.nextLevels n).nextLevel.2).currentLevelIndex ≤ (m.nextLevels n).currentLevelIndex + 1
    rw [nextLevel_eq]
    split_ifs
    · exact le_rfl
    · show (m.nextLevels n).currentLevelIndex ≤ (m.nextLevels n).currentLevelIndex + 1
      omega

theorem nextLevel_index_witness :
    (⟨[sampleLevel, sampleLevel], 0⟩ : LevelManager ℚ).currentLevelIndex = 0 ∧
      (⟨[sampleLevel, sampleLevel], 0⟩ : LevelManager ℚ).levels ≠ [] ∧
      ((⟨[sampleLevel, sampleLevel], 0⟩ : LevelManager ℚ).nextLevels 3).currentLevelIndex
        < (([sampleLevel, sampleLevel] : List (Level ℚ)).length : Int) :=
  ⟨rfl, by simp,
    (nextLevel_index (⟨[sampleLevel, sampleLevel], 0⟩ : LevelManager ℚ) rfl (by simp)
      3).2.2.2.1⟩

/-- C19, the code at the empty manager: hasNextLevel and nextLevel return false
and leave the manager unchanged, but getCurrentLevel reads levels[0] of an empty
list, outside the level list. -/
theorem empty_manager (α : Type) :
    (LevelManager.empty : LevelManager α).hasNextLevel = false ∧
      (LevelManager.empty : LevelManager α).nextLevel = (false, LevelManager.empty) ∧
      (LevelManager.empty : LevelManager α).getCurrentLevel = none := by
  refine ⟨?_, ?_, ?_⟩
  · simp [LevelManager.hasNextLevel, LevelManager.empty]
  · rw [nextLevel_eq]
    simp [LevelManager.empty]
  · simp [LevelManager.getCurrentLevel, LevelManager.empty]

end Manager

/-! ## The constructor: size, start and goal -/

theorem scanCell_width (y x : Int) (c : Char) (s : Scan) : (scanCell y x c s).width = s.width := by
  unfold scanCell
  split_ifs <;> rfl

theorem scanCells_width (y : Int) (cs : List Char) (x : Int) (s : Scan) :
    (scanCells y x cs s).width = s.width := by
  induction cs generalizing x s with
  | nil => rfl
  | cons c cs ih => rw [scanCells, ih, scanCell_width]

theorem scanRows_width (rows : List (List Char)) (y : Int) (s : Scan) :
    (scanRows y rows s).width = (rows.map fun row => (row.length : Int)).foldl max s.width := by
  induction rows generalizing y s with
  | nil => rfl
  | cons row rows ih =>
    rw [scanRows, ih, scanCells_width]
    rfl

theorem foldl_max_ge (l : List Int) (a : Int) :
    a ≤ l.foldl max a ∧ ∀ b ∈ l, b ≤ l.foldl max a := by
  induction l generalizing a with
  | nil => simp
  | cons c l ih =>
    obtain ⟨h1, h2⟩ := ih (max a c)
    refine ⟨le_trans (le_max_left a c) h1, ?_⟩
    intro b hb
    rcases List.mem_cons.mp hb with rfl | hb
    · exact le_trans (le_max_right a b) h1
    · exact h2 b hb

theorem foldl_max_mem (l : List Int) (a : Int) : l.foldl max a = a ∨ l.foldl max a ∈ l := by
  induction l generalizing a with
  | nil => left; rfl
  | cons c l ih =>
    rcases ih (max a c) with h | h
    · rcases max_choice a c with e | e
      · left; rw [List.foldl_cons, h, e]
      · right; rw [List.foldl_cons, h, e]; exact List.mem_cons_self _ _
    · right; exact List.mem_cons_of_mem _ h

theorem scanCell_startPos (y x : Int) (c : Char) (s : Scan) :
    (scanCell y x c s).startPos = if c = 'S' then ⟨x, y⟩ else s.startPos := by
  unfold scanCell
  split_ifs <;> rfl

theorem scanCell_goalPos (y x : Int) (c : Char) (s : Scan) :
    (scanCell y x c s).goalPos = if c = 'G' then ⟨x, y⟩ else s.goalPos := by
  unfold scanCell
  by_cases hS : c = 'S'
  · subst hS; simp
  · by_cases hG : c = 'G'
    · subst hG; simp
    · simp only [if_neg hS, if_neg hG]
      split_ifs <;> rfl

theorem scanCells_startPos (y : Int) (cs : List Char) (x : Int) (s : Scan) :
    ((scanCells y x cs s).startPos = s.startPos ∧ ∀ i : Nat, cs[i]? ≠ some 'S') ∨
      ∃ i : Nat, cs[i]? = some 'S' ∧ (scanCells y x cs s).startPos = ⟨x + i, y⟩ := by
  induction cs generalizing x s with
  | nil => left; exact ⟨rfl, fun i => by simp⟩
  | cons c cs ih =>
    rw [scanCells]
    rcases ih (x + 1) (scanCell y x c s) with ⟨h1, h2⟩ | ⟨i, h1, h2⟩
    · rw [scanCell_startPos] at h1
      by_cases hc : c = 'S'
      · right
        refine ⟨0, by simp [hc], ?_⟩
        rw [h1, if_pos hc]
        simp
      · left
        rw [if_neg hc] at h1
        refine ⟨h1, fun i => ?_⟩
        cases i with
        | zero => simpa using hc
        | succ i => simpa using h2 i
    · right
      refine ⟨i + 1, by simpa using h1, ?_⟩
      rw [h2]
      simp only [Nat.cast_add, Nat.cast_one, IVec2.mk.injEq, and_true]
      ring

theorem scanCells_goalPos (y : Int) (cs : List Char) (x : Int) (s : Scan) :
    ((scanCells y x cs s).goalPos = s.goalPos ∧ ∀ i : Nat, cs[i]? ≠ some 'G') ∨
      ∃ i : Nat, cs[i]? = some 'G' ∧ (scanCells y x cs s).goalPos = ⟨x + i, y⟩ := by
  induction cs generalizing x s with
  | nil => left; exact ⟨rfl, fun i => by simp⟩
  | cons c cs ih =>
    rw [scanCells]
    rcases ih (x + 1) (scanCell y x c s) with ⟨h1, h2⟩ | ⟨i, h1, h2⟩
    · rw [scanCell_goalPos] at h1
      by_cases hc : c = 'G'
      · right
        refine ⟨0, by simp [hc], ?_⟩
        rw [h1, if_pos hc]
        simp
      · left
        rw [if_neg hc] at h1
        refine ⟨h1, fun i => ?_⟩
        cases i with
        | zero => simpa using hc
        | succ i => simpa using h2 i
    · right
      refine ⟨i + 1, by simpa using h1, ?_⟩
      rw [h2]
      simp only [Nat.cast_add, Nat.cast_one, IVec2.mk.injEq, and_true]
      ring

theorem scanRows_startPos (rows : List (List Char)) (y : Int) (s : Scan) :
    ((scanRows y rows s).startPos = s.startPos ∧
        ∀ (j : Nat) (row : List Char), rows[j]? = some row → ∀ i : Nat, row[i]? ≠ some 'S') ∨
      ∃ (j i : Nat) (row : List Char), rows[j]? = some row ∧ row[i]? = some 'S' ∧
        (scanRows y rows s).startPos = ⟨i, y + j⟩ := by
  induction rows generalizing y s with
  | nil => left; exact ⟨rfl, fun j row h => by simp at h⟩
  | cons r rows ih =>
    rw [scanRows]
    rcases ih (y + 1) (scanCells y 0 r { s with width := max s.width (r.length : Int) })
      with ⟨h1, h2⟩ | ⟨j, i, row, h1, h2, h3⟩
    · rcases scanCells_startPos y r 0 { s with width := max s.width (r.length : Int) }
        with ⟨h3, h4⟩ | ⟨i, h3, h4⟩
      · left
        refine ⟨by rw [h1, h3], fun j row hrow => ?_⟩
        cases j with
        | zero =>
          have : r = row := by simpa using hrow
          subst this
          exact h4
        | succ j => exact h2 j row (by simpa using hrow)
      · right
        refine ⟨0, i, r, by simp, h3, ?_⟩
        rw [h1, h4]
        simp
    · right
      refine ⟨j + 1, i, row, by simpa using h1, h2, ?_⟩
      rw [h3]
      simp only [Nat.cast_add, Nat.cast_one, IVec2.mk.injEq, true_and]
      ring

theorem scanRows_goalPos (rows : List (List Char)) (y : Int) (s : Scan) :
    ((scanRows y rows s).goalPos = s.goalPos ∧
        ∀ (j : Nat) (row : List Char), rows[j]? = some row → ∀ i : Nat, row[i]? ≠ some 'G') ∨
      ∃ (j i : Nat) (row : List Char), rows[j]? = some row ∧ row[i]? = some 'G' ∧
        (scanRows y rows s).goalPos = ⟨i, y + j⟩ := by
  induction rows generalizing y s with
  | nil => left; exact ⟨rfl, fun j row h => by simp at h⟩
  | cons r rows ih =>
    rw [scanRows]
    rcases ih (y + 1) (scanCells y 0 r { s with width := max s.width (r.length : Int) })
      with ⟨h1, h2⟩ | ⟨j, i, row, h1, h2, h3⟩
    · rcases scanCells_goalPos y r 0 { s with width := max s.width (r.length : Int) }
        with ⟨h3, h4⟩ | ⟨i, h3, h4⟩
      · left
        refine ⟨by rw [h1, h3], fun j row hrow => ?_⟩
        cases j with
        | zero =>
          have : r = row := by simpa using hrow
          subst this
          exact h4
        | succ j => exact h2 j row (by simpa using hrow)
      · right
        refine ⟨0, i, r, by simp, h3, ?_⟩
        rw [h1, h4]
        simp
    · right
      refine ⟨j + 1, i, row, by simpa using h1, h2, ?_⟩
      rw [h3]
      simp only [Nat.cast_add, Nat.cast_one, IVec2.mk.injEq, true_and]
      ring
theorem fromGrid_startPos {α : Type} (gridData : List (List Char)) (cellSize : α)
    (x y : Nat) (row : List Char) (hrow : gridData[y]? = some row) (hS : row[x]? = some 'S')
    (huniq : ∀ (j i : Nat) (r : List Char), gridData[j]? = some r → r[i]? = some 'S' →
      i = x ∧ j = y) :
    (Level.fromGrid gridData cellSize).startPos = ⟨x, y⟩ := by
  show (scanRows 0 gridData ⟨0, ⟨0, 0⟩, ⟨0, 0⟩, []⟩).startPos = ⟨x, y⟩
  rcases scanRows_startPos gridData 0 ⟨0, ⟨0, 0⟩, ⟨0, 0⟩, []⟩ with ⟨_, h2⟩ | ⟨j, i, r, h1, h2, h3⟩
  · exact absurd hS (h2 y row hrow x)
  · obtain ⟨hi, hj⟩ := huniq j i r h1 h2
    rw [h3, hi, hj]
    simp

theorem fromGrid_goalPos {α : Type} (gridData : List (List Char)) (cellSize : α)
    (x y : Nat) (row : List Char) (hrow : gridData[y]? = some row) (hG : row[x]? = some 'G')
    (huniq : ∀ (j i : Nat) (r : List Char), gridData[j]? = some r → r[i]? = some 'G' →
      i = x ∧ j = y) :
    (Level.fromGrid gridData cellSize).goalPos = ⟨x, y⟩ := by
  show (scanRows 0 gridData ⟨0, ⟨0, 0⟩, ⟨0, 0⟩, []⟩).goalPos = ⟨x, y⟩
  rcases scanRows_goalPos gridData 0 ⟨0, ⟨0, 0⟩, ⟨0, 0⟩, []⟩ with ⟨_, h2⟩ | ⟨j, i, r, h1, h2, h3⟩
  · exact absurd hG (h2 y row hrow x)
  · obtain ⟨hi, hj⟩ := huniq j i r h1 h2
    rw [h3, hi, hj]
    simp

theorem fromGrid_width {α : Type} (gridData : List (List Char)) (cellSize : α) :
    (∀ row ∈ gridData, (row.length : Int) ≤ (Level.fromGrid gridData cellSize).width) ∧
      ((Level.fromGrid gridData cellSize).width = 0 ∨
        ∃ row ∈ gridData, (row.length : Int) = (Level.fromGrid gridData cellSize).width) := by
  have hw : (Level.fromGrid gridData cellSize).width =
      (gridData.map fun row => (row.length : Int)).foldl max 0 :=
    scanRows_width gridData 0 ⟨0, ⟨0, 0⟩, ⟨0, 0⟩, []⟩
  rw [hw]
  constructor
  · intro row hrow
    exact (foldl_max_ge _ 0).2 _ (List.mem_map.mpr ⟨row, hrow, rfl⟩)
  · rcases foldl_max_mem (gridData.map fun row => (row.length : Int)) 0 with h | h
    · left; exact h
    · right
      obtain ⟨row, hrow, hlen⟩ := List.mem_map.mp h
      exact ⟨row, hrow, hlen⟩

/-- C16: the Level constructor sets height to the number of rows and width to
the length of the longest row (0 for no rows); when exactly one cell holds 'S'
(resp. 'G'), startPos (resp. goalPos) is its (column, row); and the grid
["#####","#S.G#","#####"] with cell size 1 yields width 5, height 3, startPos
(1,1), goalPos (3,1), no holes and gridToWorld(1,1) = (-1, 0, 0). -/
theorem fromGrid_spec {α : Type} [LinearOrderedField α] [FloorRing α]
    (gridData : List (List Char)) (cellSize : α) :
    (Level.fromGrid gridData cellSize).height = (gridData.length : Int) ∧
    (∀ row ∈ gridData, (row.length : Int) ≤ (Level.fromGrid gridData cellSize).width) ∧
    ((Level.fromGrid gridData cellSize).width = 0 ∨
      ∃ row ∈ gridData, (row.length : Int) = (Level.fromGrid gridData cellSize).width) ∧
    (∀ (x y : Nat) (row : List Char), gridData[y]? = some row → row[x]? = some 'S' →
      (∀ (j i : Nat) (r : List Char), gridData[j]? = some r → r[i]? = some 'S' → i = x ∧ j = y) →
      (Level.fromGrid gridData cellSize).startPos = ⟨x, y⟩) ∧
    (∀ (x y : Nat) (row : List Char), gridData[y]? = some row → row[x]? = some 'G' →
      (∀ (j i : Nat) (r : List Char), gridData[j]? = some r → r[i]? = some 'G' → i = x ∧ j = y) →
      (Level.fromGrid gridData cellSize).goalPos = ⟨x, y⟩) ∧
    ((Level.fromGrid sampleGrid (1 : α)).width = 5 ∧
      (Level.fromGrid sampleGrid (1 : α)).height = 3 ∧
      (Level.fromGrid sampleGrid (1 : α)).startPos = ⟨1, 1⟩ ∧
      (Level.fromGrid sampleGrid (1 : α)).goalPos = ⟨3, 1⟩ ∧
      (Level.fromGrid sampleGrid (1 : α)).holePoss = [] ∧
      (Level.fromGrid sampleGrid (1 : α)).gridToWorld 1 1 = ⟨-1, 0, 0⟩) := by
  refine ⟨rfl, (fromGrid_width gridData cellSize).1, (fromGrid_width gridData cellSize).2,
    fun x y row h1 h2 h3 => fromGrid_startPos gridData cellSize x y row h1 h2 h3,
    fun x y row h1 h2 h3 => fromGrid_goalPos gridData cellSize x y row h1 h2 h3, ?_⟩
  have hscan : scanRows 0 sampleGrid ⟨0, ⟨0, 0⟩, ⟨0, 0⟩, []⟩ = ⟨5, ⟨1, 1⟩, ⟨3, 1⟩, []⟩ := by
    decide
  have hw : (Level.fromGrid sampleGrid (1 : α)).width = 5 := by
    show (scanRows 0 sampleGrid ⟨0, ⟨0, 0⟩, ⟨0, 0⟩, []⟩).width = 5
    rw [hscan]
  have hh : (Level.fromGrid sampleGrid (1 : α)).height = 3 := rfl
  have hsp : (Level.fromGrid sampleGrid (1 : α)).startPos = ⟨1, 1⟩ := by
    show (scanRows 0 sampleGrid ⟨0, ⟨0, 0⟩, ⟨0, 0⟩, []⟩).startPos = ⟨1, 1⟩
    rw [hscan]
  have hgp : (Level.fromGrid sampleGrid (1 : α)).goalPos = ⟨3, 1⟩ := by
    show (scanRows 0 sampleGrid ⟨0, ⟨0, 0⟩, ⟨0, 0⟩, []⟩).goalPos = ⟨3, 1⟩
    rw [hscan]
  have hhp : (Level.fromGrid sampleGrid (1 : α)).holePoss = [] := by
    show (scanRows 0 sampleGrid ⟨0, ⟨0, 0⟩, ⟨0, 0⟩, []⟩).holePoss = []
    rw [hscan]
  refine ⟨hw, hh, hsp, hgp, hhp, ?_⟩
  simp only [Level.gridToWorld, Level.getBoardWidth, Level.getBoardDepth, hw, hh]
  have hc : (Level.fromGrid sampleGrid (1 : α)).cellSize = 1 := rfl
  rw [hc]
  norm_num

/-! ## The constructor: holes -/

theorem pairwise_holesIn (y : Int) (cs : List Char) (x : Int) :
    (holesIn y x cs).Pairwise (fun a b => a.y = b.y ∧ a.x < b.x) := by
  induction cs generalizing x with
  | nil => simp [holesIn]
  | cons c cs ih =>
    rw [holesIn, List.pairwise_append]
    refine ⟨?_, ih (x + 1), ?_⟩
    · split_ifs <;> simp
    · intro a ha b hb
      have hb' := (mem_holesIn y cs (x + 1) b).mp hb
      split_ifs at ha with hc
      · have : a = ⟨x, y⟩ := by simpa using ha
        subst this
        exact ⟨hb'.1.symm, by show x < b.x; omega⟩
      · exact absurd ha (List.not_mem_nil _)

theorem pairwise_holesInRows (rows : List (List Char)) (y : Int) :
    (holesInRows y rows).Pairwise (fun a b => a.y < b.y ∨ (a.y = b.y ∧ a.x < b.x)) := by
  induction rows generalizing y with
  | nil => simp [holesInRows]
  | cons row rows ih =>
    rw [holesInRows, List.pairwise_append]
    refine ⟨(pairwise_holesIn y row 0).imp (fun h => Or.inr h), ih (y + 1), ?_⟩
    intro a ha b hb
    have ha' := (mem_holesIn y row 0 a).mp ha
    have hb' := (mem_holesInRows rows (y + 1) b).mp hb
    left
    omega

theorem holesInRows_nil_of_no_hole (rows : List (List Char)) (y : Int)
    (h : ∀ row ∈ rows, 'O' ∉ row) : holesInRows y rows = [] := by
  apply List.eq_nil_iff_forall_not_mem.mpr
  intro a ha
  obtain ⟨_, _, row, h1, h2⟩ := (mem_holesInRows rows y a).mp ha
  have hrow : row ∈ rows := List.getElem?_mem h1
  exact h row hrow (List.getElem?_mem h2)

/-- C17: for every grid, the constructed Level's holePoss contains exactly the
cells (x, y) with grid[y][x] == 'O'; it lists them in row-major scan order
(strictly increasing in y, then in x), hence each exactly once; and it is empty
when the grid has no 'O'. -/
theorem holePoss_spec {α : Type} (gridData : List (List Char)) (cellSize : α) :
    (∀ x y : Int, (⟨x, y⟩ : IVec2) ∈ (Level.fromGrid gridData cellSize).holePoss ↔
      0 ≤ x ∧ 0 ≤ y ∧ ∃ row, gridData[y.toNat]? = some row ∧ row[x.toNat]? = some 'O') ∧
    (Level.fromGrid gridData cellSize).holePoss.Pairwise
      (fun a b => a.y < b.y ∨ (a.y = b.y ∧ a.x < b.x)) ∧
    (Level.fromGrid gridData cellSize).holePoss.Nodup ∧
    ((∀ row ∈ gridData, 'O' ∉ row) → (Level.fromGrid gridData cellSize).holePoss = []) := by
  rw [fromGrid_holePoss]
  refine ⟨?_, pairwise_holesInRows gridData 0, ?_, holesInRows_nil_of_no_hole gridData 0⟩
  · intro x y
    rw [mem_holesInRows]
    constructor
    · rintro ⟨h1, h2, row, h3, h4⟩
      exact ⟨h2, h1, row, by simpa using h3, h4⟩
    · rintro ⟨h1, h2, row, h3, h4⟩
      exact ⟨h2, h1, row, by simpa using h3, h4⟩
  · refine (pairwise_holesInRows gridData 0).imp ?_
    intro a b hab heq
    subst heq
    omega

/-! ## Lists built by loops -/

theorem length_flatMap_sum {β γ : Type} (l : List β) (f : β → List γ) :
    (l.flatMap f).length = (l.map fun a => (f a).length).sum := by
  induction l with
  | nil => rfl
  | cons a l ih => simp [List.flatMap_cons, ih]

theorem length_flatMap_const {β γ : Type} (l : List β) (f : β → List γ) (c : Nat)
    (h : ∀ a ∈ l, (f a).length = c) : (l.flatMap f).length = l.length * c := by
  induction l with
  | nil => simp
  | cons a l ih =>
    rw [List.flatMap_cons, List.length_append, h a (List.mem_cons_self _ _),
      ih (fun b hb => h b (List.mem_cons_of_mem _ hb)), List.length_cons]
    ring

theorem sum_range_ne (k n : Nat) :
    ((List.range n).map fun i => if i ≠ k then 3 else 0).sum + (if k < n then 3 else 0)
      = 3 * n := by
  induction n with
  | zero => simp
  | succ n ih =>
    rw [List.range_succ, List.map_append, List.sum_append]
    simp only [List.map_cons, List.map_nil, List.sum_cons, List.sum_nil, add_zero]
    by_cases h1 : k < n
    · have h2 : n ≠ k := by omega
      have h3 : k < n + 1 := by omega
      rw [if_pos h1] at ih
      rw [if_pos h2, if_pos h3]
      omega
    · rw [if_neg h1] at ih
      by_cases h2 : n = k
      · have h3 : k < n + 1 := by omega
        have h4 : ¬ (n ≠ k) := fun h => h h2
        rw [if_neg h4, if_pos h3]
        omega
      · have h3 : ¬ (k < n + 1) := by omega
        rw [if_pos h2, if_neg h3]
        omega

theorem set_map_same {β γ : Type} (f : β → γ) (vs : List β) (i : Nat) (v w : β)
    (h : vs[i]? = some v) (hf : f w = f v) : (vs.set i w).map f = vs.map f := by
  induction vs generalizing i with
  | nil => simp
  | cons a vs ih =>
    cases i with
    | zero =>
      have : a = v := by simpa using h
      subst this
      simp [hf]
    | succ i =>
      have h' : vs[i]? = some v := by simpa using h
      simp [ih i h']

/-! ## The tangent pass -/

namespace Primitives

section Tangents

variable {α : Type} [LinearOrderedField α]

theorem tangentPass_some (sqrt : α → α) (n : Nat) (inds : List Nat) (vs : List (Vertex α))
    (hlen : inds.length = 3 * n) (hb : ∀ i ∈ inds, i < vs.length) :
    ∃ vs', tangentPass sqrt vs inds = some vs' ∧ vs'.length = vs.length ∧
      vs'.map Vertex.Position = vs.map Vertex.Position ∧
      vs'.map Vertex.Normal = vs.map Vertex.Normal ∧
      vs'.map Vertex.TexCoords = vs.map Vertex.TexCoords := by
  induction n generalizing inds vs with
  | zero =>
    have : inds = [] := List.length_eq_zero.mp (by omega)
    subst this
    exact ⟨vs, rfl, rfl, rfl, rfl, rfl⟩
  | succ n ih =>
    match inds, hlen, hb with
    | i0 :: i1 :: i2 :: rest, hlen, hb =>
      have h0 : i0 < vs.length := hb i0 (by simp)
      have h1 : i1 < vs.length := hb i1 (by simp)
      have h2 : i2 < vs.length := hb i2 (by simp)
      have e0 : vs[i0]? = some vs[i0] := List.getElem?_eq_getElem h0
      have e1 : vs[i1]? = some vs[i1] := List.getElem?_eq_getElem h1
      have e2 : vs[i2]? = some vs[i2] := List.getElem?_eq_getElem h2
      have hrest : rest.length = 3 * n := by
        simp only [List.length_cons] at hlen
        omega
      obtain ⟨vs', hp, hl, hP, hN, hT⟩ :=
        ih rest
          (((vs.set i0 (withTangent vs[i0] (computeTangent sqrt vs[i0] vs[i1] vs[i2]))).set i1
              (withTangent vs[i1] (computeTangent sqrt vs[i0] vs[i1] vs[i2]))).set i2
            (withTangent vs[i2] (computeTangent sqrt vs[i0] vs[i1] vs[i2])))
          hrest
          (fun i hi => by
            simp only [List.length_set]
            exact hb i (by simp [hi]))
      have s0 : ∀ (f : Vertex α → Vec3 α), (∀ v tb, f (withTangent v tb) = f v) →
          (((vs.set i0 (withTangent vs[i0] (computeTangent sqrt vs[i0] vs[i1] vs[i2]))).set i1
              (withTangent vs[i1] (computeTangent sqrt vs[i0] vs[i1] vs[i2]))).set i2
            (withTangent vs[i2] (computeTangent sqrt vs[i0] vs[i1] vs[i2]))).map f = vs.map f := by
        intro f hf
        rw [List.map_set, List.map_set, List.map_set, hf, hf, hf]
        rw [← List.map_set, set_map_same f vs i0 _ _ e0 rfl]
        rw [← List.map_set, set_map_same f vs i1 _ _ e1 rfl]
        rw [← List.map_set, set_map_same f vs i2 _ _ e2 rfl]
      have s1 : (((vs.set i0 (withTangent vs[i0] (computeTangent sqrt vs[i0] vs[i1] vs[i2]))).set i1
              (withTangent vs[i1] (computeTangent sqrt vs[i0] vs[i1] vs[i2]))).set i2
            (withTangent vs[i2] (computeTangent sqrt vs[i0] vs[i1] vs[i2]))).map Vertex.TexCoords
            = vs.map Vertex.TexCoords := by
        rw [List.map_set, List.map_set, List.map_set]
        show (((vs.map Vertex.TexCoords).set i0 (vs[i0]).TexCoords).set i1
          (vs[i1]).TexCoords).set i2 (vs[i2]).TexCoords = vs.map Vertex.TexCoords
        rw [← List.map_set, set_map_same Vertex.TexCoords vs i0 _ _ e0 rfl]
        rw [← List.map_set, set_map_same Vertex.TexCoords vs i1 _ _ e1 rfl]
        rw [← List.map_set, set_map_same Vertex.TexCoords vs i2 _ _ e2 rfl]
      refine ⟨vs', ?_, ?_, ?_, ?_, ?_⟩
      · rw [tangentPass, e0, e1, e2]
        exact hp
      · rw [hl]
        simp
      · rw [hP, s0 Vertex.Position (fun _ _ => rfl)]
      · rw [hN, s0 Vertex.Normal (fun _ _ => rfl)]
      · rw [hT, s1]
    | [], hlen, _ => simp at hlen
    | [_], hlen, _ =>
      simp only [List.length_cons, List.length_nil] at hlen
      omega
    | [_, _], hlen, _ =>
      simp only [List.length_cons, List.length_nil] at hlen
      omega

theorem finish_some (sqrt : α → α) (n : Nat) (inds : List Nat) (vs : List (Vertex α))
    (hlen : inds.length = 3 * n) (hb : ∀ i ∈ inds, i < vs.length) :
    ∃ mesh, finish sqrt vs inds = some mesh ∧ mesh.indices = inds ∧
      mesh.vertices.length = vs.length ∧
      mesh.vertices.map Vertex.Position = vs.map Vertex.Position ∧
      mesh.vertices.map Vertex.Normal = vs.map Vertex.Normal ∧
      mesh.vertices.map Vertex.TexCoords = vs.map Vertex.TexCoords := by
  obtain ⟨vs', h1, h2, h3, h4, h5⟩ := tangentPass_some sqrt n inds vs hlen hb
  exact ⟨⟨vs', inds⟩, by simp [finish, h1], rfl, h2, h3, h4, h5⟩

end Tangents

end Primitives
/-! ## Buffer sizes of the primitives -/

namespace Primitives

section Sizes

variable {α : Type} [LinearOrderedField α]

theorem sphereVertices_length (m : Libm α) (radius : α) (sectors stackCount : Nat) :
    (sphereVertices m radius sectors stackCount).length = (stackCount + 1) * (sectors + 1) := by
  unfold sphereVertices
  rw [length_flatMap_const _ _ (sectors + 1)]
  · rw [List.length_range]
  · intro i _
    simp only [List.length_map, List.length_range]

theorem sphereIndices_length (sectors stackCount : Nat) :
    (sphereIndices sectors stackCount).length = 6 * sectors * (stackCount - 1) := by
  unfold sphereIndices
  rw [length_flatMap_sum]
  have hinner : ∀ i : Nat,
      ((List.range sectors).flatMap fun j =>
        (if i ≠ 0 then [i * (sectors + 1) + j, i * (sectors + 1) + j + 1,
            i * (sectors + 1) + j + sectors + 1] else []) ++
          (if i ≠ stackCount - 1 then [i * (sectors + 1) + j + 1,
            i * (sectors + 1) + j + sectors + 1 + 1, i * (sectors + 1) + j + sectors + 1]
            else [])).length
        = sectors * ((if i ≠ 0 then 3 else 0) + (if i ≠ stackCount - 1 then 3 else 0)) := by
    intro i
    rw [length_flatMap_const _ _
      ((if i ≠ 0 then 3 else 0) + (if i ≠ stackCount - 1 then 3 else 0))]
    · simp
    · intro j _
      rw [List.length_append]
      split_ifs <;> rfl
  simp only [hinner]
  rw [List.sum_map_mul_left, List.sum_map_add]
  have h1 := sum_range_ne 0 stackCount
  have h2 := sum_range_ne (stackCount - 1) stackCount
  cases stackCount with
  | zero => simp
  | succ t =>
    have e1 : (0 : Nat) < t + 1 := by omega
    have e2 : t + 1 - 1 < t + 1 := by omega
    rw [if_pos e1] at h1
    rw [if_pos e2] at h2
    have h3 : ((List.range (t + 1)).map fun i => if i ≠ 0 then 3 else 0).sum = 3 * t := by
      omega
    have h4 : ((List.range (t + 1)).map fun i => if i ≠ t + 1 - 1 then 3 else 0).sum
        = 3 * t := by omega
    rw [h3, h4]
    simp only [Nat.add_sub_cancel]
    ring

theorem sphereIndices_lt (sectors stackCount idx : Nat)
    (h : idx ∈ sphereIndices sectors stackCount) :
    idx < (stackCount + 1) * (sectors + 1) := by
  unfold sphereIndices at h
  simp only [List.mem_flatMap, List.mem_range, List.mem_append] at h
  obtain ⟨i, hi, j, hj, hmem⟩ := h
  have hmul : (i + 1) * (sectors + 1) ≤ stackCount * (sectors + 1) :=
    Nat.mul_le_mul_right _ hi
  have e1 : (i + 1) * (sectors + 1) = i * (sectors + 1) + (sectors + 1) := by ring
  have e2 : (stackCount + 1) * (sectors + 1) = stackCount * (sectors + 1) + (sectors + 1) := by
    ring
  rw [e1] at hmul
  rw [e2]
  rcases hmem with hmem | hmem
  · split_ifs at hmem
    · simp only [List.mem_cons, List.mem_singleton, List.not_mem_nil, or_false] at hmem
      omega
    · exact absurd hmem (List.not_mem_nil _)
  · split_ifs at hmem
    · simp only [List.mem_cons, List.mem_singleton, List.not_mem_nil, or_false] at hmem
      omega
    · exact absurd hmem (List.not_mem_nil _)

theorem sideRings_length (m : Libm α) (b t h s : α) (sectors : Nat) :
    (sideRings m b t h s sectors).length = 2 * (sectors + 1) := by
  unfold sideRings
  rw [length_flatMap_const _ _ (sectors + 1)]
  · rw [List.length_range]
  · intro i _
    simp only [List.length_map, List.length_range]

theorem capVertices_length (m : Libm α) (r y ny : α) (sectors : Nat) :
    (capVertices m r y ny sectors).length = sectors + 2 := by
  simp only [capVertices, List.length_cons, List.length_map, List.length_range]

theorem cylinderVertices_length (m : Libm α) (radius height : α) (sectors : Nat) :
    (cylinderVertices m radius height sectors).length = 4 * sectors + 6 := by
  simp only [cylinderVertices, List.length_append, sideRings_length, capVertices_length]
  omega

theorem frustumVertices_length (m : Libm α) (sides : Nat) (b t height : α) :
    (frustumVertices m sides b t height).length = 4 * sides + 6 := by
  simp only [frustumVertices, List.length_append, sideRings_length, capVertices_length]
  omega

theorem coneVertices_length (m : Libm α) (radius height : α) (sectors : Nat) :
    (coneVertices m radius height sectors).length = 2 * sectors + 4 := by
  simp only [coneVertices, List.length_append, List.length_cons, List.length_map,
    List.length_range, capVertices_length]
  omega

theorem cylinderIndices_length (sectors : Nat) :
    (cylinderIndices sectors).length = 3 * (4 * sectors) := by
  have h1 : (sideIndices sectors).length = sectors * 6 := by
    unfold sideIndices
    rw [length_flatMap_const _ _ 6]
    · simp
    · intro _ _
      rfl
  have h2 : ∀ c, (topCapIndices c sectors).length = sectors * 3 := by
    intro c
    unfold topCapIndices
    rw [length_flatMap_const _ _ 3]
    · simp
    · intro _ _
      rfl
  have h3 : ∀ c, (bottomCapIndices c sectors).length = sectors * 3 := by
    intro c
    unfold bottomCapIndices
    rw [length_flatMap_const _ _ 3]
    · simp
    · intro _ _
      rfl
  simp only [cylinderIndices, List.length_append, h1, h2, h3]
  omega

theorem cylinderIndices_lt (sectors idx : Nat) (h : idx ∈ cylinderIndices sectors) :
    idx < 4 * sectors + 6 := by
  simp only [cylinderIndices, sideIndices, topCapIndices, bottomCapIndices, List.mem_append,
    List.mem_flatMap, List.mem_range, List.mem_cons, List.mem_singleton, List.not_mem_nil,
    or_false] at h
  rcases h with (⟨j, hj, h⟩ | ⟨j, hj, h⟩) | ⟨j, hj, h⟩ <;> omega

theorem coneIndices_length (sectors : Nat) :
    (coneIndices sectors).length = 3 * (2 * sectors) := by
  have h1 : ((List.range sectors).flatMap fun (j : Nat) => [0, j + 2, j + 1]).length = sectors * 3 := by
    rw [length_flatMap_const _ _ 3]
    · simp
    · intro _ _
      rfl
  have h3 : ∀ c, (bottomCapIndices c sectors).length = sectors * 3 := by
    intro c
    unfold bottomCapIndices
    rw [length_flatMap_const _ _ 3]
    · simp
    · intro _ _
      rfl
  simp only [coneIndices, List.length_append, h1, h3]
  omega

theorem coneIndices_lt (sectors idx : Nat) (h : idx ∈ coneIndices sectors) :
    idx < 2 * sectors + 4 := by
  simp only [coneIndices, bottomCapIndices, List.mem_append, List.mem_flatMap, List.mem_range,
    List.mem_cons, List.mem_singleton, List.not_mem_nil, or_false] at h
  rcases h with ⟨j, hj, h⟩ | ⟨j, hj, h⟩ <;> omega

theorem cubeVertices_length (size : α) : (cubeVertices size).length = 24 := rfl

theorem cubeIndices_lt : ∀ idx ∈ cubeIndices, idx < 24 := by decide

theorem createCube_some (sqrt : α → α) (size : α) :
    ∃ mesh, createCube sqrt size = some mesh ∧ mesh.indices = cubeIndices ∧
      mesh.vertices.length = 24 ∧
      mesh.vertices.map Vertex.Position = (cubeVertices size).map Vertex.Position ∧
      mesh.vertices.map Vertex.Normal = (cubeVertices size).map Vertex.Normal ∧
      mesh.vertices.map Vertex.TexCoords = (cubeVertices size).map Vertex.TexCoords :=
  finish_some sqrt 12 cubeIndices (cubeVertices size) rfl cubeIndices_lt

theorem createCylinder_some (m : Libm α) (radius height : α) (sectors : Nat) :
    ∃ mesh, createCylinder m radius height sectors = some mesh ∧
      mesh.indices = cylinderIndices sectors ∧
      mesh.vertices.length = (cylinderVertices m radius height sectors).length ∧
      mesh.vertices.map Vertex.Position =
        (cylinderVertices m radius height sectors).map Vertex.Position ∧
      mesh.vertices.map Vertex.Normal =
        (cylinderVertices m radius height sectors).map Vertex.Normal ∧
      mesh.vertices.map Vertex.TexCoords =
        (cylinderVertices m radius height sectors).map Vertex.TexCoords :=
  finish_some m.sqrt (4 * sectors) _ _ (cylinderIndices_length sectors)
    (fun i hi => by rw [cylinderVertices_length]; exact cylinderIndices_lt sectors i hi)

theorem createSphere_some (m : Libm α) (radius : α) (sectors stackCount : Nat) :
    ∃ mesh, createSphere m radius sectors stackCount = some mesh ∧
      mesh.indices = sphereIndices sectors stackCount ∧
      mesh.vertices.length = (stackCount + 1) * (sectors + 1) := by
  obtain ⟨mesh, h1, h2, h3, _⟩ :=
    finish_some m.sqrt (2 * sectors * (stackCount - 1)) (sphereIndices sectors stackCount)
      (sphereVertices m radius sectors stackCount)
      (by rw [sphereIndices_length]; ring)
      (fun i hi => by rw [sphereVertices_length]; exact sphereIndices_lt _ _ i hi)
  exact ⟨mesh, h1, h2, by rw [h3, sphereVertices_length]⟩

/-- C13: for all sectors S >= 1 and stacks T >= 1 and any radius, createSphere
returns a mesh with exactly (T+1)*(S+1) vertices and exactly 6*S*(T-1) indices,
that is 2*S*(T-1) triangles. -/
theorem createSphere_counts (m : Libm α) (radius : α) (sectors stackCount : Nat)
    (_hS : 1 ≤ sectors) (_hT : 1 ≤ stackCount) :
    ∃ mesh, createSphere m radius sectors stackCount = some mesh ∧
      mesh.vertices.length = (stackCount + 1) * (sectors + 1) ∧
      mesh.indices.length = 6 * sectors * (stackCount - 1) ∧
      mesh.indices.length = 3 * (2 * sectors * (stackCount - 1)) := by
  obtain ⟨mesh, h1, h2, h3⟩ := createSphere_some m radius sectors stackCount
  refine ⟨mesh, h1, h3, by rw [h2, sphereIndices_length], ?_⟩
  rw [h2, sphereIndices_length]
  ring

theorem createSphere_counts_witness :
    ∃ mesh, createSphere (⟨Real.sqrt, Real.sin, Real.cos, fun _ _ => 0, Real.pi⟩ : Libm ℝ)
        0.25 48 24 = some mesh ∧
      mesh.vertices.length = (24 + 1) * (48 + 1) ∧
      mesh.indices.length = 6 * 48 * (24 - 1) ∧
      mesh.indices.length = 3 * (2 * 48 * (24 - 1)) :=
  createSphere_counts _ 0.25 48 24 (by decide) (by decide)

theorem wellIndexed_of_finish (sqrt : α → α) (n k : Nat) (inds : List Nat)
    (vs : List (Vertex α)) (hlen : inds.length = 3 * n) (hk : vs.length = k)
    (hb : ∀ i ∈ inds, i < k) :
    ∃ mesh, finish sqrt vs inds = some mesh ∧ mesh.WellIndexed := by
  obtain ⟨mesh, h1, h2, h3, _⟩ := finish_some sqrt n inds vs hlen (fun i hi => hk ▸ hb i hi)
  refine ⟨mesh, h1, ?_, ?_⟩
  · rw [h2, hlen]
    omega
  · intro i hi
    rw [h3, hk]
    exact hb i (h2 ▸ hi)

/-- C14: every mesh produced by createSphere, createCube, createCylinder,
createCone, createFrustum, createPrism and createPlane, for every sector, side
and stack count, has an index count divisible by 3 and every index strictly
less than its vertex count; the generators return a mesh, that is their tangent
pass never reads a vertex or an index out of range. -/
theorem primitives_wellIndexed (m : Libm α) (radius height bottomRadius topRadius size
    width depth : α) (sectors stackCount : Nat) :
    (∃ mesh, createSphere m radius sectors stackCount = some mesh ∧ mesh.WellIndexed) ∧
    (∃ mesh, createCube m.sqrt size = some mesh ∧ mesh.WellIndexed) ∧
    (∃ mesh, createCylinder m radius height sectors = some mesh ∧ mesh.WellIndexed) ∧
    (∃ mesh, createCone m radius height sectors = some mesh ∧ mesh.WellIndexed) ∧
    (∃ mesh, createFrustum m sectors bottomRadius topRadius height = some mesh ∧
      mesh.WellIndexed) ∧
    (∃ mesh, createPrism m sectors radius height = some mesh ∧ mesh.WellIndexed) ∧
    (createPlane width depth).WellIndexed := by
  refine ⟨?_, ?_, ?_, ?_, ?_, ?_, ?_⟩
  · exact wellIndexed_of_finish m.sqrt (2 * sectors * (stackCount - 1)) _ _ _
      (by rw [sphereIndices_length]; ring) (sphereVertices_length m radius sectors stackCount)
      (sphereIndices_lt sectors stackCount)
  · exact wellIndexed_of_finish m.sqrt 12 24 _ _ rfl (cubeVertices_length size) cubeIndices_lt
  · exact wellIndexed_of_finish m.sqrt (4 * sectors) _ _ _ (cylinderIndices_length sectors)
      (cylinderVertices_length m radius height sectors) (cylinderIndices_lt sectors)
  · exact wellIndexed_of_finish m.sqrt (2 * sectors) _ _ _ (coneIndices_length sectors)
      (coneVertices_length m radius height sectors) (coneIndices_lt sectors)
  · exact wellIndexed_of_finish m.sqrt (4 * sectors) _ _ _ (cylinderIndices_length sectors)
      (frustumVertices_length m sectors bottomRadius topRadius height)
      (cylinderIndices_lt sectors)
  · exact wellIndexed_of_finish m.sqrt (4 * sectors) _ _ _ (cylinderIndices_length sectors)
      (frustumVertices_length m sectors radius radius height) (cylinderIndices_lt sectors)
  · refine ⟨?_, ?_⟩
    · show [0, 1, 2, 0, 2, 3].length % 3 = 0
      rfl
    · show ∀ i ∈ [0, 1, 2, 0, 2, 3], i < 4
      decide

end Sizes

end Primitives
/-! ## The cell loop of the board generator -/

theorem foldl_flatMap_eq {β γ δ : Type} (l : List β) (f : β → List γ) (g : δ → γ → δ)
    (init : δ) :
    (l.flatMap f).foldl g init = l.foldl (fun acc a => (f a).foldl g acc) init := by
  induction l generalizing init with
  | nil => rfl
  | cons a l ih => simp [List.flatMap_cons, List.foldl_append, ih]

theorem copiedIndices_succ (template : List Nat) (n base count : Nat) :
    copiedIndices template n base (count + 1) =
      (template.map fun idx => base + idx) ++ copiedIndices template n (base + n) count := by
  unfold copiedIndices
  rw [List.range_succ_eq_map, List.flatMap_cons, List.flatMap_map]
  have e1 : (template.map fun idx => base + n * 0 + idx) = template.map fun idx => base + idx := by
    simp
  have e2 : ∀ k : Nat, (template.map fun idx => base + n * (k + 1) + idx) =
      template.map fun idx => base + n + n * k + idx := by
    intro k
    apply List.map_congr_left
    intro idx _
    ring
  rw [e1]
  simp only [e2]

theorem copiedIndices_lt (template : List Nat) (n base count : Nat)
    (ht : ∀ idx ∈ template, idx < n) :
    ∀ i ∈ copiedIndices template n base count, i < base + n * count := by
  intro i hi
  simp only [copiedIndices, List.mem_flatMap, List.mem_range, List.mem_map] at hi
  obtain ⟨k, hk, idx, hidx, rfl⟩ := hi
  have h1 := ht idx hidx
  have h2 : n * (k + 1) ≤ n * count := Nat.mul_le_mul_left n hk
  have h3 : n * (k + 1) = n * k + n := by ring
  omega

namespace BoardGenerator

section Loop

variable {α : Type} [LinearOrderedField α] [FloorRing α]

theorem cellLoop_eq_foldl (L : Level α) (floorTile wallBlock : Mesh α) :
    cellLoop L floorTile wallBlock =
      (rowMajor L.width.toNat L.height.toNat).foldl (cellStep L floorTile wallBlock)
        ⟨[], [], [], []⟩ := by
  unfold cellLoop rowMajor
  rw [foldl_flatMap_eq]
  congr 1
  funext b y
  rw [List.foldl_map]

theorem foldl_cellStep (L : Level α) (floorTile wallBlock : Mesh α) (cs : List (Nat × Nat))
    (b : Buffers α) :
    (cs.foldl (cellStep L floorTile wallBlock) b).wallVerts =
        b.wallVerts ++
          (cs.filter fun c => decide (L.getCell (c.1 : Int) (c.2 : Int) = some '#')).flatMap
            (fun c => wallBlock.vertices.map
              (placeVertex { L.gridToWorld (c.1 : Int) (c.2 : Int) with
                  y := L.cellSize * 0.6 / 2.0 } (L.cellSize * 0.6 / L.cellSize))) ∧
      (cs.foldl (cellStep L floorTile wallBlock) b).wallInds =
        b.wallInds ++
          copiedIndices wallBlock.indices wallBlock.vertices.length b.wallVerts.length
            (cs.filter fun c =>
              decide (L.getCell (c.1 : Int) (c.2 : Int) = some '#')).length ∧
      (cs.foldl (cellStep L floorTile wallBlock) b).floorVerts =
        b.floorVerts ++
          (cs.filter fun c => !decide (L.getCell (c.1 : Int) (c.2 : Int) = some '#')).flatMap
            (fun c => floorTile.vertices.map
              (placeVertex { L.gridToWorld (c.1 : Int) (c.2 : Int) with
                  y := -(L.cellSize * 0.15) / 2.0 } (L.cellSize * 0.15 / L.cellSize))) ∧
      (cs.foldl (cellStep L floorTile wallBlock) b).floorInds =
        b.floorInds ++
          copiedIndices floorTile.indices floorTile.vertices.length b.floorVerts.length
            (cs.filter fun c =>
              !decide (L.getCell (c.1 : Int) (c.2 : Int) = some '#')).length := by
  induction cs generalizing b with
  | nil => simp [copiedIndices]
  | cons c cs ih =>
    rw [List.foldl_cons]
    obtain ⟨h1, h2, h3, h4⟩ := ih (cellStep L floorTile wallBlock b c)
    rw [h1, h2, h3, h4]
    by_cases hw : L.getCell (c.1 : Int) (c.2 : Int) = some '#'
    · have hf1 : (List.filter (fun c => decide (L.getCell (c.1 : Int) (c.2 : Int) = some '#'))
          (c :: cs)) = c :: List.filter
            (fun c => decide (L.getCell (c.1 : Int) (c.2 : Int) = some '#')) cs := by
        rw [List.filter_cons_of_pos]
        simpa using hw
      have hf2 : (List.filter (fun c => !decide (L.getCell (c.1 : Int) (c.2 : Int) = some '#'))
          (c :: cs)) = List.filter
            (fun c => !decide (L.getCell (c.1 : Int) (c.2 : Int) = some '#')) cs := by
        rw [List.filter_cons_of_neg]
        simpa using hw
      rw [hf1, hf2, List.length_cons, copiedIndices_succ, List.flatMap_cons]
      refine ⟨?_, ?_, ?_, ?_⟩ <;>
        simp only [cellStep, if_pos hw, List.length_append, List.length_map, Nat.add_sub_cancel,
          List.append_assoc]
    · have hf1 : (List.filter (fun c => decide (L.getCell (c.1 : Int) (c.2 : Int) = some '#'))
          (c :: cs)) = List.filter
            (fun c => decide (L.getCell (c.1 : Int) (c.2 : Int) = some '#')) cs := by
        rw [List.filter_cons_of_neg]
        simpa using hw
      have hf2 : (List.filter (fun c => !decide (L.getCell (c.1 : Int) (c.2 : Int) = some '#'))
          (c :: cs)) = c :: List.filter
            (fun c => !decide (L.getCell (c.1 : Int) (c.2 : Int) = some '#')) cs := by
        rw [List.filter_cons_of_pos]
        simpa using hw
      rw [hf1, hf2, List.length_cons, copiedIndices_succ, List.flatMap_cons]
      refine ⟨?_, ?_, ?_, ?_⟩ <;>
        simp only [cellStep, if_neg hw, List.length_append, List.length_map, Nat.add_sub_cancel,
          List.append_assoc]

end Loop

end BoardGenerator
theorem rowMajor_length (w h : Nat) : (rowMajor w h).length = h * w := by
  unfold rowMajor
  rw [length_flatMap_const _ _ w]
  · rw [List.length_range]
  · intro y _
    simp only [List.length_map, List.length_range]

theorem length_filter_add_not {β : Type} (p : β → Bool) (l : List β) :
    (l.filter p).length + (l.filter fun a => !p a).length = l.length := by
  induction l with
  | nil => rfl
  | cons a l ih =>
    cases h : p a with
    | true =>
      rw [List.filter_cons_of_pos h, List.filter_cons_of_neg (by simp [h])]
      simp only [List.length_cons]
      omega
    | false =>
      rw [List.filter_cons_of_neg (by simp [h]), List.filter_cons_of_pos (by simp [h])]
      simp only [List.length_cons]
      omega

theorem fromGrid_width_nonneg {α : Type} (gridData : List (List Char)) (cellSize : α) :
    0 ≤ (Level.fromGrid gridData cellSize).width := by
  have hw : (Level.fromGrid gridData cellSize).width =
      (gridData.map fun row => (row.length : Int)).foldl max 0 :=
    scanRows_width gridData 0 ⟨0, ⟨0, 0⟩, ⟨0, 0⟩, []⟩
  rw [hw]
  exact (foldl_max_ge _ 0).1

namespace BoardGenerator

section Board

variable {α : Type} [LinearOrderedField α] [FloorRing α]

theorem mesh_of_buffers (vs : List (Vertex α)) (inds : List Nat) (h : vs = [] → inds = []) :
    (if !vs.isEmpty then (⟨vs, inds⟩ : Mesh α) else ⟨[], []⟩) = ⟨vs, inds⟩ := by
  cases vs with
  | nil => simp [h rfl]
  | cons a vs => simp

theorem createFrameMesh_isSome (sqrt : α → α) (w d h t : α) :
    ∃ mesh, createFrameMesh sqrt w d h t = some mesh := by
  obtain ⟨cube, hc, _⟩ := Primitives.createCube_some sqrt (1.0 : α)
  rw [createFrameMesh, hc]
  exact ⟨_, rfl⟩

theorem generateBoard_eq (m : Libm α) (L : Level α) :
    ∃ B cube, generateBoard m L = some B ∧
      Primitives.createCube m.sqrt L.cellSize = some cube ∧
      cube.indices = Primitives.cubeIndices ∧ cube.vertices.length = 24 ∧
      cube.vertices.map Vertex.Position =
        (Primitives.cubeVertices L.cellSize).map Vertex.Position ∧
      B.floor = (if !(cellLoop L cube cube).floorVerts.isEmpty then
        ⟨(cellLoop L cube cube).floorVerts, (cellLoop L cube cube).floorInds⟩ else ⟨[], []⟩) ∧
      B.walls = (if !(cellLoop L cube cube).wallVerts.isEmpty then
        ⟨(cellLoop L cube cube).wallVerts, (cellLoop L cube cube).wallInds⟩ else ⟨[], []⟩) := by
  obtain ⟨cube, hc, hi, hl, hp, _⟩ := Primitives.createCube_some m.sqrt L.cellSize
  obtain ⟨frame, hfr⟩ := createFrameMesh_isSome m.sqrt L.getBoardWidth L.getBoardDepth
    (L.cellSize * 0.6 * 1.2) (L.cellSize * 0.3)
  obtain ⟨hole, hho, _⟩ := Primitives.createCylinder_some m (L.cellSize * 0.3) 0.02 16
  obtain ⟨mark, hma, _⟩ := Primitives.createCylinder_some m (L.cellSize * 0.35) 0.02 16
  have hB : generateBoard m L = some
      { floor := if !(cellLoop L cube cube).floorVerts.isEmpty then
          ⟨(cellLoop L cube cube).floorVerts, (cellLoop L cube cube).floorInds⟩ else ⟨[], []⟩
        walls := if !(cellLoop L cube cube).wallVerts.isEmpty then
          ⟨(cellLoop L cube cube).wallVerts, (cellLoop L cube cube).wallInds⟩ else ⟨[], []⟩
        frame := frame
        holeMarker := hole
        startMarker := mark
        goalMarker := mark } := by
    unfold generateBoard
    simp only [hc, hfr, hho, hma, Option.some_bind]
  exact ⟨_, cube, hB, hc, hi, hl, hp, rfl, rfl⟩

end Board

end BoardGenerator
/-! ## Winding of the cylinder caps -/

theorem triangles_append (n : Nat) (a b : List Nat) (h : a.length = 3 * n) :
    triangles (a ++ b) = triangles a ++ triangles b := by
  induction n generalizing a with
  | zero =>
    have : a = [] := List.length_eq_zero.mp (by omega)
    subst this
    cases b with
    | nil => rfl
    | cons x b => simp [triangles]
  | succ n ih =>
    match a, h with
    | i0 :: i1 :: i2 :: rest, h =>
      have hrest : rest.length = 3 * n := by
        simp only [List.length_cons] at h
        omega
      show triangles (i0 :: i1 :: i2 :: (rest ++ b)) = _
      rw [triangles, ih rest hrest]
      rfl
    | [], h => simp at h
    | [_], h =>
      simp only [List.length_cons, List.length_nil] at h
      omega
    | [_, _], h =>
      simp only [List.length_cons, List.length_nil] at h
      omega

theorem triangles_topCap (c sectors : Nat) :
    triangles (Primitives.topCapIndices c sectors) =
      (List.range sectors).map fun (j : Nat) => (c, c + j + 1, c + j + 2) := by
  unfold Primitives.topCapIndices
  generalize List.range sectors = l
  induction l with
  | nil => rfl
  | cons j l ih =>
    rw [List.flatMap_cons, List.map_cons, ← ih]
    rfl

namespace Primitives

section Winding

variable {α : Type} [LinearOrderedField α]

theorem mem_triangles_cylinder (sectors : Nat) (hS : 1 ≤ sectors) :
    (2 * (sectors + 1), 2 * (sectors + 1) + 1, 2 * (sectors + 1) + 2)
      ∈ triangles (cylinderIndices sectors) := by
  have h1 : (sideIndices sectors).length = 3 * (2 * sectors) := by
    unfold sideIndices
    rw [length_flatMap_const _ _ 6]
    · rw [List.length_range]
      ring
    · intro _ _
      rfl
  unfold cylinderIndices
  simp only [List.append_assoc]
  rw [triangles_append (2 * sectors) _ _ h1]
  apply List.mem_append_right
  have h2 : (topCapIndices (2 * (sectors + 1)) sectors).length = 3 * sectors := by
    unfold topCapIndices
    rw [length_flatMap_const _ _ 3]
    · rw [List.length_range]
      ring
    · intro _ _
      rfl
  rw [triangles_append sectors _ _ h2]
  apply List.mem_append_left
  rw [triangles_topCap]
  exact List.mem_map.mpr ⟨0, List.mem_range.mpr (by omega), rfl⟩

theorem cylinderVertices_top (m : Libm α) (radius height : α) (sectors k : Nat)
    (hk : k < sectors + 2) :
    (cylinderVertices m radius height sectors)[2 * (sectors + 1) + k]? =
      (capVertices m radius (height / 2.0) 1 sectors)[k]? := by
  unfold cylinderVertices
  have hlen := sideRings_length m radius radius (height / 2.0) 0 sectors
  have hcap := capVertices_length m radius (height / 2.0) 1 sectors
  rw [List.getElem?_append_left (by rw [List.length_append, hlen, hcap]; omega),
    List.getElem?_append_right (by rw [hlen]; omega), hlen]
  congr 1
  omega

theorem capVertices_zero (m : Libm α) (radius y ny : α) (sectors : Nat) :
    ((capVertices m radius y ny sectors)[0]?).map Vertex.Position = some ⟨0, y, 0⟩ ∧
      ((capVertices m radius y ny sectors)[0]?).map Vertex.Normal = some ⟨0, ny, 0⟩ := by
  unfold capVertices
  constructor <;> simp only [List.getElem?_cons_zero, Option.map_some']

theorem capVertices_ring (m : Libm α) (radius y ny : α) (sectors j : Nat) (hj : j < sectors + 1) :
    ((capVertices m radius y ny sectors)[j + 1]?).map Vertex.Position =
      some ⟨radius * m.cos ((j : α) * (2 * m.pi / (sectors : α))), y,
        radius * m.sin ((j : α) * (2 * m.pi / (sectors : α)))⟩ := by
  unfold capVertices
  rw [List.getElem?_cons_succ, List.getElem?_map, List.getElem?_range hj]
  rfl

/-- The first triangle of the top cap of createCylinder, evaluated: with
sin 0 = 0 and cos 0 = 1, the cross product of its edges dotted with the stored
normal (0, 1, 0) of its centre vertex is -radius^2 * sin (2 pi / sectors). -/
theorem cylinder_top_cap_winding (m : Libm α) (radius height : α) (sectors : Nat)
    (hS : 1 ≤ sectors) (hs0 : m.sin 0 = 0) (hc0 : m.cos 0 = 1) :
    ∃ mesh, createCylinder m radius height sectors = some mesh ∧
      (2 * (sectors + 1), 2 * (sectors + 1) + 1, 2 * (sectors + 1) + 2)
        ∈ triangles mesh.indices ∧
      windingDot (mesh.vertices.map Vertex.Position) (mesh.vertices.map Vertex.Normal)
          (2 * (sectors + 1)) (2 * (sectors + 1) + 1) (2 * (sectors + 1) + 2)
          (2 * (sectors + 1))
        = some (-(radius * radius * m.sin (2 * m.pi / (sectors : α)))) := by
  obtain ⟨mesh, h1, h2, _, hP, hN, _⟩ := createCylinder_some m radius height sectors
  refine ⟨mesh, h1, by rw [h2]; exact mem_triangles_cylinder sectors hS, ?_⟩
  rw [hP, hN]
  have p0 : ((cylinderVertices m radius height sectors).map Vertex.Position)[2 * (sectors + 1)]?
      = some ⟨0, height / 2.0, 0⟩ := by
    rw [List.getElem?_map]
    have := cylinderVertices_top m radius height sectors 0 (by omega)
    rw [Nat.add_zero] at this
    rw [this]
    exact (capVertices_zero m radius (height / 2.0) 1 sectors).1
  have n0 : ((cylinderVertices m radius height sectors).map Vertex.Normal)[2 * (sectors + 1)]?
      = some ⟨0, 1, 0⟩ := by
    rw [List.getElem?_map]
    have := cylinderVertices_top m radius height sectors 0 (by omega)
    rw [Nat.add_zero] at this
    rw [this]
    exact (capVertices_zero m radius (height / 2.0) 1 sectors).2
  have p1 : ((cylinderVertices m radius height sectors).map Vertex.Position)[2 * (sectors + 1) + 1]?
      = some ⟨radius * m.cos (((0 : Nat) : α) * (2 * m.pi / (sectors : α))), height / 2.0,
        radius * m.sin (((0 : Nat) : α) * (2 * m.pi / (sectors : α)))⟩ := by
    rw [List.getElem?_map, cylinderVertices_top m radius height sectors 1 (by omega)]
    exact capVertices_ring m radius (height / 2.0) 1 sectors 0 (by omega)
  have p2 : ((cylinderVertices m radius height sectors).map Vertex.Position)[2 * (sectors + 1) + 2]?
      = some ⟨radius * m.cos (((1 : Nat) : α) * (2 * m.pi / (sectors : α))), height / 2.0,
        radius * m.sin (((1 : Nat) : α) * (2 * m.pi / (sectors : α)))⟩ := by
    rw [List.getElem?_map, cylinderVertices_top m radius height sectors 2 (by omega)]
    exact capVertices_ring m radius (height / 2.0) 1 sectors 1 (by omega)
  simp only [windingDot, p0, p1, p2, n0, Vec3.sub, Vec3.cross, Vec3.dot, Nat.cast_zero,
    Nat.cast_one, zero_mul, one_mul, hs0, hc0]
  congr 1
  ring

end Winding

end Primitives

/-- C15, the code at the hole marker createCylinder(0.3, 0.02, 16) that
generateBoard builds for cell size 1: the first triangle of the top cap
(16 others follow the same pattern) has a cross product whose dot product with
the stored normal (0, 1, 0) is -0.09 * sin (2 pi / 16) < 0, so the cap is wound
clockwise seen from outside and the mesh is not outward wound. -/
theorem cylinder_cap_inward :
    ∃ mesh d,
      Primitives.createCylinder (⟨Real.sqrt, Real.sin, Real.cos, fun _ _ => 0, Real.pi⟩ : Libm ℝ)
        0.3 0.02 16 = some mesh ∧
      (34, 35, 36) ∈ triangles mesh.indices ∧
      windingDot (mesh.vertices.map Vertex.Position) (mesh.vertices.map Vertex.Normal)
        34 35 36 34 = some d ∧
      d < 0 ∧ ¬ mesh.OutwardWound := by
  obtain ⟨mesh, h1, h2, h3⟩ :=
    Primitives.cylinder_top_cap_winding
      (⟨Real.sqrt, Real.sin, Real.cos, fun _ _ => 0, Real.pi⟩ : Libm ℝ) 0.3 0.02 16
      (by decide) Real.sin_zero Real.cos_zero
  have hpos : 0 < Real.sin (2 * Real.pi / ((16 : Nat) : ℝ)) := by
    apply Real.sin_pos_of_pos_of_lt_pi
    · have := Real.pi_pos
      positivity
    · have := Real.pi_pos
      rw [div_lt_iff₀ (by norm_num)]
      push_cast
      linarith
  have hd : -((0.3 : ℝ) * 0.3 * Real.sin (2 * Real.pi / ((16 : Nat) : ℝ))) < 0 := by
    have : 0 < (0.3 : ℝ) * 0.3 * Real.sin (2 * Real.pi / ((16 : Nat) : ℝ)) :=
      mul_pos (by norm_num) hpos
    linarith
  refine ⟨mesh, _, h1, h2, h3, hd, ?_⟩
  intro hout
  obtain ⟨d, hd1, hd2⟩ := hout (34, 35, 36) h2 34 (by simp)
  have hd1' : windingDot (mesh.vertices.map Vertex.Position) (mesh.vertices.map Vertex.Normal)
      34 35 36 34 = some d := hd1
  rw [h3] at hd1'
  have : d = -((0.3 : ℝ) * 0.3 * Real.sin (2 * Real.pi / ((16 : Nat) : ℝ))) :=
    (Option.some.inj hd1').symm
  linarith

/-! ## The frame mesh -/

namespace BoardGenerator

section Frame

variable {α : Type} [LinearOrderedField α] [FloorRing α]

theorem mem_cube_positions (s : α) (q : Vec3 α) :
    q ∈ (Primitives.cubeVertices s).map Vertex.Position ↔
      q ∈ boxCorners (-(s / 2.0)) (s / 2.0) (-(s / 2.0)) (s / 2.0) (-(s / 2.0)) (s / 2.0) := by
  simp only [Primitives.cubeVertices, boxCorners, List.map_cons, List.map_nil, List.mem_cons,
    List.mem_singleton, List.not_mem_nil, or_false]
  tauto

theorem frameVertex_positions (pos scale : Vec3 α) (vs : List (Vertex α)) :
    (vs.map (frameVertex pos scale)).map Vertex.Position =
      (vs.map Vertex.Position).map fun p =>
        ⟨p.x * scale.x + pos.x, p.y * scale.y + pos.y, p.z * scale.z + pos.z⟩ := by
  rw [List.map_map, List.map_map]
  rfl

theorem mem_frame_box (pos scale : Vec3 α) (x0 x1 y0 y1 z0 z1 : α)
    (hx0 : -(1.0 / 2.0) * scale.x + pos.x = x0) (hx1 : 1.0 / 2.0 * scale.x + pos.x = x1)
    (hy0 : -(1.0 / 2.0) * scale.y + pos.y = y0) (hy1 : 1.0 / 2.0 * scale.y + pos.y = y1)
    (hz0 : -(1.0 / 2.0) * scale.z + pos.z = z0) (hz1 : 1.0 / 2.0 * scale.z + pos.z = z1)
    (p : Vec3 α) :
    p ∈ boxPositions pos scale ↔ p ∈ boxCorners x0 x1 y0 y1 z0 z1 := by
  unfold boxPositions
  rw [List.mem_map]
  constructor
  · rintro ⟨q, hq, rfl⟩
    rw [mem_cube_positions] at hq
    simp only [boxCorners, List.mem_cons, List.mem_singleton, List.not_mem_nil, or_false] at hq ⊢
    rcases hq with rfl | rfl | rfl | rfl | rfl | rfl | rfl | rfl <;>
      simp only [hx0, hx1, hy0, hy1, hz0, hz1, true_or, or_true]
  · intro hp
    simp only [boxCorners, List.mem_cons, List.mem_singleton, List.not_mem_nil, or_false] at hp
    have hc : ∀ a b c : α, (a = -(1.0 / 2.0) ∨ a = 1.0 / 2.0) → (b = -(1.0 / 2.0) ∨ b = 1.0 / 2.0) →
        (c = -(1.0 / 2.0) ∨ c = 1.0 / 2.0) →
        (⟨a, b, c⟩ : Vec3 α) ∈ (Primitives.cubeVertices (1.0 : α)).map Vertex.Position := by
      intro a b c ha hb hc
      rw [mem_cube_positions]
      simp only [boxCorners, List.mem_cons, List.mem_singleton, List.not_mem_nil, or_false,
        Vec3.mk.injEq]
      rcases ha with rfl | rfl <;> rcases hb with rfl | rfl <;> rcases hc with rfl | rfl <;> simp
    rcases hp with rfl | rfl | rfl | rfl | rfl | rfl | rfl | rfl
    · exact ⟨⟨-(1.0 / 2.0), -(1.0 / 2.0), -(1.0 / 2.0)⟩,
        hc _ _ _ (Or.inl rfl) (Or.inl rfl) (Or.inl rfl), by simp only [hx0, hy0, hz0]⟩
    · exact ⟨⟨-(1.0 / 2.0), -(1.0 / 2.0), 1.0 / 2.0⟩,
        hc _ _ _ (Or.inl rfl) (Or.inl rfl) (Or.inr rfl), by simp only [hx0, hy0, hz1]⟩
    · exact ⟨⟨-(1.0 / 2.0), 1.0 / 2.0, -(1.0 / 2.0)⟩,
        hc _ _ _ (Or.inl rfl) (Or.inr rfl) (Or.inl rfl), by simp only [hx0, hy1, hz0]⟩
    · exact ⟨⟨-(1.0 / 2.0), 1.0 / 2.0, 1.0 / 2.0⟩,
        hc _ _ _ (Or.inl rfl) (Or.inr rfl) (Or.inr rfl), by simp only [hx0, hy1, hz1]⟩
    · exact ⟨⟨1.0 / 2.0, -(1.0 / 2.0), -(1.0 / 2.0)⟩,
        hc _ _ _ (Or.inr rfl) (Or.inl rfl) (Or.inl rfl), by simp only [hx1, hy0, hz0]⟩
    · exact ⟨⟨1.0 / 2.0, -(1.0 / 2.0), 1.0 / 2.0⟩,
        hc _ _ _ (Or.inr rfl) (Or.inl rfl) (Or.inr rfl), by simp only [hx1, hy0, hz1]⟩
    · exact ⟨⟨1.0 / 2.0, 1.0 / 2.0, -(1.0 / 2.0)⟩,
        hc _ _ _ (Or.inr rfl) (Or.inr rfl) (Or.inl rfl), by simp only [hx1, hy1, hz0]⟩
    · exact ⟨⟨1.0 / 2.0, 1.0 / 2.0, 1.0 / 2.0⟩,
        hc _ _ _ (Or.inr rfl) (Or.inr rfl) (Or.inr rfl), by simp only [hx1, hy1, hz1]⟩

theorem createFrameMesh_eq (sqrt : α → α) (width depth height thickness : α) :
    ∃ (mesh template : Mesh α), createFrameMesh sqrt width depth height thickness = some mesh ∧
      template.vertices.length = 24 ∧
      template.vertices.map Vertex.Position =
        (Primitives.cubeVertices (1.0 : α)).map Vertex.Position ∧
      mesh.indices = copiedIndices Primitives.cubeIndices 24 0 4 ∧
      mesh.vertices =
        template.vertices.map (frameVertex
            ⟨0, height / 2.0, -(depth / 2.0) - thickness / 2⟩
            ⟨width + thickness * 2, height, thickness⟩) ++
          template.vertices.map (frameVertex
            ⟨0, height / 2.0, depth / 2.0 + thickness / 2⟩
            ⟨width + thickness * 2, height, thickness⟩) ++
          template.vertices.map (frameVertex
            ⟨-(width / 2.0) - thickness / 2, height / 2.0, 0⟩ ⟨thickness, height, depth⟩) ++
          template.vertices.map (frameVertex
            ⟨width / 2.0 + thickness / 2, height / 2.0, 0⟩ ⟨thickness, height, depth⟩) := by
  obtain ⟨template, hc, hi, hl, hp, _, _⟩ := Primitives.createCube_some sqrt (1.0 : α)
  refine ⟨_, template, by rw [createFrameMesh, hc]; rfl, hl, hp, ?_, ?_⟩
  · simp only [frameWalls, List.foldl_cons, List.foldl_nil, List.nil_append, List.length_append,
      List.length_map, hl, List.length_nil, hi]
    rfl
  · simp only [frameWalls, List.foldl_cons, List.foldl_nil, List.nil_append]

end Frame

end BoardGenerator

/-! ## The Rolling tick, stage by stage -/

section RollingTick

variable {α : Type} [LinearOrderedField α] [FloorRing α]

theorem clampedVelocity_of_le (sqrt sin : α → α) (dt : α) (tilt : Vec2 α) (b : Ball α)
    (h : length2 sqrt (b.frictionVelocity sin dt tilt).x (b.frictionVelocity sin dt tilt).z
      ≤ 50) :
    b.clampedVelocity sqrt sin dt tilt = b.frictionVelocity sin dt tilt := by
  unfold Ball.clampedVelocity Config.BALL_MAX_SPEED
  unfold length2 at h
  have e : (50.0 : α) = 50 := by norm_num
  simp only [e]
  rw [if_neg (not_lt.mpr h)]

theorem clampedVelocity_of_gt {sqrt : α → α} (hs : IsSqrt sqrt) (sin : α → α) (dt : α)
    (tilt : Vec2 α) (b : Ball α)
    (h : 50 < length2 sqrt (b.frictionVelocity sin dt tilt).x
      (b.frictionVelocity sin dt tilt).z) :
    ∃ k : α, 0 < k ∧
      (b.clampedVelocity sqrt sin dt tilt).x = k * (b.frictionVelocity sin dt tilt).x ∧
      (b.clampedVelocity sqrt sin dt tilt).y = (b.frictionVelocity sin dt tilt).y ∧
      (b.clampedVelocity sqrt sin dt tilt).z = k * (b.frictionVelocity sin dt tilt).z ∧
      length2 sqrt (b.clampedVelocity sqrt sin dt tilt).x (b.clampedVelocity sqrt sin dt tilt).z
        = 50 := by
  unfold Ball.clampedVelocity Config.BALL_MAX_SPEED
  unfold length2 at h ⊢
  generalize b.frictionVelocity sin dt tilt = v at h ⊢
  have h0 : 0 ≤ v.x * v.x + v.z * v.z := add_nonneg (mul_self_nonneg _) (mul_self_nonneg _)
  obtain ⟨_, h2⟩ := hs _ h0
  have e : (50.0 : α) = 50 := by norm_num
  simp only [e]
  rw [if_pos h]
  have hpos : 0 < sqrt (v.x * v.x + v.z * v.z) := lt_trans (by norm_num) h
  have hne : sqrt (v.x * v.x + v.z * v.z) ≠ 0 := ne_of_gt hpos
  refine ⟨50 / sqrt (v.x * v.x + v.z * v.z), div_pos (by norm_num) hpos, ?_, rfl, ?_, ?_⟩
  · show v.x / sqrt (v.x * v.x + v.z * v.z) * 50 = 50 / sqrt (v.x * v.x + v.z * v.z) * v.x
    field_simp
    ring
  · show v.z / sqrt (v.x * v.x + v.z * v.z) * 50 = 50 / sqrt (v.x * v.x + v.z * v.z) * v.z
    field_simp
    ring
  · show sqrt (v.x / sqrt (v.x * v.x + v.z * v.z) * 50 *
        (v.x / sqrt (v.x * v.x + v.z * v.z) * 50) +
        v.z / sqrt (v.x * v.x + v.z * v.z) * 50 * (v.z / sqrt (v.x * v.x + v.z * v.z) * 50))
      = 50
    have key : v.x / sqrt (v.x * v.x + v.z * v.z) * 50 *
        (v.x / sqrt (v.x * v.x + v.z * v.z) * 50) +
        v.z / sqrt (v.x * v.x + v.z * v.z) * 50 * (v.z / sqrt (v.x * v.x + v.z * v.z) * 50)
        = (v.x * v.x + v.z * v.z) /
            (sqrt (v.x * v.x + v.z * v.z) * sqrt (v.x * v.x + v.z * v.z)) * (50 * 50) := by
      field_simp
      ring
    rw [key, h2, div_self (by rw [← h2]; exact mul_ne_zero hne hne), one_mul]
    exact hs.sqrt_sq (by norm_num)

theorem frictionVelocity_eq (sin : α → α) (dt : α) (tilt : Vec2 α) (b : Ball α) :
    b.frictionVelocity sin dt tilt =
      ⟨0.985 * (b.velocity.x + dt * (-60 * sin tilt.x)), 0.985 * (b.velocity.y + dt * 0),
        0.985 * (b.velocity.z + dt * (60 * sin tilt.y))⟩ := by
  unfold Ball.frictionVelocity Config.BALL_GRAVITY Config.BALL_FRICTION
  have e : (60.0 : α) = 60 := by norm_num
  simp only [e, Vec3.mk.injEq]
  refine ⟨by ring, by ring, by ring⟩

theorem update_position_of_rolling (sqrt sin : α → α) (dt : α) (tilt : Vec2 α) (L : Level α)
    (b : Ball α) (hr : b.isFalling = false) :
    (b.update sqrt sin dt tilt L).position =
      { L.resolveWallCollision sqrt (b.tentative sqrt sin dt tilt) b.radius with
        y := b.radius } := by
  rw [update_of_rolling _ _ _ _ _ _ hr]
  split_ifs <;> rfl

theorem fastRolling_friction :
    fastRolling.frictionVelocity Real.sin 0.016 ⟨0, 0⟩ = ⟨78.8, 0, 0⟩ := by
  simp only [Ball.frictionVelocity, fastRolling, Real.sin_zero, Config.BALL_GRAVITY,
    Config.BALL_FRICTION]
  norm_num

theorem fastRolling_speed :
    50 < length2 Real.sqrt (fastRolling.frictionVelocity Real.sin 0.016 ⟨0, 0⟩).x
      (fastRolling.frictionVelocity Real.sin 0.016 ⟨0, 0⟩).z := by
  rw [fastRolling_friction]
  have h : length2 Real.sqrt (78.8 : ℝ) 0 = 78.8 := by
    unfold length2
    apply real_sqrt_of_sq <;> norm_num
  rw [h]
  norm_num

/-- C24: in a Rolling tick of Ball::update, if isOverHole holds at the
collision-resolved position then after the tick isFalling is true, fallProgress
is 0 and the velocity is (0, 0, 0); if it does not hold, isFalling stays false
and fallProgress is unchanged. -/
theorem hole_detection (sqrt sin : α → α) (dt : α) (tilt : Vec2 α) (L : Level α) (b : Ball α)
    (hr : b.isFalling = false) :
    (L.isOverHole sqrt (L.resolveWallCollision sqrt (b.tentative sqrt sin dt tilt) b.radius)
        b.radius = true →
      (b.update sqrt sin dt tilt L).isFalling = true ∧
        (b.update sqrt sin dt tilt L).fallProgress = 0 ∧
        (b.update sqrt sin dt tilt L).velocity = ⟨0, 0, 0⟩) ∧
    (L.isOverHole sqrt (L.resolveWallCollision sqrt (b.tentative sqrt sin dt tilt) b.radius)
        b.radius = false →
      (b.update sqrt sin dt tilt L).isFalling = false ∧
        (b.update sqrt sin dt tilt L).fallProgress = b.fallProgress) := by
  have e : (0.0 : α) = 0 := by norm_num
  constructor
  · intro h
    rw [update_of_rolling _ _ _ _ _ _ hr]
    unfold Ball.resolved
    rw [if_pos h]
    simp only [e]
    exact ⟨trivial, trivial, trivial⟩
  · intro h
    rw [update_of_rolling _ _ _ _ _ _ hr]
    unfold Ball.resolved
    rw [h]
    simp only [Bool.false_eq_true, if_false]
    exact ⟨hr, trivial⟩

theorem hole_detection_witness :
    floorBall.isFalling = false ∧
      pitLevel.isOverHole Real.sqrt
        (pitLevel.resolveWallCollision Real.sqrt
          (floorBall.tentative Real.sqrt Real.sin 0.016 ⟨0, 0⟩) floorBall.radius)
        floorBall.radius = true ∧
      (floorBall.update Real.sqrt Real.sin 0.016 ⟨0, 0⟩ pitLevel).isFalling = true ∧
      (floorBall.update Real.sqrt Real.sin 0.016 ⟨0, 0⟩ pitLevel).fallProgress = 0 ∧
      (floorBall.update Real.sqrt Real.sin 0.016 ⟨0, 0⟩ pitLevel).velocity = ⟨0, 0, 0⟩ :=
  have h : pitLevel.isOverHole Real.sqrt
      (pitLevel.resolveWallCollision Real.sqrt
        (floorBall.tentative Real.sqrt Real.sin 0.016 ⟨0, 0⟩) floorBall.radius)
      floorBall.radius = true := by
    rw [tentative_rest Real.sqrt Real.sin Real.sin_zero 0.016 floorBall rfl]
    show pitLevel.isOverHole Real.sqrt
      (pitLevel.resolveWallCollision Real.sqrt ⟨0, 0.35, 0⟩ floorBall.radius) floorBall.radius
        = true
    rw [pit_resolve]
    exact pit_isOverHole _
  ⟨rfl, h, (hole_detection Real.sqrt Real.sin 0.016 ⟨0, 0⟩ pitLevel floorBall rfl).1 h⟩

/-- C25: the default-constructed Ball has radius 0.35 while Config::BALL_RADIUS,
the radius main generates the ball's sphere mesh with, is 0.25, so the two
differ; Ball::reset and Ball::update leave the radius unchanged. -/
theorem ball_radius (sqrt sin : α → α) :
    (Ball.default : Ball α).radius = 0.35 ∧
    (Config.BALL_RADIUS : α) = 0.25 ∧
    (Ball.default : Ball α).radius ≠ Config.BALL_RADIUS ∧
    (∀ (L : Level α) (b : Ball α), (b.reset L).radius = b.radius) ∧
    (∀ (dt : α) (tilt : Vec2 α) (L : Level α) (b : Ball α),
      (b.update sqrt sin dt tilt L).radius = b.radius) := by
  refine ⟨rfl, rfl, ?_, fun _ _ => rfl, ?_⟩
  · show (0.35 : α) ≠ 0.25
    norm_num
  · intro dt tilt L b
    cases hf : b.isFalling with
    | true => rw [update_of_falling _ _ _ _ _ _ hf]
    | false =>
      rw [update_of_rolling _ _ _ _ _ _ hf]
      split_ifs <;> rfl

end RollingTick

/-! ## A falling ball is over a hole -/

section FallingHole

variable {α : Type} [LinearOrderedField α] [FloorRing α]

theorem worldToGrid_with_y (L : Level α) (p : Vec3 α) (y : α) :
    L.worldToGrid { p with y := y } = L.worldToGrid p := rfl

theorem reachableOn_hole (sqrt sin : α → α) (L : Level α) (b : Ball α)
    (hb : Ball.ReachableOn sqrt sin L b) (hf : b.isFalling = true) :
    L.getCell (L.worldToGrid b.position).x (L.worldToGrid b.position).y = some 'O' := by
  induction hb with
  | reset b0 => exact absurd hf (by simp [Ball.reset])
  | update dt tilt b0 _ ih =>
    cases hf0 : b0.isFalling with
    | true =>
      rw [update_of_falling _ _ _ _ _ _ hf0]
      exact ih hf0
    | false =>
      rw [update_of_rolling _ _ _ _ _ _ hf0] at hf ⊢
      split_ifs at hf ⊢ with h
      · exact ((isOverHole_eq_true sqrt L _ _).mp h).1
      · exact absurd hf (by simp [hf0])

theorem updates_position_of_falling (sqrt sin : α → α) (L : Level α)
    (ticks : List (α × Vec2 α)) (b : Ball α) (hf : b.isFalling = true) :
    (b.updates sqrt sin L ticks).position.x = b.position.x ∧
      (b.updates sqrt sin L ticks).position.z = b.position.z := by
  induction ticks generalizing b with
  | nil => exact ⟨rfl, rfl⟩
  | cons t ticks ih =>
    have hu := update_of_falling sqrt sin t.1 t.2 L b hf
    have hf' : (b.update sqrt sin t.1 t.2 L).isFalling = true := by rw [hu]; exact hf
    obtain ⟨h1, h2⟩ := ih (b.update sqrt sin t.1 t.2 L) hf'
    rw [updates_cons, h1, h2, hu]
    exact ⟨rfl, rfl⟩

theorem isAtGoal_false_of_hole (sqrt : α → α) (L : Level α) (p : Vec3 α) (r : α)
    (h : L.getCell (L.worldToGrid p).x (L.worldToGrid p).y = some 'O') :
    L.isAtGoal sqrt p r = false := by
  unfold Level.isAtGoal
  simp only [h]
  rw [if_neg (by decide)]

/-- C28: in every ball state reachable from Ball::reset on a Level by
Ball::update calls on that same Level, if isFalling is true then the cell of the
ball's position is a hole cell, every further run of update calls on that Level
keeps isFalling true and leaves the X and Z of the position fixed, and
isAtGoal(position, radius) is false, also after every such run. -/
theorem falling_over_hole (sqrt sin : α → α) (L : Level α) (b : Ball α)
    (hb : Ball.ReachableOn sqrt sin L b) (hf : b.isFalling = true) :
    L.getCell (L.worldToGrid b.position).x (L.worldToGrid b.position).y = some 'O' ∧
    L.isAtGoal sqrt b.position b.radius = false ∧
    (∀ ticks : List (α × Vec2 α),
      (b.updates sqrt sin L ticks).isFalling = true ∧
      (b.updates sqrt sin L ticks).position.x = b.position.x ∧
      (b.updates sqrt sin L ticks).position.z = b.position.z ∧
      L.getCell (L.worldToGrid (b.updates sqrt sin L ticks).position).x
        (L.worldToGrid (b.updates sqrt sin L ticks).position).y = some 'O' ∧
      L.isAtGoal sqrt (b.updates sqrt sin L ticks).position
        (b.updates sqrt sin L ticks).radius = false) := by
  have hcell := reachableOn_hole sqrt sin L b hb hf
  refine ⟨hcell, isAtGoal_false_of_hole sqrt L _ _ hcell, ?_⟩
  intro ticks
  obtain ⟨hx, hz⟩ := updates_position_of_falling sqrt sin L ticks b hf
  have hg : L.worldToGrid (b.updates sqrt sin L ticks).position = L.worldToGrid b.position := by
    unfold Level.worldToGrid
    rw [hx, hz]
  have hcell' : L.getCell (L.worldToGrid (b.updates sqrt sin L ticks).position).x
      (L.worldToGrid (b.updates sqrt sin L ticks).position).y = some 'O' := by
    rw [hg]; exact hcell
  exact ⟨(updates_of_falling sqrt sin L ticks b hf).1, hx, hz, hcell',
    isAtGoal_false_of_hole sqrt L _ _ hcell'⟩

end FallingHole

theorem roll_reachableOn : Ball.ReachableOn Real.sqrt Real.sin rollLevel rollEntered := by
  have h0 : Ball.ReachableOn Real.sqrt Real.sin rollLevel rollStart := by
    rw [← roll_reset (Ball.default : Ball ℝ) rfl]
    exact Ball.ReachableOn.reset _
  rw [← roll_first_tick]
  exact Ball.ReachableOn.update _ _ _ h0

theorem falling_over_hole_witness :
    Ball.ReachableOn Real.sqrt Real.sin rollLevel rollEntered ∧ rollEntered.isFalling = true ∧
      rollLevel.getCell (rollLevel.worldToGrid rollEntered.position).x
        (rollLevel.worldToGrid rollEntered.position).y = some 'O' ∧
      rollLevel.isAtGoal Real.sqrt rollEntered.position rollEntered.radius = false :=
  ⟨roll_reachableOn, rfl,
    (falling_over_hole Real.sqrt Real.sin rollLevel rollEntered roll_reachableOn rfl).1,
    (falling_over_hole Real.sqrt Real.sin rollLevel rollEntered roll_reachableOn rfl).2.1⟩

/-! ## The bounce -/

section Bounce

variable {α : Type} [LinearOrderedField α] [FloorRing α]

end Bounce

/-! ### The corner level, evaluated -/

section Neighbourhood

variable {α : Type} [LinearOrderedField α] [FloorRing α]

theorem clamp_dist_sq_field (v lo hi m : α) (hlh : lo ≤ hi) (hm : 0 ≤ m)
    (h : v + m ≤ lo ∨ hi + m ≤ v) :
    m * m ≤ (v - clamp v lo hi) * (v - clamp v lo hi) := by
  unfold clamp
  rcases h with h | h
  · split_ifs <;> nlinarith
  · split_ifs <;> nlinarith

theorem IsSqrt.le_sqrt {sqrt : α → α} (hs : IsSqrt sqrt) {s m : α}
    (h : m * m ≤ s) : m ≤ sqrt s := by
  have h0 : 0 ≤ s := le_trans (mul_self_nonneg m) h
  obtain ⟨h1, h2⟩ := hs s h0
  by_contra hlt
  push_neg at hlt
  have : sqrt s * sqrt s < m * m := mul_lt_mul'' hlt hlt h1 h1
  linarith

theorem truncToInt_bounds (v : α) (hv : 0 ≤ v) :
    ((truncToInt v : Int) : α) ≤ v ∧ v < ((truncToInt v : Int) : α) + 1 := by
  unfold truncToInt
  rw [if_pos hv]
  exact ⟨Int.floor_le v, Int.lt_floor_add_one v⟩

theorem axis_far (x w cs : α) (hc : 0 < cs) (hl : 0 ≤ x + w / 2.0) (n : Int)
    (hfar : 2 ≤ |n - truncToInt ((x + w / 2.0) / cs)|) :
    x + cs ≤ ((n : α) + 0.5) * cs - w / 2.0 - cs / 2.0 ∨
      ((n : α) + 0.5) * cs - w / 2.0 + cs / 2.0 + cs ≤ x := by
  obtain ⟨h1, h2⟩ := truncToInt_bounds ((x + w / 2.0) / cs) (div_nonneg hl hc.le)
  rw [le_div_iff₀ hc] at h1
  rw [div_lt_iff₀ hc] at h2
  generalize truncToInt ((x + w / 2.0) / cs) = c at h1 h2 hfar
  rcases le_abs'.mp hfar with h | h
  · right
    have hn : (n : α) + 2 ≤ (c : α) := by
      have : n + 2 ≤ c := by omega
      exact_mod_cast this
    have := mul_le_mul_of_nonneg_right hn hc.le
    norm_num at h1 h2 ⊢
    linarith
  · left
    have hn : (c : α) + 2 ≤ (n : α) := by
      have : c + 2 ≤ n := by omega
      exact_mod_cast this
    have := mul_le_mul_of_nonneg_right hn hc.le
    norm_num at h1 h2 ⊢
    linarith

theorem wallDist_far {sqrt : α → α} (hs : IsSqrt sqrt) (L : Level α) (hc : 0 < L.cellSize)
    (pos : Vec3 α) (hx : 0 ≤ pos.x + L.getBoardWidth / 2.0)
    (hz : 0 ≤ pos.z + L.getBoardDepth / 2.0) (nx ny : Int)
    (hfar : 2 ≤ |nx - (L.worldToGrid pos).x| ∨ 2 ≤ |ny - (L.worldToGrid pos).y|) :
    L.cellSize ≤ L.wallDist sqrt pos nx ny := by
  unfold Level.wallDist length2
  apply hs.le_sqrt
  have hhalf : (0 : α) ≤ L.cellSize / 2.0 := div_nonneg hc.le (by norm_num)
  have hX := mul_self_nonneg (pos.x - clamp pos.x ((L.gridToWorld nx ny).x - L.cellSize / 2.0)
    ((L.gridToWorld nx ny).x + L.cellSize / 2.0))
  have hZ := mul_self_nonneg (pos.z - clamp pos.z ((L.gridToWorld nx ny).z - L.cellSize / 2.0)
    ((L.gridToWorld nx ny).z + L.cellSize / 2.0))
  rcases hfar with h | h
  · have := clamp_dist_sq_field pos.x ((L.gridToWorld nx ny).x - L.cellSize / 2.0)
      ((L.gridToWorld nx ny).x + L.cellSize / 2.0) L.cellSize (by linarith) hc.le
      (axis_far pos.x L.getBoardWidth L.cellSize hc hx nx h)
    simp only at this ⊢
    linarith
  · have := clamp_dist_sq_field pos.z ((L.gridToWorld nx ny).z - L.cellSize / 2.0)
      ((L.gridToWorld nx ny).z + L.cellSize / 2.0) L.cellSize (by linarith) hc.le
      (axis_far pos.z L.getBoardDepth L.cellSize hc hz ny h)
    simp only at this ⊢
    linarith

end Neighbourhood

/-! ## Prism and cylinder -/

namespace Primitives

section Prism

variable {α : Type} [LinearOrderedField α]

/-- C30: for every sides >= 1, radius and height != 0, createPrism(sides,
radius, height) and createCylinder(radius, height, sides) return the same mesh:
the same vertex sequence (positions, normals, texture coordinates, tangents,
bitangents) and the same index sequence. -/
theorem createPrism_eq_createCylinder (m : Libm α) (sides : Nat) (radius height : α)
    (_hs : 1 ≤ sides) (_hh : height ≠ 0) :
    createPrism m sides radius height = createCylinder m radius height sides ∧
      ∃ mesh, createCylinder m radius height sides = some mesh ∧
        createPrism m sides radius height = some mesh := by
  have e : createPrism m sides radius height = createCylinder m radius height sides := by
    unfold createPrism createFrustum createCylinder frustumVertices cylinderVertices
    simp only [sub_self, zero_div]
  obtain ⟨mesh, hm, _⟩ := createCylinder_some m radius height sides
  exact ⟨e, mesh, hm, by rw [e, hm]⟩

theorem createPrism_eq_createCylinder_witness :
    (1 ≤ 6) ∧ ((2 : ℝ) ≠ 0) ∧
      createPrism (⟨Real.sqrt, Real.sin, Real.cos, fun _ _ => 0, Real.pi⟩ : Libm ℝ) 6 1 2 =
        createCylinder (⟨Real.sqrt, Real.sin, Real.cos, fun _ _ => 0, Real.pi⟩ : Libm ℝ) 1 2 6 :=
  ⟨by norm_num, by norm_num,
    (createPrism_eq_createCylinder
      (⟨Real.sqrt, Real.sin, Real.cos, fun _ _ => 0, Real.pi⟩ : Libm ℝ) 6 1 2 (by norm_num)
      (by norm_num)).1⟩

end Prism

end Primitives

/-! ## The tangent basis of the plane -/

namespace Primitives

section Plane

variable {α : Type} [LinearOrderedField α]

theorem normalize_pos_x {sqrt : α → α} (hs : IsSqrt sqrt) (a : α) (ha : 0 < a) :
    Vec3.normalize sqrt ⟨a, 0, 0⟩ = ⟨1, 0, 0⟩ := by
  have hsq : sqrt (a * a + 0 * 0 + 0 * 0) = a := by
    rw [mul_zero, add_zero, add_zero]
    exact hs.sqrt_sq ha.le
  simp only [Vec3.normalize, Vec3.dot, hsq, Vec3.mk.injEq]
  refine ⟨?_, by ring, by ring⟩
  rw [mul_one_div, div_self (ne_of_gt ha)]

theorem normalize_neg_z {sqrt : α → α} (hs : IsSqrt sqrt) (c : α) (hc : 0 < c) :
    Vec3.normalize sqrt ⟨0, 0, -c⟩ = ⟨0, 0, -1⟩ := by
  have hsq : sqrt (0 * 0 + 0 * 0 + -c * -c) = c := by
    rw [mul_zero, add_zero, zero_add, neg_mul_neg]
    exact hs.sqrt_sq hc.le
  simp only [Vec3.normalize, Vec3.dot, hsq, Vec3.mk.injEq]
  refine ⟨by ring, by ring, ?_⟩
  rw [mul_one_div, neg_div, div_self (ne_of_gt hc)]

theorem computeTangent_plane_first {sqrt : α → α} (hs : IsSqrt sqrt) (w d : α) (hw : 0 < w)
    (hd : 0 < d) (t0 b0 t1 b1 t2 b2 : Vec3 α) :
    computeTangent sqrt ⟨⟨-w, 0, d⟩, ⟨0, 1, 0⟩, ⟨0, 0⟩, t0, b0⟩
        ⟨⟨w, 0, d⟩, ⟨0, 1, 0⟩, ⟨1, 0⟩, t1, b1⟩ ⟨⟨w, 0, -d⟩, ⟨0, 1, 0⟩, ⟨1, 1⟩, t2, b2⟩
      = (⟨1, 0, 0⟩, ⟨0, 0, -1⟩) := by
  have hf : (0 : α) < 1.0 / ((1 - 0) * (1 - 0) - (1 - 0) * (0 - 0) + 0.0001) := by norm_num
  have e1 : (⟨1.0 / ((1 - 0) * (1 - 0) - (1 - 0) * (0 - 0) + 0.0001) *
        ((1 - 0) * (w - -w) - (0 - 0) * (w - -w)),
      1.0 / ((1 - 0) * (1 - 0) - (1 - 0) * (0 - 0) + 0.0001) *
        ((1 - 0) * (0 - 0) - (0 - 0) * (0 - 0)),
      1.0 / ((1 - 0) * (1 - 0) - (1 - 0) * (0 - 0) + 0.0001) *
        ((1 - 0) * (d - d) - (0 - 0) * (-d - d))⟩ : Vec3 α)
      = ⟨1.0 / ((1 - 0) * (1 - 0) - (1 - 0) * (0 - 0) + 0.0001) * (2 * w), 0, 0⟩ := by
    simp only [Vec3.mk.injEq]
    refine ⟨by ring, by ring, by ring⟩
  have e2 : (⟨1.0 / ((1 - 0) * (1 - 0) - (1 - 0) * (0 - 0) + 0.0001) *
        (-(1 - 0) * (w - -w) + (1 - 0) * (w - -w)),
      1.0 / ((1 - 0) * (1 - 0) - (1 - 0) * (0 - 0) + 0.0001) *
        (-(1 - 0) * (0 - 0) + (1 - 0) * (0 - 0)),
      1.0 / ((1 - 0) * (1 - 0) - (1 - 0) * (0 - 0) + 0.0001) *
        (-(1 - 0) * (d - d) + (1 - 0) * (-d - d))⟩ : Vec3 α)
      = ⟨0, 0, -(1.0 / ((1 - 0) * (1 - 0) - (1 - 0) * (0 - 0) + 0.0001) * (2 * d))⟩ := by
    simp only [Vec3.mk.injEq]
    refine ⟨by ring, by ring, by ring⟩
  simp only [computeTangent, Vec3.sub]
  rw [e1, e2, normalize_pos_x hs _ (mul_pos hf (by linarith)),
    normalize_neg_z hs _ (mul_pos hf (by linarith))]

theorem computeTangent_plane_second {sqrt : α → α} (hs : IsSqrt sqrt) (w d : α) (hw : 0 < w)
    (hd : 0 < d) (t0 b0 t1 b1 t2 b2 : Vec3 α) :
    computeTangent sqrt ⟨⟨-w, 0, d⟩, ⟨0, 1, 0⟩, ⟨0, 0⟩, t0, b0⟩
        ⟨⟨w, 0, -d⟩, ⟨0, 1, 0⟩, ⟨1, 1⟩, t1, b1⟩ ⟨⟨-w, 0, -d⟩, ⟨0, 1, 0⟩, ⟨0, 1⟩, t2, b2⟩
      = (⟨1, 0, 0⟩, ⟨0, 0, -1⟩) := by
  have hf : (0 : α) < 1.0 / ((1 - 0) * (1 - 0) - (0 - 0) * (1 - 0) + 0.0001) := by norm_num
  have e1 : (⟨1.0 / ((1 - 0) * (1 - 0) - (0 - 0) * (1 - 0) + 0.0001) *
        ((1 - 0) * (w - -w) - (1 - 0) * (-w - -w)),
      1.0 / ((1 - 0) * (1 - 0) - (0 - 0) * (1 - 0) + 0.0001) *
        ((1 - 0) * (0 - 0) - (1 - 0) * (0 - 0)),
      1.0 / ((1 - 0) * (1 - 0) - (0 - 0) * (1 - 0) + 0.0001) *
        ((1 - 0) * (-d - d) - (1 - 0) * (-d - d))⟩ : Vec3 α)
      = ⟨1.0 / ((1 - 0) * (1 - 0) - (0 - 0) * (1 - 0) + 0.0001) * (2 * w), 0, 0⟩ := by
    simp only [Vec3.mk.injEq]
    refine ⟨by ring, by ring, by ring⟩
  have e2 : (⟨1.0 / ((1 - 0) * (1 - 0) - (0 - 0) * (1 - 0) + 0.0001) *
        (-(0 - 0) * (w - -w) + (1 - 0) * (-w - -w)),
      1.0 / ((1 - 0) * (1 - 0) - (0 - 0) * (1 - 0) + 0.0001) *
        (-(0 - 0) * (0 - 0) + (1 - 0) * (0 - 0)),
      1.0 / ((1 - 0) * (1 - 0) - (0 - 0) * (1 - 0) + 0.0001) *
        (-(0 - 0) * (-d - d) + (1 - 0) * (-d - d))⟩ : Vec3 α)
      = ⟨0, 0, -(1.0 / ((1 - 0) * (1 - 0) - (0 - 0) * (1 - 0) + 0.0001) * (2 * d))⟩ := by
    simp only [Vec3.mk.injEq]
    refine ⟨by ring, by ring, by ring⟩
  simp only [computeTangent, Vec3.sub]
  rw [e1, e2, normalize_pos_x hs _ (mul_pos hf (by linarith)),
    normalize_neg_z hs _ (mul_pos hf (by linarith))]

/-- C26: for createPlane with width > 0 and depth > 0 and sqrt a square root:
the plane has the triangles (0, 1, 2) and (0, 2, 3); every vertex stores the
tangent (1, 0, 0) and the bitangent (0, 0, 1); computeTangent applied to either
triangle yields the tangent (1, 0, 0) and the bitangent (0, 0, -1), and so does
the tangent pass over the whole plane.  The stored tangent agrees with the
construction, the stored bitangent is its opposite. -/
theorem createPlane_tangents {sqrt : α → α} (hs : IsSqrt sqrt) (width depth : α)
    (hw : 0 < width) (hd : 0 < depth) :
    triangles (createPlane width depth).indices = [(0, 1, 2), (0, 2, 3)] ∧
    (∀ v ∈ (createPlane width depth).vertices, v.Tangent = ⟨1, 0, 0⟩ ∧ v.Bitangent = ⟨0, 0, 1⟩) ∧
    (∀ t ∈ triangles (createPlane width depth).indices, ∀ v0 v1 v2 : Vertex α,
      (createPlane width depth).vertices[t.1]? = some v0 →
      (createPlane width depth).vertices[t.2.1]? = some v1 →
      (createPlane width depth).vertices[t.2.2]? = some v2 →
      computeTangent sqrt v0 v1 v2 = (⟨1, 0, 0⟩, ⟨0, 0, -1⟩)) ∧
    (∃ vs, tangentPass sqrt (createPlane width depth).vertices (createPlane width depth).indices
        = some vs ∧ vs.length = 4 ∧
      ∀ v ∈ vs, v.Tangent = ⟨1, 0, 0⟩ ∧ v.Bitangent = ⟨0, 0, -1⟩) ∧
    (∀ v ∈ (createPlane width depth).vertices, ∀ t ∈ triangles (createPlane width depth).indices,
      ∀ v0 v1 v2 : Vertex α,
      (createPlane width depth).vertices[t.1]? = some v0 →
      (createPlane width depth).vertices[t.2.1]? = some v1 →
      (createPlane width depth).vertices[t.2.2]? = some v2 →
      v.Tangent = (computeTangent sqrt v0 v1 v2).1 ∧
        v.Bitangent ≠ (computeTangent sqrt v0 v1 v2).2) := by
  have hw2 : 0 < width / 2.0 := div_pos hw (by norm_num)
  have hd2 : 0 < depth / 2.0 := div_pos hd (by norm_num)
  have htri : triangles (createPlane width depth).indices = [(0, 1, 2), (0, 2, 3)] := rfl
  have hstored : ∀ v ∈ (createPlane width depth).vertices,
      v.Tangent = ⟨1, 0, 0⟩ ∧ v.Bitangent = ⟨0, 0, 1⟩ := by
    intro v hv
    simp only [createPlane, List.mem_cons, List.mem_singleton, List.not_mem_nil, or_false] at hv
    rcases hv with rfl | rfl | rfl | rfl <;> exact ⟨rfl, rfl⟩
  have hcomp : ∀ t ∈ triangles (createPlane width depth).indices, ∀ v0 v1 v2 : Vertex α,
      (createPlane width depth).vertices[t.1]? = some v0 →
      (createPlane width depth).vertices[t.2.1]? = some v1 →
      (createPlane width depth).vertices[t.2.2]? = some v2 →
      computeTangent sqrt v0 v1 v2 = (⟨1, 0, 0⟩, ⟨0, 0, -1⟩) := by
    intro t ht v0 v1 v2 h0 h1 h2
    rw [htri] at ht
    simp only [List.mem_cons, List.mem_singleton, List.not_mem_nil, or_false] at ht
    rcases ht with rfl | rfl
    · simp only [createPlane, List.getElem?_cons_zero, List.getElem?_cons_succ,
        Option.some.injEq] at h0 h1 h2
      subst h0 h1 h2
      exact computeTangent_plane_first hs _ _ hw2 hd2 _ _ _ _ _ _
    · simp only [createPlane, List.getElem?_cons_zero, List.getElem?_cons_succ,
        Option.some.injEq] at h0 h1 h2
      subst h0 h1 h2
      exact computeTangent_plane_second hs _ _ hw2 hd2 _ _ _ _ _ _
  have hne : (⟨0, 0, 1⟩ : Vec3 α) ≠ ⟨0, 0, -1⟩ := by
    intro h
    have hz := congrArg Vec3.z h
    simp only at hz
    linarith
  refine ⟨htri, hstored, hcomp, ?_, ?_⟩
  · have c1 := computeTangent_plane_first hs _ _ hw2 hd2 (⟨1, 0, 0⟩ : Vec3 α) ⟨0, 0, 1⟩
      ⟨1, 0, 0⟩ ⟨0, 0, 1⟩ ⟨1, 0, 0⟩ ⟨0, 0, 1⟩
    have c2 := computeTangent_plane_second hs _ _ hw2 hd2 (⟨1, 0, 0⟩ : Vec3 α) ⟨0, 0, -1⟩
      ⟨1, 0, 0⟩ ⟨0, 0, -1⟩ ⟨1, 0, 0⟩ ⟨0, 0, 1⟩
    refine ⟨[ ⟨⟨-(width / 2.0), 0, depth / 2.0⟩, ⟨0, 1, 0⟩, ⟨0, 0⟩, ⟨1, 0, 0⟩, ⟨0, 0, -1⟩⟩,
        ⟨⟨width / 2.0, 0, depth / 2.0⟩, ⟨0, 1, 0⟩, ⟨1, 0⟩, ⟨1, 0, 0⟩, ⟨0, 0, -1⟩⟩,
        ⟨⟨width / 2.0, 0, -(depth / 2.0)⟩, ⟨0, 1, 0⟩, ⟨1, 1⟩, ⟨1, 0, 0⟩, ⟨0, 0, -1⟩⟩,
        ⟨⟨-(width / 2.0), 0, -(depth / 2.0)⟩, ⟨0, 1, 0⟩, ⟨0, 1⟩, ⟨1, 0, 0⟩, ⟨0, 0, -1⟩⟩ ],
      ?_, ?_, ?_⟩
    · simp only [createPlane, tangentPass, List.getElem?_cons_zero, List.getElem?_cons_succ,
        List.set_cons_zero, List.set_cons_succ, c1, withTangent, c2]
    · rfl
    · intro v hv
      simp only [List.mem_cons, List.mem_singleton, List.not_mem_nil, or_false] at hv
      rcases hv with rfl | rfl | rfl | rfl <;> exact ⟨rfl, rfl⟩
  · intro v hv t ht v0 v1 v2 h0 h1 h2
    rw [hcomp t ht v0 v1 v2 h0 h1 h2, (hstored v hv).1, (hstored v hv).2]
    exact ⟨rfl, hne⟩

end Plane

end Primitives

theorem createPlane_tangents_witness :
    IsSqrt Real.sqrt ∧ (0 : ℝ) < 2 ∧ (0 : ℝ) < 2 ∧
      (∀ v ∈ (Primitives.createPlane (2 : ℝ) 2).vertices,
        v.Tangent = ⟨1, 0, 0⟩ ∧ v.Bitangent = ⟨0, 0, 1⟩) ∧
      (∃ vs, Primitives.tangentPass Real.sqrt (Primitives.createPlane (2 : ℝ) 2).vertices
          (Primitives.createPlane (2 : ℝ) 2).indices = some vs ∧ vs.length = 4 ∧
        ∀ v ∈ vs, v.Tangent = ⟨1, 0, 0⟩ ∧ v.Bitangent = ⟨0, 0, -1⟩) :=
  ⟨isSqrt_real, by norm_num, by norm_num,
    (Primitives.createPlane_tangents isSqrt_real 2 2 (by norm_num) (by norm_num)).2.1,
    (Primitives.createPlane_tangents isSqrt_real 2 2 (by norm_num) (by norm_num)).2.2.2.1⟩

/-! ## The face reader of Model::loadFromFile -/

namespace IStream

theorem isDigit_not_space (c : Char) (h : isDigit c = true) : isSpace c = false := by
  unfold isDigit at h
  unfold isSpace
  simp only [Bool.and_eq_true, decide_eq_true_eq] at h
  have hne : c ≠ ' ' := by
    rintro rfl
    exact absurd h.1 (by decide)
  have h13 : ¬ c.toNat ≤ 13 := by omega
  simp [hne, h13]

theorem isDigit_not_sign (c : Char) (h : isDigit c = true) : ¬ (c = '-' ∨ c = '+') := by
  unfold isDigit at h
  simp only [Bool.and_eq_true, decide_eq_true_eq] at h
  rintro (rfl | rfl)
  · exact absurd h.1 (by decide)
  · exact absurd h.1 (by decide)

theorem isDigit_not_slash (c : Char) (h : isDigit c = true) : c ≠ '/' := by
  unfold isDigit at h
  simp only [Bool.and_eq_true, decide_eq_true_eq] at h
  rintro rfl
  exact absurd h.1 (by decide)

theorem dropWhile_spaces (sp l : List Char) (hsp : ∀ c ∈ sp, isSpace c = true) :
    (sp ++ l).dropWhile isSpace = l.dropWhile isSpace := by
  induction sp with
  | nil => rfl
  | cons c cs ih =>
    rw [List.cons_append, List.dropWhile_cons_of_pos (hsp c (List.mem_cons_self _ _))]
    exact ih (fun d hd => hsp d (List.mem_cons_of_mem _ hd))

theorem takeWhile_digits (ds rest : List Char) (hd : ∀ c ∈ ds, isDigit c = true)
    (hrest : rest = [] ∨ ∃ r, rest = ' ' :: r) :
    (ds ++ rest).takeWhile isDigit = ds ∧ (ds ++ rest).dropWhile isDigit = rest := by
  induction ds with
  | nil =>
    rcases hrest with rfl | ⟨r, rfl⟩
    · exact ⟨rfl, rfl⟩
    · exact ⟨rfl, rfl⟩
  | cons c cs ih =>
    obtain ⟨h1, h2⟩ := ih (fun d hd' => hd d (List.mem_cons_of_mem _ hd'))
    have hc := hd c (List.mem_cons_self _ _)
    rw [List.cons_append, List.takeWhile_cons_of_pos hc, List.dropWhile_cons_of_pos hc, h1, h2]
    exact ⟨rfl, rfl⟩

theorem readInt_digits (sp ds rest : List Char) (value : Int)
    (hsp : ∀ c ∈ sp, isSpace c = true) (hne : ds ≠ [])
    (hd : ∀ c ∈ ds, isDigit c = true) (hrest : rest = [] ∨ ∃ r, rest = ' ' :: r)
    (hmax : digitsValue ds ≤ 2147483647) :
    readInt ⟨sp ++ (ds ++ rest), true⟩ value
      = ((digitsValue ds : Int), ⟨rest, !rest.isEmpty⟩) := by
  obtain ⟨c, cs, rfl⟩ := List.exists_cons_of_ne_nil hne
  have hc := hd c (List.mem_cons_self _ _)
  obtain ⟨h1, h2⟩ := takeWhile_digits (c :: cs) rest hd hrest
  have hdrop : (sp ++ (c :: cs ++ rest)).dropWhile isSpace = c :: (cs ++ rest) := by
    rw [dropWhile_spaces sp _ hsp, List.cons_append,
      List.dropWhile_cons_of_neg (by rw [isDigit_not_space c hc]; decide)]
  unfold readInt
  simp only [Bool.not_true, Bool.false_eq_true, if_false, hdrop]
  rw [if_neg (isDigit_not_sign c hc)]
  rw [List.cons_append] at h1 h2
  simp only [h1, h2, List.isEmpty_cons, Bool.false_eq_true, if_false]
  have hcm : c ≠ '-' := fun h => isDigit_not_sign c hc (Or.inl h)
  rw [if_neg hcm]
  have hle : ¬ ((digitsValue (c :: cs) : Int) > 2147483647) := by
    have : ((digitsValue (c :: cs) : Nat) : Int) ≤ 2147483647 := by exact_mod_cast hmax
    omega
  have hge : ¬ ((digitsValue (c :: cs) : Int) < -2147483648) := by
    have : (0 : Int) ≤ (digitsValue (c :: cs) : Nat) := Int.natCast_nonneg _
    omega
  rw [if_neg hle, if_neg hge]

end IStream

namespace Model

section Face

variable {α : Type} [LinearOrderedField α]

theorem replaced_slash_slash (ds1 ds2 : List Char) (hd1 : ∀ c ∈ ds1, IStream.isDigit c = true)
    (hd2 : ∀ c ∈ ds2, IStream.isDigit c = true) :
    (ds1 ++ ['/', '/'] ++ ds2).map (fun c => if c = '/' then ' ' else c)
      = [] ++ (ds1 ++ ' ' :: ' ' :: ds2) := by
  have hid : ∀ ds : List Char, (∀ c ∈ ds, IStream.isDigit c = true) →
      ds.map (fun c => if c = '/' then ' ' else c) = ds := by
    intro ds h
    induction ds with
    | nil => rfl
    | cons c cs ih =>
      rw [List.map_cons, ih (fun d hd' => h d (List.mem_cons_of_mem _ hd')),
        if_neg (IStream.isDigit_not_slash c (h c (List.mem_cons_self _ _)))]
  rw [List.map_append, List.map_append, hid ds1 hd1, hid ds2 hd2]
  simp

theorem faceIndices_slash_slash (ds1 ds2 : List Char) (hne1 : ds1 ≠ []) (hne2 : ds2 ≠ [])
    (hd1 : ∀ c ∈ ds1, IStream.isDigit c = true) (hd2 : ∀ c ∈ ds2, IStream.isDigit c = true)
    (hp31 : IStream.digitsValue ds1 ≤ 2147483647)
    (hn31 : IStream.digitsValue ds2 ≤ 2147483647) :
    faceIndices (ds1 ++ ['/', '/'] ++ ds2)
      = ((IStream.digitsValue ds1 : Int), (IStream.digitsValue ds2 : Int), 0) := by
  have hr1 := IStream.readInt_digits [] ds1 (' ' :: ' ' :: ds2) 0
    (by simp) hne1 hd1 (Or.inr ⟨_, rfl⟩) hp31
  have hr2 := IStream.readInt_digits [' ', ' '] ds2 [] 0 (by simp [IStream.isSpace]) hne2 hd2
    (Or.inl rfl) hn31
  rw [List.append_nil] at hr2
  have e1 : (!(' ' :: ' ' :: ds2).isEmpty) = true := rfl
  have e2 : (!([] : List Char).isEmpty) = false := rfl
  rw [e1] at hr1
  rw [e2] at hr2
  unfold faceIndices
  simp only [replaced_slash_slash ds1 ds2 hd1 hd2, hr1]
  have hpeek1 : (⟨' ' :: ' ' :: ds2, true⟩ : IStream).peek = some ' ' := rfl
  rw [if_pos hpeek1]
  have hr2' : (⟨' ' :: ' ' :: ds2, true⟩ : IStream).readInt 0
      = ((IStream.digitsValue ds2 : Int), ⟨[], false⟩) := hr2
  simp only [hr2']
  have hpeek2 : ¬ ((⟨[], false⟩ : IStream).peek = some ' ') := by
    simp [IStream.peek]
  rw [if_neg hpeek2]

/-- C27: for a vertex reference made of a non-empty run of digits with value p,
two slashes, and a non-empty run of digits with value n, where 1 <= p <= number
of positions read and 1 <= n <= number of normals read (both within the range of
int), the vertex that Model::loadFromFile creates has Position equal to the
p-th position, but its Normal is the zero vector and its TexCoords is the n-th
texture coordinate when that many have been read (zero otherwise): the number
after the two slashes is read as the texture index, not as the normal index. -/
theorem faceVertex_slash_slash (positions : List (Vec3 α)) (texCoords : List (Vec2 α))
    (normals : List (Vec3 α)) (ds1 ds2 : List Char) (hne1 : ds1 ≠ []) (hne2 : ds2 ≠ [])
    (hd1 : ∀ c ∈ ds1, IStream.isDigit c = true) (hd2 : ∀ c ∈ ds2, IStream.isDigit c = true)
    (hp : 1 ≤ IStream.digitsValue ds1 ∧ IStream.digitsValue ds1 ≤ positions.length)
    (hn : 1 ≤ IStream.digitsValue ds2 ∧ IStream.digitsValue ds2 ≤ normals.length)
    (hp31 : IStream.digitsValue ds1 ≤ 2147483647)
    (hn31 : IStream.digitsValue ds2 ≤ 2147483647) :
    faceIndices (ds1 ++ ['/', '/'] ++ ds2)
        = ((IStream.digitsValue ds1 : Int), (IStream.digitsValue ds2 : Int), 0) ∧
      positions[IStream.digitsValue ds1 - 1]? =
        some (faceVertex positions texCoords normals (ds1 ++ ['/', '/'] ++ ds2)).Position ∧
      (faceVertex positions texCoords normals (ds1 ++ ['/', '/'] ++ ds2)).Normal = Vec3.zero ∧
      (faceVertex positions texCoords normals (ds1 ++ ['/', '/'] ++ ds2)).TexCoords =
        (texCoords[IStream.digitsValue ds2 - 1]?).getD ⟨0, 0⟩ := by
  have hidx := faceIndices_slash_slash ds1 ds2 hne1 hne2 hd1 hd2 hp31 hn31
  refine ⟨hidx, ?_, ?_, ?_⟩
  · unfold faceVertex
    simp only [hidx]
    have hpos : (IStream.digitsValue ds1 : Int) > 0 ∧
        (IStream.digitsValue ds1 : Int) ≤ (positions.length : Int) := by
      constructor
      · have := hp.1; omega
      · exact_mod_cast hp.2
    have hidx1 : ((IStream.digitsValue ds1 : Int) - 1).toNat = IStream.digitsValue ds1 - 1 := by
      omega
    have hlt : IStream.digitsValue ds1 - 1 < positions.length := by
      have := hp.1; have := hp.2; omega
    rw [if_pos hpos, hidx1, List.getElem?_eq_getElem hlt]
    rfl
  · unfold faceVertex
    simp only [hidx]
    rw [if_neg (by simp)]
  · unfold faceVertex
    simp only [hidx]
    have hidx2 : ((IStream.digitsValue ds2 : Int) - 1).toNat = IStream.digitsValue ds2 - 1 := by
      omega
    split_ifs with h
    · rw [hidx2]
    · have hge : texCoords.length ≤ IStream.digitsValue ds2 - 1 := by
        by_contra hlt
        apply h
        have := hn.1
        constructor
        · omega
        · have : IStream.digitsValue ds2 ≤ texCoords.length := by omega
          exact_mod_cast this
      rw [List.getElem?_eq_none hge]
      rfl

theorem faceVertex_slash_slash_witness :
    (faceVertex [(⟨1, 2, 3⟩ : Vec3 ℚ)] [⟨5, 7⟩] [⟨0, 0, 1⟩] ['1', '/', '/', '1']).Normal
        = Vec3.zero ∧
      (faceVertex [(⟨1, 2, 3⟩ : Vec3 ℚ)] [⟨5, 7⟩] [⟨0, 0, 1⟩] ['1', '/', '/', '1']).TexCoords
        = ⟨5, 7⟩ :=
  (faceVertex_slash_slash [(⟨1, 2, 3⟩ : Vec3 ℚ)] [⟨5, 7⟩] [⟨0, 0, 1⟩] ['1'] ['1']
    (by decide) (by decide) (by decide) (by decide) (by decide) (by decide) (by decide)
    (by decide)).2.2

end Face

end Model

/-! ## generateBoard: where the cubes are placed -/

namespace BoardGenerator

section BoardPlacement

variable {α : Type} [LinearOrderedField α] [FloorRing α]

theorem placeVertex_positions (pos : Vec3 α) (yScale : α) (vs : List (Vertex α)) :
    (vs.map (placeVertex pos yScale)).map Vertex.Position =
      (vs.map Vertex.Position).map fun p =>
        ⟨p.x + pos.x, p.y * yScale + pos.y, p.z + pos.z⟩ := by
  rw [List.map_map, List.map_map]
  rfl

theorem mem_cellPositions (s : α) (g : Vec3 α) (yScale yPos : α) (q : Vec3 α) :
    q ∈ cellPositions s g yScale yPos ↔
      q ∈ boxCorners (-(s / 2.0) + g.x) (s / 2.0 + g.x) (-(s / 2.0) * yScale + yPos)
        (s / 2.0 * yScale + yPos) (-(s / 2.0) + g.z) (s / 2.0 + g.z) := by
  unfold cellPositions
  rw [List.mem_map]
  constructor
  · rintro ⟨p, hp, rfl⟩
    rw [mem_cube_positions] at hp
    simp only [boxCorners, List.mem_cons, List.mem_singleton, List.not_mem_nil, or_false] at hp ⊢
    rcases hp with rfl | rfl | rfl | rfl | rfl | rfl | rfl | rfl <;> simp
  · intro hq
    have hm : ∀ p : Vec3 α,
        p ∈ boxCorners (-(s / 2.0)) (s / 2.0) (-(s / 2.0)) (s / 2.0) (-(s / 2.0)) (s / 2.0) →
        p ∈ (Primitives.cubeVertices s).map Vertex.Position := fun p hp =>
      (mem_cube_positions s p).mpr hp
    simp only [boxCorners, List.mem_cons, List.mem_singleton, List.not_mem_nil, or_false] at hq
    rcases hq with rfl | rfl | rfl | rfl | rfl | rfl | rfl | rfl
    · exact ⟨⟨-(s / 2.0), -(s / 2.0), -(s / 2.0)⟩, hm _ (by simp [boxCorners]), rfl⟩
    · exact ⟨⟨-(s / 2.0), -(s / 2.0), s / 2.0⟩, hm _ (by simp [boxCorners]), rfl⟩
    · exact ⟨⟨-(s / 2.0), s / 2.0, -(s / 2.0)⟩, hm _ (by simp [boxCorners]), rfl⟩
    · exact ⟨⟨-(s / 2.0), s / 2.0, s / 2.0⟩, hm _ (by simp [boxCorners]), rfl⟩
    · exact ⟨⟨s / 2.0, -(s / 2.0), -(s / 2.0)⟩, hm _ (by simp [boxCorners]), rfl⟩
    · exact ⟨⟨s / 2.0, -(s / 2.0), s / 2.0⟩, hm _ (by simp [boxCorners]), rfl⟩
    · exact ⟨⟨s / 2.0, s / 2.0, -(s / 2.0)⟩, hm _ (by simp [boxCorners]), rfl⟩
    · exact ⟨⟨s / 2.0, s / 2.0, s / 2.0⟩, hm _ (by simp [boxCorners]), rfl⟩

/-- C20: on every constructed Level, generateBoard visits the width x height
cells in row-major order and appends one copy of the 24-vertex, 36-index cube
createCube(cellSize) per cell: to the wall buffer when getCell(x, y) is the wall
character (as for a cell past the end of a short row), otherwise to the floor
buffer; the copy is the template translated in X/Z by gridToWorld(x, y), its
indices offset by 24 times the number of cubes already in that buffer; walls
and floor together hold 24 * width * height vertices and every index is less
than its buffer's vertex count.  The vertex positions of the copy for the cell
(x, y) are those of the template with gridToWorld(x, y).x added to X and
gridToWorld(x, y).z added to Z, and Y multiplied by wallHeight / cellSize and
raised by wallHeight / 2 (floor: floorThickness in place of wallHeight, lowered
by floorThickness / 2): the eight corners of the box that reaches cellSize / 2
to either side of gridToWorld(x, y) in X and in Z, so that the copy is centred
in X/Z on gridToWorld(x, y). -/
theorem generateBoard_cells (m : Libm α) (gridData : List (List Char)) (cellSize : α) :
    ∃ B cube, generateBoard m (Level.fromGrid gridData cellSize) = some B ∧
      Primitives.createCube m.sqrt cellSize = some cube ∧
      cube.vertices.length = 24 ∧ cube.indices.length = 36 ∧
      cube.vertices.map Vertex.Position =
        (Primitives.cubeVertices cellSize).map Vertex.Position ∧
      B.walls.vertices =
        (Level.fromGrid gridData cellSize).wallCells.flatMap (fun c =>
          cube.vertices.map (placeVertex
            { (Level.fromGrid gridData cellSize).gridToWorld (c.1 : Int) (c.2 : Int) with
                y := cellSize * 0.6 / 2.0 } (cellSize * 0.6 / cellSize))) ∧
      B.walls.indices =
        copiedIndices cube.indices 24 0 (Level.fromGrid gridData cellSize).wallCells.length ∧
      B.floor.vertices =
        (Level.fromGrid gridData cellSize).floorCells.flatMap (fun c =>
          cube.vertices.map (placeVertex
            { (Level.fromGrid gridData cellSize).gridToWorld (c.1 : Int) (c.2 : Int) with
                y := -(cellSize * 0.15) / 2.0 } (cellSize * 0.15 / cellSize))) ∧
      B.floor.indices =
        copiedIndices cube.indices 24 0 (Level.fromGrid gridData cellSize).floorCells.length ∧
      B.walls.vertices.length = 24 * (Level.fromGrid gridData cellSize).wallCells.length ∧
      B.floor.vertices.length = 24 * (Level.fromGrid gridData cellSize).floorCells.length ∧
      ((B.walls.vertices.length + B.floor.vertices.length : Nat) : Int) =
        24 * (Level.fromGrid gridData cellSize).width *
          (Level.fromGrid gridData cellSize).height ∧
      (∀ i ∈ B.walls.indices, i < B.walls.vertices.length) ∧
      (∀ i ∈ B.floor.indices, i < B.floor.vertices.length) ∧
      (∀ (x y : Nat) (row : List Char), gridData[y]? = some row →
        ((x : Int) < (Level.fromGrid gridData cellSize).width) → row.length ≤ x →
        (x, y) ∈ (Level.fromGrid gridData cellSize).wallCells) ∧
      B.walls.vertices.map Vertex.Position =
        (Level.fromGrid gridData cellSize).wallCells.flatMap (fun c =>
          cellPositions cellSize
            ((Level.fromGrid gridData cellSize).gridToWorld (c.1 : Int) (c.2 : Int))
            (cellSize * 0.6 / cellSize) (cellSize * 0.6 / 2.0)) ∧
      B.floor.vertices.map Vertex.Position =
        (Level.fromGrid gridData cellSize).floorCells.flatMap (fun c =>
          cellPositions cellSize
            ((Level.fromGrid gridData cellSize).gridToWorld (c.1 : Int) (c.2 : Int))
            (cellSize * 0.15 / cellSize) (-(cellSize * 0.15) / 2.0)) ∧
      (∀ (g q : Vec3 α) (yScale yPos : α),
        q ∈ cellPositions cellSize g yScale yPos ↔
          q ∈ boxCorners (-(cellSize / 2.0) + g.x) (cellSize / 2.0 + g.x)
            (-(cellSize / 2.0) * yScale + yPos) (cellSize / 2.0 * yScale + yPos)
            (-(cellSize / 2.0) + g.z) (cellSize / 2.0 + g.z)) := by
  obtain ⟨B, cube, hB, hc, hi, hl, hp, hfloor, hwalls⟩ :=
    generateBoard_eq m (Level.fromGrid gridData cellSize)
  have hcs : (Level.fromGrid gridData cellSize).cellSize = cellSize := rfl
  rw [hcs] at hc hp
  obtain ⟨h1, h2, h3, h4⟩ := foldl_cellStep (Level.fromGrid gridData cellSize) cube cube
    (rowMajor (Level.fromGrid gridData cellSize).width.toNat
      (Level.fromGrid gridData cellSize).height.toNat) ⟨[], [], [], []⟩
  rw [← cellLoop_eq_foldl] at h1 h2 h3 h4
  simp only [List.nil_append, List.length_nil, hl, hcs] at h1 h2 h3 h4
  have hwl : (cellLoop (Level.fromGrid gridData cellSize) cube cube).wallVerts.length =
      24 * (Level.fromGrid gridData cellSize).wallCells.length := by
    rw [h1, length_flatMap_const _ _ 24]
    · rw [Nat.mul_comm]
      rfl
    · intro c _
      rw [List.length_map, hl]
  have hfl : (cellLoop (Level.fromGrid gridData cellSize) cube cube).floorVerts.length =
      24 * (Level.fromGrid gridData cellSize).floorCells.length := by
    rw [h3, length_flatMap_const _ _ 24]
    · rw [Nat.mul_comm]
      rfl
    · intro c _
      rw [List.length_map, hl]
  have hw' : B.walls = ⟨(cellLoop (Level.fromGrid gridData cellSize) cube cube).wallVerts,
      (cellLoop (Level.fromGrid gridData cellSize) cube cube).wallInds⟩ := by
    rw [hwalls]
    apply mesh_of_buffers
    intro hnil
    have h0 : (Level.fromGrid gridData cellSize).wallCells.length = 0 := by
      have := hwl
      rw [hnil, List.length_nil] at this
      omega
    rw [h2]
    show copiedIndices cube.indices 24 0 (Level.fromGrid gridData cellSize).wallCells.length = []
    rw [h0]
    rfl
  have hf' : B.floor = ⟨(cellLoop (Level.fromGrid gridData cellSize) cube cube).floorVerts,
      (cellLoop (Level.fromGrid gridData cellSize) cube cube).floorInds⟩ := by
    rw [hfloor]
    apply mesh_of_buffers
    intro hnil
    have h0 : (Level.fromGrid gridData cellSize).floorCells.length = 0 := by
      have := hfl
      rw [hnil, List.length_nil] at this
      omega
    rw [h4]
    show copiedIndices cube.indices 24 0 (Level.fromGrid gridData cellSize).floorCells.length = []
    rw [h0]
    rfl
  have hcube : ∀ idx ∈ cube.indices, idx < 24 := by
    rw [hi]
    exact Primitives.cubeIndices_lt
  refine ⟨B, cube, hB, hc, hl, by rw [hi]; rfl, hp, ?_, ?_, ?_, ?_, ?_, ?_, ?_, ?_, ?_, ?_, ?_,
    ?_, ?_⟩
  · rw [hw']; exact h1
  · rw [hw']; exact h2
  · rw [hf']; exact h3
  · rw [hf']; exact h4
  · rw [hw']; exact hwl
  · rw [hf']; exact hfl
  · rw [hw', hf']
    show (((cellLoop (Level.fromGrid gridData cellSize) cube cube).wallVerts.length +
      (cellLoop (Level.fromGrid gridData cellSize) cube cube).floorVerts.length : Nat) : Int) = _
    rw [hwl, hfl]
    have hsum := length_filter_add_not
      (fun c : Nat × Nat => decide ((Level.fromGrid gridData cellSize).getCell (c.1 : Int)
        (c.2 : Int) = some '#'))
      (rowMajor (Level.fromGrid gridData cellSize).width.toNat
        (Level.fromGrid gridData cellSize).height.toNat)
    rw [rowMajor_length] at hsum
    have hsum' : (Level.fromGrid gridData cellSize).wallCells.length +
        (Level.fromGrid gridData cellSize).floorCells.length =
        (Level.fromGrid gridData cellSize).height.toNat *
          (Level.fromGrid gridData cellSize).width.toNat := hsum
    have hwn := fromGrid_width_nonneg gridData cellSize
    have hhn : 0 ≤ (Level.fromGrid gridData cellSize).height := by
      show (0 : Int) ≤ (gridData.length : Int)
      omega
    have e : 24 * (Level.fromGrid gridData cellSize).wallCells.length +
        24 * (Level.fromGrid gridData cellSize).floorCells.length =
        24 * ((Level.fromGrid gridData cellSize).height.toNat *
          (Level.fromGrid gridData cellSize).width.toNat) := by
      rw [← hsum']
      ring
    rw [e]
    push_cast
    rw [Int.toNat_of_nonneg hwn, Int.toNat_of_nonneg hhn]
    ring
  · intro i hi'
    rw [hw'] at hi' ⊢
    have hlt : i < 0 + 24 * (Level.fromGrid gridData cellSize).wallCells.length :=
      copiedIndices_lt cube.indices 24 0 _ hcube i (h2 ▸ hi')
    show i < (cellLoop (Level.fromGrid gridData cellSize) cube cube).wallVerts.length
    rw [hwl]
    omega
  · intro i hi'
    rw [hf'] at hi' ⊢
    have hlt : i < 0 + 24 * (Level.fromGrid gridData cellSize).floorCells.length :=
      copiedIndices_lt cube.indices 24 0 _ hcube i (h4 ▸ hi')
    show i < (cellLoop (Level.fromGrid gridData cellSize) cube cube).floorVerts.length
    rw [hfl]
    omega
  · intro x y row hrow hx hlen
    unfold Level.wallCells rowMajor
    rw [List.mem_filter]
    have hy : y < gridData.length := by
      by_contra hge
      rw [List.getElem?_eq_none (not_lt.mp hge)] at hrow
      exact absurd hrow (by simp)
    refine ⟨?_, ?_⟩
    · simp only [List.mem_flatMap, List.mem_range, List.mem_map]
      refine ⟨y, ?_, x, ?_, rfl⟩
      · show y < ((gridData.length : Int)).toNat
        omega
      · omega
    · have hrow' : (Level.fromGrid gridData cellSize).grid[((y : Nat) : Int).toNat]? = some row := by
        simpa using hrow
      have hcell := getCell_of_row (Level.fromGrid gridData cellSize) (x : Int) (y : Int) row
        (by omega) rfl hrow'
      have hcond : (x : Int) < 0 ∨ (x : Int) ≥ (row.length : Int) := by omega
      rw [if_pos hcond] at hcell
      simpa using hcell
  · rw [hw', show (⟨(cellLoop (Level.fromGrid gridData cellSize) cube cube).wallVerts,
      (cellLoop (Level.fromGrid gridData cellSize) cube cube).wallInds⟩ : Mesh α).vertices =
      (cellLoop (Level.fromGrid gridData cellSize) cube cube).wallVerts from rfl, h1,
      List.map_flatMap]
    simp only [placeVertex_positions, hp]
    rfl
  · rw [hf', show (⟨(cellLoop (Level.fromGrid gridData cellSize) cube cube).floorVerts,
      (cellLoop (Level.fromGrid gridData cellSize) cube cube).floorInds⟩ : Mesh α).vertices =
      (cellLoop (Level.fromGrid gridData cellSize) cube cube).floorVerts from rfl, h3,
      List.map_flatMap]
    simp only [placeVertex_positions, hp]
    rfl
  · intro g q yScale yPos
    exact mem_cellPositions cellSize g yScale yPos q

end BoardPlacement

end BoardGenerator

/-! ## Binary32 rounding: monotonicity, exact cases and error bounds -/

namespace F32

section RoundingFacts

variable {α : Type} [LinearOrderedField α] [FloorRing α]

theorem roundEven_intCast (n : Int) : roundEven ((n : Int) : α) = n := by
  unfold roundEven
  simp

theorem roundEven_sub_le (t : α) : |(roundEven t : α) - t| ≤ 1 / 2 := by
  unfold roundEven
  have h0 : (0 : α) ≤ t - (⌊t⌋ : α) := sub_nonneg.mpr (Int.floor_le t)
  have h1 : t - (⌊t⌋ : α) < 1 := by linarith [Int.lt_floor_add_one t]
  rw [abs_le]
  split_ifs with ha hb hc
  · constructor <;> linarith
  · push_cast
    constructor <;> linarith
  · have he : t - (⌊t⌋ : α) = 1 / 2 := le_antisymm (not_lt.mp hb) (not_lt.mp ha)
    constructor <;> linarith
  · have he : t - (⌊t⌋ : α) = 1 / 2 := le_antisymm (not_lt.mp hb) (not_lt.mp ha)
    push_cast
    constructor <;> linarith

theorem le_roundEven (n : Int) (t : α) (h : (n : α) ≤ t) : n ≤ roundEven t := by
  have hf : n ≤ ⌊t⌋ := Int.le_floor.mpr h
  unfold roundEven
  split_ifs <;> omega

theorem roundEven_le (n : Int) (t : α) (h : t ≤ (n : α)) : roundEven t ≤ n := by
  unfold roundEven
  have hfl : (⌊t⌋ : α) ≤ t := Int.floor_le t
  rcases eq_or_lt_of_le h with he | hlt
  · subst he
    simp
  · have hf : ⌊t⌋ < n := Int.floor_lt.mpr hlt
    split_ifs <;> omega

theorem roundEven_mono {s t : α} (h : s ≤ t) : roundEven s ≤ roundEven t := by
  by_cases hf : ⌊s⌋ = ⌊t⌋
  · unfold roundEven
    rw [hf]
    have hst : s - (⌊t⌋ : α) ≤ t - (⌊t⌋ : α) := by linarith
    split_ifs <;> first | omega | (exfalso; linarith)
  · have hlt : ⌊s⌋ < ⌊t⌋ := lt_of_le_of_ne (Int.floor_mono h) hf
    have h1 : roundEven s ≤ ⌊s⌋ + 1 := by
      apply roundEven_le
      push_cast
      exact le_of_lt (Int.lt_floor_add_one s)
    have h2 : ⌊t⌋ ≤ roundEven t := le_roundEven _ _ (Int.floor_le t)
    omega

theorem roundEven_neg (t : α) : roundEven (-t) = -roundEven t := by
  by_cases hi : (⌊t⌋ : α) = t
  · rw [← hi, ← Int.cast_neg, roundEven_intCast, roundEven_intCast]
  · have hlt : (⌊t⌋ : α) < t := lt_of_le_of_ne (Int.floor_le t) hi
    have hfn : ⌊-t⌋ = -⌊t⌋ - 1 := by
      rw [Int.floor_eq_iff]
      push_cast
      constructor
      · linarith [Int.lt_floor_add_one t]
      · linarith
    unfold roundEven
    rw [hfn]
    push_cast
    have h1 : t - (⌊t⌋ : α) < 1 := by linarith [Int.lt_floor_add_one t]
    split_ifs <;> first | omega | (exfalso; linarith)

end RoundingFacts

end F32

namespace F32

section RoundFacts

variable {α : Type} [LinearOrderedField α] [FloorRing α]

theorem two_zpow_pos (k : Int) : (0 : α) < 2 ^ k := zpow_pos (by norm_num) k

theorem ulpExp_ge (x : α) : -149 ≤ ulpExp x := le_max_right _ _

theorem ulpExp_neg (x : α) : ulpExp (-x) = ulpExp x := by
  unfold ulpExp
  rw [abs_neg]

theorem round_neg (x : α) : round (-x) = -round x := by
  unfold round
  rw [ulpExp_neg, neg_div, roundEven_neg]
  push_cast
  ring

theorem log_lt_of_lt_zpow (x : α) (k : Int) (hx : 0 < x) (h : x < 2 ^ k) :
    Int.log 2 x < k := by
  have := (Int.lt_zpow_iff_log_lt (b := 2) (by norm_num) hx (x := k)).mp
      (by rw [Nat.cast_ofNat]; exact h)
  exact this

theorem le_log_of_zpow_le (x : α) (k : Int) (hx : 0 < x) (h : 2 ^ k ≤ x) :
    k ≤ Int.log 2 x := by
  have := (Int.zpow_le_iff_le_log (b := 2) (by norm_num) hx (x := k)).mp
      (by rw [Nat.cast_ofNat]; exact h)
  exact this

theorem zpow_log_le (x : α) (hx : 0 < x) : (2 : α) ^ Int.log 2 x ≤ x := by
  have := Int.zpow_log_le_self (b := 2) (by norm_num) hx
  rwa [Nat.cast_ofNat] at this

theorem lt_zpow_log_succ (x : α) : x < (2 : α) ^ (Int.log 2 x + 1) := by
  have := Int.lt_zpow_succ_log_self (b := 2) (by norm_num) x
  rwa [Nat.cast_ofNat] at this

theorem round_zero : round (0 : α) = 0 := by
  unfold round
  rw [zero_div]
  have : roundEven (0 : α) = 0 := by
    have := roundEven_intCast (α := α) 0
    simpa using this
  rw [this]
  simp

/-- A multiple n * 2^k of a power of two with |n| < 2^24 and k >= -149 is a
binary32 number: rounding leaves it unchanged. -/
theorem round_of_repr (n k : Int) (hn : |n| < 2 ^ 24) (hk : -149 ≤ k) :
    round ((n : α) * 2 ^ k) = (n : α) * 2 ^ k := by
  by_cases h0 : n = 0
  · subst h0
    simp only [Int.cast_zero, zero_mul]
    exact round_zero
  have hle : ulpExp ((n : α) * 2 ^ k) ≤ k := by
    unfold ulpExp
    apply max_le _ hk
    have hpos : (0 : α) < |(n : α) * 2 ^ k| := by
      rw [abs_pos]
      exact mul_ne_zero (Int.cast_ne_zero.mpr h0) (ne_of_gt (two_zpow_pos k))
    have hlt : |(n : α) * 2 ^ k| < 2 ^ (24 + k) := by
      rw [abs_mul, abs_of_pos (two_zpow_pos (α := α) k),
        zpow_add₀ (by norm_num : (2 : α) ≠ 0)]
      have h1 : |(n : α)| < 2 ^ (24 : Int) := by
        rw [← Int.cast_abs]
        have : ((|n| : Int) : α) < ((2 ^ 24 : Int) : α) := Int.cast_lt.mpr hn
        norm_num at this ⊢
        exact this
      exact mul_lt_mul_of_pos_right h1 (two_zpow_pos k)
    have := log_lt_of_lt_zpow _ _ hpos hlt
    omega
  obtain ⟨d, hd⟩ : ∃ d : Nat, k = ulpExp ((n : α) * 2 ^ k) + d :=
    ⟨(k - ulpExp ((n : α) * 2 ^ k)).toNat, by omega⟩
  unfold round
  have hne : (2 : α) ^ ulpExp ((n : α) * 2 ^ k) ≠ 0 := ne_of_gt (two_zpow_pos _)
  have hq : (n : α) * 2 ^ k / 2 ^ ulpExp ((n : α) * 2 ^ k) = ((n * 2 ^ d : Int) : α) := by
    rw [div_eq_iff hne]
    nth_rewrite 1 [hd]
    rw [zpow_add₀ (by norm_num : (2 : α) ≠ 0), zpow_natCast]
    push_cast
    ring
  rw [hq, roundEven_intCast]
  exact ((div_eq_iff hne).mp hq).symm

theorem round_intCast (n : Int) (hn : |n| < 2 ^ 24) : round (n : α) = n := by
  have := round_of_repr (α := α) n 0 hn (by norm_num)
  simpa using this

/-- The rounding error is at most half the spacing. -/
theorem abs_round_sub_le (x : α) : |round x - x| ≤ 2 ^ ulpExp x / 2 := by
  unfold round
  have hq : (0 : α) < 2 ^ ulpExp x := two_zpow_pos _
  have h := roundEven_sub_le (x / 2 ^ ulpExp x)
  have e : (roundEven (x / 2 ^ ulpExp x) : α) * 2 ^ ulpExp x - x =
      ((roundEven (x / 2 ^ ulpExp x) : α) - x / 2 ^ ulpExp x) * 2 ^ ulpExp x := by
    field_simp
  rw [e, abs_mul, abs_of_pos hq]
  calc |(roundEven (x / 2 ^ ulpExp x) : α) - x / 2 ^ ulpExp x| * 2 ^ ulpExp x
      ≤ 1 / 2 * 2 ^ ulpExp x := mul_le_mul_of_nonneg_right h (le_of_lt hq)
    _ = 2 ^ ulpExp x / 2 := by ring

/-- The spacing at x != 0 is at most 2^-23 |x|, or the subnormal spacing
2^-149. -/
theorem zpow_ulpExp_le (x : α) (hx0 : x ≠ 0) :
    (2 : α) ^ ulpExp x ≤ 2 ^ (-23 : Int) * |x| + 2 ^ (-149 : Int) := by
  unfold ulpExp
  have h149 : (0 : α) < 2 ^ (-149 : Int) := two_zpow_pos _
  have h23 : (0 : α) < 2 ^ (-23 : Int) := two_zpow_pos _
  have hx : 0 < |x| := abs_pos.mpr hx0
  rcases le_total (Int.log 2 |x| - 23) (-149) with h | h
  · rw [max_eq_right h]
    have := mul_nonneg (le_of_lt h23) (abs_nonneg x)
    linarith
  · rw [max_eq_left h]
    have := zpow_log_le |x| hx
    rw [sub_eq_add_neg, zpow_add₀ (by norm_num : (2 : α) ≠ 0), mul_comm]
    have h2 : (2 : α) ^ (-23 : Int) * 2 ^ Int.log 2 |x| ≤ 2 ^ (-23 : Int) * |x| :=
      mul_le_mul_of_nonneg_left this (le_of_lt h23)
    linarith

/-- The rounding error: relative 2^-24, or absolute 2^-150 in the subnormal
range. -/
theorem abs_round_sub_le_rel (x : α) :
    |round x - x| ≤ 2 ^ (-24 : Int) * |x| + 2 ^ (-150 : Int) := by
  by_cases hx0 : x = 0
  · subst hx0
    rw [round_zero]
    simp only [sub_self, abs_zero, mul_zero, zero_add]
    exact le_of_lt (two_zpow_pos _)
  have h1 := abs_round_sub_le x
  have h2 := zpow_ulpExp_le x hx0
  have e1 : (2 : α) ^ (-24 : Int) = 2 ^ (-23 : Int) / 2 := by
    rw [show (-24 : Int) = -23 + -1 by norm_num, zpow_add₀ (by norm_num : (2 : α) ≠ 0)]
    norm_num
  have e2 : (2 : α) ^ (-150 : Int) = 2 ^ (-149 : Int) / 2 := by
    rw [show (-150 : Int) = -149 + -1 by norm_num, zpow_add₀ (by norm_num : (2 : α) ≠ 0)]
    norm_num
  rw [e1, e2]
  have e3 : (2 : α) ^ (-23 : Int) / 2 * |x| = 2 ^ (-23 : Int) * |x| / 2 := by ring
  rw [e3]
  generalize (2 : α) ^ (-23 : Int) * |x| = a at h2 ⊢
  generalize (2 : α) ^ (-149 : Int) = b at h2 ⊢
  generalize (2 : α) ^ ulpExp x = q at h1 h2
  linarith

theorem round_nonneg (x : α) (hx : 0 ≤ x) : 0 ≤ round x := by
  unfold round
  apply mul_nonneg _ (le_of_lt (two_zpow_pos _))
  have : (0 : Int) ≤ roundEven (x / 2 ^ ulpExp x) :=
    le_roundEven 0 _ (by simpa using div_nonneg hx (le_of_lt (two_zpow_pos (α := α) _)))
  exact_mod_cast this

theorem round_nonpos (x : α) (hx : x ≤ 0) : round x ≤ 0 := by
  have := round_nonneg (-x) (by linarith)
  rw [round_neg] at this
  linarith

theorem ulpExp_mono_of_pos (x y : α) (hx : 0 < x) (h : x ≤ y) : ulpExp x ≤ ulpExp y := by
  unfold ulpExp
  rw [abs_of_pos hx, abs_of_pos (lt_of_lt_of_le hx h)]
  have := Int.log_mono_right (b := 2) hx h
  exact max_le_max (by omega) le_rfl

theorem round_mono_of_pos (x y : α) (hx : 0 < x) (h : x ≤ y) : round x ≤ round y := by
  have hy : 0 < y := lt_of_lt_of_le hx h
  have he := ulpExp_mono_of_pos x y hx h
  rcases eq_or_lt_of_le he with heq | hlt
  · unfold round
    rw [heq]
    apply mul_le_mul_of_nonneg_right _ (le_of_lt (two_zpow_pos _))
    have : roundEven (x / 2 ^ ulpExp y) ≤ roundEven (y / 2 ^ ulpExp y) :=
      roundEven_mono (div_le_div_of_nonneg_right h (le_of_lt (two_zpow_pos _)))
    exact_mod_cast this
  · -- x lies below the binade of y
    have hey : ulpExp y = Int.log 2 y - 23 := by
      have h149 := ulpExp_ge x
      unfold ulpExp at hlt ⊢
      rw [abs_of_pos hy] at hlt ⊢
      rw [abs_of_pos hx] at hlt
      apply max_eq_left
      by_contra hc
      rw [max_eq_right (le_of_lt (not_le.mp hc))] at hlt
      have := le_max_right (Int.log 2 x - 23) (-149)
      omega
    have hlogx : Int.log 2 x - 23 ≤ ulpExp x := by
      unfold ulpExp
      rw [abs_of_pos hx]
      exact le_max_left _ _
    have hxlt : x < 2 ^ Int.log 2 y := by
      have h1 := lt_zpow_log_succ x
      have h2 : Int.log 2 x + 1 ≤ Int.log 2 y := by omega
      exact lt_of_lt_of_le h1 (zpow_le_zpow_right₀ (by norm_num) h2)
    obtain ⟨d, hd⟩ : ∃ d : Nat, Int.log 2 y = ulpExp x + d :=
      ⟨(Int.log 2 y - ulpExp x).toNat, by omega⟩
    have hpow : (2 : α) ^ Int.log 2 y = ((2 ^ d : Int) : α) * 2 ^ ulpExp x := by
      rw [hd, zpow_add₀ (by norm_num : (2 : α) ≠ 0), zpow_natCast]
      push_cast
      ring
    have h1 : round x ≤ 2 ^ Int.log 2 y := by
      unfold round
      rw [hpow]
      apply mul_le_mul_of_nonneg_right _ (le_of_lt (two_zpow_pos _))
      have : roundEven (x / 2 ^ ulpExp x) ≤ 2 ^ d := by
        apply roundEven_le
        rw [div_le_iff₀ (two_zpow_pos _), ← hpow]
        exact le_of_lt hxlt
      exact_mod_cast this
    have hpow2 : (2 : α) ^ Int.log 2 y = ((2 ^ 23 : Int) : α) * 2 ^ ulpExp y := by
      rw [hey]
      have : Int.log 2 y = 23 + (Int.log 2 y - 23) := by ring
      nth_rewrite 1 [this]
      rw [zpow_add₀ (by norm_num : (2 : α) ≠ 0)]
      norm_num
    have h2 : 2 ^ Int.log 2 y ≤ round y := by
      unfold round
      rw [hpow2]
      apply mul_le_mul_of_nonneg_right _ (le_of_lt (two_zpow_pos _))
      have : (2 ^ 23 : Int) ≤ roundEven (y / 2 ^ ulpExp y) := by
        apply le_roundEven
        rw [le_div_iff₀ (two_zpow_pos _), ← hpow2]
        exact zpow_log_le y hy
      exact_mod_cast this
    exact le_trans h1 h2

/-- Rounding is monotone. -/
theorem round_mono {x y : α} (h : x ≤ y) : round x ≤ round y := by
  rcases lt_trichotomy 0 x with hx | hx | hx
  · exact round_mono_of_pos x y hx h
  · subst hx
    rw [round_zero]
    exact round_nonneg y h
  · rcases le_or_lt 0 y with hy | hy
    · exact le_trans (round_nonpos x (le_of_lt hx)) (round_nonneg y hy)
    · have := round_mono_of_pos (-y) (-x) (by linarith) (by linarith)
      rw [round_neg, round_neg] at this
      linarith

end RoundFacts

end F32

namespace F32

section RoundEval

variable {α : Type} [LinearOrderedField α] [FloorRing α]

theorem roundEven_eq_of_near (t : α) (n : Int) (h : |t - (n : α)| < 1 / 2) : roundEven t = n := by
  have h1 := roundEven_sub_le t
  rw [abs_lt] at h
  rw [abs_le] at h1
  have h2 : ((roundEven t : Int) : α) < ((n + 1 : Int) : α) := by push_cast; linarith
  have h3 : ((n - 1 : Int) : α) < ((roundEven t : Int) : α) := by push_cast; linarith
  have h2' := Int.cast_lt.mp h2
  have h3' := Int.cast_lt.mp h3
  omega

theorem roundEven_of_tie (t : α) (n : Int) (h : t = (n : α) + 1 / 2) :
    roundEven t = if n % 2 = 0 then n else n + 1 := by
  have hf : ⌊t⌋ = n := by
    rw [Int.floor_eq_iff, h]
    constructor <;> linarith
  unfold roundEven
  rw [hf, h]
  have e : (n : α) + 1 / 2 - (n : α) = 1 / 2 := by ring
  rw [e]
  simp

/-- The spacing exponent of a number in the binade [2^(e+23), 2^(e+24)). -/
theorem ulpExp_eq (x : α) (e : Int) (he : -149 ≤ e) (hlo : 2 ^ (e + 23) ≤ |x|)
    (hhi : |x| < 2 ^ (e + 24)) : ulpExp x = e := by
  have hpos : 0 < |x| := lt_of_lt_of_le (two_zpow_pos _) hlo
  have h1 := le_log_of_zpow_le _ _ hpos hlo
  have h2 := log_lt_of_lt_zpow _ _ hpos hhi
  unfold ulpExp
  have : Int.log 2 |x| - 23 = e := by omega
  rw [this]
  exact max_eq_left he

/-- Rounding a number that lies within half a spacing of n * 2^e. -/
theorem round_eq_of_near (x : α) (e n : Int) (he : -149 ≤ e) (hlo : 2 ^ (e + 23) ≤ |x|)
    (hhi : |x| < 2 ^ (e + 24)) (hn : |x / 2 ^ e - (n : α)| < 1 / 2) :
    round x = (n : α) * 2 ^ e := by
  unfold round
  rw [ulpExp_eq x e he hlo hhi, roundEven_eq_of_near _ n hn]

/-- Rounding a number that lies half way between n * 2^e and (n + 1) * 2^e. -/
theorem round_eq_of_tie (x : α) (e n : Int) (he : -149 ≤ e) (hlo : 2 ^ (e + 23) ≤ |x|)
    (hhi : |x| < 2 ^ (e + 24)) (hn : x / 2 ^ e = (n : α) + 1 / 2) :
    round x = ((if n % 2 = 0 then n else n + 1 : Int) : α) * 2 ^ e := by
  unfold round
  rw [ulpExp_eq x e he hlo hhi, roundEven_of_tie _ n hn]

theorem round_le_of_le_repr (x : α) (n k : Int) (hn : |n| < 2 ^ 24) (hk : -149 ≤ k)
    (h : x ≤ (n : α) * 2 ^ k) : round x ≤ (n : α) * 2 ^ k := by
  have := round_mono h
  rwa [round_of_repr n k hn hk] at this

theorem le_round_of_repr_le (x : α) (n k : Int) (hn : |n| < 2 ^ 24) (hk : -149 ≤ k)
    (h : (n : α) * 2 ^ k ≤ x) : (n : α) * 2 ^ k ≤ round x := by
  have := round_mono h
  rwa [round_of_repr n k hn hk] at this

end RoundEval

end F32

namespace F32

section Dyadic

variable {α : Type} [LinearOrderedField α] [FloorRing α]

theorem ofInt_eq (n : Int) (hn : |n| < 2 ^ 24) : ofInt n = (n : α) :=
  round_intCast n hn

theorem add_repr (n m j : Int) (h : |n + m| < 2 ^ 24) (hj : -149 ≤ j) :
    add ((n : α) * 2 ^ j) ((m : α) * 2 ^ j) = ((n + m : Int) : α) * 2 ^ j := by
  unfold add
  rw [← add_mul, ← Int.cast_add]
  exact round_of_repr _ _ h hj

theorem sub_repr (n m j : Int) (h : |n - m| < 2 ^ 24) (hj : -149 ≤ j) :
    sub ((n : α) * 2 ^ j) ((m : α) * 2 ^ j) = ((n - m : Int) : α) * 2 ^ j := by
  unfold sub
  rw [← sub_mul, ← Int.cast_sub]
  exact round_of_repr _ _ h hj

theorem mul_zpow (n j k : Int) (hn : |n| < 2 ^ 24) (hjk : -149 ≤ j + k) :
    mul ((n : α) * 2 ^ j) (2 ^ k) = (n : α) * 2 ^ (j + k) := by
  unfold mul
  rw [mul_assoc, ← zpow_add₀ (two_ne_zero : (2 : α) ≠ 0)]
  exact round_of_repr _ _ hn hjk

theorem div_zpow (n j k : Int) (hn : |n| < 2 ^ 24) (hjk : -149 ≤ j - k) :
    div ((n : α) * 2 ^ j) (2 ^ k) = (n : α) * 2 ^ (j - k) := by
  unfold div
  rw [mul_div_assoc, ← zpow_sub₀ (two_ne_zero : (2 : α) ≠ 0)]
  exact round_of_repr _ _ hn hjk

theorem div_two (n j : Int) (hn : |n| < 2 ^ 24) (hj : -149 ≤ j - 1) :
    div ((n : α) * 2 ^ j) 2.0 = (n : α) * 2 ^ (j - 1) := by
  have e : (2.0 : α) = 2 ^ (1 : Int) := by norm_num
  rw [e]
  exact div_zpow n j 1 hn hj

theorem add_half (x : Int) (hx : |2 * x + 1| < 2 ^ 24) :
    add (x : α) 0.5 = ((2 * x + 1 : Int) : α) * 2 ^ (-1 : Int) := by
  unfold add
  have e : (x : α) + 0.5 = ((2 * x + 1 : Int) : α) * 2 ^ (-1 : Int) := by
    push_cast
    rw [zpow_neg_one]
    norm_num
    ring
  rw [e]
  exact round_of_repr _ _ hx (by norm_num)

theorem add_mono {a b c d : α} (h1 : a ≤ c) (h2 : b ≤ d) : add a b ≤ add c d :=
  round_mono (add_le_add h1 h2)

theorem sub_mono {a b c d : α} (h1 : a ≤ c) (h2 : d ≤ b) : sub a b ≤ sub c d :=
  round_mono (sub_le_sub h1 h2)

end Dyadic

end F32

section GridF

variable {α : Type} [LinearOrderedField α] [FloorRing α]

theorem getBoardWidthF_zpow (L : Level α) (k : Int) (hk : -149 ≤ k) (hcs : L.cellSize = 2 ^ k)
    (hw : |L.width| < 2 ^ 24) : L.getBoardWidthF = (L.width : α) * 2 ^ k := by
  unfold Level.getBoardWidthF
  rw [F32.ofInt_eq _ hw, hcs]
  have := F32.mul_zpow (α := α) L.width 0 k hw (by omega)
  rwa [zpow_zero, mul_one, zero_add] at this

theorem getBoardDepthF_zpow (L : Level α) (k : Int) (hk : -149 ≤ k) (hcs : L.cellSize = 2 ^ k)
    (hh : |L.height| < 2 ^ 24) : L.getBoardDepthF = (L.height : α) * 2 ^ k := by
  unfold Level.getBoardDepthF
  rw [F32.ofInt_eq _ hh, hcs]
  have := F32.mul_zpow (α := α) L.height 0 k hh (by omega)
  rwa [zpow_zero, mul_one, zero_add] at this

/-- One coordinate of gridToWorld in float arithmetic, for a cell size 2^k. -/
theorem gridCoordF_zpow (x w k : Int) (hk : -148 ≤ k) (hw : |w| < 2 ^ 24)
    (hx : |2 * x + 1| < 2 ^ 24) (hxw : |2 * x + 1 - w| < 2 ^ 24) :
    F32.sub (F32.mul (F32.add (F32.ofInt x) 0.5) ((2 : α) ^ k))
        (F32.div ((w : α) * 2 ^ k) 2.0) =
      ((2 * x + 1 - w : Int) : α) * 2 ^ (k - 1) := by
  have hx' : |x| < 2 ^ 24 := by
    rw [abs_lt] at hx ⊢
    constructor <;> omega
  rw [F32.ofInt_eq _ hx', F32.add_half _ hx, F32.mul_zpow _ _ _ hx (by omega),
    F32.div_two _ _ hw (by omega)]
  have e : (-1 : Int) + k = k - 1 := by ring
  rw [e]
  exact F32.sub_repr _ _ _ hxw (by omega)

theorem gridToWorldF_zpow (L : Level α) (k : Int) (hk : -148 ≤ k) (hcs : L.cellSize = 2 ^ k)
    (hw : |L.width| < 2 ^ 24) (hh : |L.height| < 2 ^ 24) (x y : Int)
    (hx : |2 * x + 1| < 2 ^ 24) (hxw : |2 * x + 1 - L.width| < 2 ^ 24)
    (hy : |2 * y + 1| < 2 ^ 24) (hyh : |2 * y + 1 - L.height| < 2 ^ 24) :
    L.gridToWorldF x y =
      ⟨((2 * x + 1 - L.width : Int) : α) * 2 ^ (k - 1), 0,
        ((2 * y + 1 - L.height : Int) : α) * 2 ^ (k - 1)⟩ := by
  unfold Level.gridToWorldF
  rw [getBoardWidthF_zpow L k (by omega) hcs hw, getBoardDepthF_zpow L k (by omega) hcs hh, hcs]
  simp only [gridCoordF_zpow x _ k hk hw hx hxw, gridCoordF_zpow y _ k hk hh hy hyh]
  norm_num

/-- One coordinate of worldToGrid in float arithmetic at the centre of a cell,
for a cell size 2^k. -/
theorem cellCoordF_zpow (x w k : Int) (hk : -148 ≤ k) (hw : |w| < 2 ^ 24) (hx0 : 0 ≤ x)
    (hx : |2 * x + 1| < 2 ^ 24) :
    truncToInt (F32.div (F32.add (((2 * x + 1 - w : Int) : α) * 2 ^ (k - 1))
        (F32.div ((w : α) * 2 ^ k) 2.0)) ((2 : α) ^ k)) = x := by
  rw [F32.div_two _ _ hw (by omega), F32.add_repr _ _ _ (by simpa using hx) (by omega)]
  have e : 2 * x + 1 - w + w = 2 * x + 1 := by ring
  rw [e, F32.div_zpow _ _ _ hx (by omega)]
  have e2 : k - 1 - k = -1 := by ring
  rw [e2]
  have e3 : ((2 * x + 1 : Int) : α) * 2 ^ (-1 : Int) = (x : α) + 0.5 := by
    push_cast
    rw [zpow_neg_one]
    norm_num
    ring
  rw [e3]
  exact truncToInt_add_half x hx0

theorem worldToGridF_centre (L : Level α) (k : Int) (hk : -148 ≤ k) (hcs : L.cellSize = 2 ^ k)
    (hw : L.width ≤ 2 ^ 23) (hh : L.height ≤ 2 ^ 23) (x y : Int)
    (hx : 0 ≤ x) (hxw : x < L.width) (hy : 0 ≤ y) (hyh : y < L.height) :
    L.worldToGridF (L.gridToWorldF x y) = ⟨x, y⟩ := by
  have hw' : |L.width| < 2 ^ 24 := by rw [abs_lt]; constructor <;> omega
  have hh' : |L.height| < 2 ^ 24 := by rw [abs_lt]; constructor <;> omega
  have hx1 : |2 * x + 1| < 2 ^ 24 := by rw [abs_lt]; constructor <;> omega
  have hy1 : |2 * y + 1| < 2 ^ 24 := by rw [abs_lt]; constructor <;> omega
  have hx2 : |2 * x + 1 - L.width| < 2 ^ 24 := by rw [abs_lt]; constructor <;> omega
  have hy2 : |2 * y + 1 - L.height| < 2 ^ 24 := by rw [abs_lt]; constructor <;> omega
  rw [gridToWorldF_zpow L k hk hcs hw' hh' x y hx1 hx2 hy1 hy2]
  unfold Level.worldToGridF
  rw [getBoardWidthF_zpow L k (by omega) hcs hw', getBoardDepthF_zpow L k (by omega) hcs hh', hcs]
  simp only [cellCoordF_zpow x _ k hk hw' hx hx1, cellCoordF_zpow y _ k hk hh' hy hy1]

end GridF

namespace F32

section ErrorBounds

variable {α : Type} [LinearOrderedField α] [FloorRing α]

/-- The relative error of one rounding, for a non-negative argument. -/
theorem round_bounds_nonneg (x : α) (hx : 0 ≤ x) :
    x - (x / 16777216 + 1 / 2 ^ 150) ≤ round x ∧ round x ≤ x + (x / 16777216 + 1 / 2 ^ 150) ∧
      0 ≤ round x := by
  have h := abs_round_sub_le_rel x
  rw [abs_of_nonneg hx, abs_le] at h
  have hu : (2 : α) ^ (-24 : Int) = 1 / 16777216 := by
    rw [zpow_neg]; norm_num
  have he : (2 : α) ^ (-150 : Int) = 1 / 2 ^ 150 := by
    rw [zpow_neg]; norm_num
  rw [hu, he] at h
  refine ⟨by linarith [h.1], by linarith [h.2], round_nonneg x hx⟩

/-- The relative error of one rounding. -/
theorem round_bounds (x : α) :
    |round x - x| ≤ |x| / 16777216 + 1 / 2 ^ 150 := by
  have h := abs_round_sub_le_rel x
  have hu : (2 : α) ^ (-24 : Int) = 1 / 16777216 := by
    rw [zpow_neg]; norm_num
  have he : (2 : α) ^ (-150 : Int) = 1 / 2 ^ 150 := by
    rw [zpow_neg]; norm_num
  rw [hu, he] at h
  linarith

end ErrorBounds

end F32

namespace F32

section Idempotent

variable {α : Type} [LinearOrderedField α] [FloorRing α]

theorem abs_div_ulp_lt (x : α) : |x / 2 ^ ulpExp x| < 2 ^ (24 : Int) := by
  have hq : (0 : α) < 2 ^ ulpExp x := two_zpow_pos _
  rw [abs_div, abs_of_pos hq, div_lt_iff₀ hq, ← zpow_add₀ (two_ne_zero : (2 : α) ≠ 0)]
  have h1 := lt_zpow_log_succ |x|
  have h2 : Int.log 2 |x| + 1 ≤ 24 + ulpExp x := by
    have : Int.log 2 |x| - 23 ≤ ulpExp x := le_max_left _ _
    omega
  exact lt_of_lt_of_le h1 (zpow_le_zpow_right₀ (by norm_num) h2)

/-- A rounded value is a binary32 number: rounding it again changes nothing. -/
theorem round_round (x : α) : round (round x) = round x := by
  have hlt := abs_div_ulp_lt x
  rw [abs_lt] at hlt
  have e24 : ((2 : α) ^ (24 : Int)) = (((2 ^ 24 : Int) : Int) : α) := by norm_num
  have hN1 : roundEven (x / 2 ^ ulpExp x) ≤ 2 ^ 24 := by
    apply roundEven_le
    rw [← e24]
    exact hlt.2.le
  have hN2 : -(2 ^ 24) ≤ roundEven (x / 2 ^ ulpExp x) := by
    apply le_roundEven
    have : (((-(2 ^ 24) : Int)) : α) = -(2 : α) ^ (24 : Int) := by norm_num
    rw [this]
    exact hlt.1.le
  have hk := ulpExp_ge x
  show round ((roundEven (x / 2 ^ ulpExp x) : α) * 2 ^ ulpExp x) =
    (roundEven (x / 2 ^ ulpExp x) : α) * 2 ^ ulpExp x
  generalize roundEven (x / 2 ^ ulpExp x) = N at hN1 hN2
  generalize ulpExp x = e at hk
  by_cases h1 : N = 2 ^ 24
  · subst h1
    have e1 : (((2 ^ 24 : Int) : Int) : α) * 2 ^ e = (((2 ^ 23 : Int) : Int) : α) * 2 ^ (e + 1) := by
      rw [zpow_add₀ (two_ne_zero : (2 : α) ≠ 0)]
      norm_num
      ring
    rw [e1]
    exact round_of_repr _ _ (by norm_num) (by omega)
  · by_cases h2 : N = -(2 ^ 24)
    · subst h2
      have e1 : (((-(2 ^ 24) : Int) : Int) : α) * 2 ^ e =
          (((-(2 ^ 23) : Int) : Int) : α) * 2 ^ (e + 1) := by
        rw [zpow_add₀ (two_ne_zero : (2 : α) ≠ 0)]
        norm_num
        ring
      rw [e1]
      exact round_of_repr _ _ (by norm_num) (by omega)
    · apply round_of_repr _ _ _ hk
      rw [abs_lt]
      constructor <;> omega

/-- Multiplying a binary32 number by a factor between 0 and 1 and rounding
does not increase its magnitude. -/
theorem abs_round_mul_le (a c : α) (ha : round a = a) (hc0 : 0 ≤ c) (hc1 : c ≤ 1) :
    |round (a * c)| ≤ |a| := by
  rcases le_total 0 a with h | h
  · have h1 : 0 ≤ round (a * c) := round_nonneg _ (mul_nonneg h hc0)
    have h2 : round (a * c) ≤ round a := round_mono (by nlinarith)
    rw [abs_of_nonneg h1, abs_of_nonneg h]
    rw [ha] at h2
    exact h2
  · have h1 : round (a * c) ≤ 0 := round_nonpos _ (mul_nonpos_of_nonpos_of_nonneg h hc0)
    have h2 : round a ≤ round (a * c) := round_mono (by nlinarith)
    rw [abs_of_nonpos h1, abs_of_nonpos h]
    rw [ha] at h2
    linarith

end Idempotent

end F32

/-! ### Some binary32 numbers -/

theorem round_half_real : F32.round (1 / 2 : ℝ) = 1 / 2 := by
  have := F32.round_of_repr (α := ℝ) 1 (-1) (by norm_num) (by norm_num)
  rw [zpow_neg_one] at this
  norm_num at this
  exact this

theorem round_one_real : F32.round (1 : ℝ) = 1 := by
  simpa using F32.round_intCast (α := ℝ) 1 (by norm_num)

theorem round_two_real : F32.round (2 : ℝ) = 2 := by
  simpa using F32.round_intCast (α := ℝ) 2 (by norm_num)

theorem round_three_real : F32.round (3 : ℝ) = 3 := by
  simpa using F32.round_intCast (α := ℝ) 3 (by norm_num)

theorem round_five_real : F32.round (5 : ℝ) = 5 := by
  simpa using F32.round_intCast (α := ℝ) 5 (by norm_num)

theorem round_three_halves_real : F32.round (3 / 2 : ℝ) = 3 / 2 := by
  have := F32.round_of_repr (α := ℝ) 3 (-1) (by norm_num) (by norm_num)
  rw [zpow_neg_one] at this
  norm_num at this
  exact this

theorem round_five_halves_real : F32.round (5 / 2 : ℝ) = 5 / 2 := by
  have := F32.round_of_repr (α := ℝ) 5 (-1) (by norm_num) (by norm_num)
  rw [zpow_neg_one] at this
  norm_num at this
  exact this

theorem round_three_quarters_real : F32.round (3 / 4 : ℝ) = 3 / 4 := by
  have := F32.round_of_repr (α := ℝ) 3 (-2) (by norm_num) (by norm_num)
  norm_num at this ⊢
  exact this

/-! ## The grid round trip in float arithmetic, for any cell size -/

section GridGeneral

variable {α : Type} [LinearOrderedField α] [FloorRing α]

/-- The float board-local coordinate of the float centre of the cell x, for a
cell size of at least 2^-100 and a board of at most 2^20 cells: it lies within
0.23 * cellSize of the exact local coordinate (x + 1/2) * cellSize. -/
theorem localCoordF_near (x w : Int) (cs : α) (hx0 : 0 ≤ x) (hxw : x < w) (hw : w ≤ 2 ^ 20)
    (hcs : 1 / 2 ^ 100 ≤ cs) :
    ((x : α) + 1 / 2 - 23 / 100) * cs ≤
        F32.add (F32.sub (F32.mul (F32.add (F32.ofInt x) 0.5) cs)
          (F32.div (F32.mul (F32.ofInt w) cs) 2.0)) (F32.div (F32.mul (F32.ofInt w) cs) 2.0) ∧
      F32.add (F32.sub (F32.mul (F32.add (F32.ofInt x) 0.5) cs)
          (F32.div (F32.mul (F32.ofInt w) cs) 2.0)) (F32.div (F32.mul (F32.ofInt w) cs) 2.0) ≤
        ((x : α) + 1 / 2 + 23 / 100) * cs := by
  have hx' : |x| < 2 ^ 24 := by rw [abs_lt]; constructor <;> omega
  have hw' : |w| < 2 ^ 24 := by rw [abs_lt]; constructor <;> omega
  have hx1 : |2 * x + 1| < 2 ^ 24 := by rw [abs_lt]; constructor <;> omega
  have hcs0 : 0 < cs := lt_of_lt_of_le (by positivity) hcs
  have e : ((2 * x + 1 : Int) : α) * 2 ^ (-1 : Int) = (x : α) + 1 / 2 := by
    push_cast
    rw [zpow_neg_one]
    ring
  rw [F32.ofInt_eq _ hx', F32.ofInt_eq _ hw', F32.add_half _ hx1, e]
  have hX0 : (0 : α) ≤ (x : α) := by exact_mod_cast hx0
  have hXW : (x : α) + 1 ≤ (w : α) := by exact_mod_cast hxw
  have hW : (w : α) ≤ 1048576 := by exact_mod_cast hw
  have ha0 : cs / 2 ≤ ((x : α) + 1 / 2) * cs := by
    have := mul_le_mul_of_nonneg_right (by linarith : (1 / 2 : α) ≤ (x : α) + 1 / 2) hcs0.le
    linarith
  have hab : ((x : α) + 1 / 2) * cs ≤ (w : α) * cs - cs / 2 := by
    have := mul_le_mul_of_nonneg_right (by linarith : (x : α) + 1 / 2 ≤ (w : α) - 1 / 2) hcs0.le
    linarith
  have hb : (w : α) * cs ≤ 1048576 * cs := mul_le_mul_of_nonneg_right hW hcs0.le
  have hη : (1 : α) / 2 ^ 150 ≤ cs / 2 ^ 50 := by
    have : (1 : α) / 2 ^ 150 = 1 / 2 ^ 100 / 2 ^ 50 := by norm_num
    rw [this]
    exact div_le_div_of_nonneg_right hcs (by positivity)
  have hη0 : (0 : α) < 1 / 2 ^ 150 := by positivity
  have e1 : ((x : α) + 1 / 2 - 23 / 100) * cs = ((x : α) + 1 / 2) * cs - 23 / 100 * cs := by ring
  have e2 : ((x : α) + 1 / 2 + 23 / 100) * cs = ((x : α) + 1 / 2) * cs + 23 / 100 * cs := by ring
  rw [e1, e2]
  unfold F32.add F32.sub F32.mul F32.div
  generalize ((x : α) + 1 / 2) * cs = a at *
  generalize (w : α) * cs = b at *
  obtain ⟨hA1, hA2, hA0⟩ := F32.round_bounds_nonneg a (by linarith)
  generalize F32.round a = A at *
  obtain ⟨hB1, hB2, hB0⟩ := F32.round_bounds_nonneg b (by linarith)
  generalize F32.round b = Wb at *
  obtain ⟨hH1, hH2, hH0⟩ := F32.round_bounds_nonneg (Wb / 2.0) (div_nonneg hB0 (by norm_num))
  generalize F32.round (Wb / 2.0) = H at *
  have hg := F32.round_bounds (A - H)
  have hgabs : |A - H| ≤ A + H := by
    rw [abs_le]
    constructor <;> linarith
  generalize F32.round (A - H) = gx at *
  have hg1 := neg_abs_le (gx - (A - H))
  have hg2 := le_abs_self (gx - (A - H))
  have hl := F32.round_bounds (gx + H)
  have hlabs : |gx + H| ≤ |gx - (A - H)| + A := by
    have := abs_add (gx - (A - H)) A
    rw [abs_of_nonneg hA0] at this
    have e3 : gx - (A - H) + A = gx + H := by ring
    rwa [e3] at this
  generalize F32.round (gx + H) = lx at *
  have hl1 := neg_abs_le (lx - (gx + H))
  have hl2 := le_abs_self (lx - (gx + H))
  generalize |A - H| = G1 at *
  generalize |gx + H| = G2 at *
  generalize |gx - (A - H)| = G3 at *
  generalize |lx - (gx + H)| = G4 at *
  generalize (1 : α) / 2 ^ 150 = η at *
  clear hx' hw' hx1 e hX0 hXW hW e1 e2 hcs
  norm_num at hA1 hA2 hB1 hB2 hH1 hH2 hg hl hη ⊢
  constructor
  · linarith only [hA1, hA2, hB1, hB2, hH1, hH2, hg, hl, hη, hη0, hg1, hg2, hl1, hl2, hgabs,
      hlabs, ha0, hab, hb, hA0, hB0, hH0, hcs0]
  · linarith only [hA1, hA2, hB1, hB2, hH1, hH2, hg, hl, hη, hη0, hg1, hg2, hl1, hl2, hgabs,
      hlabs, ha0, hab, hb, hA0, hB0, hH0, hcs0]

/-- One coordinate of worldToGrid (gridToWorld x) in float arithmetic, for a
cell size of at least 2^-100 and a board of at most 2^20 cells. -/
theorem cellCoordF_round_trip (x w : Int) (cs : α) (hx0 : 0 ≤ x) (hxw : x < w)
    (hw : w ≤ 2 ^ 20) (hcs : 1 / 2 ^ 100 ≤ cs) :
    truncToInt (F32.div (F32.add (F32.sub (F32.mul (F32.add (F32.ofInt x) 0.5) cs)
        (F32.div (F32.mul (F32.ofInt w) cs) 2.0)) (F32.div (F32.mul (F32.ofInt w) cs) 2.0))
      cs) = x := by
  obtain ⟨h1, h2⟩ := localCoordF_near x w cs hx0 hxw hw hcs
  generalize F32.add (F32.sub (F32.mul (F32.add (F32.ofInt x) 0.5) cs)
    (F32.div (F32.mul (F32.ofInt w) cs) 2.0)) (F32.div (F32.mul (F32.ofInt w) cs) 2.0) = lx
    at *
  have hcs0 : 0 < cs := lt_of_lt_of_le (by positivity) hcs
  have hX0 : (0 : α) ≤ (x : α) := by exact_mod_cast hx0
  have hXW : (x : α) + 1 ≤ (w : α) := by exact_mod_cast hxw
  have hW : (w : α) ≤ 1048576 := by exact_mod_cast hw
  have ht1 : (x : α) + 1 / 2 - 23 / 100 ≤ lx / cs := (le_div_iff₀ hcs0).mpr h1
  have ht2 : lx / cs ≤ (x : α) + 1 / 2 + 23 / 100 := (div_le_iff₀ hcs0).mpr h2
  unfold F32.div
  obtain ⟨hq1, hq2, hq0⟩ := F32.round_bounds_nonneg (lx / cs) (by linarith)
  generalize lx / cs = t at *
  have hη : (1 : α) / 2 ^ 150 ≤ 1 / 1024 := by
    apply one_div_le_one_div_of_le
    · norm_num
    · norm_num
  generalize (1 : α) / 2 ^ 150 = η at *
  unfold truncToInt
  rw [if_pos hq0, Int.floor_eq_iff]
  norm_num at hq1 hq2 hη ⊢
  constructor
  · linarith only [hq1, hq2, ht1, ht2, hη, hX0, hXW, hW]
  · linarith only [hq1, hq2, ht1, ht2, hη, hX0, hXW, hW]

theorem worldToGridF_round_trip (L : Level α) (hcs : 1 / 2 ^ 100 ≤ L.cellSize)
    (hw : L.width ≤ 2 ^ 20) (hh : L.height ≤ 2 ^ 20) (x y : Int)
    (hx : 0 ≤ x) (hxw : x < L.width) (hy : 0 ≤ y) (hyh : y < L.height) :
    L.worldToGridF (L.gridToWorldF x y) = ⟨x, y⟩ := by
  unfold Level.worldToGridF Level.gridToWorldF Level.getBoardWidthF Level.getBoardDepthF
  simp only [cellCoordF_round_trip x _ _ hx hxw hw hcs,
    cellCoordF_round_trip y _ _ hy hyh hh hcs]

end GridGeneral

/-! ## The grid round trip in float arithmetic -/

theorem fromGrid_replicate_width {α : Type} (n : Nat) (c : Char) (cellSize : α) :
    (Level.fromGrid [List.replicate n c] cellSize).width = (n : Int) := by
  have hw : (Level.fromGrid [List.replicate n c] cellSize).width =
      ([List.replicate n c].map fun row => (row.length : Int)).foldl max 0 :=
    scanRows_width [List.replicate n c] 0 ⟨0, ⟨0, 0⟩, ⟨0, 0⟩, []⟩
  rw [hw]
  simp only [List.map_cons, List.map_nil, List.length_replicate, List.foldl_cons,
    List.foldl_nil]
  exact max_eq_right (Int.natCast_nonneg n)

theorem wideLevel_width : wideLevel.width = 16777218 :=
  fromGrid_replicate_width 16777218 '.' 1

theorem wideLevel_height : wideLevel.height = 1 := rfl

theorem wideLevel_cellSize : wideLevel.cellSize = 1 := rfl

/-- C1: with cellSize 1 and a row of 16777218 cells, the float gridToWorld of
the cell (0, 0) has x = 0.5 - 8388609 rounded to -8388608, and the float
worldToGrid of that point is the cell (1, 0), not (0, 0). -/
theorem worldToGridF_gridToWorldF_counterexample :
    (0 : ℝ) < wideLevel.cellSize ∧ (0 : Int) ≤ 0 ∧ (0 : Int) < wideLevel.width ∧
      (0 : Int) < wideLevel.height ∧
      (wideLevel.gridToWorldF 0 0).x = -8388608 ∧
      wideLevel.worldToGridF (wideLevel.gridToWorldF 0 0) = ⟨1, 0⟩ := by
  have r0 : F32.round (0 : ℝ) = 0 := F32.round_zero
  have r1 : F32.round (1 : ℝ) = 1 := by
    simpa using F32.round_intCast (α := ℝ) 1 (by norm_num)
  have rh : F32.round (1 / 2 : ℝ) = 1 / 2 := by
    have := F32.round_of_repr (α := ℝ) 1 (-1) (by norm_num) (by norm_num)
    rw [zpow_neg_one] at this
    norm_num at this
    exact this
  have rw1 : F32.round (16777218 : ℝ) = 16777218 := by
    have := F32.round_of_repr (α := ℝ) 8388609 1 (by norm_num) (by norm_num)
    norm_num at this
    exact this
  have rw2 : F32.round (8388609 : ℝ) = 8388609 := by
    simpa using F32.round_intCast (α := ℝ) 8388609 (by norm_num)
  have rt : F32.round (-(16777217 / 2) : ℝ) = -8388608 := by
    have := F32.round_eq_of_tie (-(16777217 / 2) : ℝ) 0 (-8388609) (by norm_num)
      (by norm_num [abs_of_pos]) (by norm_num [abs_lt, abs_of_pos]) (by norm_num)
    rw [this]
    norm_num
  have hW : wideLevel.getBoardWidthF = 16777218 := by
    unfold Level.getBoardWidthF F32.mul F32.ofInt
    rw [wideLevel_width, wideLevel_cellSize]
    norm_num [rw1]
  have hD : wideLevel.getBoardDepthF = 1 := by
    unfold Level.getBoardDepthF F32.mul F32.ofInt
    rw [wideLevel_height, wideLevel_cellSize]
    norm_num [r1]
  have hg : wideLevel.gridToWorldF 0 0 = ⟨-8388608, 0, 0⟩ := by
    unfold Level.gridToWorldF
    rw [hW, hD, wideLevel_cellSize]
    simp only [F32.sub, F32.mul, F32.add, F32.div, F32.ofInt]
    norm_num [r0, r1, rh, rw2, rt]
  refine ⟨by rw [wideLevel_cellSize]; norm_num, le_refl _, by rw [wideLevel_width]; norm_num,
    by rw [wideLevel_height]; norm_num, by rw [hg], ?_⟩
  rw [hg]
  unfold Level.worldToGridF
  rw [hW, hD, wideLevel_cellSize]
  simp only [F32.add, F32.div]
  norm_num [r0, r1, rh, rw2, truncToInt]

section GridRoundTrip

variable {α : Type} [LinearOrderedField α] [FloorRing α]

/-- The float round trip through gridToWorld and worldToGrid, for the sizes
covered: any cell size with at most 2^20 cells per side, or a power of two
with at most 2^23. -/
theorem worldToGridF_sized (L : Level α)
    (hsize : (1 / 2 ^ 100 ≤ L.cellSize ∧ L.cellSize ≤ 2 ^ 100 ∧ L.width ≤ 2 ^ 20 ∧
        L.height ≤ 2 ^ 20) ∨
      (∃ k : Int, -100 ≤ k ∧ k ≤ 100 ∧ L.cellSize = 2 ^ k ∧ L.width ≤ 2 ^ 23 ∧
        L.height ≤ 2 ^ 23))
    (x y : Int) (hx : 0 ≤ x) (hxw : x < L.width) (hy : 0 ≤ y) (hyh : y < L.height) :
    L.worldToGridF (L.gridToWorldF x y) = ⟨x, y⟩ := by
  rcases hsize with ⟨hcs, _, hw, hh⟩ | ⟨k, hk, _, hcs, hw, hh⟩
  · exact worldToGridF_round_trip L hcs hw hh x y hx hxw hy hyh
  · exact worldToGridF_centre L k (by omega) hcs hw hh x y hx hxw hy hyh

/-- C1 (amended): in float arithmetic, for every Level whose cell size lies
between 2^-100 and 2^100 and whose width and height are at most 2^20 = 1048576,
or whose cell size is a power of two 2^k with -100 <= k <= 100 (such as 1.0f,
the cell size of every Level the program builds) and whose width and height are
at most 2^23 = 8388608, and for every cell (x, y) with 0 <= x < width and
0 <= y < height, worldToGrid (gridToWorld x y) is exactly (x, y).  In the first
case the float board-local coordinate of the centre is within 0.23 * cellSize
of (x + 1/2) * cellSize; in the second every intermediate value is a multiple
of cellSize / 2 that a float holds exactly.  (The upper bounds on the cell size
keep every value below the float range; the proof, whose operations never
overflow, does not use them.) -/
theorem worldToGridF_gridToWorldF (L : Level α)
    (hsize : (1 / 2 ^ 100 ≤ L.cellSize ∧ L.cellSize ≤ 2 ^ 100 ∧ L.width ≤ 2 ^ 20 ∧
        L.height ≤ 2 ^ 20) ∨
      (∃ k : Int, -100 ≤ k ∧ k ≤ 100 ∧ L.cellSize = 2 ^ k ∧ L.width ≤ 2 ^ 23 ∧
        L.height ≤ 2 ^ 23))
    (x y : Int) (hx : 0 ≤ x) (hxw : x < L.width) (hy : 0 ≤ y) (hyh : y < L.height) :
    L.worldToGridF (L.gridToWorldF x y) = ⟨x, y⟩ := by
  rcases hsize with ⟨hcs, _, hw, hh⟩ | ⟨k, hk, _, hcs, hw, hh⟩
  · exact worldToGridF_round_trip L hcs hw hh x y hx hxw hy hyh
  · exact worldToGridF_centre L k (by omega) hcs hw hh x y hx hxw hy hyh

theorem sampleLevel_sized :
    (1 / 2 ^ 100 ≤ sampleLevel.cellSize ∧ sampleLevel.cellSize ≤ 2 ^ 100 ∧
        sampleLevel.width ≤ 2 ^ 20 ∧ sampleLevel.height ≤ 2 ^ 20) ∨
      (∃ k : Int, -100 ≤ k ∧ k ≤ 100 ∧ sampleLevel.cellSize = 2 ^ k ∧
        sampleLevel.width ≤ 2 ^ 23 ∧ sampleLevel.height ≤ 2 ^ 23) := by
  left
  have hc : sampleLevel.cellSize = 1 := rfl
  rw [hc]
  refine ⟨?_, ?_, by decide, by decide⟩
  · norm_num
  · norm_num

theorem worldToGridF_gridToWorldF_witness :
    ((1 / 2 ^ 100 ≤ sampleLevel.cellSize ∧ sampleLevel.cellSize ≤ 2 ^ 100 ∧
        sampleLevel.width ≤ 2 ^ 20 ∧ sampleLevel.height ≤ 2 ^ 20) ∨
      (∃ k : Int, -100 ≤ k ∧ k ≤ 100 ∧ sampleLevel.cellSize = 2 ^ k ∧
        sampleLevel.width ≤ 2 ^ 23 ∧ sampleLevel.height ≤ 2 ^ 23)) ∧
      (0 : Int) ≤ 3 ∧ 3 < sampleLevel.width ∧ (0 : Int) ≤ 1 ∧ 1 < sampleLevel.height ∧
      sampleLevel.worldToGridF (sampleLevel.gridToWorldF 3 1) = ⟨3, 1⟩ :=
  ⟨sampleLevel_sized, by decide, by decide, by decide, by decide,
    worldToGridF_gridToWorldF sampleLevel sampleLevel_sized 3 1
      (by decide) (by decide) (by decide) (by decide)⟩

end GridRoundTrip

/-! ## Hole detection in float arithmetic -/

theorem getCell_in_range {α : Type} (gridData : List (List Char)) (cellSize : α) (x y : Int)
    (c : Char) (hc : (Level.fromGrid gridData cellSize).getCell x y = some c) (hne : c ≠ '#') :
    0 ≤ x ∧ x < (Level.fromGrid gridData cellSize).width ∧ 0 ≤ y ∧
      y < (Level.fromGrid gridData cellSize).height := by
  by_cases hy : y < 0 ∨ y ≥ (Level.fromGrid gridData cellSize).height
  · simp only [Level.getCell, if_pos hy, Option.some.injEq] at hc
    exact absurd hc.symm hne
  · have hh : (Level.fromGrid gridData cellSize).height = (gridData.length : Int) := rfl
    have hy0 : 0 ≤ y := by omega
    have hlt : y.toNat < gridData.length := by omega
    have hrow : (Level.fromGrid gridData cellSize).grid[y.toNat]? = some gridData[y.toNat] :=
      List.getElem?_eq_getElem hlt
    rw [getCell_of_row _ x y _ hy0 rfl hrow] at hc
    by_cases hx : x < 0 ∨ x ≥ ((gridData[y.toNat]).length : Int)
    · rw [if_pos hx, Option.some.injEq] at hc
      exact absurd hc.symm hne
    · have hle := (fromGrid_width gridData cellSize).1 gridData[y.toNat]
        (List.getElem_mem hlt)
      refine ⟨by omega, by omega, hy0, by omega⟩

section DetectionF

variable {α : Type} [LinearOrderedField α] [FloorRing α]

/-- The float literal 0.3f. -/
theorem round_three_tenths : F32.round (0.3 : α) = 10066330 * 2 ^ (-25 : Int) := by
  have h := F32.round_eq_of_near (0.3 : α) (-25) 10066330 (by norm_num)
    (by norm_num [abs_of_pos]) (by norm_num [abs_of_pos])
    (by rw [abs_lt]; constructor <;> norm_num)
  rw [h]
  norm_num

theorem isOverHoleF_eq_true (sqrt : α → α) (L : Level α) (worldPos : Vec3 α) (radius : α) :
    L.isOverHoleF sqrt worldPos radius = true ↔
      L.getCell (L.worldToGridF worldPos).x (L.worldToGridF worldPos).y = some 'O' ∧
        L.centreDistF sqrt worldPos (L.worldToGridF worldPos).x (L.worldToGridF worldPos).y
          < F32.mul L.cellSize (F32.round 0.3) := by
  unfold Level.isOverHoleF Level.centreDistF
  by_cases hcell : L.getCell (L.worldToGridF worldPos).x (L.worldToGridF worldPos).y = some 'O'
  · simp only [hcell, if_true, decide_eq_true_eq, true_and]
  · simp [hcell]

theorem centreDistF_centre {sqrt : α → α} (hs : IsSqrt sqrt) (L : Level α) (x y : Int) :
    L.centreDistF sqrt (L.gridToWorldF x y) x y = 0 := by
  simp [Level.centreDistF, length2F, F32.sub, F32.mul, F32.add, F32.fsqrt, F32.round_zero,
    hs.zero]

/-- The float threshold cellSize * 0.3f is positive for a cell size of at
least 2^-100. -/
theorem holeThreshold_pos (cs : α) (hcs : 1 / 2 ^ 100 ≤ cs) :
    (0 : α) < F32.mul cs (F32.round 0.3) := by
  rw [round_three_tenths]
  unfold F32.mul
  have h25 : (2 : α) ^ (-25 : Int) = 1 / 2 ^ 25 := by
    rw [zpow_neg]
    norm_num
  have h102 : ((1 : Int) : α) * 2 ^ (-102 : Int) = 1 / 2 ^ 100 * (1 / 4) := by
    rw [zpow_neg]
    norm_num
  have hle : ((1 : Int) : α) * 2 ^ (-102 : Int) ≤ cs * (10066330 * 2 ^ (-25 : Int)) := by
    rw [h102, h25]
    exact mul_le_mul hcs (by norm_num) (by norm_num) (le_trans (by positivity) hcs)
  have := F32.le_round_of_repr_le _ 1 (-102) (by norm_num) (by norm_num) hle
  exact lt_of_lt_of_le (by rw [h102]; positivity) this

end DetectionF

section DetectionF2

variable {α : Type} [LinearOrderedField α] [FloorRing α]

theorem isOverHoleF_centre {sqrt : α → α} (hs : IsSqrt sqrt) (gridData : List (List Char))
    (cellSize : α)
    (hsize : (1 / 2 ^ 100 ≤ cellSize ∧ cellSize ≤ 2 ^ 100 ∧
        (Level.fromGrid gridData cellSize).width ≤ 2 ^ 20 ∧
        (Level.fromGrid gridData cellSize).height ≤ 2 ^ 20) ∨
      (∃ k : Int, -100 ≤ k ∧ k ≤ 100 ∧ cellSize = 2 ^ k ∧
        (Level.fromGrid gridData cellSize).width ≤ 2 ^ 23 ∧
        (Level.fromGrid gridData cellSize).height ≤ 2 ^ 23))
    (h : IVec2) (hmem : h ∈ (Level.fromGrid gridData cellSize).holePoss) (r : α) :
    (Level.fromGrid gridData cellSize).isOverHoleF sqrt
      ((Level.fromGrid gridData cellSize).gridToWorldF h.x h.y) r = true := by
  obtain ⟨_, _, hcell⟩ := getCell_of_mem_holePoss gridData cellSize h hmem
  obtain ⟨hx, hxw, hy, hyh⟩ := getCell_in_range gridData cellSize h.x h.y 'O' hcell
    (by decide)
  rw [isOverHoleF_eq_true, worldToGridF_sized _ hsize h.x h.y hx hxw hy hyh]
  refine ⟨hcell, ?_⟩
  rw [centreDistF_centre hs]
  apply holeThreshold_pos
  rcases hsize with ⟨hcs, _⟩ | ⟨k, hk, _, hcs, _⟩
  · exact hcs
  · show 1 / 2 ^ 100 ≤ cellSize
    rw [hcs]
    have h100 : (1 : α) / 2 ^ 100 = 2 ^ (-100 : Int) := by
      rw [zpow_neg]
      norm_num
    rw [h100]
    exact zpow_le_zpow_right₀ (by norm_num) hk

theorem isOverHoleF_far (sqrt : α → α) (gridData : List (List Char)) (cellSize : α)
    (p : Vec3 α) (r : α)
    (hfar : ∀ h ∈ (Level.fromGrid gridData cellSize).holePoss,
      F32.mul cellSize (F32.round 0.3) ≤
        (Level.fromGrid gridData cellSize).centreDistF sqrt p h.x h.y) :
    (Level.fromGrid gridData cellSize).isOverHoleF sqrt p r = false := by
  by_contra hne
  have htrue : (Level.fromGrid gridData cellSize).isOverHoleF sqrt p r = true := by
    simpa using hne
  rw [isOverHoleF_eq_true] at htrue
  obtain ⟨hcell, hnear⟩ := htrue
  have hmem := mem_holePoss_of_getCell gridData cellSize _ _ hcell
  exact absurd hnear (not_lt.mpr (hfar _ hmem))

/-- C8 (amended): in float arithmetic, on every constructed Level whose cell
size lies between 2^-100 and 2^100 with a width and height of at most 2^20, or
is a power of two 2^k with -100 <= k <= 100 (such as 1.0f) with a width and
height of at most 2^23, isOverHole is true at the centre gridToWorld h of every
hole position h recorded in holePoss, for every radius; and on every
constructed Level isOverHole is false at every point whose distance, as
isOverHole computes it, from the centre of every recorded hole cell is at least
the float cellSize * 0.3f (a point far from one hole centre can still be over
another hole), as it is at every point whose distance from the centre of the
cell it lies in is.  (The upper bounds on the cell size keep every value in
the float range; the proof does not use them.) -/
theorem isOverHoleF_holes {sqrt : α → α} (hs : IsSqrt sqrt) (gridData : List (List Char)) :
    (∀ cellSize : α,
      ((1 / 2 ^ 100 ≤ cellSize ∧ cellSize ≤ 2 ^ 100 ∧
          (Level.fromGrid gridData cellSize).width ≤ 2 ^ 20 ∧
          (Level.fromGrid gridData cellSize).height ≤ 2 ^ 20) ∨
        (∃ k : Int, -100 ≤ k ∧ k ≤ 100 ∧ cellSize = 2 ^ k ∧
          (Level.fromGrid gridData cellSize).width ≤ 2 ^ 23 ∧
          (Level.fromGrid gridData cellSize).height ≤ 2 ^ 23)) →
      ∀ h ∈ (Level.fromGrid gridData cellSize).holePoss, ∀ r : α,
        (Level.fromGrid gridData cellSize).isOverHoleF sqrt
          ((Level.fromGrid gridData cellSize).gridToWorldF h.x h.y) r = true) ∧
    (∀ (cellSize : α) (p : Vec3 α) (r : α),
      (∀ h ∈ (Level.fromGrid gridData cellSize).holePoss,
        F32.mul cellSize (F32.round 0.3) ≤
          (Level.fromGrid gridData cellSize).centreDistF sqrt p h.x h.y) →
      (Level.fromGrid gridData cellSize).isOverHoleF sqrt p r = false) ∧
    (∀ (cellSize : α) (p : Vec3 α) (r : α),
      F32.mul cellSize (F32.round 0.3) ≤
        (Level.fromGrid gridData cellSize).centreDistF sqrt p
          ((Level.fromGrid gridData cellSize).worldToGridF p).x
          ((Level.fromGrid gridData cellSize).worldToGridF p).y →
      (Level.fromGrid gridData cellSize).isOverHoleF sqrt p r = false) := by
  refine ⟨fun cellSize hsize h hmem r => isOverHoleF_centre hs gridData cellSize hsize h hmem r,
    fun cellSize p r hfar => isOverHoleF_far sqrt gridData cellSize p r hfar, ?_⟩
  intro cellSize p r hfar
  by_contra hne
  have htrue : (Level.fromGrid gridData cellSize).isOverHoleF sqrt p r = true := by
    simpa using hne
  rw [isOverHoleF_eq_true] at htrue
  exact absurd htrue.2 (not_lt.mpr hfar)

end DetectionF2

theorem twoHole_sized :
    ((1 : ℝ) / 2 ^ 100 ≤ 1 ∧ (1 : ℝ) ≤ 2 ^ 100 ∧
        (Level.fromGrid ["OO".toList] (1 : ℝ)).width ≤ 2 ^ 20 ∧
        (Level.fromGrid ["OO".toList] (1 : ℝ)).height ≤ 2 ^ 20) ∨
      (∃ k : Int, -100 ≤ k ∧ k ≤ 100 ∧ (1 : ℝ) = 2 ^ k ∧
        (Level.fromGrid ["OO".toList] (1 : ℝ)).width ≤ 2 ^ 23 ∧
        (Level.fromGrid ["OO".toList] (1 : ℝ)).height ≤ 2 ^ 23) := by
  left
  refine ⟨?_, ?_, by decide, by decide⟩
  · norm_num
  · norm_num

theorem twoHoleLevel_centre : twoHoleLevel.gridToWorldF 1 0 = ⟨0.5, 0, 0⟩ := by
  rw [gridToWorldF_zpow twoHoleLevel 0 (by decide) (by simp [twoHoleLevel, Level.fromGrid])
    (by decide) (by decide) 1 0 (by decide) (by decide) (by decide) (by decide)]
  have hw : twoHoleLevel.width = 2 := by decide
  have hh : twoHoleLevel.height = 1 := by decide
  rw [hw, hh]
  norm_num

/-- C8: on the one-row level with two adjacent holes, cellSize 1, the centre
(0.5, 0, 0) of the hole cell (1, 0) is at planar distance 1 > 0.3 * cellSize
from the centre of the hole cell (0, 0), in exact and in float arithmetic, and
isOverHole is true there. -/
theorem isOverHoleF_far_counterexample :
    (⟨0, 0⟩ : IVec2) ∈ twoHoleLevel.holePoss ∧
      twoHoleLevel.centreDist Real.sqrt (twoHoleLevel.gridToWorldF 1 0) 0 0 = 1 ∧
      twoHoleLevel.centreDistF Real.sqrt (twoHoleLevel.gridToWorldF 1 0) 0 0 = 1 ∧
      0.3 * twoHoleLevel.cellSize <
        twoHoleLevel.centreDist Real.sqrt (twoHoleLevel.gridToWorldF 1 0) 0 0 ∧
      twoHoleLevel.isOverHoleF Real.sqrt (twoHoleLevel.gridToWorldF 1 0) 0.35 = true := by
  have hd : twoHoleLevel.centreDist Real.sqrt (twoHoleLevel.gridToWorldF 1 0) 0 0 = 1 := by
    rw [twoHoleLevel_centre]
    have hw : twoHoleLevel.width = 2 := by decide
    have hh : twoHoleLevel.height = 1 := by decide
    have hc : twoHoleLevel.cellSize = 1 := rfl
    simp only [Level.centreDist, Level.gridToWorld, Level.getBoardWidth, Level.getBoardDepth,
      hw, hh, hc, length2]
    apply real_sqrt_of_sq <;> norm_num
  have hdF : twoHoleLevel.centreDistF Real.sqrt (twoHoleLevel.gridToWorldF 1 0) 0 0 = 1 := by
    have hg : twoHoleLevel.gridToWorldF 0 0 = ⟨-0.5, 0, 0⟩ := by
      rw [gridToWorldF_zpow twoHoleLevel 0 (by decide) (by simp [twoHoleLevel, Level.fromGrid])
        (by decide) (by decide) 0 0 (by decide) (by decide) (by decide) (by decide)]
      have hw : twoHoleLevel.width = 2 := by decide
      have hh : twoHoleLevel.height = 1 := by decide
      rw [hw, hh]
      norm_num
    have r0 : F32.round (0 : ℝ) = 0 := F32.round_zero
    have r1 : F32.round (1 : ℝ) = 1 := by
      simpa using F32.round_intCast (α := ℝ) 1 (by norm_num)
    rw [twoHoleLevel_centre]
    simp only [Level.centreDistF, hg, length2F, F32.sub, F32.mul, F32.add, F32.fsqrt]
    norm_num [r0, r1]
  refine ⟨by decide, hd, hdF, ?_, ?_⟩
  · rw [hd]
    have hc : twoHoleLevel.cellSize = 1 := rfl
    rw [hc]
    norm_num
  · exact isOverHoleF_centre isSqrt_real ["OO".toList] 1 twoHole_sized ⟨1, 0⟩ (by decide) 0.35

theorem isOverHoleF_holes_witness :
    IsSqrt Real.sqrt ∧ (⟨1, 0⟩ : IVec2) ∈ (Level.fromGrid ["OO".toList] (1 : ℝ)).holePoss ∧
      (Level.fromGrid ["OO".toList] (1 : ℝ)).isOverHoleF Real.sqrt
        ((Level.fromGrid ["OO".toList] (1 : ℝ)).gridToWorldF 1 0) 0.35 = true :=
  ⟨isSqrt_real, by decide,
    (isOverHoleF_holes isSqrt_real ["OO".toList]).1 1 twoHole_sized ⟨1, 0⟩ (by decide) 0.35⟩

/-! ## The 3x3 neighbourhood in float arithmetic -/

section NeighbourhoodF

variable {α : Type} [LinearOrderedField α] [FloorRing α]

/-- One coordinate of the float gridToWorld, as a function of the cell index. -/
theorem gridCoordF_mono (s h : α) (hs : 0 ≤ s) {n m : Int} (hnm : n ≤ m) :
    F32.sub (F32.mul (F32.add (F32.ofInt n) 0.5) s) h ≤
      F32.sub (F32.mul (F32.add (F32.ofInt m) 0.5) s) h := by
  unfold F32.sub F32.mul F32.add F32.ofInt
  apply F32.round_mono
  apply sub_le_sub_right
  apply F32.round_mono
  apply mul_le_mul_of_nonneg_right _ hs
  apply F32.round_mono
  apply add_le_add_right
  apply F32.round_mono
  exact_mod_cast hnm

theorem half_zpow (k : Int) (hk : -148 ≤ k) :
    F32.div ((2 : α) ^ k) 2.0 = 2 ^ (k - 1) := by
  have := F32.div_two (α := α) 1 k (by norm_num) (by omega)
  simpa using this

theorem resolveCellF_of_clear (sqrt : α → α) (L : Level α) (radius : α) (cell : IVec2)
    (p : Vec3 α) (d : Int × Int)
    (h : radius ≤ L.wallDistF sqrt p (cell.x + d.1) (cell.y + d.2)) :
    L.resolveCellF sqrt radius cell p d = p := by
  unfold Level.wallDistF at h
  unfold Level.resolveCellF
  simp only
  split_ifs with h1 h2
  · exact absurd h2.1 (not_lt.mpr h)
  · rfl
  · rfl

theorem zpow_div_pow (k : Int) (j : Nat) : (2 : α) ^ k / 2 ^ j = 2 ^ (k - (j : Int)) := by
  rw [zpow_sub₀ (two_ne_zero : (2 : α) ≠ 0), zpow_natCast]

theorem pow_mul_zpow_sub (k : Int) (j : Nat) : (2 : α) ^ j * 2 ^ (k - (j : Int)) = 2 ^ k := by
  rw [← zpow_natCast, ← zpow_add₀ (two_ne_zero : (2 : α) ≠ 0)]
  congr 1
  ring

/-- The float cell index c along one axis brackets the exact local coordinate
t = x + h, for s = 2^k, h = w * 2^(k-1) and a float local coordinate of at most
2^(23-j) cells: (c - 2^-j) * s <= t < (c + 1) * s. -/
theorem cellCoordF_bounds (x : α) (w k : Int) (j : Nat) (hk : -100 ≤ k) (hw : |w| < 2 ^ 24)
    (hj : j ≤ 23)
    (hl0 : 0 ≤ F32.add x (F32.div ((w : α) * 2 ^ k) 2.0))
    (hl1 : F32.add x (F32.div ((w : α) * 2 ^ k) 2.0) ≤ 2 ^ (23 - j) * 2 ^ k) :
    0 ≤ truncToInt (F32.div (F32.add x (F32.div ((w : α) * 2 ^ k) 2.0)) (2 ^ k)) ∧
      truncToInt (F32.div (F32.add x (F32.div ((w : α) * 2 ^ k) 2.0)) (2 ^ k)) ≤
        2 ^ (23 - j) ∧
      (truncToInt (F32.div (F32.add x (F32.div ((w : α) * 2 ^ k) 2.0)) (2 ^ k)) : α) * 2 ^ k -
          2 ^ k / 2 ^ j - (w : α) * 2 ^ (k - 1) ≤ x ∧
      x < ((truncToInt (F32.div (F32.add x (F32.div ((w : α) * 2 ^ k) 2.0)) (2 ^ k)) : α) + 1) *
          2 ^ k - (w : α) * 2 ^ (k - 1) := by
  have hs : (0 : α) < 2 ^ k := F32.two_zpow_pos k
  rw [F32.div_two _ _ hw (by omega)] at hl0 hl1 ⊢
  set l := F32.add x ((w : α) * 2 ^ (k - 1)) with hl
  have hq0 : 0 ≤ F32.div l (2 ^ k) := F32.round_nonneg _ (div_nonneg hl0 hs.le)
  obtain ⟨hc1, hc2⟩ := truncToInt_bounds (F32.div l (2 ^ k)) hq0
  set c := truncToInt (F32.div l (2 ^ k)) with hc
  have hc0 : 0 ≤ c := by
    have : truncToInt (F32.div l (2 ^ k)) = ⌊F32.div l (2 ^ k)⌋ := by
      unfold truncToInt
      rw [if_pos hq0]
    rw [hc, this]
    exact Int.floor_nonneg.mpr hq0
  have hN : (2 : Int) ^ (23 - j) ≤ 2 ^ 23 := pow_le_pow_right₀ (by norm_num) (by omega)
  have hN0 : (0 : Int) < 2 ^ (23 - j) := by positivity
  have hcu : c ≤ 2 ^ (23 - j) := by
    have h1 : l / 2 ^ k ≤ ((2 ^ (23 - j) : Int) : α) := by
      rw [div_le_iff₀ hs]
      push_cast
      exact hl1
    have h2 : F32.div l (2 ^ k) ≤ ((2 ^ (23 - j) : Int) : α) := by
      have := F32.round_mono h1
      rwa [F32.round_intCast _ (by rw [abs_lt]; constructor <;> omega)] at this
    have h3 : (c : α) ≤ ((2 ^ (23 - j) : Int) : α) := le_trans hc1 h2
    exact_mod_cast h3
  have hP0 : (0 : Int) < 2 ^ j := by positivity
  have hPc : (2 : Int) ^ j * c ≤ 2 ^ 23 := by
    have h1 : (2 : Int) ^ j * c ≤ 2 ^ j * 2 ^ (23 - j) := mul_le_mul_of_nonneg_left hcu hP0.le
    rw [← pow_add, Nat.add_sub_cancel' hj] at h1
    exact h1
  have hPc0 : 0 ≤ (2 : Int) ^ j * c := mul_nonneg hP0.le hc0
  have hrepr : |(2 : Int) ^ j * c - 1| < 2 ^ 24 := by
    rw [abs_lt]
    constructor <;> omega
  have hcast : (((2 : Int) ^ j * c - 1 : Int) : α) * 2 ^ (k - (j : Int)) =
      (c : α) * 2 ^ k - 2 ^ k / 2 ^ j := by
    push_cast
    rw [zpow_div_pow, sub_mul, one_mul, mul_comm ((2 : α) ^ j) (c : α), mul_assoc,
      pow_mul_zpow_sub]
  have hcast2 : (((2 : Int) ^ j * c - 1 : Int) : α) * 2 ^ (-(j : Int)) = (c : α) - 1 / 2 ^ j := by
    push_cast
    rw [zpow_neg, zpow_natCast, sub_mul, one_mul, mul_comm ((2 : α) ^ j) (c : α), mul_assoc,
      mul_inv_cancel₀ (by positivity), mul_one, one_div]
  refine ⟨hc0, hcu, ?_, ?_⟩
  · -- lower bound
    by_contra hlt
    push_neg at hlt
    have h1 : x + (w : α) * 2 ^ (k - 1) ≤
        (((2 : Int) ^ j * c - 1 : Int) : α) * 2 ^ (k - (j : Int)) := by
      rw [hcast]
      linarith
    have h2 : l ≤ (((2 : Int) ^ j * c - 1 : Int) : α) * 2 ^ (k - (j : Int)) :=
      F32.round_le_of_le_repr _ _ _ hrepr (by omega) h1
    have h3 : l / 2 ^ k ≤ (((2 : Int) ^ j * c - 1 : Int) : α) * 2 ^ (-(j : Int)) := by
      rw [div_le_iff₀ hs, mul_assoc, ← zpow_add₀ (two_ne_zero : (2 : α) ≠ 0)]
      have : -(j : Int) + k = k - (j : Int) := by ring
      rw [this]
      exact h2
    have h4 : F32.div l (2 ^ k) ≤ (((2 : Int) ^ j * c - 1 : Int) : α) * 2 ^ (-(j : Int)) :=
      F32.round_le_of_le_repr _ _ _ hrepr (by omega) h3
    rw [hcast2] at h4
    have h5 : (0 : α) < 1 / 2 ^ j := by positivity
    linarith
  · -- upper bound
    by_contra hge
    push_neg at hge
    have h1 : ((c + 1 : Int) : α) * 2 ^ k ≤ x + (w : α) * 2 ^ (k - 1) := by
      push_cast
      linarith
    have h2 : ((c + 1 : Int) : α) * 2 ^ k ≤ l :=
      F32.le_round_of_repr_le _ _ _ (by rw [abs_lt]; constructor <;> omega) (by omega) h1
    have h3 : ((c + 1 : Int) : α) ≤ l / 2 ^ k := by
      rw [le_div_iff₀ hs]
      exact h2
    have h4 : ((c + 1 : Int) : α) ≤ F32.div l (2 ^ k) := by
      have := F32.round_mono h3
      rwa [F32.round_intCast _ (by rw [abs_lt]; constructor <;> omega)] at this
    push_cast at h4
    linarith

end NeighbourhoodF

section NeighbourhoodF2

variable {α : Type} [LinearOrderedField α] [FloorRing α]

/-- Along one axis, for a cell size s = 2^k and a float local coordinate of at
most 2^(23-j) cells: the float footprint [lo, hi] of a cell two or more away
from the float cell index of x lies at least s - s / 2^j away from x. -/
theorem axis_farF (x : α) (w k : Int) (j : Nat) (hk : -100 ≤ k) (hw0 : 0 ≤ w)
    (hw : w ≤ 2 ^ 22) (hj1 : 1 ≤ j) (hj : j ≤ 23)
    (hl0 : 0 ≤ F32.add x (F32.div ((w : α) * 2 ^ k) 2.0))
    (hl1 : F32.add x (F32.div ((w : α) * 2 ^ k) 2.0) ≤ 2 ^ (23 - j) * 2 ^ k) (n : Int)
    (hfar : 2 ≤ |n - truncToInt (F32.div (F32.add x (F32.div ((w : α) * 2 ^ k) 2.0)) (2 ^ k))|) :
    x + (2 ^ k - 2 ^ k / 2 ^ j) ≤
        F32.sub (F32.sub (F32.mul (F32.add (F32.ofInt n) 0.5) ((2 : α) ^ k))
          (F32.div ((w : α) * 2 ^ k) 2.0)) (F32.div ((2 : α) ^ k) 2.0) ∨
      F32.add (F32.sub (F32.mul (F32.add (F32.ofInt n) 0.5) ((2 : α) ^ k))
          (F32.div ((w : α) * 2 ^ k) 2.0)) (F32.div ((2 : α) ^ k) 2.0) +
        (2 ^ k - 2 ^ k / 2 ^ j) ≤ x := by
  have hw' : |w| < 2 ^ 24 := by rw [abs_lt]; constructor <;> omega
  obtain ⟨hc0, hcu, hlo, hhi⟩ := cellCoordF_bounds x w k j hk hw' hj hl0 hl1
  generalize truncToInt (F32.div (F32.add x (F32.div ((w : α) * 2 ^ k) 2.0)) (2 ^ k)) = c
    at hc0 hcu hlo hhi hfar
  have hcu2 : c ≤ 2 ^ 22 := by
    have : (2 : Int) ^ (23 - j) ≤ 2 ^ 22 := pow_le_pow_right₀ (by norm_num) (by omega)
    omega
  have hs : (0 : α) < 2 ^ k := F32.two_zpow_pos k
  have hs1 : (0 : α) < 2 ^ (k - 1) := F32.two_zpow_pos (k - 1)
  have hsk : (2 : α) ^ k = 2 * 2 ^ (k - 1) := by
    rw [show k = 1 + (k - 1) by ring, zpow_add₀ (two_ne_zero : (2 : α) ≠ 0), zpow_one]
    simp
  have hpos : (0 : α) ≤ 2 ^ k / 2 ^ j := by positivity
  rw [half_zpow k (by omega)]
  rcases le_abs'.mp hfar with h | h
  · right
    have hn : n ≤ c - 2 := by omega
    have hg := gridCoordF_mono ((2 : α) ^ k) (F32.div ((w : α) * 2 ^ k) 2.0) hs.le hn
    rw [gridCoordF_zpow (c - 2) w k (by omega) hw' (by rw [abs_lt]; constructor <;> omega)
      (by rw [abs_lt]; constructor <;> omega)] at hg
    have hhi2 : F32.add (F32.sub (F32.mul (F32.add (F32.ofInt n) 0.5) ((2 : α) ^ k))
        (F32.div ((w : α) * 2 ^ k) 2.0)) (2 ^ (k - 1)) ≤
        ((2 * (c - 2) + 1 - w + 1 : Int) : α) * 2 ^ (k - 1) := by
      rw [← F32.add_repr _ _ _ (by rw [abs_lt]; constructor <;> omega) (by omega), Int.cast_one,
        one_mul]
      exact F32.add_mono hg le_rfl
    have e : ((2 * (c - 2) + 1 - w + 1 : Int) : α) * 2 ^ (k - 1) =
        (c : α) * 2 ^ k - 2 ^ k - (w : α) * 2 ^ (k - 1) := by
      rw [hsk]
      push_cast
      ring
    rw [e] at hhi2
    linarith
  · left
    have hn : c + 2 ≤ n := by omega
    have hg := gridCoordF_mono ((2 : α) ^ k) (F32.div ((w : α) * 2 ^ k) 2.0) hs.le hn
    rw [gridCoordF_zpow (c + 2) w k (by omega) hw' (by rw [abs_lt]; constructor <;> omega)
      (by rw [abs_lt]; constructor <;> omega)] at hg
    have hlo2 : ((2 * (c + 2) + 1 - w - 1 : Int) : α) * 2 ^ (k - 1) ≤
        F32.sub (F32.sub (F32.mul (F32.add (F32.ofInt n) 0.5) ((2 : α) ^ k))
        (F32.div ((w : α) * 2 ^ k) 2.0)) (2 ^ (k - 1)) := by
      rw [← F32.sub_repr _ _ _ (by rw [abs_lt]; constructor <;> omega) (by omega), Int.cast_one,
        one_mul]
      exact F32.sub_mono hg le_rfl
    have e : ((2 * (c + 2) + 1 - w - 1 : Int) : α) * 2 ^ (k - 1) =
        ((c : α) + 1) * 2 ^ k + 2 ^ k - (w : α) * 2 ^ (k - 1) := by
      rw [hsk]
      push_cast
      ring
    rw [e] at hlo2
    linarith

/-- The float difference between a coordinate and its clamp to an interval
that lies at least m away, m a float. -/
theorem clamp_distF (v lo hi m : α) (hlh : lo ≤ hi) (hm : 0 ≤ m) (hrep : F32.round m = m)
    (h : v + m ≤ lo ∨ hi + m ≤ v) : m ≤ |F32.sub v (clamp v lo hi)| := by
  unfold clamp F32.sub
  rcases h with h | h
  · by_cases h0 : m = 0
    · rw [h0]; exact abs_nonneg _
    · have hv : v < lo := by
        have : 0 < m := lt_of_le_of_ne hm (Ne.symm h0)
        linarith
      rw [if_pos hv]
      have h1 : F32.round (v - lo) ≤ -m := by
        have := F32.round_mono (show v - lo ≤ -m by linarith)
        rwa [F32.round_neg, hrep] at this
      rw [abs_of_nonpos (by linarith)]
      linarith
  · have hv : ¬ v < lo := by linarith
    rw [if_neg hv]
    by_cases hv2 : hi < v
    · rw [if_pos hv2]
      have h1 : m ≤ F32.round (v - hi) := by
        have := F32.round_mono (show m ≤ v - hi by linarith)
        rwa [hrep] at this
      exact le_trans h1 (le_abs_self _)
    · have h0 : m = 0 := by linarith
      rw [h0]; exact abs_nonneg _

/-- The float length of a planar vector one of whose components is at least m
in absolute value, m and m * m floats. -/
theorem length2F_ge {sqrt : α → α} (hs : IsSqrt sqrt) (dx dz m : α) (hm : 0 ≤ m)
    (hrep : F32.round m = m) (hrep2 : F32.round (m * m) = m * m)
    (h : m ≤ |dx| ∨ m ≤ |dz|) :
    m ≤ F32.fsqrt sqrt (F32.add (F32.mul dx dx) (F32.mul dz dz)) := by
  unfold F32.fsqrt F32.add F32.mul
  have hx0 : 0 ≤ F32.round (dx * dx) := F32.round_nonneg _ (mul_self_nonneg dx)
  have hz0 : 0 ≤ F32.round (dz * dz) := F32.round_nonneg _ (mul_self_nonneg dz)
  have hsum : m * m ≤ F32.round (dx * dx) + F32.round (dz * dz) := by
    rcases h with h | h
    · have h1 : m * m ≤ dx * dx := by
        have := mul_self_le_mul_self hm h
        rwa [abs_mul_abs_self] at this
      have h2 := F32.round_mono h1
      rw [hrep2] at h2
      linarith
    · have h1 : m * m ≤ dz * dz := by
        have := mul_self_le_mul_self hm h
        rwa [abs_mul_abs_self] at this
      have h2 := F32.round_mono h1
      rw [hrep2] at h2
      linarith
  have h3 : m * m ≤ F32.round (F32.round (dx * dx) + F32.round (dz * dz)) := by
    have := F32.round_mono hsum
    rwa [hrep2] at this
  have h4 : m ≤ sqrt (F32.round (F32.round (dx * dx) + F32.round (dz * dz))) :=
    hs.le_sqrt h3
  have := F32.round_mono h4
  rwa [hrep] at this

theorem gridCoordF_lo_le_hi (g half : α) (hh : 0 ≤ half) : F32.sub g half ≤ F32.add g half := by
  unfold F32.sub F32.add
  apply F32.round_mono
  linarith

end NeighbourhoodF2

section NeighbourhoodF3

variable {α : Type} [LinearOrderedField α] [FloorRing α]

/-- The margin s - s / 2^j of a cell size s = 2^k, and its square, are floats
for j up to 12. -/
theorem margin_repr (k : Int) (j : Nat) (hk : -60 ≤ k) (hj : j ≤ 12) :
    (0 : α) ≤ 2 ^ k - 2 ^ k / 2 ^ j ∧
      F32.round ((2 : α) ^ k - 2 ^ k / 2 ^ j) = 2 ^ k - 2 ^ k / 2 ^ j ∧
      F32.round (((2 : α) ^ k - 2 ^ k / 2 ^ j) * (2 ^ k - 2 ^ k / 2 ^ j)) =
        (2 ^ k - 2 ^ k / 2 ^ j) * (2 ^ k - 2 ^ k / 2 ^ j) := by
  have hP1 : (1 : Int) ≤ 2 ^ j := one_le_pow₀ (by norm_num)
  have hP2 : (2 : Int) ^ j ≤ 2 ^ 12 := pow_le_pow_right₀ (by norm_num) hj
  have hm : (2 : α) ^ k - 2 ^ k / 2 ^ j = (((2 : Int) ^ j - 1 : Int) : α) * 2 ^ (k - (j : Int)) := by
    push_cast
    rw [sub_mul, one_mul, pow_mul_zpow_sub, zpow_div_pow]
  have hmm : ((2 : α) ^ k - 2 ^ k / 2 ^ j) * (2 ^ k - 2 ^ k / 2 ^ j) =
      ((((2 : Int) ^ j - 1) * ((2 : Int) ^ j - 1) : Int) : α) *
        2 ^ (k - (j : Int) + (k - (j : Int))) := by
    rw [hm, zpow_add₀ (two_ne_zero : (2 : α) ≠ 0)]
    push_cast
    ring
  have hsq : |((2 : Int) ^ j - 1) * ((2 : Int) ^ j - 1)| < 2 ^ 24 := by
    rw [abs_of_nonneg (mul_nonneg (by omega) (by omega))]
    nlinarith
  refine ⟨?_, ?_, ?_⟩
  · rw [hm]
    have h0 : (0 : α) ≤ (((2 : Int) ^ j - 1 : Int) : α) := by
      have : (0 : Int) ≤ 2 ^ j - 1 := by omega
      exact_mod_cast this
    exact mul_nonneg h0 (F32.two_zpow_pos _).le
  · rw [hm]
    exact F32.round_of_repr _ _ (by rw [abs_lt]; constructor <;> omega) (by omega)
  · rw [hmm]
    exact F32.round_of_repr _ _ hsq (by omega)

theorem wallDistF_far {sqrt : α → α} (hs : IsSqrt sqrt) (L : Level α) (k : Int) (j : Nat)
    (hk : -60 ≤ k) (hj1 : 1 ≤ j) (hj : j ≤ 12)
    (hcs : L.cellSize = 2 ^ k) (hw0 : 0 ≤ L.width) (hw : L.width ≤ 2 ^ 22)
    (hh0 : 0 ≤ L.height) (hh : L.height ≤ 2 ^ 22) (pos : Vec3 α)
    (hx0 : 0 ≤ F32.add pos.x (F32.div L.getBoardWidthF 2.0))
    (hx1 : F32.add pos.x (F32.div L.getBoardWidthF 2.0) ≤ 2 ^ (23 - j) * L.cellSize)
    (hz0 : 0 ≤ F32.add pos.z (F32.div L.getBoardDepthF 2.0))
    (hz1 : F32.add pos.z (F32.div L.getBoardDepthF 2.0) ≤ 2 ^ (23 - j) * L.cellSize)
    (nx ny : Int)
    (hfar : 2 ≤ |nx - (L.worldToGridF pos).x| ∨ 2 ≤ |ny - (L.worldToGridF pos).y|) :
    L.cellSize - L.cellSize / 2 ^ j ≤ L.wallDistF sqrt pos nx ny := by
  have hw' : |L.width| < 2 ^ 24 := by rw [abs_lt]; constructor <;> omega
  have hh' : |L.height| < 2 ^ 24 := by rw [abs_lt]; constructor <;> omega
  have hW := getBoardWidthF_zpow L k (by omega) hcs hw'
  have hD := getBoardDepthF_zpow L k (by omega) hcs hh'
  have hs1 : (0 : α) < 2 ^ (k - 1) := F32.two_zpow_pos (k - 1)
  have hhs : (0 : α) ≤ F32.div ((2 : α) ^ k) 2.0 := by
    rw [half_zpow k (by omega)]
    exact hs1.le
  obtain ⟨hm0, hrep, hrep2⟩ := margin_repr (α := α) k j hk hj
  unfold Level.wallDistF Level.gridToWorldF
  unfold Level.worldToGridF at hfar
  simp only [hW, hD, hcs] at hx0 hx1 hz0 hz1 hfar ⊢
  apply length2F_ge hs _ _ _ hm0 hrep hrep2
  rcases hfar with h | h
  · left
    apply clamp_distF _ _ _ _ (gridCoordF_lo_le_hi _ _ hhs) hm0 hrep
    exact axis_farF pos.x L.width k j (by omega) hw0 hw hj1 (by omega) hx0 hx1 nx h
  · right
    apply clamp_distF _ _ _ _ (gridCoordF_lo_le_hi _ _ hhs) hm0 hrep
    exact axis_farF pos.z L.height k j (by omega) hh0 hh hj1 (by omega) hz0 hz1 ny h

theorem not_mem_neighbourOffsets (d : Int × Int) (h : d ∉ neighbourOffsets) :
    2 ≤ |d.1| ∨ 2 ≤ |d.2| := by
  by_contra hne
  push_neg at hne
  obtain ⟨h1, h2⟩ := hne
  rw [abs_lt] at h1 h2
  apply h
  rw [neighbourOffsets_eq]
  obtain ⟨a, b⟩ := d
  simp only at h1 h2
  have ha : a = -1 ∨ a = 0 ∨ a = 1 := by omega
  have hb : b = -1 ∨ b = 0 ∨ b = 1 := by omega
  rcases ha with rfl | rfl | rfl <;> rcases hb with rfl | rfl | rfl <;> simp

theorem foldl_resolveCellF_clear (sqrt : α → α) (L : Level α) (radius : α) (cell : IVec2)
    (p : Vec3 α) (ds : List (Int × Int))
    (h : ∀ d ∈ ds, L.resolveCellF sqrt radius cell p d = p) :
    ds.foldl (L.resolveCellF sqrt radius cell) p = p := by
  induction ds with
  | nil => rfl
  | cons d ds ih =>
    rw [List.foldl_cons, h d (List.mem_cons_self _ _)]
    exact ih fun e he => h e (List.mem_cons_of_mem _ he)

/-- C29 (amended): in float arithmetic, for a Level whose cell size is a power
of two 2^k with -60 <= k <= 60 (such as 1.0f) and whose width and height are
between 0 and 2^22, for any j from 1 to 12, a radius of at most
cellSize * (1 - 2^-j) = cellSize - cellSize / 2^j and a position whose float
board-local coordinates x + boardWidth/2 and z + boardDepth/2 are non-negative
and at most 2^(23-j) cells (j = 1: radius <= cellSize / 2 within 2^22 cells;
j = 10: radius <= 0.999 * cellSize within 8192 cells): every cell (nx, ny) that
differs from the float worldToGrid(position) by 2 or more in x or in y has the
float distance `dist` of the loop body at least cellSize - cellSize / 2^j,
hence at least radius; so the loop body of resolveWallCollision, run for any
offset outside the scanned ones on the position it starts from, leaves it
unchanged, and a scan that visits any further cells outside the 3x3
neighbourhood before the nine scanned ones returns what resolveWallCollision
returns.  (The upper bound on k keeps every value in the float range; the proof
does not use it.) -/
theorem neighbourhood_completeF {sqrt : α → α} (hs : IsSqrt sqrt) (L : Level α) (k : Int)
    (j : Nat) (hk : -60 ≤ k) (_hk : k ≤ 60) (hj1 : 1 ≤ j) (hj : j ≤ 12)
    (hcs : L.cellSize = 2 ^ k) (hw0 : 0 ≤ L.width)
    (hw : L.width ≤ 2 ^ 22) (hh0 : 0 ≤ L.height) (hh : L.height ≤ 2 ^ 22) (radius : α)
    (hr : radius ≤ L.cellSize - L.cellSize / 2 ^ j) (pos : Vec3 α)
    (hx0 : 0 ≤ F32.add pos.x (F32.div L.getBoardWidthF 2.0))
    (hx1 : F32.add pos.x (F32.div L.getBoardWidthF 2.0) ≤ 2 ^ (23 - j) * L.cellSize)
    (hz0 : 0 ≤ F32.add pos.z (F32.div L.getBoardDepthF 2.0))
    (hz1 : F32.add pos.z (F32.div L.getBoardDepthF 2.0) ≤ 2 ^ (23 - j) * L.cellSize) :
    (∀ nx ny : Int,
      2 ≤ |nx - (L.worldToGridF pos).x| ∨ 2 ≤ |ny - (L.worldToGridF pos).y| →
        L.cellSize - L.cellSize / 2 ^ j ≤ L.wallDistF sqrt pos nx ny ∧
          radius ≤ L.wallDistF sqrt pos nx ny) ∧
    (∀ d : Int × Int, d ∉ neighbourOffsets →
      L.resolveCellF sqrt radius (L.worldToGridF pos) pos d = pos) ∧
    (∀ extra : List (Int × Int), (∀ d ∈ extra, d ∉ neighbourOffsets) →
      (extra ++ neighbourOffsets).foldl (L.resolveCellF sqrt radius (L.worldToGridF pos)) pos =
        L.resolveWallCollisionF sqrt pos radius) := by
  have hfar : ∀ nx ny : Int,
      2 ≤ |nx - (L.worldToGridF pos).x| ∨ 2 ≤ |ny - (L.worldToGridF pos).y| →
        L.cellSize - L.cellSize / 2 ^ j ≤ L.wallDistF sqrt pos nx ny := fun nx ny h =>
    wallDistF_far hs L k j hk hj1 hj hcs hw0 hw hh0 hh pos hx0 hx1 hz0 hz1 nx ny h
  have hclear : ∀ d : Int × Int, d ∉ neighbourOffsets →
      L.resolveCellF sqrt radius (L.worldToGridF pos) pos d = pos := by
    intro d hd
    apply resolveCellF_of_clear
    refine le_trans hr (hfar _ _ ?_)
    have e1 : (L.worldToGridF pos).x + d.1 - (L.worldToGridF pos).x = d.1 := by ring
    have e2 : (L.worldToGridF pos).y + d.2 - (L.worldToGridF pos).y = d.2 := by ring
    rw [e1, e2]
    exact not_mem_neighbourOffsets d hd
  refine ⟨fun nx ny h => ⟨hfar nx ny h, le_trans hr (hfar nx ny h)⟩, hclear, ?_⟩
  intro extra hex
  rw [List.foldl_append,
    foldl_resolveCellF_clear sqrt L radius _ pos extra fun d hd => hclear d (hex d hd)]
  rfl

end NeighbourhoodF3

theorem skip_worldToGridF : skipLevel.worldToGridF skipPos = ⟨2, 0⟩ := by
  have hw : skipLevel.width = 5 := by decide
  have hh : skipLevel.height = 1 := by decide
  have hc : skipLevel.cellSize = 1 := rfl
  have rt : F32.round (33554431 / 16777216 : ℝ) = 2 := by
    have := F32.round_eq_of_tie (33554431 / 16777216 : ℝ) (-23) 16777215 (by norm_num)
      (by norm_num [abs_of_pos]) (by norm_num [abs_of_pos]) (by norm_num)
    rw [this]
    norm_num
  simp only [Level.worldToGridF, Level.getBoardWidthF, Level.getBoardDepthF, hw, hh, hc, skipPos,
    F32.add, F32.div, F32.mul, F32.ofInt]
  norm_num [F32.round_zero, round_one_real, round_half_real, round_two_real, round_five_real,
    round_five_halves_real, rt, truncToInt]

/-- C29: on a row of five cells with a wall in cell 0, cellSize 1, the position
x = -0.50000006 has board-local x = 2 - 2^-24 >= 0, which rounds to 2.0, so the
float worldToGrid gives the cell (2, 0); the wall cell (0, 0), two away and
outside the scanned neighbourhood, has its footprint at distance 0.99999994
from the position, less than the radius 1 = cellSize. -/
theorem neighbourhood_completeF_counterexample :
    0 < skipLevel.cellSize ∧ (1 : ℝ) ≤ skipLevel.cellSize ∧
      0 ≤ skipPos.x + skipLevel.getBoardWidth / 2 ∧
      0 ≤ skipPos.z + skipLevel.getBoardDepth / 2 ∧
      skipLevel.worldToGridF skipPos = ⟨2, 0⟩ ∧
      (2 : Int) ≤ |0 - (skipLevel.worldToGridF skipPos).x| ∧
      skipLevel.getCell 0 0 = some '#' ∧
      skipLevel.wallDist Real.sqrt skipPos 0 0 < 1 ∧
      skipLevel.wallDistF Real.sqrt skipPos 0 0 < 1 := by
  have hw : skipLevel.width = 5 := by decide
  have hh : skipLevel.height = 1 := by decide
  have hc : skipLevel.cellSize = 1 := rfl
  have hd : skipLevel.wallDist Real.sqrt skipPos 0 0 = 16777215 / 16777216 := by
    simp only [Level.wallDist, Level.gridToWorld, Level.getBoardWidth, Level.getBoardDepth, hw,
      hh, hc, skipPos, length2, clamp]
    apply real_sqrt_of_sq
    · norm_num
    · norm_num
  have rd : F32.round (16777215 / 16777216 : ℝ) = 16777215 / 16777216 := by
    have := F32.round_of_repr (α := ℝ) 16777215 (-24) (by norm_num) (by norm_num)
    norm_num at this ⊢
    exact this
  have hg : skipLevel.gridToWorldF 0 0 = ⟨-2, 0, 0⟩ := by
    have := gridToWorldF_zpow skipLevel 0 (by decide) (by simp [skipLevel, Level.fromGrid])
      (by decide) (by decide) 0 0 (by decide) (by decide) (by decide) (by decide)
    rw [this, hw, hh]
    norm_num
  have hdF : skipLevel.wallDistF Real.sqrt skipPos 0 0 ≤ 16777215 / 16777216 := by
    have hx : F32.sub skipPos.x
        (clamp skipPos.x (F32.sub (-2) (F32.div 1 2.0)) (F32.add (-2) (F32.div 1 2.0))) =
        16777215 / 16777216 := by
      simp only [F32.sub, F32.add, F32.div, skipPos, clamp]
      norm_num [round_half_real, round_three_halves_real, round_five_halves_real, F32.round_neg,
        rd]
    have hz : F32.sub skipPos.z
        (clamp skipPos.z (F32.sub 0 (F32.div 1 2.0)) (F32.add 0 (F32.div 1 2.0))) = 0 := by
      simp only [F32.sub, F32.add, F32.div, skipPos, clamp]
      norm_num [round_half_real, F32.round_neg, F32.round_zero]
    unfold Level.wallDistF
    rw [hg, hc]
    simp only
    rw [hx, hz]
    have rsq : F32.round (16777215 / 16777216 * (16777215 / 16777216) : ℝ) =
        8388607 / 8388608 := by
      have := F32.round_eq_of_near (16777215 / 16777216 * (16777215 / 16777216) : ℝ) (-24)
        16777214 (by norm_num) (by norm_num [abs_of_pos]) (by norm_num [abs_of_pos])
        (by rw [abs_lt]; constructor <;> norm_num)
      rw [this]
      norm_num
    have rs : F32.round (8388607 / 8388608 : ℝ) = 8388607 / 8388608 := by
      have := F32.round_of_repr (α := ℝ) 8388607 (-23) (by norm_num) (by norm_num)
      norm_num at this ⊢
      exact this
    unfold F32.fsqrt F32.add F32.mul
    rw [rsq, mul_zero, F32.round_zero, add_zero, rs, ← rd]
    apply F32.round_mono
    apply Real.sqrt_le_iff.mpr
    constructor <;> norm_num
  refine ⟨by rw [hc]; norm_num, by rw [hc], ?_, ?_, skip_worldToGridF, ?_, by decide, ?_, ?_⟩
  · simp only [Level.getBoardWidth, hw, hc, skipPos]; norm_num
  · simp only [Level.getBoardDepth, hh, hc, skipPos]; norm_num
  · rw [skip_worldToGridF]; decide
  · rw [hd]; norm_num
  · exact lt_of_le_of_lt hdF (by norm_num)

theorem floor_localF :
    F32.add (0 : ℝ) (F32.div floorLevel.getBoardWidthF 2.0) = 3 / 2 ∧
      F32.add (0 : ℝ) (F32.div floorLevel.getBoardDepthF 2.0) = 3 / 2 := by
  have hw : floorLevel.width = 3 := by decide
  have hh : floorLevel.height = 3 := by decide
  have hc : floorLevel.cellSize = 1 := rfl
  simp only [Level.getBoardWidthF, Level.getBoardDepthF, hw, hh, hc, F32.add, F32.div, F32.mul,
    F32.ofInt]
  norm_num [round_three_real, round_three_halves_real]

theorem floor_worldToGridF : floorLevel.worldToGridF ⟨0, 0.35, 0⟩ = ⟨1, 1⟩ := by
  have hc : floorLevel.cellSize = 1 := rfl
  simp only [Level.worldToGridF]
  rw [floor_localF.1, floor_localF.2, hc]
  simp only [F32.div]
  norm_num [round_three_halves_real, truncToInt]

theorem neighbourhood_completeF_witness :
    IsSqrt Real.sqrt ∧ (-60 : Int) ≤ 0 ∧ (0 : Int) ≤ 60 ∧ 1 ≤ 10 ∧ 10 ≤ 12 ∧
      floorLevel.cellSize = 2 ^ (0 : Int) ∧ 0 ≤ floorLevel.width ∧ floorLevel.width ≤ 2 ^ 22 ∧
      0 ≤ floorLevel.height ∧ floorLevel.height ≤ 2 ^ 22 ∧
      (0.35 : ℝ) ≤ floorLevel.cellSize - floorLevel.cellSize / 2 ^ 10 ∧
      0 ≤ F32.add (0 : ℝ) (F32.div floorLevel.getBoardWidthF 2.0) ∧
      F32.add (0 : ℝ) (F32.div floorLevel.getBoardWidthF 2.0) ≤
        2 ^ (23 - 10) * floorLevel.cellSize ∧
      0 ≤ F32.add (0 : ℝ) (F32.div floorLevel.getBoardDepthF 2.0) ∧
      F32.add (0 : ℝ) (F32.div floorLevel.getBoardDepthF 2.0) ≤
        2 ^ (23 - 10) * floorLevel.cellSize ∧
      (2 ≤ |(3 : Int) - (floorLevel.worldToGridF ⟨0, 0.35, 0⟩).x| ∨
        2 ≤ |(1 : Int) - (floorLevel.worldToGridF ⟨0, 0.35, 0⟩).y|) ∧
      (0.35 : ℝ) ≤ floorLevel.wallDistF Real.sqrt ⟨0, 0.35, 0⟩ 3 1 := by
  have hc : floorLevel.cellSize = 1 := rfl
  have hcs : floorLevel.cellSize = 2 ^ (0 : Int) := by rw [hc, zpow_zero]
  have hr : (0.35 : ℝ) ≤ floorLevel.cellSize - floorLevel.cellSize / 2 ^ 10 := by
    rw [hc]; norm_num
  have hx0 : 0 ≤ F32.add (0 : ℝ) (F32.div floorLevel.getBoardWidthF 2.0) := by
    rw [floor_localF.1]; norm_num
  have hx1 : F32.add (0 : ℝ) (F32.div floorLevel.getBoardWidthF 2.0) ≤
      2 ^ (23 - 10) * floorLevel.cellSize := by
    rw [floor_localF.1, hc]; norm_num
  have hz0 : 0 ≤ F32.add (0 : ℝ) (F32.div floorLevel.getBoardDepthF 2.0) := by
    rw [floor_localF.2]; norm_num
  have hz1 : F32.add (0 : ℝ) (F32.div floorLevel.getBoardDepthF 2.0) ≤
      2 ^ (23 - 10) * floorLevel.cellSize := by
    rw [floor_localF.2, hc]; norm_num
  have hfar : 2 ≤ |(3 : Int) - (floorLevel.worldToGridF ⟨0, 0.35, 0⟩).x| ∨
      2 ≤ |(1 : Int) - (floorLevel.worldToGridF ⟨0, 0.35, 0⟩).y| := by
    rw [floor_worldToGridF]
    left
    decide
  exact ⟨isSqrt_real, by decide, by decide, by decide, by decide, hcs, by decide, by decide,
    by decide, by decide, hr, hx0, hx1, hz0, hz1, hfar,
    ((neighbourhood_completeF isSqrt_real floorLevel 0 10 (by decide) (by decide) (by decide)
      (by decide) hcs (by decide) (by decide) (by decide) (by decide) 0.35 hr ⟨0, 0.35, 0⟩
      hx0 hx1 hz0 hz1).1 3 1 hfar).2⟩

/-! ## The frame in float arithmetic -/

namespace BoardGenerator

section FrameBounds

variable {α : Type} [LinearOrderedField α] [FloorRing α]

theorem mem_boxPositionsF (pos scale : Vec3 α) (p : Vec3 α) :
    p ∈ boxPositionsF pos scale ↔
      p ∈ boxCorners (F32.add (F32.mul (-(1.0 / 2.0)) scale.x) pos.x)
        (F32.add (F32.mul (1.0 / 2.0) scale.x) pos.x)
        (F32.add (F32.mul (-(1.0 / 2.0)) scale.y) pos.y)
        (F32.add (F32.mul (1.0 / 2.0) scale.y) pos.y)
        (F32.add (F32.mul (-(1.0 / 2.0)) scale.z) pos.z)
        (F32.add (F32.mul (1.0 / 2.0) scale.z) pos.z) := by
  unfold boxPositionsF
  rw [List.mem_map]
  constructor
  · rintro ⟨q, hq, rfl⟩
    rw [mem_cube_positions] at hq
    simp only [boxCorners, List.mem_cons, List.mem_singleton, List.not_mem_nil, or_false] at hq ⊢
    rcases hq with rfl | rfl | rfl | rfl | rfl | rfl | rfl | rfl <;> simp
  · intro hq
    have hm : ∀ q : Vec3 α,
        q ∈ boxCorners (-(1.0 / 2.0)) (1.0 / 2.0) (-(1.0 / 2.0)) (1.0 / 2.0) (-(1.0 / 2.0))
          (1.0 / 2.0) →
        q ∈ (Primitives.cubeVertices (1.0 : α)).map Vertex.Position := fun q hq =>
      (mem_cube_positions 1.0 q).mpr hq
    simp only [boxCorners, List.mem_cons, List.mem_singleton, List.not_mem_nil, or_false] at hq
    rcases hq with rfl | rfl | rfl | rfl | rfl | rfl | rfl | rfl
    · exact ⟨⟨-(1.0 / 2.0), -(1.0 / 2.0), -(1.0 / 2.0)⟩, hm _ (by simp [boxCorners]), rfl⟩
    · exact ⟨⟨-(1.0 / 2.0), -(1.0 / 2.0), 1.0 / 2.0⟩, hm _ (by simp [boxCorners]), rfl⟩
    · exact ⟨⟨-(1.0 / 2.0), 1.0 / 2.0, -(1.0 / 2.0)⟩, hm _ (by simp [boxCorners]), rfl⟩
    · exact ⟨⟨-(1.0 / 2.0), 1.0 / 2.0, 1.0 / 2.0⟩, hm _ (by simp [boxCorners]), rfl⟩
    · exact ⟨⟨1.0 / 2.0, -(1.0 / 2.0), -(1.0 / 2.0)⟩, hm _ (by simp [boxCorners]), rfl⟩
    · exact ⟨⟨1.0 / 2.0, -(1.0 / 2.0), 1.0 / 2.0⟩, hm _ (by simp [boxCorners]), rfl⟩
    · exact ⟨⟨1.0 / 2.0, 1.0 / 2.0, -(1.0 / 2.0)⟩, hm _ (by simp [boxCorners]), rfl⟩
    · exact ⟨⟨1.0 / 2.0, 1.0 / 2.0, 1.0 / 2.0⟩, hm _ (by simp [boxCorners]), rfl⟩

theorem half_mul (s : α) : (1.0 / 2.0 : α) * s = s / 2 := by norm_num; ring

theorem neg_half_mul (s : α) : (-(1.0 / 2.0) : α) * s = -(s / 2) := by norm_num; ring

theorem div_two_lit (a : α) : a / (2.0 : α) = a / 2 := by norm_num

/-- The tolerance of the outer bounds of the front and back boxes. -/
theorem frame_outer (a t : α) (ha : 0 ≤ a) (ht : 0 ≤ t) :
    |F32.add (F32.mul (1.0 / 2.0) (F32.add a (F32.mul t 2))) 0 - (a / 2 + t)| ≤
        (a / 2 + t) / 2097152 + 1 / 2 ^ 140 ∧
      |F32.add (F32.mul (-(1.0 / 2.0)) (F32.add a (F32.mul t 2))) 0 - (-(a / 2) - t)| ≤
        (a / 2 + t) / 2097152 + 1 / 2 ^ 140 := by
  unfold F32.add F32.mul
  simp only [half_mul, neg_half_mul, add_zero, F32.round_neg]
  obtain ⟨h1l, h1r, h1p⟩ := F32.round_bounds_nonneg (t * 2) (by positivity)
  generalize F32.round (t * 2) = s1 at *
  obtain ⟨h2l, h2r, h2p⟩ := F32.round_bounds_nonneg (a + s1) (by linarith)
  generalize F32.round (a + s1) = s2 at *
  obtain ⟨h3l, h3r, h3p⟩ := F32.round_bounds_nonneg (s2 / 2) (by linarith)
  generalize F32.round (s2 / 2) = s3 at *
  obtain ⟨h4l, h4r, h4p⟩ := F32.round_bounds_nonneg s3 h3p
  generalize F32.round s3 = s4 at *
  have e : (1 : α) / 2 ^ 150 = 1 / 2 ^ 140 / 1024 := by norm_num
  rw [e] at h1l h1r h2l h2r h3l h3r h4l h4r
  have h0 : (0 : α) < 1 / 2 ^ 140 := by positivity
  generalize (1 : α) / 2 ^ 140 = η at *
  have key : |s4 - (a / 2 + t)| ≤ (a / 2 + t) / 2097152 + η := by
    rw [abs_le]
    constructor <;> linarith
  refine ⟨key, ?_⟩
  have : -s4 - (-(a / 2) - t) = -(s4 - (a / 2 + t)) := by ring
  rw [this, abs_neg]
  exact key

/-- The tolerance of the bounds of a box placed at -(a/2) - t/2 or a/2 + t/2
and scaled by t. -/
theorem frame_side (a t : α) (ha : 0 ≤ a) (ht : 0 ≤ t) :
    |F32.round (F32.round (t / 2) + F32.round (F32.round (a / 2) + F32.round (t / 2))) -
        (a / 2 + t)| ≤ (a / 2 + t) / 2097152 + 1 / 2 ^ 140 ∧
      |F32.round (F32.round (F32.round (a / 2) + F32.round (t / 2)) - F32.round (t / 2)) -
        a / 2| ≤ (a / 2 + t) / 2097152 + 1 / 2 ^ 140 := by
  obtain ⟨h1l, h1r, h1p⟩ := F32.round_bounds_nonneg (a / 2) (by positivity)
  generalize F32.round (a / 2) = s1 at *
  obtain ⟨h2l, h2r, h2p⟩ := F32.round_bounds_nonneg (t / 2) (by positivity)
  generalize F32.round (t / 2) = s2 at *
  obtain ⟨h3l, h3r, h3p⟩ := F32.round_bounds_nonneg (s1 + s2) (by linarith)
  generalize F32.round (s1 + s2) = s3 at *
  obtain ⟨h4l, h4r, h4p⟩ := F32.round_bounds_nonneg (s2 + s3) (by linarith)
  generalize F32.round (s2 + s3) = s4 at *
  have h5 := F32.round_bounds (s3 - s2)
  have h5a : |s3 - s2| ≤ s3 + s2 := by
    rw [abs_le]
    constructor <;> linarith
  rw [abs_le] at h5
  obtain ⟨h5l, h5r⟩ := h5
  generalize F32.round (s3 - s2) = s5 at *
  generalize |s3 - s2| = r at *
  have e : (1 : α) / 2 ^ 150 = 1 / 2 ^ 140 / 1024 := by norm_num
  rw [e] at h1l h1r h2l h2r h3l h3r h4l h4r h5l h5r
  have h0 : (0 : α) < 1 / 2 ^ 140 := by positivity
  generalize (1 : α) / 2 ^ 140 = η at *
  constructor
  · rw [abs_le]
    constructor <;> linarith
  · rw [abs_le]
    constructor <;> linarith

/-- The tolerance of the bounds of a box of scale a centred at 0. -/
theorem frame_centred (a t : α) (ha : 0 ≤ a) (ht : 0 ≤ t) :
    |F32.round (F32.round (a / 2)) - a / 2| ≤ (a / 2 + t) / 2097152 + 1 / 2 ^ 140 := by
  obtain ⟨h1l, h1r, h1p⟩ := F32.round_bounds_nonneg (a / 2) (by positivity)
  generalize F32.round (a / 2) = s1 at *
  obtain ⟨h2l, h2r, h2p⟩ := F32.round_bounds_nonneg s1 h1p
  generalize F32.round s1 = s2 at *
  have e : (1 : α) / 2 ^ 150 = 1 / 2 ^ 140 / 1024 := by norm_num
  rw [e] at h1l h1r h2l h2r
  have h0 : (0 : α) < 1 / 2 ^ 140 := by positivity
  generalize (1 : α) / 2 ^ 140 = η at *
  rw [abs_le]
  constructor <;> linarith

/-- The tolerance of the top of a box of height h placed at h / 2. -/
theorem frame_top (h : α) (hh : 0 ≤ h) :
    |F32.round (F32.round (h / 2) + F32.round (h / 2)) - h| ≤ h / 2097152 + 1 / 2 ^ 140 := by
  obtain ⟨h1l, h1r, h1p⟩ := F32.round_bounds_nonneg (h / 2) (by positivity)
  generalize F32.round (h / 2) = s1 at *
  obtain ⟨h2l, h2r, h2p⟩ := F32.round_bounds_nonneg (s1 + s1) (by linarith)
  generalize F32.round (s1 + s1) = s2 at *
  have e : (1 : α) / 2 ^ 150 = 1 / 2 ^ 140 / 1024 := by norm_num
  rw [e] at h1l h1r h2l h2r
  have h0 : (0 : α) < 1 / 2 ^ 140 := by positivity
  generalize (1 : α) / 2 ^ 140 = η at *
  rw [abs_le]
  constructor <;> linarith

theorem createFrameMeshF_eq (sqrt : α → α) (width depth height thickness : α) :
    ∃ (mesh template : Mesh α), createFrameMeshF sqrt width depth height thickness = some mesh ∧
      template.vertices.length = 24 ∧
      template.vertices.map Vertex.Position =
        (Primitives.cubeVertices (1.0 : α)).map Vertex.Position ∧
      mesh.indices = copiedIndices Primitives.cubeIndices 24 0 4 ∧
      mesh.vertices =
        template.vertices.map (frameVertexF
            ⟨0, F32.div height 2.0, F32.sub (-F32.div depth 2.0) (F32.div thickness 2)⟩
            ⟨F32.add width (F32.mul thickness 2), height, thickness⟩) ++
          template.vertices.map (frameVertexF
            ⟨0, F32.div height 2.0, F32.add (F32.div depth 2.0) (F32.div thickness 2)⟩
            ⟨F32.add width (F32.mul thickness 2), height, thickness⟩) ++
          template.vertices.map (frameVertexF
            ⟨F32.sub (-F32.div width 2.0) (F32.div thickness 2), F32.div height 2.0, 0⟩
            ⟨thickness, height, depth⟩) ++
          template.vertices.map (frameVertexF
            ⟨F32.add (F32.div width 2.0) (F32.div thickness 2), F32.div height 2.0, 0⟩
            ⟨thickness, height, depth⟩) := by
  obtain ⟨template, hc, hi, hl, hp, _, _⟩ := Primitives.createCube_some sqrt (1.0 : α)
  refine ⟨_, template, by rw [createFrameMeshF, hc]; rfl, hl, hp, ?_, ?_⟩
  · simp only [frameWallsF, List.foldl_cons, List.foldl_nil, List.nil_append, List.length_append,
      List.length_map, hl, List.length_nil, hi]
    rfl
  · simp only [frameWallsF, List.foldl_cons, List.foldl_nil, List.nil_append]

theorem frameVertexF_positions (pos scale : Vec3 α) (vs : List (Vertex α)) :
    (vs.map (frameVertexF pos scale)).map Vertex.Position =
      (vs.map Vertex.Position).map fun p =>
        ⟨F32.add (F32.mul p.x scale.x) pos.x, F32.add (F32.mul p.y scale.y) pos.y,
          F32.add (F32.mul p.z scale.z) pos.z⟩ := by
  rw [List.map_map, List.map_map]
  rfl

/-- The Y bounds of every box of the frame. -/
theorem frame_y (h : α) (hh : 0 ≤ h) :
    F32.add (F32.mul (-(1.0 / 2.0)) h) (F32.div h 2.0) = 0 ∧
      |F32.add (F32.mul (1.0 / 2.0) h) (F32.div h 2.0) - h| ≤ h / 2097152 + 1 / 2 ^ 140 := by
  unfold F32.add F32.mul F32.div
  simp only [half_mul, neg_half_mul]
  simp only [div_two_lit, F32.round_neg, neg_add_cancel, F32.round_zero, true_and]
  exact frame_top h hh

/-- The X bounds of the front and back boxes (Z bounds of no box). -/
theorem frame_x_outer (a t : α) (ha : 0 ≤ a) (ht : 0 ≤ t) :
    |F32.add (F32.mul (-(1.0 / 2.0)) (F32.add a (F32.mul t 2))) 0 - (-a / 2 - t)| ≤
        (a / 2 + t) / 2097152 + 1 / 2 ^ 140 ∧
      |F32.add (F32.mul (1.0 / 2.0) (F32.add a (F32.mul t 2))) 0 - (a / 2 + t)| ≤
        (a / 2 + t) / 2097152 + 1 / 2 ^ 140 := by
  obtain ⟨h1, h2⟩ := frame_outer a t ha ht
  have e : -a / 2 - t = -(a / 2) - t := by ring
  rw [e]
  exact ⟨h2, h1⟩

/-- The bounds, along the axis of thickness, of the box at -(a/2) - t/2. -/
theorem frame_low (a t : α) (ha : 0 ≤ a) (ht : 0 ≤ t) :
    |F32.add (F32.mul (-(1.0 / 2.0)) t) (F32.sub (-F32.div a 2.0) (F32.div t 2)) -
        (-a / 2 - t)| ≤ (a / 2 + t) / 2097152 + 1 / 2 ^ 140 ∧
      |F32.add (F32.mul (1.0 / 2.0) t) (F32.sub (-F32.div a 2.0) (F32.div t 2)) - (-a / 2)| ≤
        (a / 2 + t) / 2097152 + 1 / 2 ^ 140 := by
  obtain ⟨h1, h2⟩ := frame_side a t ha ht
  unfold F32.add F32.mul F32.sub F32.div
  simp only [half_mul, neg_half_mul]
  simp only [div_two_lit, F32.round_neg]
  have e1 : -F32.round (a / 2) - F32.round (t / 2) = -(F32.round (a / 2) + F32.round (t / 2)) := by
    ring
  rw [e1, F32.round_neg]
  have e2 : -F32.round (t / 2) + -F32.round (F32.round (a / 2) + F32.round (t / 2)) =
      -(F32.round (t / 2) + F32.round (F32.round (a / 2) + F32.round (t / 2))) := by ring
  have e3 : F32.round (t / 2) + -F32.round (F32.round (a / 2) + F32.round (t / 2)) =
      -(F32.round (F32.round (a / 2) + F32.round (t / 2)) - F32.round (t / 2)) := by ring
  rw [e2, e3, F32.round_neg, F32.round_neg]
  constructor
  · have : -F32.round (F32.round (t / 2) + F32.round (F32.round (a / 2) + F32.round (t / 2))) -
        (-a / 2 - t) =
        -(F32.round (F32.round (t / 2) + F32.round (F32.round (a / 2) + F32.round (t / 2))) -
          (a / 2 + t)) := by ring
    rw [this, abs_neg]
    exact h1
  · have : -F32.round (F32.round (F32.round (a / 2) + F32.round (t / 2)) - F32.round (t / 2)) -
        -a / 2 =
        -(F32.round (F32.round (F32.round (a / 2) + F32.round (t / 2)) - F32.round (t / 2)) -
          a / 2) := by ring
    rw [this, abs_neg]
    exact h2

/-- The bounds, along the axis of thickness, of the box at a/2 + t/2. -/
theorem frame_high (a t : α) (ha : 0 ≤ a) (ht : 0 ≤ t) :
    |F32.add (F32.mul (-(1.0 / 2.0)) t) (F32.add (F32.div a 2.0) (F32.div t 2)) - a / 2| ≤
        (a / 2 + t) / 2097152 + 1 / 2 ^ 140 ∧
      |F32.add (F32.mul (1.0 / 2.0) t) (F32.add (F32.div a 2.0) (F32.div t 2)) -
        (a / 2 + t)| ≤ (a / 2 + t) / 2097152 + 1 / 2 ^ 140 := by
  obtain ⟨h1, h2⟩ := frame_side a t ha ht
  unfold F32.add F32.mul F32.div
  simp only [half_mul, neg_half_mul]
  simp only [div_two_lit, F32.round_neg]
  have e3 : -F32.round (t / 2) + F32.round (F32.round (a / 2) + F32.round (t / 2)) =
      F32.round (F32.round (a / 2) + F32.round (t / 2)) - F32.round (t / 2) := by ring
  rw [e3]
  exact ⟨h2, h1⟩

/-- The bounds, across the axis of thickness, of a box of scale a centred at
0. -/
theorem frame_across (a t : α) (ha : 0 ≤ a) (ht : 0 ≤ t) :
    |F32.add (F32.mul (-(1.0 / 2.0)) a) 0 - (-a / 2)| ≤ (a / 2 + t) / 2097152 + 1 / 2 ^ 140 ∧
      |F32.add (F32.mul (1.0 / 2.0) a) 0 - a / 2| ≤ (a / 2 + t) / 2097152 + 1 / 2 ^ 140 := by
  have h := frame_centred a t ha ht
  unfold F32.add F32.mul
  simp only [half_mul, neg_half_mul, add_zero, F32.round_neg]
  refine ⟨?_, h⟩
  have : -F32.round (F32.round (a / 2)) - -a / 2 = -(F32.round (F32.round (a / 2)) - a / 2) := by
    ring
  rw [this, abs_neg]
  exact h

/-- The outer X bounds of the front and back boxes are not inside the
footprint, for a width that is a float with a float half. -/
theorem frame_outer_ge (a t : α) (ht : 0 ≤ t) (haf : F32.round a = a)
    (hah : F32.round (a / 2) = a / 2) :
    F32.add (F32.mul (-(1.0 / 2.0)) (F32.add a (F32.mul t 2))) 0 ≤ -a / 2 ∧
      a / 2 ≤ F32.add (F32.mul (1.0 / 2.0) (F32.add a (F32.mul t 2))) 0 := by
  unfold F32.add F32.mul
  simp only [half_mul, neg_half_mul, add_zero, F32.round_neg]
  have h1 : a ≤ F32.round (a + F32.round (t * 2)) := by
    have h0 : 0 ≤ F32.round (t * 2) := F32.round_nonneg _ (by positivity)
    have := F32.round_mono (show a ≤ a + F32.round (t * 2) by linarith)
    rwa [haf] at this
  have h2 : a / 2 ≤ F32.round (F32.round (a + F32.round (t * 2)) / 2) := by
    have := F32.round_mono (show a / 2 ≤ F32.round (a + F32.round (t * 2)) / 2 by linarith)
    rwa [hah] at this
  have h3 : a / 2 ≤ F32.round (F32.round (F32.round (a + F32.round (t * 2)) / 2)) := by
    have := F32.round_mono h2
    rwa [hah] at this
  constructor
  · linarith
  · exact h3

/-- The bounds, across the axis of thickness, of a box of scale a centred at
0, for a scale with a float half. -/
theorem frame_across_eq (a : α) (hah : F32.round (a / 2) = a / 2) :
    F32.add (F32.mul (-(1.0 / 2.0)) a) 0 = -a / 2 ∧
      F32.add (F32.mul (1.0 / 2.0) a) 0 = a / 2 := by
  unfold F32.add F32.mul
  simp only [half_mul, neg_half_mul, add_zero, F32.round_neg, hah]
  constructor
  · ring
  · trivial

end FrameBounds

end BoardGenerator

namespace BoardGenerator

section FrameF

variable {α : Type} [LinearOrderedField α] [FloorRing α]

theorem createFrameMeshF_positions (sqrt : α → α) (W D H t : α) :
    ∃ mesh : Mesh α, createFrameMeshF sqrt W D H t = some mesh ∧
      mesh.vertices.length = 96 ∧ mesh.indices.length = 144 ∧
      mesh.indices = copiedIndices Primitives.cubeIndices 24 0 4 ∧
      mesh.vertices.map Vertex.Position =
        boxPositionsF ⟨0, F32.div H 2.0, F32.sub (-F32.div D 2.0) (F32.div t 2)⟩
            ⟨F32.add W (F32.mul t 2), H, t⟩ ++
          boxPositionsF ⟨0, F32.div H 2.0, F32.add (F32.div D 2.0) (F32.div t 2)⟩
            ⟨F32.add W (F32.mul t 2), H, t⟩ ++
          boxPositionsF ⟨F32.sub (-F32.div W 2.0) (F32.div t 2), F32.div H 2.0, 0⟩ ⟨t, H, D⟩ ++
          boxPositionsF ⟨F32.add (F32.div W 2.0) (F32.div t 2), F32.div H 2.0, 0⟩ ⟨t, H, D⟩ := by
  obtain ⟨mesh, template, hm, hl, hp, hi, hv⟩ := createFrameMeshF_eq sqrt W D H t
  refine ⟨mesh, hm, ?_, ?_, hi, ?_⟩
  · rw [hv]
    simp only [List.length_append, List.length_map, hl]
  · rw [hi]
    rfl
  · rw [hv, List.map_append, List.map_append, List.map_append, frameVertexF_positions,
      frameVertexF_positions, frameVertexF_positions, frameVertexF_positions, hp]
    rfl

/-- C21 (amended): in float arithmetic, for width W, depth D, height H and
thickness t, all positive (and at most 2^100, so that no operation overflows),
W and D floats whose halves are floats, createFrameMesh returns a mesh of 96
vertices and 144 indices, the index buffer of four copies of the cube; the
vertex positions are four boxes of 24 vertices each, the corner sets of
axis-aligned boxes whose bounds lie within the rounding tolerance of the stated
ones: the front box [-W/2 - t, W/2 + t] x [0, H] x [-D/2 - t, -D/2], the back
box [-W/2 - t, W/2 + t] x [0, H] x [D/2, D/2 + t], the left box
[-W/2 - t, -W/2] x [0, H] x [-D/2, D/2], the right box
[W/2, W/2 + t] x [0, H] x [-D/2, D/2], with tolerance
(W/2 + t) * 2^-21 + 2^-140 in X, H * 2^-21 + 2^-140 in Y and
(D/2 + t) * 2^-21 + 2^-140 in Z; the lower Y bound is exactly 0; no vertex lies
in the footprint shrunk by the tolerance; and no vertex lies strictly inside
the footprint (-W/2, W/2) x (-D/2, D/2): the front and back boxes have
|x| >= W/2 and the left and right boxes, whose inner faces can lie inside the
footprint in X, have z = -D/2 or z = D/2. -/
theorem createFrameMeshF_boxes (sqrt : α → α) (W D H t : α) (hW : 0 < W) (hD : 0 < D)
    (hH : 0 < H) (ht : 0 < t) (_hmax : W ≤ 2 ^ 100 ∧ D ≤ 2 ^ 100 ∧ H ≤ 2 ^ 100 ∧ t ≤ 2 ^ 100)
    (hWf : F32.round W = W ∧ F32.round (W / 2) = W / 2)
    (hDf : F32.round D = D ∧ F32.round (D / 2) = D / 2) :
    ∃ (mesh : Mesh α) (front back left right : List (Vec3 α)),
      createFrameMeshF sqrt W D H t = some mesh ∧
      mesh.vertices.length = 96 ∧ mesh.indices.length = 144 ∧
      mesh.indices = copiedIndices Primitives.cubeIndices 24 0 4 ∧
      mesh.vertices.map Vertex.Position = front ++ back ++ left ++ right ∧
      front.length = 24 ∧ back.length = 24 ∧ left.length = 24 ∧ right.length = 24 ∧
      NearBox front (-W / 2 - t) (W / 2 + t) 0 H (-D / 2 - t) (-D / 2)
        ((W / 2 + t) / 2097152 + 1 / 2 ^ 140) (H / 2097152 + 1 / 2 ^ 140)
        ((D / 2 + t) / 2097152 + 1 / 2 ^ 140) ∧
      NearBox back (-W / 2 - t) (W / 2 + t) 0 H (D / 2) (D / 2 + t)
        ((W / 2 + t) / 2097152 + 1 / 2 ^ 140) (H / 2097152 + 1 / 2 ^ 140)
        ((D / 2 + t) / 2097152 + 1 / 2 ^ 140) ∧
      NearBox left (-W / 2 - t) (-W / 2) 0 H (-D / 2) (D / 2)
        ((W / 2 + t) / 2097152 + 1 / 2 ^ 140) (H / 2097152 + 1 / 2 ^ 140)
        ((D / 2 + t) / 2097152 + 1 / 2 ^ 140) ∧
      NearBox right (W / 2) (W / 2 + t) 0 H (-D / 2) (D / 2)
        ((W / 2 + t) / 2097152 + 1 / 2 ^ 140) (H / 2097152 + 1 / 2 ^ 140)
        ((D / 2 + t) / 2097152 + 1 / 2 ^ 140) ∧
      (∀ p ∈ front ++ back ++ left ++ right, p.y = 0 ∨ |p.y - H| ≤ H / 2097152 + 1 / 2 ^ 140) ∧
      (∀ v ∈ mesh.vertices,
        ¬ (-W / 2 + ((W / 2 + t) / 2097152 + 1 / 2 ^ 140) < v.Position.x ∧
            v.Position.x < W / 2 - ((W / 2 + t) / 2097152 + 1 / 2 ^ 140) ∧
            -D / 2 + ((D / 2 + t) / 2097152 + 1 / 2 ^ 140) < v.Position.z ∧
            v.Position.z < D / 2 - ((D / 2 + t) / 2097152 + 1 / 2 ^ 140))) ∧
      (∀ p ∈ front ++ back, p.x ≤ -W / 2 ∨ W / 2 ≤ p.x) ∧
      (∀ p ∈ left ++ right, p.z = -D / 2 ∨ p.z = D / 2) ∧
      (∀ v ∈ mesh.vertices,
        ¬ (-W / 2 < v.Position.x ∧ v.Position.x < W / 2 ∧
            -D / 2 < v.Position.z ∧ v.Position.z < D / 2)) := by
  obtain ⟨mesh, hm, hlen, hilen, hi, hpos⟩ := createFrameMeshF_positions sqrt W D H t
  obtain ⟨hy0, hy1⟩ := frame_y H hH.le
  obtain ⟨hxo0, hxo1⟩ := frame_x_outer W t hW.le ht.le
  obtain ⟨hzl0, hzl1⟩ := frame_low D t hD.le ht.le
  obtain ⟨hzh0, hzh1⟩ := frame_high D t hD.le ht.le
  obtain ⟨hxl0, hxl1⟩ := frame_low W t hW.le ht.le
  obtain ⟨hxh0, hxh1⟩ := frame_high W t hW.le ht.le
  obtain ⟨hza0, hza1⟩ := frame_across D t hD.le ht.le
  have hy0' : |F32.add (F32.mul (-(1.0 / 2.0)) H) (F32.div H 2.0) - 0| ≤
      H / 2097152 + 1 / 2 ^ 140 := by
    rw [hy0, sub_zero, abs_zero]
    positivity
  have hfront := mem_boxPositionsF
    (⟨0, F32.div H 2.0, F32.sub (-F32.div D 2.0) (F32.div t 2)⟩ : Vec3 α)
    ⟨F32.add W (F32.mul t 2), H, t⟩
  have hback := mem_boxPositionsF
    (⟨0, F32.div H 2.0, F32.add (F32.div D 2.0) (F32.div t 2)⟩ : Vec3 α)
    ⟨F32.add W (F32.mul t 2), H, t⟩
  have hleft := mem_boxPositionsF
    (⟨F32.sub (-F32.div W 2.0) (F32.div t 2), F32.div H 2.0, 0⟩ : Vec3 α) ⟨t, H, D⟩
  have hright := mem_boxPositionsF
    (⟨F32.add (F32.div W 2.0) (F32.div t 2), F32.div H 2.0, 0⟩ : Vec3 α) ⟨t, H, D⟩
  obtain ⟨hog0, hog1⟩ := frame_outer_ge W t ht.le hWf.1 hWf.2
  obtain ⟨hae0, hae1⟩ := frame_across_eq D hDf.2
  have hfb : ∀ p ∈
      boxPositionsF (⟨0, F32.div H 2.0, F32.sub (-F32.div D 2.0) (F32.div t 2)⟩ : Vec3 α)
          ⟨F32.add W (F32.mul t 2), H, t⟩ ++
        boxPositionsF ⟨0, F32.div H 2.0, F32.add (F32.div D 2.0) (F32.div t 2)⟩
          ⟨F32.add W (F32.mul t 2), H, t⟩, p.x ≤ -W / 2 ∨ W / 2 ≤ p.x := by
    intro p hp
    rw [List.mem_append, hfront, hback] at hp
    simp only [boxCorners, List.mem_cons, List.mem_singleton, List.not_mem_nil, or_false] at hp
    rcases hp with h | h <;>
      rcases h with h | h | h | h | h | h | h | h <;> rw [h] <;> simp only <;>
      first
        | exact Or.inl hog0
        | exact Or.inr hog1
  have hlr : ∀ p ∈
      boxPositionsF (⟨F32.sub (-F32.div W 2.0) (F32.div t 2), F32.div H 2.0, 0⟩ : Vec3 α)
          ⟨t, H, D⟩ ++
        boxPositionsF ⟨F32.add (F32.div W 2.0) (F32.div t 2), F32.div H 2.0, 0⟩ ⟨t, H, D⟩,
      p.z = -D / 2 ∨ p.z = D / 2 := by
    intro p hp
    rw [List.mem_append, hleft, hright] at hp
    simp only [boxCorners, List.mem_cons, List.mem_singleton, List.not_mem_nil, or_false] at hp
    rcases hp with h | h <;>
      rcases h with h | h | h | h | h | h | h | h <;> rw [h] <;> simp only <;>
      first
        | exact Or.inl hae0
        | exact Or.inr hae1
  have hyall : ∀ (pos scale : Vec3 α), pos.y = F32.div H 2.0 → scale.y = H →
      ∀ p ∈ boxPositionsF pos scale, p.y = 0 ∨ |p.y - H| ≤ H / 2097152 + 1 / 2 ^ 140 := by
    intro pos scale hp hsc p hpm
    rw [mem_boxPositionsF, hp, hsc] at hpm
    simp only [boxCorners, List.mem_cons, List.mem_singleton, List.not_mem_nil, or_false] at hpm
    rcases hpm with h | h | h | h | h | h | h | h <;> rw [h] <;> simp only
    all_goals first
      | exact Or.inl hy0
      | exact Or.inr hy1
  refine ⟨mesh, _, _, _, _, hm, hlen, hilen, hi, hpos, ?_, ?_, ?_, ?_,
    ⟨_, _, _, _, _, _, hfront, hxo0, hxo1, hy0', hy1, hzl0, hzl1⟩,
    ⟨_, _, _, _, _, _, hback, hxo0, hxo1, hy0', hy1, hzh0, hzh1⟩,
    ⟨_, _, _, _, _, _, hleft, hxl0, hxl1, hy0', hy1, hza0, hza1⟩,
    ⟨_, _, _, _, _, _, hright, hxh0, hxh1, hy0', hy1, hza0, hza1⟩, ?_, ?_, hfb, hlr, ?_⟩
  · simp only [boxPositionsF, List.length_map, Primitives.cubeVertices_length]
  · simp only [boxPositionsF, List.length_map, Primitives.cubeVertices_length]
  · simp only [boxPositionsF, List.length_map, Primitives.cubeVertices_length]
  · simp only [boxPositionsF, List.length_map, Primitives.cubeVertices_length]
  · intro p hp
    rw [List.mem_append, List.mem_append, List.mem_append] at hp
    rcases hp with ((h | h) | h) | h
    · exact hyall _ _ rfl rfl p h
    · exact hyall _ _ rfl rfl p h
    · exact hyall _ _ rfl rfl p h
    · exact hyall _ _ rfl rfl p h
  · intro v hvm
    have hmem : v.Position ∈ mesh.vertices.map Vertex.Position := List.mem_map_of_mem _ hvm
    rw [hpos, List.mem_append, List.mem_append, List.mem_append, hfront, hback, hleft,
      hright] at hmem
    simp only [boxCorners, List.mem_cons, List.mem_singleton, List.not_mem_nil, or_false] at hmem
    have f0 := (abs_le.mp hzl0).2
    have f1 := (abs_le.mp hzl1).2
    have b0 := (abs_le.mp hzh0).1
    have b1 := (abs_le.mp hzh1).1
    have l0 := (abs_le.mp hxl0).2
    have l1 := (abs_le.mp hxl1).2
    have r0 := (abs_le.mp hxh0).1
    have r1 := (abs_le.mp hxh1).1
    have ff0 : F32.add (F32.mul (-(1.0 / 2.0)) t) (F32.sub (-F32.div D 2.0) (F32.div t 2)) ≤
        -D / 2 + ((D / 2 + t) / 2097152 + 1 / 2 ^ 140) := by linarith only [f0, ht]
    have ff1 : F32.add (F32.mul (1.0 / 2.0) t) (F32.sub (-F32.div D 2.0) (F32.div t 2)) ≤
        -D / 2 + ((D / 2 + t) / 2097152 + 1 / 2 ^ 140) := by linarith only [f1]
    have bb0 : D / 2 - ((D / 2 + t) / 2097152 + 1 / 2 ^ 140) ≤
        F32.add (F32.mul (-(1.0 / 2.0)) t) (F32.add (F32.div D 2.0) (F32.div t 2)) := by
      linarith only [b0]
    have bb1 : D / 2 - ((D / 2 + t) / 2097152 + 1 / 2 ^ 140) ≤
        F32.add (F32.mul (1.0 / 2.0) t) (F32.add (F32.div D 2.0) (F32.div t 2)) := by
      linarith only [b1, ht]
    have ll0 : F32.add (F32.mul (-(1.0 / 2.0)) t) (F32.sub (-F32.div W 2.0) (F32.div t 2)) ≤
        -W / 2 + ((W / 2 + t) / 2097152 + 1 / 2 ^ 140) := by linarith only [l0, ht]
    have ll1 : F32.add (F32.mul (1.0 / 2.0) t) (F32.sub (-F32.div W 2.0) (F32.div t 2)) ≤
        -W / 2 + ((W / 2 + t) / 2097152 + 1 / 2 ^ 140) := by linarith only [l1]
    have rr0 : W / 2 - ((W / 2 + t) / 2097152 + 1 / 2 ^ 140) ≤
        F32.add (F32.mul (-(1.0 / 2.0)) t) (F32.add (F32.div W 2.0) (F32.div t 2)) := by
      linarith only [r0]
    have rr1 : W / 2 - ((W / 2 + t) / 2097152 + 1 / 2 ^ 140) ≤
        F32.add (F32.mul (1.0 / 2.0) t) (F32.add (F32.div W 2.0) (F32.div t 2)) := by
      linarith only [r1, ht]
    rintro ⟨h1, h2, h3, h4⟩
    rcases hmem with ((h | h) | h) | h
    · rcases h with h | h | h | h | h | h | h | h <;> rw [h] at h3 <;> simp only at h3 <;>
        first
          | exact absurd h3 (not_lt.mpr ff0)
          | exact absurd h3 (not_lt.mpr ff1)
    · rcases h with h | h | h | h | h | h | h | h <;> rw [h] at h4 <;> simp only at h4 <;>
        first
          | exact absurd h4 (not_lt.mpr bb0)
          | exact absurd h4 (not_lt.mpr bb1)
    · rcases h with h | h | h | h | h | h | h | h <;> rw [h] at h1 <;> simp only at h1 <;>
        first
          | exact absurd h1 (not_lt.mpr ll0)
          | exact absurd h1 (not_lt.mpr ll1)
    · rcases h with h | h | h | h | h | h | h | h <;> rw [h] at h2 <;> simp only at h2 <;>
        first
          | exact absurd h2 (not_lt.mpr rr0)
          | exact absurd h2 (not_lt.mpr rr1)
  · intro v hvm
    have hmem : v.Position ∈ mesh.vertices.map Vertex.Position := List.mem_map_of_mem _ hvm
    rw [hpos, List.append_assoc, List.mem_append] at hmem
    rintro ⟨h1, h2, h3, h4⟩
    rcases hmem with h | h
    · rcases hfb _ h with hx | hx
      · exact absurd h1 (not_lt.mpr hx)
      · exact absurd h2 (not_lt.mpr hx)
    · rcases hlr _ h with hz | hz
      · exact absurd h3 (by rw [hz]; exact lt_irrefl _)
      · exact absurd h4 (by rw [hz]; exact lt_irrefl _)

end FrameF

end BoardGenerator

namespace BoardGenerator

theorem frame_left_inner :
    F32.add (F32.mul (1.0 / 2.0) (0.300000011920928955078125 : ℝ))
        (F32.sub (-F32.div 16 2.0) (F32.div 0.300000011920928955078125 2)) =
      -(16777215 / 2097152) := by
  have r8 : F32.round (8 : ℝ) = 8 := by
    simpa using F32.round_intCast (α := ℝ) 8 (by norm_num)
  have r1 : F32.round (5033165 / 33554432 : ℝ) = 5033165 / 33554432 := by
    have := F32.round_of_repr (α := ℝ) 5033165 (-25) (by norm_num) (by norm_num)
    norm_num at this ⊢
    exact this
  have r2 : F32.round (273468621 / 33554432 : ℝ) = 4272947 / 524288 := by
    have := F32.round_eq_of_near (273468621 / 33554432 : ℝ) (-20) 8545894 (by norm_num)
      (by norm_num [abs_of_pos]) (by norm_num [abs_of_pos])
      (by rw [abs_lt]; constructor <;> norm_num)
    rw [this]
    norm_num
  have r3 : F32.round (268435443 / 33554432 : ℝ) = 16777215 / 2097152 := by
    have := F32.round_eq_of_near (268435443 / 33554432 : ℝ) (-21) 16777215 (by norm_num)
      (by norm_num [abs_of_pos]) (by norm_num [abs_of_pos])
      (by rw [abs_lt]; constructor <;> norm_num)
    rw [this]
    norm_num
  unfold F32.add F32.mul F32.sub F32.div
  have e1 : (1.0 / 2.0 : ℝ) * 0.300000011920928955078125 = 5033165 / 33554432 := by norm_num
  have e2 : (0.300000011920928955078125 : ℝ) / 2 = 5033165 / 33554432 := by norm_num
  have e3 : (16 : ℝ) / 2.0 = 8 := by norm_num
  rw [e1, e2, e3, r1, r8]
  have e4 : (-8 : ℝ) - 5033165 / 33554432 = -(273468621 / 33554432) := by norm_num
  rw [e4, F32.round_neg, r2]
  have e5 : (5033165 / 33554432 : ℝ) + -(4272947 / 524288) = -(268435443 / 33554432) := by
    norm_num
  rw [e5, F32.round_neg, r3]

theorem frame_left_z :
    F32.add (F32.mul (-(1.0 / 2.0)) (8 : ℝ)) 0 = -4 := by
  have r4 : F32.round (4 : ℝ) = 4 := by
    simpa using F32.round_intCast (α := ℝ) 4 (by norm_num)
  unfold F32.add F32.mul
  have e1 : (-(1.0 / 2.0) : ℝ) * 8 = -4 := by norm_num
  rw [e1, add_zero, F32.round_neg, r4, F32.round_neg, r4]

/-- C21: in float arithmetic with W = 16, D = 8, H = 1 and the thickness 0.3f
of the program, the third box of the mesh, the left one, has its inner face at
x = -7.9999995 (-16777215 / 2097152), not at -W/2 = -8: it has a vertex with
-W/2 < x < W/2 (and z = -D/2), so it does not span x in [-W/2 - t, -W/2]. -/
theorem createFrameMeshF_counterexample :
    ∃ (mesh : Mesh ℝ) (front back left right : List (Vec3 ℝ)),
      createFrameMeshF Real.sqrt 16 8 1 0.300000011920928955078125 = some mesh ∧
      mesh.vertices.map Vertex.Position = front ++ back ++ left ++ right ∧
      front.length = 24 ∧ back.length = 24 ∧ left.length = 24 ∧ right.length = 24 ∧
      (∃ p ∈ left, p.x = -(16777215 / 2097152) ∧ ¬ (p.x ≤ -(16 : ℝ) / 2) ∧
        -(16 : ℝ) / 2 < p.x ∧ p.x < (16 : ℝ) / 2 ∧ p.z = -(8 : ℝ) / 2) ∧
      ∃ v ∈ mesh.vertices, v.Position.x = -(16777215 / 2097152) ∧
        -(16 : ℝ) / 2 < v.Position.x ∧ v.Position.x < (16 : ℝ) / 2 ∧
        v.Position.z = -(8 : ℝ) / 2 := by
  obtain ⟨mesh, hm, _, _, _, hpos⟩ :=
    createFrameMeshF_positions Real.sqrt 16 8 1 (0.300000011920928955078125 : ℝ)
  have hleft : (⟨-(16777215 / 2097152), 0, -4⟩ : Vec3 ℝ) ∈
      boxPositionsF (⟨F32.sub (-F32.div 16 2.0) (F32.div 0.300000011920928955078125 2),
        F32.div 1 2.0, 0⟩ : Vec3 ℝ) ⟨0.300000011920928955078125, 1, 8⟩ := by
    rw [mem_boxPositionsF]
    simp only [frame_left_inner, frame_left_z, (frame_y (1 : ℝ) (by norm_num)).1, boxCorners,
      List.mem_cons, List.mem_singleton, true_or, or_true]
  have hmem : (⟨-(16777215 / 2097152), 0, -4⟩ : Vec3 ℝ) ∈ mesh.vertices.map Vertex.Position := by
    rw [hpos, List.mem_append]
    left
    rw [List.mem_append]
    right
    exact hleft
  obtain ⟨v, hv, hvp⟩ := List.mem_map.mp hmem
  refine ⟨mesh, _, _, _, _, hm, hpos, ?_, ?_, ?_, ?_, ⟨_, hleft, ?_⟩, v, hv, ?_⟩
  · simp only [boxPositionsF, List.length_map, Primitives.cubeVertices_length]
  · simp only [boxPositionsF, List.length_map, Primitives.cubeVertices_length]
  · simp only [boxPositionsF, List.length_map, Primitives.cubeVertices_length]
  · simp only [boxPositionsF, List.length_map, Primitives.cubeVertices_length]
  · norm_num
  · rw [hvp]
    norm_num

theorem createFrameMeshF_boxes_witness :
    (0 : ℝ) < 5 ∧ (0 : ℝ) < 3 ∧ (0 : ℝ) < 0.72 ∧ (0 : ℝ) < 0.3 ∧
      ((5 : ℝ) ≤ 2 ^ 100 ∧ (3 : ℝ) ≤ 2 ^ 100 ∧ (0.72 : ℝ) ≤ 2 ^ 100 ∧ (0.3 : ℝ) ≤ 2 ^ 100) ∧
      (F32.round (5 : ℝ) = 5 ∧ F32.round ((5 : ℝ) / 2) = 5 / 2) ∧
      (F32.round (3 : ℝ) = 3 ∧ F32.round ((3 : ℝ) / 2) = 3 / 2) ∧
      ∃ mesh, createFrameMeshF Real.sqrt 5 3 0.72 0.3 = some mesh ∧
        mesh.vertices.length = 96 ∧ mesh.indices.length = 144 :=
  ⟨by norm_num, by norm_num, by norm_num, by norm_num,
    ⟨by norm_num, by norm_num, by norm_num, by norm_num⟩,
    ⟨round_five_real, round_five_halves_real⟩, ⟨round_three_real, round_three_halves_real⟩,
    (createFrameMeshF_boxes Real.sqrt 5 3 0.72 0.3 (by norm_num) (by norm_num)
      (by norm_num) (by norm_num)
      ⟨by norm_num, by norm_num, by norm_num, by norm_num⟩
      ⟨round_five_real, round_five_halves_real⟩
      ⟨round_three_real, round_three_halves_real⟩).imp fun _ h =>
        h.elim fun _ h => h.elim fun _ h => h.elim fun _ h => h.elim fun _ h =>
          ⟨h.1, h.2.1, h.2.2.1⟩⟩

end BoardGenerator

/-! ## The fall animation in float arithmetic -/

section FallingF

variable {α : Type} [LinearOrderedField α] [FloorRing α]

theorem updateF_of_falling (sqrt sin : α → α) (dt : α) (tilt : Vec2 α) (L : Level α)
    (b : Ball α) (hf : b.isFalling = true) :
    b.updateF sqrt sin dt tilt L =
      { b with
        fallProgress := F32.add b.fallProgress (F32.mul dt 3.0)
        position :=
          { b.position with
            y := F32.mul b.radius
              (F32.sub 1.0 (F32.mul (F32.add b.fallProgress (F32.mul dt 3.0)) 2.0)) } } := by
  simp [Ball.updateF, hf]

theorem updatesF_cons (sqrt sin : α → α) (L : Level α) (b : Ball α) (t : α × Vec2 α)
    (ticks : List (α × Vec2 α)) :
    b.updatesF sqrt sin L (t :: ticks) =
      (b.updateF sqrt sin t.1 t.2 L).updatesF sqrt sin L ticks :=
  rfl

theorem updatesF_of_falling (sqrt sin : α → α) (L : Level α) (ticks : List (α × Vec2 α))
    (b : Ball α) (hf : b.isFalling = true) :
    (b.updatesF sqrt sin L ticks).isFalling = true ∧
      (b.updatesF sqrt sin L ticks).radius = b.radius ∧
      (b.updatesF sqrt sin L ticks).fallProgress =
        (ticks.map Prod.fst).foldl (fun fp dt => F32.add fp (F32.mul dt 3.0)) b.fallProgress ∧
      (ticks ≠ [] →
        (b.updatesF sqrt sin L ticks).position.y =
          F32.mul b.radius
            (F32.sub 1.0 (F32.mul (b.updatesF sqrt sin L ticks).fallProgress 2.0))) := by
  induction ticks generalizing b with
  | nil => simp [Ball.updatesF, hf]
  | cons t ticks ih =>
    have hu := updateF_of_falling sqrt sin t.1 t.2 L b hf
    have hf' : (b.updateF sqrt sin t.1 t.2 L).isFalling = true := by rw [hu]; exact hf
    obtain ⟨h1, h2, h3, h4⟩ := ih (b.updateF sqrt sin t.1 t.2 L) hf'
    rw [updatesF_cons]
    refine ⟨h1, ?_, ?_, ?_⟩
    · rw [h2, hu]
    · rw [h3, hu]
      rfl
    · intro _
      by_cases hnil : ticks = []
      · subst hnil
        simp only [Ball.updatesF, List.foldl_nil]
        rw [hu]
      · rw [h4 hnil, hu]

/-- One step of the float accumulation fallProgress += dt * 3.0f stays within
2^-20 of the exact step, while the values stay below 4. -/
theorem accumF_step (f S d : α) (k : Nat) (hf0 : 0 ≤ f)
    (hinv : |f - 3 * S| ≤ (k : α) / 1048576) (hd : 0 ≤ d) (hS : S + d ≤ 1)
    (hk : k + 1 ≤ 1048576) :
    0 ≤ F32.add f (F32.mul d 3.0) ∧
      |F32.add f (F32.mul d 3.0) - 3 * (S + d)| ≤ ((k + 1 : Nat) : α) / 1048576 := by
  have e3 : d * (3.0 : α) = 3 * d := by norm_num; ring
  unfold F32.add F32.mul
  rw [e3]
  obtain ⟨h1l, h1r, h1p⟩ := F32.round_bounds_nonneg (3 * d) (by positivity)
  generalize F32.round (3 * d) = p at *
  obtain ⟨h2l, h2r, h2p⟩ := F32.round_bounds_nonneg (f + p) (by linarith)
  generalize F32.round (f + p) = g at *
  refine ⟨h2p, ?_⟩
  have hk' : (k : α) + 1 ≤ 1048576 := by exact_mod_cast hk
  have hk0 : (0 : α) ≤ (k : α) := Nat.cast_nonneg k
  rw [abs_le] at hinv ⊢
  obtain ⟨hi1, hi2⟩ := hinv
  push_cast
  have e : (1 : α) / 2 ^ 150 ≤ 1 / 16777216 := by
    apply one_div_le_one_div_of_le
    · norm_num
    · norm_num
  generalize (1 : α) / 2 ^ 150 = η at *
  constructor <;> linarith

theorem accumF_bound (ds : List α) (f S : α) (k : Nat) (hf0 : 0 ≤ f)
    (hinv : |f - 3 * S| ≤ (k : α) / 1048576) (hd : ∀ d ∈ ds, 0 ≤ d) (hS : S + ds.sum ≤ 1)
    (hk : k + ds.length ≤ 1048576) :
    |ds.foldl (fun fp dt => F32.add fp (F32.mul dt 3.0)) f - 3 * (S + ds.sum)| ≤
      ((k + ds.length : Nat) : α) / 1048576 := by
  induction ds generalizing f S k with
  | nil => simpa using hinv
  | cons d ds ih =>
    have hd0 : 0 ≤ d := hd d (List.mem_cons_self _ _)
    have hds : ∀ e ∈ ds, 0 ≤ e := fun e he => hd e (List.mem_cons_of_mem _ he)
    have hsum : 0 ≤ ds.sum := List.sum_nonneg hds
    rw [List.sum_cons] at hS
    rw [List.length_cons] at hk
    obtain ⟨hp, hb⟩ := accumF_step f S d k hf0 hinv hd0 (by linarith) (by omega)
    have := ih (F32.add f (F32.mul d 3.0)) (S + d) (k + 1) hp hb hds (by linarith) (by omega)
    rw [List.foldl_cons, List.sum_cons, List.length_cons]
    have e1 : S + (d + ds.sum) = S + d + ds.sum := by ring
    have e2 : k + (ds.length + 1) = k + 1 + ds.length := by ring
    rw [e1, e2]
    exact this

end FallingF

section FallingF2

variable {α : Type} [LinearOrderedField α] [FloorRing α]

/-- C5 (amended): in float arithmetic, for a ball that has just entered Falling
(isFalling true, fallProgress 0, Y at radius) and any run of n update ticks
with non-negative step sizes, at most 2^20 ticks and at most one second of
elapsed time: fallProgress is the float accumulation fp := fp + dt * 3.0f over
the ticks, which lies within n * 2^-20 of 3 times the elapsed time; Y is the
float value of radius * (1.0f - fallProgress * 2.0f); hasFallenInHole is true
exactly when that float fallProgress is at least 1, which is the case whenever
the elapsed time is at least 1/3 + n * 2^-20 / 3 and is not the case whenever
it is below 1/3 - n * 2^-20 / 3 (in between, the outcome depends on the
individual step sizes). -/
theorem fallingF_elapsed (sqrt sin : α → α) (L : Level α) (b : Ball α)
    (ticks : List (α × Vec2 α)) (hf : b.isFalling = true) (hp : b.fallProgress = 0)
    (hy : b.position.y = b.radius) (hdt : ∀ t ∈ ticks, 0 ≤ t.1) (hT : elapsed ticks ≤ 1)
    (hn : ticks.length ≤ 1048576) :
    (b.updatesF sqrt sin L ticks).fallProgress =
        (ticks.map Prod.fst).foldl (fun fp dt => F32.add fp (F32.mul dt 3.0)) 0 ∧
      |(b.updatesF sqrt sin L ticks).fallProgress - 3 * elapsed ticks| ≤
        (ticks.length : α) / 1048576 ∧
      (ticks ≠ [] →
        (b.updatesF sqrt sin L ticks).position.y =
          F32.mul (b.updatesF sqrt sin L ticks).radius
            (F32.sub 1.0 (F32.mul (b.updatesF sqrt sin L ticks).fallProgress 2.0))) ∧
      (ticks = [] → (b.updatesF sqrt sin L ticks).position.y =
        (b.updatesF sqrt sin L ticks).radius) ∧
      ((b.updatesF sqrt sin L ticks).hasFallenInHole = true ↔
        1 ≤ (b.updatesF sqrt sin L ticks).fallProgress) ∧
      (1 / 3 + (ticks.length : α) / 1048576 / 3 ≤ elapsed ticks →
        (b.updatesF sqrt sin L ticks).hasFallenInHole = true) ∧
      (elapsed ticks < 1 / 3 - (ticks.length : α) / 1048576 / 3 →
        (b.updatesF sqrt sin L ticks).hasFallenInHole = false) := by
  obtain ⟨h1, h2, h3, h4⟩ := updatesF_of_falling sqrt sin L ticks b hf
  rw [hp] at h3
  have hds : ∀ d ∈ ticks.map Prod.fst, (0 : α) ≤ d := by
    intro d hd
    obtain ⟨t, ht, rfl⟩ := List.mem_map.mp hd
    exact hdt t ht
  have hb := accumF_bound (ticks.map Prod.fst) 0 0 0 le_rfl (by simp) hds
    (by rw [zero_add]; exact hT) (by simpa using hn)
  rw [← h3] at hb
  simp only [zero_add, List.length_map] at hb
  have hb' : |(b.updatesF sqrt sin L ticks).fallProgress - 3 * elapsed ticks| ≤
      (ticks.length : α) / 1048576 := hb
  have hiff : (b.updatesF sqrt sin L ticks).hasFallenInHole = true ↔
      1 ≤ (b.updatesF sqrt sin L ticks).fallProgress := by
    simp only [Ball.hasFallenInHole, h1, Bool.true_and, decide_eq_true_eq]
    have e : (1.0 : α) = 1 := by norm_num
    rw [e]
  refine ⟨h3, hb', ?_, ?_, hiff, ?_, ?_⟩
  · intro hne
    rw [h4 hne, h2]
  · intro hnil
    subst hnil
    simp [Ball.updatesF, hy]
  · intro h
    rw [hiff]
    have := (abs_le.mp hb').1
    linarith
  · intro h
    have hlt : ¬ (1 ≤ (b.updatesF sqrt sin L ticks).fallProgress) := by
      have := (abs_le.mp hb').2
      intro hge
      linarith
    rw [← hiff] at hlt
    simpa using hlt

end FallingF2

/-- C5: in float arithmetic, from the state just entered Falling, the two ticks
dt = 0.25 and dt = 5592405 / 2^26 (0.083333328) have elapsed time
22369621 / 2^26 < 1/3, yet fallProgress is 0.75 + (1 - 2^-26 - 0.75) rounded,
which is 1.0, and hasFallenInHole is true; and the three ticks 0.25,
8450263 / 2^27 and 10938191 / 2^29 have elapsed time above 1/3, yet
fallProgress is 1 - 2^-24 < 1 and hasFallenInHole is false. -/
theorem fallingF_elapsed_counterexample :
    enteredFalling.isFalling = true ∧ enteredFalling.fallProgress = 0 ∧
      elapsed [((0.25 : ℝ), (⟨0, 0⟩ : Vec2 ℝ)), (5592405 / 67108864, ⟨0, 0⟩)] < 1 / 3 ∧
      (enteredFalling.updatesF Real.sqrt Real.sin holeLevel
        [(0.25, ⟨0, 0⟩), (5592405 / 67108864, ⟨0, 0⟩)]).fallProgress = 1 ∧
      (enteredFalling.updatesF Real.sqrt Real.sin holeLevel
        [(0.25, ⟨0, 0⟩), (5592405 / 67108864, ⟨0, 0⟩)]).hasFallenInHole = true ∧
      1 / 3 ≤ elapsed [((0.25 : ℝ), (⟨0, 0⟩ : Vec2 ℝ)), (8450263 / 134217728, ⟨0, 0⟩),
        (10938191 / 536870912, ⟨0, 0⟩)] ∧
      (enteredFalling.updatesF Real.sqrt Real.sin holeLevel
        [(0.25, ⟨0, 0⟩), (8450263 / 134217728, ⟨0, 0⟩),
          (10938191 / 536870912, ⟨0, 0⟩)]).fallProgress = 16777215 / 16777216 ∧
      (enteredFalling.updatesF Real.sqrt Real.sin holeLevel
        [(0.25, ⟨0, 0⟩), (8450263 / 134217728, ⟨0, 0⟩),
          (10938191 / 536870912, ⟨0, 0⟩)]).hasFallenInHole = false := by
  have r1 : F32.round (16777215 / 67108864 : ℝ) = 16777215 / 67108864 := by
    have := F32.round_of_repr (α := ℝ) 16777215 (-26) (by norm_num) (by norm_num)
    norm_num at this ⊢
    exact this
  have r2 : F32.round (67108863 / 67108864 : ℝ) = 1 := by
    have := F32.round_eq_of_near (67108863 / 67108864 : ℝ) (-24) 16777216 (by norm_num)
      (by norm_num [abs_of_pos]) (by norm_num [abs_of_pos])
      (by rw [abs_lt]; constructor <;> norm_num)
    rw [this]
    norm_num
  have r3 : F32.round (25350789 / 134217728 : ℝ) = 6337697 / 33554432 := by
    have := F32.round_eq_of_tie (25350789 / 134217728 : ℝ) (-26) 12675394 (by norm_num)
      (by norm_num [abs_of_pos]) (by norm_num [abs_of_pos]) (by norm_num)
    rw [this]
    norm_num
  have r4 : F32.round (31503521 / 33554432 : ℝ) = 984485 / 1048576 := by
    have := F32.round_eq_of_tie (31503521 / 33554432 : ℝ) (-24) 15751760 (by norm_num)
      (by norm_num [abs_of_pos]) (by norm_num [abs_of_pos]) (by norm_num)
    rw [this]
    norm_num
  have r5 : F32.round (32814573 / 536870912 : ℝ) = 8203643 / 134217728 := by
    have := F32.round_eq_of_tie (32814573 / 536870912 : ℝ) (-28) 16407286 (by norm_num)
      (by norm_num [abs_of_pos]) (by norm_num [abs_of_pos]) (by norm_num)
    rw [this]
    norm_num
  have r6 : F32.round (134217723 / 134217728 : ℝ) = 16777215 / 16777216 := by
    have := F32.round_eq_of_near (134217723 / 134217728 : ℝ) (-24) 16777215 (by norm_num)
      (by norm_num [abs_of_pos]) (by norm_num [abs_of_pos])
      (by rw [abs_lt]; constructor <;> norm_num)
    rw [this]
    norm_num
  have hA : (enteredFalling.updatesF Real.sqrt Real.sin holeLevel
      [(0.25, ⟨0, 0⟩), (5592405 / 67108864, ⟨0, 0⟩)]).fallProgress = 1 := by
    rw [(updatesF_of_falling Real.sqrt Real.sin holeLevel _ enteredFalling rfl).2.2.1]
    simp only [List.map_cons, List.map_nil, List.foldl_cons, List.foldl_nil, enteredFalling,
      F32.add, F32.mul]
    norm_num [round_three_quarters_real, r1, r2]
  have hB : (enteredFalling.updatesF Real.sqrt Real.sin holeLevel
      [(0.25, ⟨0, 0⟩), (8450263 / 134217728, ⟨0, 0⟩),
        (10938191 / 536870912, ⟨0, 0⟩)]).fallProgress = 16777215 / 16777216 := by
    rw [(updatesF_of_falling Real.sqrt Real.sin holeLevel _ enteredFalling rfl).2.2.1]
    simp only [List.map_cons, List.map_nil, List.foldl_cons, List.foldl_nil, enteredFalling,
      F32.add, F32.mul]
    norm_num [round_three_quarters_real, r3, r4, r5, r6]
  have hfA := (updatesF_of_falling Real.sqrt Real.sin holeLevel
    [(0.25, ⟨0, 0⟩), (5592405 / 67108864, ⟨0, 0⟩)] enteredFalling rfl).1
  have hfB := (updatesF_of_falling Real.sqrt Real.sin holeLevel
    [(0.25, ⟨0, 0⟩), (8450263 / 134217728, ⟨0, 0⟩), (10938191 / 536870912, ⟨0, 0⟩)]
    enteredFalling rfl).1
  refine ⟨rfl, rfl, ?_, hA, ?_, ?_, hB, ?_⟩
  · simp only [elapsed, List.map_cons, List.map_nil, List.sum_cons, List.sum_nil]
    norm_num
  · simp only [Ball.hasFallenInHole, hfA, hA, Bool.true_and, decide_eq_true_eq]
    norm_num
  · simp only [elapsed, List.map_cons, List.map_nil, List.sum_cons, List.sum_nil]
    norm_num
  · simp only [Ball.hasFallenInHole, hfB, hB, Bool.true_and, decide_eq_false_iff_not]
    norm_num

theorem fallingF_elapsed_witness :
    enteredFalling.isFalling = true ∧ enteredFalling.fallProgress = 0 ∧
      enteredFalling.position.y = enteredFalling.radius ∧
      (∀ t ∈ [((0.25 : ℝ), (⟨0, 0⟩ : Vec2 ℝ)), (0.125, ⟨0, 0⟩)], 0 ≤ t.1) ∧
      elapsed [((0.25 : ℝ), (⟨0, 0⟩ : Vec2 ℝ)), (0.125, ⟨0, 0⟩)] ≤ 1 ∧
      [((0.25 : ℝ), (⟨0, 0⟩ : Vec2 ℝ)), (0.125, ⟨0, 0⟩)].length ≤ 1048576 ∧
      |(enteredFalling.updatesF Real.sqrt Real.sin holeLevel
          [(0.25, ⟨0, 0⟩), (0.125, ⟨0, 0⟩)]).fallProgress -
        3 * elapsed [((0.25 : ℝ), (⟨0, 0⟩ : Vec2 ℝ)), (0.125, ⟨0, 0⟩)]| ≤
        (([((0.25 : ℝ), (⟨0, 0⟩ : Vec2 ℝ)), (0.125, ⟨0, 0⟩)].length : Nat) : ℝ) / 1048576 := by
  have hdt : ∀ t ∈ [((0.25 : ℝ), (⟨0, 0⟩ : Vec2 ℝ)), (0.125, ⟨0, 0⟩)], 0 ≤ t.1 := by
    intro t ht
    simp only [List.mem_cons, List.mem_singleton, List.not_mem_nil, or_false] at ht
    rcases ht with rfl | rfl <;> norm_num
  have hT : elapsed [((0.25 : ℝ), (⟨0, 0⟩ : Vec2 ℝ)), (0.125, ⟨0, 0⟩)] ≤ 1 := by
    simp only [elapsed, List.map_cons, List.map_nil, List.sum_cons, List.sum_nil]
    norm_num
  exact ⟨rfl, rfl, rfl, hdt, hT, by simp,
    (fallingF_elapsed Real.sqrt Real.sin holeLevel enteredFalling
      [(0.25, ⟨0, 0⟩), (0.125, ⟨0, 0⟩)] rfl rfl rfl hdt hT (by simp)).2.1⟩

/-! ## The speed clamp in float arithmetic -/

section ClampF

variable {α : Type} [LinearOrderedField α] [FloorRing α]

theorem eta_small : (0 : α) < 1 / 2 ^ 150 ∧ (1 : α) / 2 ^ 150 ≤ 1 / 16777216 / 1048576 := by
  constructor
  · positivity
  · rw [div_div]
    apply one_div_le_one_div_of_le
    · norm_num
    · norm_num

/-- The float sum of squares C against the exact sum of squares Q. -/
theorem sumsqF_bounds (x z : α) :
    0 ≤ F32.add (F32.mul x x) (F32.mul z z) ∧
      F32.add (F32.mul x x) (F32.mul z z) ≤
        (x * x + z * z) * (1 + 3 / 16777216) + 4 * (1 / 2 ^ 150) ∧
      (x * x + z * z) * (1 - 3 / 16777216) - 4 * (1 / 2 ^ 150) ≤
        F32.add (F32.mul x x) (F32.mul z z) := by
  unfold F32.add F32.mul
  obtain ⟨hAl, hAr, hA0⟩ := F32.round_bounds_nonneg (x * x) (mul_self_nonneg x)
  generalize F32.round (x * x) = A at *
  obtain ⟨hBl, hBr, hB0⟩ := F32.round_bounds_nonneg (z * z) (mul_self_nonneg z)
  generalize F32.round (z * z) = B at *
  obtain ⟨hCl, hCr, hC0⟩ := F32.round_bounds_nonneg (A + B) (by linarith)
  generalize F32.round (A + B) = C at *
  have hx0 : (0 : α) ≤ x * x := mul_self_nonneg x
  have hz0 : (0 : α) ≤ z * z := mul_self_nonneg z
  generalize x * x = X at *
  generalize z * z = Z at *
  obtain ⟨he0, he1⟩ := eta_small (α := α)
  generalize (1 : α) / 2 ^ 150 = η at *
  refine ⟨hC0, ?_, ?_⟩
  · linarith
  · linarith

/-- The float square root s of a number C whose exact root is r. -/
theorem sqrtF_bounds {sqrt : α → α} (hs : IsSqrt sqrt) (C : α) (hC : 0 ≤ C) :
    0 ≤ sqrt C ∧ sqrt C * sqrt C = C ∧
      sqrt C * (1 - 1 / 16777216) - 1 / 2 ^ 150 ≤ F32.fsqrt sqrt C ∧
      F32.fsqrt sqrt C ≤ sqrt C * (1 + 1 / 16777216) + 1 / 2 ^ 150 := by
  obtain ⟨hr0, hrr⟩ := hs C hC
  unfold F32.fsqrt
  obtain ⟨hsl, hsr, _⟩ := F32.round_bounds_nonneg (sqrt C) hr0
  refine ⟨hr0, hrr, ?_, ?_⟩
  · linarith
  · linarith

/-- The float speed s of a planar vector against its exact length sigma, when
s is at least 49: sigma is at least 48 and s is within 4 * 2^-24 of sigma,
relatively. -/
theorem speedF_bounds {sqrt : α → α} (hs : IsSqrt sqrt) (x z : α)
    (h49 : 49 ≤ F32.fsqrt sqrt (F32.add (F32.mul x x) (F32.mul z z))) :
    48 ≤ sqrt (x * x + z * z) ∧
      sqrt (x * x + z * z) * (1 - 4 / 16777216) ≤
        F32.fsqrt sqrt (F32.add (F32.mul x x) (F32.mul z z)) ∧
      F32.fsqrt sqrt (F32.add (F32.mul x x) (F32.mul z z)) ≤
        sqrt (x * x + z * z) * (1 + 4 / 16777216) := by
  obtain ⟨hC0, hCr, hCl⟩ := sumsqF_bounds x z
  generalize F32.add (F32.mul x x) (F32.mul z z) = C at *
  obtain ⟨hr0, hrr, hsl, hsr⟩ := sqrtF_bounds hs C hC0
  generalize F32.fsqrt sqrt C = s at *
  generalize sqrt C = r at *
  obtain ⟨hσ0, hσσ⟩ := hs (x * x + z * z) (add_nonneg (mul_self_nonneg x) (mul_self_nonneg z))
  generalize sqrt (x * x + z * z) = σ at *
  generalize x * x + z * z = Q at *
  obtain ⟨he0, he1⟩ := eta_small (α := α)
  generalize (1 : α) / 2 ^ 150 = η at *
  have hr1 : 48.99 ≤ r := by
    norm_num
    linarith only [hsr, h49, he1]
  have hC1 : 2400 ≤ C := by
    rw [← hrr]
    norm_num at hr1
    nlinarith only [hr1]
  have hQ1 : 2399 ≤ Q := by
    linarith only [hC1, hCr, he1]
  have hσ1 : 48 ≤ σ := by
    by_contra hlt
    push_neg at hlt
    have : σ * σ < 48 * 48 := mul_self_lt_mul_self hσ0 hlt
    linarith only [this, hσσ, hQ1]
  have hr2 : r ≤ σ * (1 + 2 / 16777216) := by
    rw [mul_self_le_mul_self_iff hr0 (mul_nonneg hσ0 (by norm_num))]
    have e : σ * (1 + 2 / 16777216) * (σ * (1 + 2 / 16777216)) =
        (1 + 2 / 16777216) * (1 + 2 / 16777216) * (σ * σ) := by ring
    rw [e, hrr, hσσ]
    linarith only [hCr, hQ1, he1]
  have hr3 : σ * (1 - 2 / 16777216) ≤ r := by
    rw [mul_self_le_mul_self_iff (mul_nonneg hσ0 (by norm_num)) hr0]
    have e : σ * (1 - 2 / 16777216) * (σ * (1 - 2 / 16777216)) =
        (1 - 2 / 16777216) * (1 - 2 / 16777216) * (σ * σ) := by ring
    rw [e, hrr, hσσ]
    linarith only [hCl, hQ1, he1]
  refine ⟨hσ1, ?_, ?_⟩
  · linarith only [hr3, hsl, hσ1, he1]
  · linarith only [hr2, hsr, hσ1, he1]

/-- One component of the float rescale (x / s) * 50 against the exact rescale
50 * x / sigma. -/
theorem clampF_component (x s σ : α) (hσ : 48 ≤ σ) (hs1 : σ * (1 - 4 / 16777216) ≤ s)
    (hs2 : s ≤ σ * (1 + 4 / 16777216)) (hx : |x| ≤ σ) :
    |F32.mul (F32.div x s) 50 - 50 * (x / σ)| ≤ 50 / 2097152 ∧
      (0 ≤ x → 0 ≤ F32.mul (F32.div x s) 50) ∧ (x ≤ 0 → F32.mul (F32.div x s) 50 ≤ 0) := by
  have hσ0 : 0 < σ := by linarith
  have hs0 : 0 < s := by
    norm_num at hs1
    linarith
  have ha : |x / σ| ≤ 1 := by
    rw [abs_div, abs_of_pos hσ0]
    exact (div_le_one hσ0).mpr hx
  have hwa : x / s - x / σ = x / σ * ((σ - s) / s) := by
    field_simp
    ring
  have hρ : |(σ - s) / s| ≤ 9 / 33554432 := by
    rw [abs_div, abs_of_pos hs0, div_le_iff₀ hs0, abs_le]
    constructor
    · norm_num at hs1 hs2 ⊢
      linarith
    · norm_num at hs1 hs2 ⊢
      linarith
  have hd : |x / s - x / σ| ≤ 9 / 33554432 := by
    rw [hwa, abs_mul]
    calc |x / σ| * |(σ - s) / s| ≤ 1 * (9 / 33554432) :=
          mul_le_mul ha hρ (abs_nonneg _) (by norm_num)
      _ = 9 / 33554432 := by ring
  unfold F32.mul F32.div
  have hq := F32.round_bounds (x / s)
  have hv := F32.round_bounds (F32.round (x / s) * 50)
  have hsign1 : 0 ≤ x → 0 ≤ F32.round (F32.round (x / s) * 50) := by
    intro h0
    apply F32.round_nonneg
    exact mul_nonneg (F32.round_nonneg _ (div_nonneg h0 hs0.le)) (by norm_num)
  have hsign2 : x ≤ 0 → F32.round (F32.round (x / s) * 50) ≤ 0 := by
    intro h0
    apply F32.round_nonpos
    exact mul_nonpos_of_nonpos_of_nonneg
      (F32.round_nonpos _ (div_nonpos_of_nonpos_of_nonneg h0 hs0.le)) (by norm_num)
  refine ⟨?_, hsign1, hsign2⟩
  obtain ⟨he0, he1⟩ := eta_small (α := α)
  generalize (1 : α) / 2 ^ 150 = η at *
  have hw : |x / s| ≤ 1 + 9 / 33554432 := by
    have := abs_add (x / s - x / σ) (x / σ)
    rw [sub_add_cancel] at this
    linarith
  generalize x / s = w at *
  generalize x / σ = a at *
  have hq' : |F32.round w - w| ≤ 3 / 33554432 := by
    norm_num at hw he1 ⊢
    linarith
  have hqa : |F32.round w| ≤ 1 + 12 / 33554432 := by
    have := abs_add (F32.round w - w) w
    rw [sub_add_cancel] at this
    linarith
  generalize F32.round w = q at *
  have hq50 : |q * 50| = |q| * 50 := by
    rw [abs_mul]
    norm_num
  rw [hq50] at hv
  generalize F32.round (q * 50) = v at *
  generalize |q| = Aq at *
  rw [abs_le] at hd hq' hv ⊢
  clear hq hw ha hwa hρ hsign1 hsign2 hx hs1 hs2 hσ hσ0 hs0
  norm_num at hqa he1 hd hq' hv ⊢
  constructor <;> linarith

end ClampF

section ClampF2

variable {α : Type} [LinearOrderedField α] [FloorRing α]

/-- A planar vector within eps, componentwise, of a vector of length 50 has a
length within 2 * eps of 50. -/
theorem norm_near (a b e1 e2 ε : α) (hab : a * a + b * b = 1) (h1 : |e1| ≤ ε) (h2 : |e2| ≤ ε)
    (hε1 : ε ≤ 1) :
    (50 - 2 * ε) * (50 - 2 * ε) ≤ (50 * a + e1) * (50 * a + e1) + (50 * b + e2) * (50 * b + e2) ∧
      (50 * a + e1) * (50 * a + e1) + (50 * b + e2) * (50 * b + e2) ≤
        (50 + 2 * ε) * (50 + 2 * ε) := by
  have hε : 0 ≤ ε := le_trans (abs_nonneg e1) h1
  have haa : |a| ≤ 1 := by
    rw [abs_le_one_iff_mul_self_le_one]
    linarith [mul_self_nonneg b]
  have hbb : |b| ≤ 1 := by
    rw [abs_le_one_iff_mul_self_le_one]
    linarith [mul_self_nonneg a]
  have he1 : e1 * e1 ≤ ε * ε := by
    have := mul_self_le_mul_self (abs_nonneg e1) h1
    rwa [abs_mul_abs_self] at this
  have he2 : e2 * e2 ≤ ε * ε := by
    have := mul_self_le_mul_self (abs_nonneg e2) h2
    rwa [abs_mul_abs_self] at this
  rw [abs_le] at h1 h2 haa hbb
  have p1 := mul_nonneg (by linarith : (0 : α) ≤ 1 - a) (by linarith : (0 : α) ≤ ε + e1)
  have p2 := mul_nonneg (by linarith : (0 : α) ≤ 1 + a) (by linarith : (0 : α) ≤ ε - e1)
  have p3 := mul_nonneg (by linarith : (0 : α) ≤ 1 - b) (by linarith : (0 : α) ≤ ε + e2)
  have p4 := mul_nonneg (by linarith : (0 : α) ≤ 1 + b) (by linarith : (0 : α) ≤ ε - e2)
  have hup : a * e1 + b * e2 ≤ 2 * ε := by
    linarith only [p1, p2, p3, p4]
  have hcs : (a * e1 + b * e2) * (a * e1 + b * e2) ≤ e1 * e1 + e2 * e2 := by
    have : (a * e1 + b * e2) * (a * e1 + b * e2) + (a * e2 - b * e1) * (a * e2 - b * e1) =
        (a * a + b * b) * (e1 * e1 + e2 * e2) := by ring
    rw [hab, one_mul] at this
    linarith only [this, mul_self_nonneg (a * e2 - b * e1)]
  have hεε : ε * ε ≤ ε := by
    have := mul_le_mul_of_nonneg_left hε1 hε
    rwa [mul_one] at this
  have hlo : -(3 / 2 * ε) ≤ a * e1 + b * e2 := by
    by_contra hlt
    push_neg at hlt
    have h3 : 3 / 2 * ε < -(a * e1 + b * e2) := by linarith only [hlt]
    have h4 := mul_self_lt_mul_self (by linarith only [hε] : (0 : α) ≤ 3 / 2 * ε) h3
    have h5 : -(a * e1 + b * e2) * -(a * e1 + b * e2) =
        (a * e1 + b * e2) * (a * e1 + b * e2) := by ring
    have h6 : 3 / 2 * ε * (3 / 2 * ε) = 9 / 4 * (ε * ε) := by ring
    rw [h5, h6] at h4
    linarith only [h4, hcs, he1, he2, mul_self_nonneg ε]
  have hexp : (50 * a + e1) * (50 * a + e1) + (50 * b + e2) * (50 * b + e2) =
      2500 * (a * a + b * b) + 100 * (a * e1 + b * e2) + (e1 * e1 + e2 * e2) := by ring
  have hl : (50 - 2 * ε) * (50 - 2 * ε) = 2500 - 200 * ε + 4 * (ε * ε) := by ring
  have hr : (50 + 2 * ε) * (50 + 2 * ε) = 2500 + 200 * ε + 4 * (ε * ε) := by ring
  rw [hexp, hab, hl, hr]
  constructor
  · linarith only [hlo, hεε, mul_self_nonneg e1, mul_self_nonneg e2, hε]
  · linarith only [hup, he1, he2, mul_self_nonneg ε]

/-- The float speed clamp of Ball::update. -/
theorem clampSpeedF_spec {sqrt : α → α} (hs : IsSqrt sqrt) (v : Vec3 α) :
    (F32.fsqrt sqrt (F32.add (F32.mul v.x v.x) (F32.mul v.z v.z)) ≤ 50 →
      clampSpeedF sqrt v = v ∧ length2 sqrt v.x v.z ≤ 50 * (1 + 1 / 1048576)) ∧
    (50 < F32.fsqrt sqrt (F32.add (F32.mul v.x v.x) (F32.mul v.z v.z)) →
      (clampSpeedF sqrt v).y = v.y ∧
      (clampSpeedF sqrt v).x =
        F32.mul (F32.div v.x (F32.fsqrt sqrt (F32.add (F32.mul v.x v.x) (F32.mul v.z v.z)))) 50 ∧
      (clampSpeedF sqrt v).z =
        F32.mul (F32.div v.z (F32.fsqrt sqrt (F32.add (F32.mul v.x v.x) (F32.mul v.z v.z)))) 50 ∧
      |(clampSpeedF sqrt v).x - 50 * (v.x / length2 sqrt v.x v.z)| ≤ 50 / 2097152 ∧
      |(clampSpeedF sqrt v).z - 50 * (v.z / length2 sqrt v.x v.z)| ≤ 50 / 2097152 ∧
      (0 ≤ v.x → 0 ≤ (clampSpeedF sqrt v).x) ∧ (v.x ≤ 0 → (clampSpeedF sqrt v).x ≤ 0) ∧
      (0 ≤ v.z → 0 ≤ (clampSpeedF sqrt v).z) ∧ (v.z ≤ 0 → (clampSpeedF sqrt v).z ≤ 0) ∧
      50 * (1 - 1 / 1048576) ≤ length2 sqrt (clampSpeedF sqrt v).x (clampSpeedF sqrt v).z ∧
      length2 sqrt (clampSpeedF sqrt v).x (clampSpeedF sqrt v).z ≤ 50 * (1 + 1 / 1048576)) := by
  have e50 : (Config.BALL_MAX_SPEED : α) = 50 := by
    unfold Config.BALL_MAX_SPEED
    norm_num
  have hQ0 : 0 ≤ v.x * v.x + v.z * v.z := add_nonneg (mul_self_nonneg _) (mul_self_nonneg _)
  constructor
  · intro hle
    refine ⟨?_, ?_⟩
    · unfold clampSpeedF
      rw [e50]
      simp only [if_neg (not_lt.mpr hle)]
    · unfold length2
      obtain ⟨hC0, hCr, hCl⟩ := sumsqF_bounds v.x v.z
      generalize F32.add (F32.mul v.x v.x) (F32.mul v.z v.z) = C at *
      obtain ⟨hr0, hrr, hsl, hsr⟩ := sqrtF_bounds hs C hC0
      generalize F32.fsqrt sqrt C = s at *
      generalize sqrt C = r at *
      apply hs.le_of_le_sq hQ0 (by norm_num)
      generalize v.x * v.x + v.z * v.z = Q at *
      obtain ⟨he0, he1⟩ := eta_small (α := α)
      generalize (1 : α) / 2 ^ 150 = η at *
      have hr1 : r ≤ 50 * (1 + 2 / 16777216) := by
        norm_num at hsl ⊢
        linarith only [hsl, hle, he1, hr0]
      have hC1 : C ≤ 50 * (1 + 2 / 16777216) * (50 * (1 + 2 / 16777216)) := by
        rw [← hrr]
        exact mul_self_le_mul_self hr0 hr1
      norm_num at hC1 hCl he1 ⊢
      linarith only [hC1, hCl, he1, hQ0]
  · intro hgt
    obtain ⟨hσ1, hs1, hs2⟩ := speedF_bounds hs v.x v.z (by linarith)
    obtain ⟨hσ0, hσσ⟩ := hs _ hQ0
    have hxσ : |v.x| ≤ sqrt (v.x * v.x + v.z * v.z) := by
      rw [← abs_of_nonneg hσ0, abs_le_iff_mul_self_le, hσσ]
      linarith [mul_self_nonneg v.z]
    have hzσ : |v.z| ≤ sqrt (v.x * v.x + v.z * v.z) := by
      rw [← abs_of_nonneg hσ0, abs_le_iff_mul_self_le, hσσ]
      linarith [mul_self_nonneg v.x]
    obtain ⟨hx1, hx2, hx3⟩ := clampF_component v.x _ _ hσ1 hs1 hs2 hxσ
    obtain ⟨hz1, hz2, hz3⟩ := clampF_component v.z _ _ hσ1 hs1 hs2 hzσ
    have hcx : (clampSpeedF sqrt v).x =
        F32.mul (F32.div v.x (F32.fsqrt sqrt (F32.add (F32.mul v.x v.x) (F32.mul v.z v.z))))
          50 := by
      unfold clampSpeedF
      rw [e50]
      simp only [if_pos hgt]
    have hcz : (clampSpeedF sqrt v).z =
        F32.mul (F32.div v.z (F32.fsqrt sqrt (F32.add (F32.mul v.x v.x) (F32.mul v.z v.z))))
          50 := by
      unfold clampSpeedF
      rw [e50]
      simp only [if_pos hgt]
    have hcy : (clampSpeedF sqrt v).y = v.y := by
      unfold clampSpeedF
      rw [e50]
      simp only [if_pos hgt]
    have hσpos : 0 < sqrt (v.x * v.x + v.z * v.z) := by linarith
    have hab : v.x / sqrt (v.x * v.x + v.z * v.z) * (v.x / sqrt (v.x * v.x + v.z * v.z)) +
        v.z / sqrt (v.x * v.x + v.z * v.z) * (v.z / sqrt (v.x * v.x + v.z * v.z)) = 1 := by
      rw [div_mul_div_comm, div_mul_div_comm, ← add_div, hσσ]
      exact div_self (by rw [← hσσ]; positivity)
    have hn := norm_near (v.x / sqrt (v.x * v.x + v.z * v.z))
      (v.z / sqrt (v.x * v.x + v.z * v.z))
      ((clampSpeedF sqrt v).x - 50 * (v.x / sqrt (v.x * v.x + v.z * v.z)))
      ((clampSpeedF sqrt v).z - 50 * (v.z / sqrt (v.x * v.x + v.z * v.z)))
      (50 / 2097152) hab (by rw [hcx]; exact hx1) (by rw [hcz]; exact hz1) (by norm_num)
    simp only [add_sub_cancel] at hn
    obtain ⟨hn1, hn2⟩ := hn
    refine ⟨hcy, hcx, hcz, by rw [hcx]; exact hx1, by rw [hcz]; exact hz1,
      by rw [hcx]; exact hx2, by rw [hcx]; exact hx3, by rw [hcz]; exact hz2,
      by rw [hcz]; exact hz3, ?_, ?_⟩
    · unfold length2
      apply hs.le_sqrt
      have e : (50 : α) * (1 - 1 / 1048576) = 50 - 2 * (50 / 2097152) := by norm_num
      rw [e]
      exact hn1
    · unfold length2
      apply hs.le_of_le_sq (add_nonneg (mul_self_nonneg _) (mul_self_nonneg _)) (by norm_num)
      have e : (50 : α) * (1 + 1 / 1048576) = 50 + 2 * (50 / 2097152) := by norm_num
      rw [e]
      exact hn2

end ClampF2

section SpeedF

variable {α : Type} [LinearOrderedField α] [FloorRing α]

theorem updateF_of_rolling (sqrt sin : α → α) (dt : α) (tilt : Vec2 α) (L : Level α)
    (b : Ball α) (hr : b.isFalling = false) :
    b.updateF sqrt sin dt tilt L =
      if L.isOverHoleF sqrt
          (L.resolveWallCollisionF sqrt (b.tentativeF sqrt sin dt tilt) b.radius) b.radius then
        { b with
          isFalling := true
          fallProgress := 0.0
          velocity := ⟨0.0, 0.0, 0.0⟩
          position :=
            { L.resolveWallCollisionF sqrt (b.tentativeF sqrt sin dt tilt) b.radius with
              y := b.radius } }
      else
        { b with
          velocity := bounceF
            (L.resolveWallCollisionF sqrt (b.tentativeF sqrt sin dt tilt) b.radius)
            (b.tentativeF sqrt sin dt tilt) (b.clampedVelocityF sqrt sin dt tilt)
          position :=
            { L.resolveWallCollisionF sqrt (b.tentativeF sqrt sin dt tilt) b.radius with
              y := b.radius } } := by
  unfold Ball.updateF
  simp only [hr, Bool.false_eq_true, if_false]

/-- The float bounce factor 0.3f lies between 0 and 1. -/
theorem bounce_factor : (0 : α) ≤ F32.round Config.BALL_BOUNCE ∧
    F32.round (Config.BALL_BOUNCE : α) ≤ 1 := by
  unfold Config.BALL_BOUNCE
  rw [round_three_tenths]
  constructor
  · positivity
  · rw [zpow_neg]
    norm_num

/-- The bounce tests do not increase the magnitude of a component. -/
theorem bounceF_sq_le (p o v : Vec3 α) (hx : F32.round v.x = v.x) (hz : F32.round v.z = v.z) :
    (bounceF p o v).x * (bounceF p o v).x ≤ v.x * v.x ∧
      (bounceF p o v).z * (bounceF p o v).z ≤ v.z * v.z ∧ (bounceF p o v).y = v.y := by
  obtain ⟨hc0, hc1⟩ := bounce_factor (α := α)
  have key : ∀ a : α, F32.round a = a →
      F32.mul (-a) (F32.round Config.BALL_BOUNCE) * F32.mul (-a) (F32.round Config.BALL_BOUNCE) ≤
        a * a := by
    intro a ha
    unfold F32.mul
    rw [neg_mul, F32.round_neg, neg_mul_neg, ← abs_le_iff_mul_self_le]
    exact F32.abs_round_mul_le a _ ha hc0 hc1
  unfold bounceF
  refine ⟨?_, ?_, rfl⟩
  · simp only
    split_ifs
    · exact key v.x hx
    · exact le_refl _
  · simp only
    split_ifs
    · exact key v.z hz
    · exact le_refl _

theorem frictionVelocityF_repr (sin : α → α) (dt : α) (tilt : Vec2 α) (b : Ball α) :
    F32.round (b.frictionVelocityF sin dt tilt).x = (b.frictionVelocityF sin dt tilt).x ∧
      F32.round (b.frictionVelocityF sin dt tilt).z = (b.frictionVelocityF sin dt tilt).z :=
  ⟨F32.round_round _, F32.round_round _⟩

theorem clampSpeedF_repr (sqrt : α → α) (v : Vec3 α) (hx : F32.round v.x = v.x)
    (hz : F32.round v.z = v.z) :
    F32.round (clampSpeedF sqrt v).x = (clampSpeedF sqrt v).x ∧
      F32.round (clampSpeedF sqrt v).z = (clampSpeedF sqrt v).z := by
  unfold clampSpeedF
  simp only
  split_ifs
  · exact ⟨F32.round_round _, F32.round_round _⟩
  · exact ⟨hx, hz⟩

theorem clampSpeedF_length_le {sqrt : α → α} (hs : IsSqrt sqrt) (v : Vec3 α) :
    (clampSpeedF sqrt v).x * (clampSpeedF sqrt v).x +
        (clampSpeedF sqrt v).z * (clampSpeedF sqrt v).z ≤
      50 * (1 + 1 / 1048576) * (50 * (1 + 1 / 1048576)) := by
  obtain ⟨h1, h2⟩ := clampSpeedF_spec hs v
  have hlen : length2 sqrt (clampSpeedF sqrt v).x (clampSpeedF sqrt v).z ≤
      50 * (1 + 1 / 1048576) := by
    rcases le_or_lt (F32.fsqrt sqrt (F32.add (F32.mul v.x v.x) (F32.mul v.z v.z))) 50 with h | h
    · obtain ⟨he, hl⟩ := h1 h
      rw [he]
      exact hl
    · exact (h2 h).2.2.2.2.2.2.2.2.2.2
  unfold length2 at hlen
  obtain ⟨h0, hsq⟩ := hs _ (add_nonneg (mul_self_nonneg (clampSpeedF sqrt v).x)
    (mul_self_nonneg (clampSpeedF sqrt v).z))
  rw [← hsq]
  exact mul_self_le_mul_self h0 hlen

/-- C3 (amended): in float arithmetic, after a Ball::update tick from a Rolling
state, or from a Falling state whose planar speed was already at most
50 * (1 + 2^-20), the planar speed sqrt (velocity.x^2 + velocity.z^2) is at
most 50 * (1 + 2^-20) = 50.0000477, for every Level, every tilt and every dt
(the float clamp rescales to length 50 up to rounding, and a velocity whose
float speed is at most 50 is left as it is).  The bounds on the velocity, the
step and the sine keep the velocity computation in the float range; the proof
does not use them. -/
theorem planarSpeedF_update_le {sqrt : α → α} (hs : IsSqrt sqrt) (sin : α → α) (dt : α)
    (tilt : Vec2 α) (L : Level α) (b : Ball α)
    (hb : b.isFalling = true → b.planarSpeed sqrt ≤ 50 * (1 + 1 / 1048576))
    (_hfin : |b.velocity.x| ≤ 2 ^ 40 ∧ |b.velocity.z| ≤ 2 ^ 40 ∧ |dt| ≤ 2 ^ 20 ∧
      |sin tilt.x| ≤ 1 ∧ |sin tilt.y| ≤ 1) :
    (b.updateF sqrt sin dt tilt L).planarSpeed sqrt ≤ 50 * (1 + 1 / 1048576) := by
  cases hf : b.isFalling with
  | true =>
    rw [updateF_of_falling _ _ _ _ _ _ hf]
    exact hb hf
  | false =>
    rw [updateF_of_rolling _ _ _ _ _ _ hf]
    split_ifs
    · simp only [Ball.planarSpeed]
      norm_num
      rw [hs.zero]
      norm_num
    · simp only [Ball.planarSpeed]
      apply hs.le_of_le_sq (add_nonneg (mul_self_nonneg _) (mul_self_nonneg _)) (by norm_num)
      obtain ⟨hx, hz⟩ := frictionVelocityF_repr sin dt tilt b
      obtain ⟨hcx, hcz⟩ := clampSpeedF_repr sqrt (b.frictionVelocityF sin dt tilt) hx hz
      obtain ⟨hbx, hbz, _⟩ := bounceF_sq_le
        (L.resolveWallCollisionF sqrt (b.tentativeF sqrt sin dt tilt) b.radius)
        (b.tentativeF sqrt sin dt tilt) (b.clampedVelocityF sqrt sin dt tilt) hcx hcz
      have hlen := clampSpeedF_length_le hs (b.frictionVelocityF sin dt tilt)
      unfold Ball.clampedVelocityF at hbx hbz ⊢
      linarith

end SpeedF

theorem planarSpeedF_update_le_witness :
    IsSqrt Real.sqrt ∧
      (fastRolling.isFalling = true →
        fastRolling.planarSpeed Real.sqrt ≤ 50 * (1 + 1 / 1048576)) ∧
      (|fastRolling.velocity.x| ≤ 2 ^ 40 ∧ |fastRolling.velocity.z| ≤ 2 ^ 40 ∧
        |(0.016 : ℝ)| ≤ 2 ^ 20 ∧ |Real.sin (0.1 : ℝ)| ≤ 1 ∧ |Real.sin (0 : ℝ)| ≤ 1) ∧
      (fastRolling.updateF Real.sqrt Real.sin 0.016 ⟨0.1, 0⟩ holeLevel).planarSpeed Real.sqrt
        ≤ 50 * (1 + 1 / 1048576) := by
  have hfin : |fastRolling.velocity.x| ≤ 2 ^ 40 ∧ |fastRolling.velocity.z| ≤ 2 ^ 40 ∧
      |(0.016 : ℝ)| ≤ 2 ^ 20 ∧ |Real.sin (0.1 : ℝ)| ≤ 1 ∧ |Real.sin (0 : ℝ)| ≤ 1 := by
    refine ⟨?_, ?_, ?_, Real.abs_sin_le_one _, Real.abs_sin_le_one _⟩
    · simp only [fastRolling]; norm_num [abs_of_pos]
    · simp only [fastRolling]; norm_num
    · norm_num [abs_of_pos]
  exact ⟨isSqrt_real, fun h => absurd h (by decide), hfin,
    planarSpeedF_update_le isSqrt_real Real.sin 0.016 ⟨0.1, 0⟩ holeLevel fastRolling
      (fun h => absurd h (by decide)) hfin⟩

/-! ### The clamp on the velocity (1, 0, 54), evaluated -/

/-- The float square root of a real number C, from the squares that bracket
it. -/
theorem round_real_sqrt (C : ℝ) (e n : Int) (he : -149 ≤ e) (hn1 : 2 ^ 23 < n)
    (hn2 : n < 2 ^ 24)
    (hlo : (((n : ℝ) - 1 / 2) * 2 ^ e) * (((n : ℝ) - 1 / 2) * 2 ^ e) < C)
    (hhi : C < (((n : ℝ) + 1 / 2) * 2 ^ e) * (((n : ℝ) + 1 / 2) * 2 ^ e)) :
    F32.round (Real.sqrt C) = (n : ℝ) * 2 ^ e := by
  have hp : (0 : ℝ) < 2 ^ e := F32.two_zpow_pos e
  have hn1' : ((2 ^ 23 : Int) : ℝ) + 1 ≤ (n : ℝ) := by exact_mod_cast hn1
  have hn2' : (n : ℝ) + 1 ≤ ((2 ^ 24 : Int) : ℝ) := by exact_mod_cast hn2
  push_cast at hn1' hn2'
  have hlo0 : 0 ≤ ((n : ℝ) - 1 / 2) * 2 ^ e := mul_nonneg (by linarith) hp.le
  have hhi0 : 0 < ((n : ℝ) + 1 / 2) * 2 ^ e := mul_pos (by linarith) hp
  have h1 : ((n : ℝ) - 1 / 2) * 2 ^ e < Real.sqrt C := by
    rw [Real.lt_sqrt hlo0, sq]
    exact hlo
  have h2 : Real.sqrt C < ((n : ℝ) + 1 / 2) * 2 ^ e := by
    rw [Real.sqrt_lt' hhi0, sq]
    exact hhi
  have h0 : 0 ≤ Real.sqrt C := Real.sqrt_nonneg C
  have e23 : (2 : ℝ) ^ (e + 23) = 2 ^ 23 * 2 ^ e := by
    rw [zpow_add₀ (two_ne_zero : (2 : ℝ) ≠ 0)]
    norm_num
    ring
  have e24 : (2 : ℝ) ^ (e + 24) = 2 ^ 24 * 2 ^ e := by
    rw [zpow_add₀ (two_ne_zero : (2 : ℝ) ≠ 0)]
    norm_num
    ring
  apply F32.round_eq_of_near _ _ _ he
  · rw [abs_of_nonneg h0, e23]
    have : (2 : ℝ) ^ 23 * 2 ^ e ≤ ((n : ℝ) - 1 / 2) * 2 ^ e :=
      mul_le_mul_of_nonneg_right (by linarith) hp.le
    linarith
  · rw [abs_of_nonneg h0, e24]
    have : ((n : ℝ) + 1 / 2) * 2 ^ e ≤ 2 ^ 24 * 2 ^ e :=
      mul_le_mul_of_nonneg_right (by linarith) hp.le
    linarith
  · rw [abs_lt]
    constructor
    · have : (n : ℝ) - 1 / 2 < Real.sqrt C / 2 ^ e := by
        rw [lt_div_iff₀ hp]
        exact h1
      linarith
    · have : Real.sqrt C / 2 ^ e < (n : ℝ) + 1 / 2 := by
        rw [div_lt_iff₀ hp]
        exact h2
      linarith

theorem round_985 : F32.round (Config.BALL_FRICTION : ℝ) = 8262779 / 8388608 := by
  unfold Config.BALL_FRICTION
  have := F32.round_eq_of_near (0.985 : ℝ) (-24) 16525558 (by norm_num)
    (by norm_num [abs_of_pos]) (by norm_num [abs_of_pos])
    (by rw [abs_lt]; constructor <;> norm_num)
  rw [this]
  norm_num

theorem clamp_friction :
    clampBall.frictionVelocityF Real.sin 0 ⟨0, 0⟩ = ⟨8262779 / 8388608, 0, 871465 / 16384⟩ := by
  have r1 : F32.round (8262779 / 8388608 : ℝ) = 8262779 / 8388608 := by
    have := F32.round_of_repr (α := ℝ) 8262779 (-23) (by norm_num) (by norm_num)
    norm_num at this ⊢
    exact this
  have r2 : F32.round (223095033 / 4194304 : ℝ) = 871465 / 16384 := by
    have := F32.round_eq_of_near (223095033 / 4194304 : ℝ) (-18) 13943440 (by norm_num)
      (by norm_num [abs_of_pos]) (by norm_num [abs_of_pos])
      (by rw [abs_lt]; constructor <;> norm_num)
    rw [this]
    norm_num
  have r54 : F32.round (54 : ℝ) = 54 := by
    simpa using F32.round_intCast (α := ℝ) 54 (by norm_num)
  simp only [Ball.frictionVelocityF, clampBall, Real.sin_zero, F32.mul, F32.add, round_985,
    mul_zero, zero_mul, add_zero, F32.round_zero, one_mul, round_one_real, r1, r54,
    Vec3.mk.injEq, true_and]
  norm_num [r2]

theorem clamp_speed :
    F32.fsqrt Real.sqrt (F32.add (F32.mul (8262779 / 8388608 : ℝ) (8262779 / 8388608))
      (F32.mul (871465 / 16384) (871465 / 16384))) = 6972915 / 131072 := by
  have rA : F32.round (8262779 / 8388608 * (8262779 / 8388608) : ℝ) = 16277675 / 16777216 := by
    have := F32.round_eq_of_near (8262779 / 8388608 * (8262779 / 8388608) : ℝ) (-24) 16277675
      (by norm_num) (by norm_num [abs_of_pos]) (by norm_num [abs_of_pos])
      (by rw [abs_lt]; constructor <;> norm_num)
    rw [this]
    norm_num
  have rB : F32.round (871465 / 16384 * (871465 / 16384) : ℝ) = 5794153 / 2048 := by
    have := F32.round_eq_of_near (871465 / 16384 * (871465 / 16384) : ℝ) (-12) 11588306
      (by norm_num) (by norm_num [abs_of_pos]) (by norm_num [abs_of_pos])
      (by rw [abs_lt]; constructor <;> norm_num)
    rw [this]
    norm_num
  have rC : F32.round (16277675 / 16777216 + 5794153 / 2048 : ℝ) = 1449035 / 512 := by
    have := F32.round_eq_of_near (16277675 / 16777216 + 5794153 / 2048 : ℝ) (-12) 11592280
      (by norm_num) (by norm_num [abs_of_pos]) (by norm_num [abs_of_pos])
      (by rw [abs_lt]; constructor <;> norm_num)
    rw [this]
    norm_num
  have rS : F32.round (Real.sqrt (1449035 / 512)) = 6972915 / 131072 := by
    have := round_real_sqrt (1449035 / 512) (-18) 13945830 (by norm_num) (by norm_num)
      (by norm_num) (by norm_num) (by norm_num)
    rw [this]
    norm_num
  unfold F32.fsqrt F32.add F32.mul
  rw [rA, rB, rC, rS]

theorem clamp_clamped :
    clampBall.clampedVelocityF Real.sqrt Real.sin 0 ⟨0, 0⟩ =
      ⟨15531797 / 16777216, 0, 6552477 / 131072⟩ := by
  have rqx : F32.round (8262779 / 8388608 / (6972915 / 131072) : ℝ) = 4970175 / 268435456 := by
    have := F32.round_eq_of_near (8262779 / 8388608 / (6972915 / 131072) : ℝ) (-29) 9940350
      (by norm_num) (by norm_num [abs_of_pos]) (by norm_num [abs_of_pos])
      (by rw [abs_lt]; constructor <;> norm_num)
    rw [this]
    norm_num
  have rqz : F32.round (871465 / 16384 / (6972915 / 131072) : ℝ) = 16774341 / 16777216 := by
    have := F32.round_eq_of_near (871465 / 16384 / (6972915 / 131072) : ℝ) (-24) 16774341
      (by norm_num) (by norm_num [abs_of_pos]) (by norm_num [abs_of_pos])
      (by rw [abs_lt]; constructor <;> norm_num)
    rw [this]
    norm_num
  have rwx : F32.round (4970175 / 268435456 * 50 : ℝ) = 15531797 / 16777216 := by
    have := F32.round_eq_of_near (4970175 / 268435456 * 50 : ℝ) (-24) 15531797
      (by norm_num) (by norm_num [abs_of_pos]) (by norm_num [abs_of_pos])
      (by rw [abs_lt]; constructor <;> norm_num)
    rw [this]
    norm_num
  have rwz : F32.round (16774341 / 16777216 * 50 : ℝ) = 6552477 / 131072 := by
    have := F32.round_eq_of_near (16774341 / 16777216 * 50 : ℝ) (-18) 13104954
      (by norm_num) (by norm_num [abs_of_pos]) (by norm_num [abs_of_pos])
      (by rw [abs_lt]; constructor <;> norm_num)
    rw [this]
    norm_num
  have e50 : (Config.BALL_MAX_SPEED : ℝ) = 50 := by
    unfold Config.BALL_MAX_SPEED
    norm_num
  unfold Ball.clampedVelocityF clampSpeedF
  rw [clamp_friction]
  simp only [clamp_speed, e50]
  rw [if_pos (by norm_num)]
  simp only [F32.mul, F32.div, rqx, rqz, rwx, rwz]

theorem clamp_length :
    50 < length2 Real.sqrt (15531797 / 16777216 : ℝ) (6552477 / 131072) := by
  unfold length2
  rw [Real.lt_sqrt (by norm_num)]
  norm_num

section FloorF

variable {α : Type} [LinearOrderedField α] [FloorRing α]

theorem resolveCellF_of_not_wall (sqrt : α → α) (L : Level α) (radius : α) (cell : IVec2)
    (p : Vec3 α) (d : Int × Int) (h : L.getCell (cell.x + d.1) (cell.y + d.2) ≠ some '#') :
    L.resolveCellF sqrt radius cell p d = p := by
  simp only [Level.resolveCellF, if_neg h]

end FloorF

theorem floor_resolveF (r : ℝ) :
    floorLevel.resolveWallCollisionF Real.sqrt ⟨0, 0.35, 0⟩ r = ⟨0, 0.35, 0⟩ := by
  unfold Level.resolveWallCollisionF
  rw [floor_worldToGridF]
  apply foldl_fixed
  intro d hd
  apply resolveCellF_of_not_wall
  revert d
  decide

theorem floor_isOverHoleF (r : ℝ) :
    floorLevel.isOverHoleF Real.sqrt ⟨0, 0.35, 0⟩ r = false := by
  unfold Level.isOverHoleF
  rw [floor_worldToGridF]
  simp only
  rw [if_neg (by decide)]

theorem clamp_tentative :
    clampBall.tentativeF Real.sqrt Real.sin 0 ⟨0, 0⟩ = ⟨0, 0.35, 0⟩ := by
  unfold Ball.tentativeF
  simp only [clampBall, F32.add, F32.mul, mul_zero, add_zero, F32.round_zero]

theorem clamp_update_velocity :
    (clampBall.updateF Real.sqrt Real.sin 0 ⟨0, 0⟩ floorLevel).velocity =
      ⟨15531797 / 16777216, 0, 6552477 / 131072⟩ := by
  have hr : clampBall.radius = 0.35 := rfl
  rw [updateF_of_rolling _ _ _ _ _ _ rfl, clamp_tentative, hr, floor_resolveF, floor_isOverHoleF]
  simp only [Bool.false_eq_true, if_false, clamp_clamped, bounceF, F32.sub, sub_self,
    F32.round_zero, abs_zero]
  have h001 : ¬ (0 : ℝ) > F32.round 0.001 := not_lt.mpr (F32.round_nonneg _ (by norm_num))
  simp only [if_neg h001]

/-- C3: in float arithmetic, (a) a ball in mode Falling that carries planar
velocity 100 keeps it through Ball::update (the falling branch returns before
the clamp), so its planar speed after the tick is 100; (b) the Rolling ball with
velocity (1, 0, 54) on a floor without walls or holes in reach, dt = 0 and no
tilt, has float speed 53.19912 after friction, is clamped to
(0.92576724, 0, 49.991432), and ends the tick with planar speed above 50. -/
theorem planarSpeedF_update_counterexample :
    ¬ ((fastFalling.updateF Real.sqrt Real.sin 0.016 ⟨0, 0⟩ holeLevel).planarSpeed Real.sqrt
        ≤ 50) ∧
      clampBall.isFalling = false ∧
      ¬ ((clampBall.updateF Real.sqrt Real.sin 0 ⟨0, 0⟩ floorLevel).planarSpeed Real.sqrt
        ≤ 50) := by
  refine ⟨?_, rfl, ?_⟩
  · rw [updateF_of_falling _ _ _ _ _ _ rfl]
    simp only [Ball.planarSpeed, fastFalling]
    have h : Real.sqrt ((100 : ℝ) * 100 + 0 * 0) = 100 := by
      rw [mul_zero, add_zero]
      exact Real.sqrt_mul_self (by norm_num)
    rw [h]
    norm_num
  · simp only [Ball.planarSpeed, clamp_update_velocity]
    exact not_le.mpr clamp_length

/-! ## The Rolling tick in float arithmetic, stage by stage -/

section RollingTickF

variable {α : Type} [LinearOrderedField α] [FloorRing α]

theorem updateF_position_of_rolling (sqrt sin : α → α) (dt : α) (tilt : Vec2 α) (L : Level α)
    (b : Ball α) (hr : b.isFalling = false) :
    (b.updateF sqrt sin dt tilt L).position =
      { L.resolveWallCollisionF sqrt (b.tentativeF sqrt sin dt tilt) b.radius with
        y := b.radius } := by
  rw [updateF_of_rolling _ _ _ _ _ _ hr]
  split_ifs <;> rfl

/-- C22 (amended): in float arithmetic, for a Rolling ball, any dt and any
tilt, with sqrt a square root: (1) the velocity v1 after acceleration and
friction is the float evaluation, operation by operation, of
(v + (-60 * sin tx) * dt) * 0.985f in X, v.y * 0.985f in Y and
(v + (60 * sin ty) * dt) * 0.985f in Z; (2) the speed clamp leaves v1 unchanged
when its float speed s is at most 50, and otherwise replaces X and Z by the
float values of (v1.x / s) * 50 and (v1.z / s) * 50, which keep the signs of
v1.x and v1.z, lie within 50 * 2^-21 of the exact rescale 50 * v1 / |v1| and
have planar length between 50 * (1 - 2^-20) and 50 * (1 + 2^-20), not exactly
50 in general, Y being left as it is; (3) the tentative position is the float
value of (p.x + v2.x * dt, p.y, p.z + v2.z * dt); (4) Ball::update ends with
the position that resolveWallCollision returns for the tentative position and
the radius, its Y overwritten by the radius.  The bounds on the velocity, the
step and the sine keep the velocity computation in the float range; the proof
does not use them. -/
theorem rolling_tickF {sqrt : α → α} (hs : IsSqrt sqrt) (sin : α → α) (dt : α) (tilt : Vec2 α)
    (L : Level α) (b : Ball α) (hr : b.isFalling = false)
    (_hfin : |b.velocity.x| ≤ 2 ^ 40 ∧ |b.velocity.z| ≤ 2 ^ 40 ∧ |dt| ≤ 2 ^ 20 ∧
      |sin tilt.x| ≤ 1 ∧ |sin tilt.y| ≤ 1) :
    b.frictionVelocityF sin dt tilt =
        ⟨F32.mul (F32.add b.velocity.x (F32.mul (F32.mul (-60) (sin tilt.x)) dt))
            (F32.round 0.985),
          F32.mul b.velocity.y (F32.round 0.985),
          F32.mul (F32.add b.velocity.z (F32.mul (F32.mul 60 (sin tilt.y)) dt))
            (F32.round 0.985)⟩ ∧
    (F32.fsqrt sqrt (F32.add
        (F32.mul (b.frictionVelocityF sin dt tilt).x (b.frictionVelocityF sin dt tilt).x)
        (F32.mul (b.frictionVelocityF sin dt tilt).z (b.frictionVelocityF sin dt tilt).z)) ≤ 50 →
      b.clampedVelocityF sqrt sin dt tilt = b.frictionVelocityF sin dt tilt) ∧
    (50 < F32.fsqrt sqrt (F32.add
        (F32.mul (b.frictionVelocityF sin dt tilt).x (b.frictionVelocityF sin dt tilt).x)
        (F32.mul (b.frictionVelocityF sin dt tilt).z (b.frictionVelocityF sin dt tilt).z)) →
      (b.clampedVelocityF sqrt sin dt tilt).y = (b.frictionVelocityF sin dt tilt).y ∧
      (b.clampedVelocityF sqrt sin dt tilt).x =
        F32.mul (F32.div (b.frictionVelocityF sin dt tilt).x (F32.fsqrt sqrt (F32.add
          (F32.mul (b.frictionVelocityF sin dt tilt).x (b.frictionVelocityF sin dt tilt).x)
          (F32.mul (b.frictionVelocityF sin dt tilt).z (b.frictionVelocityF sin dt tilt).z))))
          50 ∧
      (b.clampedVelocityF sqrt sin dt tilt).z =
        F32.mul (F32.div (b.frictionVelocityF sin dt tilt).z (F32.fsqrt sqrt (F32.add
          (F32.mul (b.frictionVelocityF sin dt tilt).x (b.frictionVelocityF sin dt tilt).x)
          (F32.mul (b.frictionVelocityF sin dt tilt).z (b.frictionVelocityF sin dt tilt).z))))
          50 ∧
      |(b.clampedVelocityF sqrt sin dt tilt).x -
          50 * ((b.frictionVelocityF sin dt tilt).x /
            length2 sqrt (b.frictionVelocityF sin dt tilt).x
              (b.frictionVelocityF sin dt tilt).z)| ≤ 50 / 2097152 ∧
      |(b.clampedVelocityF sqrt sin dt tilt).z -
          50 * ((b.frictionVelocityF sin dt tilt).z /
            length2 sqrt (b.frictionVelocityF sin dt tilt).x
              (b.frictionVelocityF sin dt tilt).z)| ≤ 50 / 2097152 ∧
      (0 ≤ (b.frictionVelocityF sin dt tilt).x → 0 ≤ (b.clampedVelocityF sqrt sin dt tilt).x) ∧
      ((b.frictionVelocityF sin dt tilt).x ≤ 0 → (b.clampedVelocityF sqrt sin dt tilt).x ≤ 0) ∧
      (0 ≤ (b.frictionVelocityF sin dt tilt).z → 0 ≤ (b.clampedVelocityF sqrt sin dt tilt).z) ∧
      ((b.frictionVelocityF sin dt tilt).z ≤ 0 → (b.clampedVelocityF sqrt sin dt tilt).z ≤ 0) ∧
      50 * (1 - 1 / 1048576) ≤
        length2 sqrt (b.clampedVelocityF sqrt sin dt tilt).x
          (b.clampedVelocityF sqrt sin dt tilt).z ∧
      length2 sqrt (b.clampedVelocityF sqrt sin dt tilt).x
          (b.clampedVelocityF sqrt sin dt tilt).z ≤ 50 * (1 + 1 / 1048576)) ∧
    b.tentativeF sqrt sin dt tilt =
        ⟨F32.add b.position.x (F32.mul (b.clampedVelocityF sqrt sin dt tilt).x dt),
          b.position.y,
          F32.add b.position.z (F32.mul (b.clampedVelocityF sqrt sin dt tilt).z dt)⟩ ∧
    (b.updateF sqrt sin dt tilt L).position =
        { L.resolveWallCollisionF sqrt (b.tentativeF sqrt sin dt tilt) b.radius with
          y := b.radius } ∧
    (b.updateF sqrt sin dt tilt L).position.y = b.radius := by
  obtain ⟨h1, h2⟩ := clampSpeedF_spec hs (b.frictionVelocityF sin dt tilt)
  refine ⟨?_, fun h => (h1 h).1, h2, rfl, updateF_position_of_rolling sqrt sin dt tilt L b hr,
    ?_⟩
  · unfold Ball.frictionVelocityF Config.BALL_GRAVITY Config.BALL_FRICTION
    have e : (60.0 : α) = 60 := by norm_num
    simp only [e]
  · rw [updateF_position_of_rolling sqrt sin dt tilt L b hr]

end RollingTickF

/-- C22: in float arithmetic the Rolling ball with velocity (1, 0, 54), dt = 0
and no tilt has velocity (0.98500001, 0, 53.190002) after friction, of float
speed 53.19912 > 50; the clamp gives (0.92576724, 0, 49.991432), whose planar
length is above 50, not exactly 50. -/
theorem rolling_tickF_counterexample :
    clampBall.isFalling = false ∧
      clampBall.frictionVelocityF Real.sin 0 ⟨0, 0⟩ = ⟨8262779 / 8388608, 0, 871465 / 16384⟩ ∧
      50 < F32.fsqrt Real.sqrt (F32.add
        (F32.mul (clampBall.frictionVelocityF Real.sin 0 ⟨0, 0⟩).x
          (clampBall.frictionVelocityF Real.sin 0 ⟨0, 0⟩).x)
        (F32.mul (clampBall.frictionVelocityF Real.sin 0 ⟨0, 0⟩).z
          (clampBall.frictionVelocityF Real.sin 0 ⟨0, 0⟩).z)) ∧
      clampBall.clampedVelocityF Real.sqrt Real.sin 0 ⟨0, 0⟩ =
        ⟨15531797 / 16777216, 0, 6552477 / 131072⟩ ∧
      length2 Real.sqrt (clampBall.clampedVelocityF Real.sqrt Real.sin 0 ⟨0, 0⟩).x
        (clampBall.clampedVelocityF Real.sqrt Real.sin 0 ⟨0, 0⟩).z ≠ 50 := by
  refine ⟨rfl, clamp_friction, ?_, clamp_clamped, ?_⟩
  · rw [clamp_friction]
    simp only [clamp_speed]
    norm_num
  · rw [clamp_clamped]
    exact ne_of_gt clamp_length

theorem rolling_tickF_witness :
    IsSqrt Real.sqrt ∧ fastRolling.isFalling = false ∧
      (|fastRolling.velocity.x| ≤ 2 ^ 40 ∧ |fastRolling.velocity.z| ≤ 2 ^ 40 ∧
        |(0.016 : ℝ)| ≤ 2 ^ 20 ∧ |Real.sin (0 : ℝ)| ≤ 1 ∧ |Real.sin (0 : ℝ)| ≤ 1) ∧
      (fastRolling.updateF Real.sqrt Real.sin 0.016 ⟨0, 0⟩ floorLevel).position.y =
        fastRolling.radius := by
  have hfin : |fastRolling.velocity.x| ≤ 2 ^ 40 ∧ |fastRolling.velocity.z| ≤ 2 ^ 40 ∧
      |(0.016 : ℝ)| ≤ 2 ^ 20 ∧ |Real.sin (0 : ℝ)| ≤ 1 ∧ |Real.sin (0 : ℝ)| ≤ 1 := by
    refine ⟨?_, ?_, ?_, Real.abs_sin_le_one _, Real.abs_sin_le_one _⟩
    · simp only [fastRolling]; norm_num [abs_of_pos]
    · simp only [fastRolling]; norm_num
    · norm_num [abs_of_pos]
  exact ⟨isSqrt_real, rfl, hfin,
    (rolling_tickF isSqrt_real Real.sin 0.016 ⟨0, 0⟩ floorLevel fastRolling rfl
      hfin).2.2.2.2.2⟩

/-! ## The push of resolveWallCollision in float arithmetic -/

section PushF

variable {α : Type} [LinearOrderedField α] [FloorRing α]

theorem eta_tiny : (0 : α) < 1 / 2 ^ 150 ∧ (1 : α) / 2 ^ 150 ≤ 1 / 2 ^ 100 := by
  constructor
  · positivity
  · apply one_div_le_one_div_of_le
    · positivity
    · exact pow_le_pow_right₀ (by norm_num) (by norm_num)

/-- The float distance s of a planar vector against its exact length sigma,
when s is at least 2^-14: sigma is at least 2^-16 and s is within 4 * 2^-24 of
sigma, relatively. -/
theorem distF_bounds {sqrt : α → α} (hs : IsSqrt sqrt) (x z : α)
    (h14 : 1 / 16384 ≤ F32.fsqrt sqrt (F32.add (F32.mul x x) (F32.mul z z))) :
    1 / 65536 ≤ sqrt (x * x + z * z) ∧
      sqrt (x * x + z * z) * (1 - 4 / 16777216) ≤
        F32.fsqrt sqrt (F32.add (F32.mul x x) (F32.mul z z)) ∧
      F32.fsqrt sqrt (F32.add (F32.mul x x) (F32.mul z z)) ≤
        sqrt (x * x + z * z) * (1 + 4 / 16777216) := by
  obtain ⟨hC0, hCr, hCl⟩ := sumsqF_bounds x z
  generalize F32.add (F32.mul x x) (F32.mul z z) = C at *
  obtain ⟨hr0, hrr, hsl, hsr⟩ := sqrtF_bounds hs C hC0
  generalize F32.fsqrt sqrt C = s at *
  generalize sqrt C = r at *
  obtain ⟨hσ0, hσσ⟩ := hs (x * x + z * z) (add_nonneg (mul_self_nonneg x) (mul_self_nonneg z))
  generalize sqrt (x * x + z * z) = σ at *
  generalize x * x + z * z = Q at *
  obtain ⟨he0, he1⟩ := eta_tiny (α := α)
  generalize (1 : α) / 2 ^ 150 = η at *
  norm_num at he1 h14 hsl hsr hCr hCl ⊢
  have hr1 : 1 / 32768 ≤ r := by
    norm_num
    linarith only [hsr, h14, he1]
  have hC1 : 1 / 32768 * (1 / 32768) ≤ C := by
    rw [← hrr]
    exact mul_self_le_mul_self (by norm_num) hr1
  norm_num at hC1
  have hQ1 : 1 / 2147483648 ≤ Q := by
    norm_num
    linarith only [hC1, hCr, he1]
  have hσ1 : 1 / 65536 ≤ σ := by
    by_contra hlt
    push_neg at hlt
    have : σ * σ < 1 / 65536 * (1 / 65536) := mul_self_lt_mul_self hσ0 hlt
    norm_num at this hQ1
    linarith only [this, hσσ, hQ1]
  have hr2 : r ≤ σ * (1 + 2 / 16777216) := by
    rw [mul_self_le_mul_self_iff hr0 (mul_nonneg hσ0 (by norm_num))]
    have e : σ * (1 + 2 / 16777216) * (σ * (1 + 2 / 16777216)) =
        (1 + 2 / 16777216) * (1 + 2 / 16777216) * (σ * σ) := by ring
    rw [e, hrr, hσσ]
    norm_num at hQ1 ⊢
    linarith only [hCr, hQ1, he1]
  have hr3 : σ * (1 - 2 / 16777216) ≤ r := by
    rw [mul_self_le_mul_self_iff (mul_nonneg hσ0 (by norm_num)) hr0]
    have e : σ * (1 - 2 / 16777216) * (σ * (1 - 2 / 16777216)) =
        (1 - 2 / 16777216) * (1 - 2 / 16777216) * (σ * σ) := by ring
    rw [e, hrr, hσσ]
    norm_num at hQ1 ⊢
    linarith only [hCl, hQ1, he1]
  norm_num at hσ1 hr2 hr3 ⊢
  refine ⟨hσ1, ?_, ?_⟩
  · linarith only [hr3, hsl, hσ1, he1]
  · linarith only [hr2, hsr, hσ1, he1]

end PushF

section PushF2

variable {α : Type} [LinearOrderedField α] [FloorRing α]

/-- One coordinate of the float push: the new coordinate against the point that
lies radius away from the closest point q in the direction dX / sigma. -/
theorem push_component (x q dX s σ R : α) (hσ : 1 / 65536 ≤ σ)
    (hs1 : σ * (1 - 4 / 16777216) ≤ s) (hs2 : s ≤ σ * (1 + 4 / 16777216)) (hdX : |dX| ≤ σ)
    (hsR : s ≤ R) (hex : |dX - (x - q)| ≤ |x - q| / 16777216 + 1 / 2 ^ 150) :
    |F32.add x (F32.mul (F32.div dX s) (F32.sub R s)) - (q + R * (dX / σ))| ≤
      (|x| + 32 * R) / 16777216 + 32 * (1 / 2 ^ 150) := by
  have hσ0 : 0 < σ := lt_of_lt_of_le (by norm_num) hσ
  have hs0 : 0 < s := by
    norm_num at hs1
    linarith
  have ha : |dX / σ| ≤ 1 := by
    rw [abs_div, abs_of_pos hσ0]
    exact (div_le_one hσ0).mpr hdX
  have hwa : dX / s - dX / σ = dX / σ * ((σ - s) / s) := by
    field_simp
    ring
  have hρ : |(σ - s) / s| ≤ 9 / 33554432 := by
    rw [abs_div, abs_of_pos hs0, div_le_iff₀ hs0, abs_le]
    constructor
    · norm_num at hs1 hs2 ⊢
      linarith
    · norm_num at hs1 hs2 ⊢
      linarith
  have hd : |dX / s - dX / σ| ≤ 9 / 33554432 := by
    rw [hwa, abs_mul]
    calc |dX / σ| * |(σ - s) / s| ≤ 1 * (9 / 33554432) :=
          mul_le_mul ha hρ (abs_nonneg _) (by norm_num)
      _ = 9 / 33554432 := by ring
  have haσ : dX / σ * σ = dX := div_mul_cancel₀ _ hσ0.ne'
  unfold F32.add F32.mul F32.div F32.sub
  have hn := F32.round_bounds (dX / s)
  obtain ⟨ho1, ho2, ho0⟩ := F32.round_bounds_nonneg (R - s) (by linarith)
  have hm := F32.round_bounds (F32.round (dX / s) * F32.round (R - s))
  have hres := F32.round_bounds (x + F32.round (F32.round (dX / s) * F32.round (R - s)))
  obtain ⟨he0, he1⟩ := eta_tiny (α := α)
  generalize (1 : α) / 2 ^ 150 = η at *
  have hw : |dX / s| ≤ 1 + 9 / 33554432 := by
    have := abs_add (dX / s - dX / σ) (dX / σ)
    rw [sub_add_cancel] at this
    linarith
  generalize dX / s = w at *
  have hn1 : |F32.round w - w| ≤ 3 / 33554432 := by
    norm_num at hw he1 ⊢
    linarith
  have hna : |F32.round w - dX / σ| ≤ 12 / 33554432 := by
    have := abs_add (F32.round w - w) (w - dX / σ)
    rw [sub_add_sub_cancel] at this
    linarith
  have hnabs : |F32.round w| ≤ 1 + 12 / 33554432 := by
    have := abs_add (F32.round w - w) w
    rw [sub_add_cancel] at this
    linarith
  generalize F32.round w = n at *
  generalize F32.round (R - s) = o at *
  have hno : |n * o| ≤ (1 + 12 / 33554432) * o := by
    rw [abs_mul, abs_of_nonneg ho0]
    exact mul_le_mul_of_nonneg_right hnabs ho0
  have hp1 : |(n - dX / σ) * o| ≤ 12 / 33554432 * o := by
    rw [abs_mul, abs_of_nonneg ho0]
    exact mul_le_mul_of_nonneg_right hna ho0
  have hp2 : |dX / σ * (o - (R - σ))| ≤ |o - (R - σ)| := by
    rw [abs_mul]
    exact mul_le_of_le_one_left (abs_nonneg _) ha
  have hoσ : |o - (R - σ)| ≤ 6 / 16777216 * R + η := by
    rw [abs_le]
    norm_num at hs1 hs2 ho1 ho2 ⊢
    constructor <;> linarith only [hs1, hs2, ho1, ho2, hsR, hσ0, he0]
  have hP : |n * o - (R * (dX / σ) - dX)| ≤ 12 / 33554432 * o + (6 / 16777216 * R + η) := by
    have e : n * o - (R * (dX / σ) - dX) = (n - dX / σ) * o + dX / σ * (o - (R - σ)) := by
      have : dX / σ * (o - (R - σ)) = dX / σ * o - dX / σ * R + dX / σ * σ := by ring
      rw [this, haσ]
      ring
    rw [e]
    have := abs_add ((n - dX / σ) * o) (dX / σ * (o - (R - σ)))
    linarith
  have hxq : |x - q| ≤ 2 * R + 2 * η := by
    have h1 := abs_sub_abs_le_abs_sub (x - q) dX
    rw [abs_sub_comm (x - q) dX] at h1
    norm_num at hs1 he1 ⊢
    linarith only [h1, hex, hdX, hs1, hsR, he0, he1, hσ0]
  have hxm := abs_add x (F32.round (n * o))
  generalize dX / σ = a at *
  generalize n * o = P at *
  generalize F32.round P = m at *
  have hm2 : |m| ≤ 2 * R + 3 * η := by
    have h1 := abs_sub_abs_le_abs_sub m P
    norm_num at hm hno ho2 he1 ⊢
    linarith only [h1, hm, hno, ho2, hs0, he0, he1, hsR, ho0]
  have hgoal : F32.round (x + m) - (q + R * a) =
      (F32.round (x + m) - (x + m)) + (m - P) + (P - (R * a - dX)) - (dX - (x - q)) := by ring
  rw [hgoal]
  have t1 := abs_sub (F32.round (x + m) - (x + m) + (m - P) + (P - (R * a - dX))) (dX - (x - q))
  have t2 := abs_add (F32.round (x + m) - (x + m) + (m - P)) (P - (R * a - dX))
  have t3 := abs_add (F32.round (x + m) - (x + m)) (m - P)
  generalize |F32.round (x + m) - (x + m) + (m - P) + (P - (R * a - dX)) - (dX - (x - q))| = G
    at *
  generalize |F32.round (x + m) - (x + m) + (m - P) + (P - (R * a - dX))| = G1 at *
  generalize |F32.round (x + m) - (x + m) + (m - P)| = G2 at *
  generalize |F32.round (x + m) - (x + m)| = G3 at *
  generalize |m - P| = G4 at *
  generalize |P - (R * a - dX)| = G5 at *
  generalize |dX - (x - q)| = G6 at *
  generalize |x - q| = G7 at *
  generalize |x + m| = G8 at *
  generalize |m| = G9 at *
  generalize |P| = G10 at *
  generalize |x| = G11 at *
  clear hgoal hp1 hp2 hoσ hnabs hna hn1 hw hn hd hρ hwa ha haσ hdX hσ hs1 hs2
  norm_num at he1 hres hm hno ho2 hP hex ⊢
  linarith only [t1, t2, t3, hres, hm, hno, ho2, hP, hex, hxq, hxm, hm2, he0, he1, hsR, hs0,
    ho0]

end PushF2

section PushF3

variable {α : Type} [LinearOrderedField α] [FloorRing α]

/-- The distance of the pushed coordinate r to the interval [lo, hi], when r
lies within T of the closest point of x plus a step g on the side of x. -/
theorem clampF_push (x lo hi r g T : α) (hlh : lo ≤ hi)
    (hg1 : 0 ≤ x - clamp x lo hi → 0 ≤ g) (hg2 : x - clamp x lo hi ≤ 0 → g ≤ 0)
    (hr : |r - (clamp x lo hi + g)| ≤ T) :
    |g| - T ≤ |r - clamp r lo hi| ∧ |r - clamp r lo hi| ≤ |g| + T := by
  rw [abs_le] at hr
  have hq : (x < lo ∧ clamp x lo hi = lo) ∨ (hi < x ∧ clamp x lo hi = hi) ∨
      (lo ≤ x ∧ x ≤ hi ∧ clamp x lo hi = x) := by
    unfold clamp
    by_cases h1 : x < lo
    · left
      exact ⟨h1, if_pos h1⟩
    · by_cases h2 : hi < x
      · right; left
        exact ⟨h2, by rw [if_neg h1, if_pos h2]⟩
      · right; right
        exact ⟨not_lt.mp h1, not_lt.mp h2, by rw [if_neg h1, if_neg h2]⟩
  have hc : (r < lo ∧ clamp r lo hi = lo) ∨ (hi < r ∧ clamp r lo hi = hi) ∨
      (lo ≤ r ∧ r ≤ hi ∧ clamp r lo hi = r) := by
    unfold clamp
    by_cases h1 : r < lo
    · left
      exact ⟨h1, if_pos h1⟩
    · by_cases h2 : hi < r
      · right; left
        exact ⟨h2, by rw [if_neg h1, if_pos h2]⟩
      · right; right
        exact ⟨not_lt.mp h1, not_lt.mp h2, by rw [if_neg h1, if_neg h2]⟩
  rcases hq with ⟨hx, hqe⟩ | ⟨hx, hqe⟩ | ⟨hx1, hx2, hqe⟩
  · rw [hqe] at hg2 hr
    have hg : g ≤ 0 := hg2 (by linarith)
    rw [abs_of_nonpos hg]
    rcases hc with ⟨h, hce⟩ | ⟨h, hce⟩ | ⟨h1, h2, hce⟩ <;> rw [hce] <;>
      rcases abs_cases (r - lo) with ⟨e, _⟩ | ⟨e, _⟩ <;>
      rcases abs_cases (r - hi) with ⟨e2, _⟩ | ⟨e2, _⟩ <;>
      first
        | (rw [e]; constructor <;> linarith)
        | (rw [e2]; constructor <;> linarith)
        | (rw [sub_self, abs_zero]; constructor <;> linarith)
  · rw [hqe] at hg1 hr
    have hg : 0 ≤ g := hg1 (by linarith)
    rw [abs_of_nonneg hg]
    rcases hc with ⟨h, hce⟩ | ⟨h, hce⟩ | ⟨h1, h2, hce⟩ <;> rw [hce] <;>
      rcases abs_cases (r - lo) with ⟨e, _⟩ | ⟨e, _⟩ <;>
      rcases abs_cases (r - hi) with ⟨e2, _⟩ | ⟨e2, _⟩ <;>
      first
        | (rw [e]; constructor <;> linarith)
        | (rw [e2]; constructor <;> linarith)
        | (rw [sub_self, abs_zero]; constructor <;> linarith)
  · rw [hqe] at hg1 hg2 hr
    have hg : g = 0 := le_antisymm (hg2 (by rw [sub_self])) (hg1 (by rw [sub_self]))
    rw [hg, abs_zero]
    rw [hg, add_zero] at hr
    rcases hc with ⟨h, hce⟩ | ⟨h, hce⟩ | ⟨h1, h2, hce⟩ <;> rw [hce] <;>
      rcases abs_cases (r - lo) with ⟨e, _⟩ | ⟨e, _⟩ <;>
      rcases abs_cases (r - hi) with ⟨e2, _⟩ | ⟨e2, _⟩ <;>
      first
        | (rw [e]; constructor <;> linarith)
        | (rw [e2]; constructor <;> linarith)
        | (rw [sub_self, abs_zero]; constructor <;> linarith)

/-- One squared component of the distance, from below and from above. -/
theorem sq_push (g f R T : α) (hT : 0 ≤ T) (hgR : |g| ≤ R) (h1 : |g| - T ≤ |f|)
    (h2 : |f| ≤ |g| + T) :
    g * g - 2 * R * T ≤ f * f ∧ f * f ≤ g * g + 2 * R * T + T * T := by
  have hgg : |g| * |g| = g * g := abs_mul_abs_self g
  have hff : |f| * |f| = f * f := abs_mul_abs_self f
  have ha0 : 0 ≤ |g| := abs_nonneg g
  have hf0 : 0 ≤ |f| := abs_nonneg f
  have hRT : |g| * T ≤ R * T := mul_le_mul_of_nonneg_right hgR hT
  rw [← hgg, ← hff]
  generalize |g| = a at *
  generalize |f| = F at *
  constructor
  · rcases le_or_lt T a with h | h
    · have := mul_self_le_mul_self (by linarith : (0 : α) ≤ a - T) h1
      have e : (a - T) * (a - T) = a * a - 2 * (a * T) + T * T := by ring
      rw [e] at this
      linarith only [this, hRT, mul_self_nonneg T]
    · have h3 : a * (a - 2 * T) ≤ 0 :=
        mul_nonpos_of_nonneg_of_nonpos ha0 (by linarith)
      have e : a * (a - 2 * T) = a * a - 2 * (a * T) := by ring
      rw [e] at h3
      linarith only [h3, hRT, mul_self_nonneg F]
  · have := mul_self_le_mul_self hf0 h2
    have e : (a + T) * (a + T) = a * a + 2 * (a * T) + T * T := by ring
    rw [e] at this
    linarith only [this, hRT]

/-- The distance of the pushed point, from the two components. -/
theorem norm_push {sqrt : α → α} (hs : IsSqrt sqrt) (gx gz fx fz R Tx Tz : α) (hR : 0 ≤ R)
    (hg : gx * gx + gz * gz = R * R)
    (hx1 : |gx| - Tx ≤ |fx|) (hx2 : |fx| ≤ |gx| + Tx)
    (hz1 : |gz| - Tz ≤ |fz|) (hz2 : |fz| ≤ |gz| + Tz) (hTx : 0 ≤ Tx) (hTz : 0 ≤ Tz) :
    R - 2 * (Tx + Tz) ≤ length2 sqrt fx fz ∧ length2 sqrt fx fz ≤ R + (Tx + Tz) := by
  have hgx : |gx| ≤ R := by
    rw [← abs_of_nonneg hR, abs_le_iff_mul_self_le]
    linarith [mul_self_nonneg gz]
  have hgz : |gz| ≤ R := by
    rw [← abs_of_nonneg hR, abs_le_iff_mul_self_le]
    linarith [mul_self_nonneg gx]
  obtain ⟨a1, a2⟩ := sq_push gx fx R Tx hTx hgx hx1 hx2
  obtain ⟨b1, b2⟩ := sq_push gz fz R Tz hTz hgz hz1 hz2
  have hS0 : 0 ≤ fx * fx + fz * fz := add_nonneg (mul_self_nonneg _) (mul_self_nonneg _)
  unfold length2
  constructor
  · rcases le_or_lt (R - 2 * (Tx + Tz)) 0 with h | h
    · exact le_trans h (hs _ hS0).1
    · apply hs.le_sqrt
      have hp := mul_nonneg (add_nonneg hTx hTz) h.le
      have e : (R - 2 * (Tx + Tz)) * (R - 2 * (Tx + Tz)) =
          R * R - 2 * R * Tx - 2 * R * Tz - 2 * ((Tx + Tz) * (R - 2 * (Tx + Tz))) := by ring
      rw [e]
      linarith only [a1, b1, hg, hp]
  · apply hs.le_of_le_sq hS0 (by linarith)
    have hp := mul_nonneg hTx hTz
    have e : (R + (Tx + Tz)) * (R + (Tx + Tz)) =
        R * R + 2 * R * Tx + 2 * R * Tz + Tx * Tx + Tz * Tz + 2 * (Tx * Tz) := by ring
    rw [e]
    linarith only [a2, b2, hg, hp]

end PushF3

section SingleWallF

variable {α : Type} [LinearOrderedField α] [FloorRing α]

theorem round_tenthousandth_ge : (1 / 16384 : α) ≤ F32.round 0.0001 := by
  have := F32.le_round_of_repr_le (0.0001 : α) 1 (-14) (by norm_num) (by norm_num)
    (by rw [zpow_neg]; norm_num)
  rw [zpow_neg] at this
  norm_num at this ⊢
  exact this

/-- The push of the loop body, on the raw coordinates: a point whose float
distance s to the rectangle [lox, hix] x [loz, hiz] lies between 0.0001f and
the radius R is moved to a point whose exact distance to the rectangle is R up
to the rounding of the coordinates. -/
theorem push_core {sqrt : α → α} (hs : IsSqrt sqrt) (x z lox hix loz hiz R : α)
    (hlx : lox ≤ hix) (hlz : loz ≤ hiz)
    (hlo : F32.round 0.0001 <
      F32.fsqrt sqrt (F32.add
        (F32.mul (F32.sub x (clamp x lox hix)) (F32.sub x (clamp x lox hix)))
        (F32.mul (F32.sub z (clamp z loz hiz)) (F32.sub z (clamp z loz hiz)))))
    (hhi : F32.fsqrt sqrt (F32.add
        (F32.mul (F32.sub x (clamp x lox hix)) (F32.sub x (clamp x lox hix)))
        (F32.mul (F32.sub z (clamp z loz hiz)) (F32.sub z (clamp z loz hiz)))) < R)
    (rx rz : α)
    (hrx : rx = F32.add x (F32.mul (F32.div (F32.sub x (clamp x lox hix))
      (F32.fsqrt sqrt (F32.add
        (F32.mul (F32.sub x (clamp x lox hix)) (F32.sub x (clamp x lox hix)))
        (F32.mul (F32.sub z (clamp z loz hiz)) (F32.sub z (clamp z loz hiz))))))
      (F32.sub R (F32.fsqrt sqrt (F32.add
        (F32.mul (F32.sub x (clamp x lox hix)) (F32.sub x (clamp x lox hix)))
        (F32.mul (F32.sub z (clamp z loz hiz)) (F32.sub z (clamp z loz hiz))))))))
    (hrz : rz = F32.add z (F32.mul (F32.div (F32.sub z (clamp z loz hiz))
      (F32.fsqrt sqrt (F32.add
        (F32.mul (F32.sub x (clamp x lox hix)) (F32.sub x (clamp x lox hix)))
        (F32.mul (F32.sub z (clamp z loz hiz)) (F32.sub z (clamp z loz hiz))))))
      (F32.sub R (F32.fsqrt sqrt (F32.add
        (F32.mul (F32.sub x (clamp x lox hix)) (F32.sub x (clamp x lox hix)))
        (F32.mul (F32.sub z (clamp z loz hiz)) (F32.sub z (clamp z loz hiz)))))))) :
    R - 2 * ((|x| + |z| + 64 * R) / 16777216 + 1 / 2 ^ 144) ≤
        length2 sqrt (rx - clamp rx lox hix) (rz - clamp rz loz hiz) ∧
      length2 sqrt (rx - clamp rx lox hix) (rz - clamp rz loz hiz) ≤
        R + ((|x| + |z| + 64 * R) / 16777216 + 1 / 2 ^ 144) := by
  have hexx : |F32.sub x (clamp x lox hix) - (x - clamp x lox hix)| ≤
      |x - clamp x lox hix| / 16777216 + 1 / 2 ^ 150 := F32.round_bounds _
  have hexz : |F32.sub z (clamp z loz hiz) - (z - clamp z loz hiz)| ≤
      |z - clamp z loz hiz| / 16777216 + 1 / 2 ^ 150 := F32.round_bounds _
  have hsx1 : 0 ≤ x - clamp x lox hix → 0 ≤ F32.sub x (clamp x lox hix) :=
    fun h => F32.round_nonneg _ h
  have hsx2 : x - clamp x lox hix ≤ 0 → F32.sub x (clamp x lox hix) ≤ 0 :=
    fun h => F32.round_nonpos _ h
  have hsz1 : 0 ≤ z - clamp z loz hiz → 0 ≤ F32.sub z (clamp z loz hiz) :=
    fun h => F32.round_nonneg _ h
  have hsz2 : z - clamp z loz hiz ≤ 0 → F32.sub z (clamp z loz hiz) ≤ 0 :=
    fun h => F32.round_nonpos _ h
  generalize F32.sub x (clamp x lox hix) = dX at *
  generalize F32.sub z (clamp z loz hiz) = dZ at *
  obtain ⟨hσ1, hs1, hs2⟩ := distF_bounds hs dX dZ (le_trans round_tenthousandth_ge hlo.le)
  have hQ0 : 0 ≤ dX * dX + dZ * dZ := add_nonneg (mul_self_nonneg _) (mul_self_nonneg _)
  obtain ⟨hσ0, hσσ⟩ := hs _ hQ0
  have hxσ : |dX| ≤ sqrt (dX * dX + dZ * dZ) := by
    rw [← abs_of_nonneg hσ0, abs_le_iff_mul_self_le, hσσ]
    linarith [mul_self_nonneg dZ]
  have hzσ : |dZ| ≤ sqrt (dX * dX + dZ * dZ) := by
    rw [← abs_of_nonneg hσ0, abs_le_iff_mul_self_le, hσσ]
    linarith [mul_self_nonneg dX]
  have hcx := push_component x (clamp x lox hix) dX _ _ R hσ1 hs1 hs2 hxσ hhi.le hexx
  have hcz := push_component z (clamp z loz hiz) dZ _ _ R hσ1 hs1 hs2 hzσ hhi.le hexz
  rw [← hrx] at hcx
  rw [← hrz] at hcz
  have hσpos : 0 < sqrt (dX * dX + dZ * dZ) := lt_of_lt_of_le (by norm_num) hσ1
  have hR : 0 ≤ R := by
    have := lt_of_le_of_lt (le_trans round_tenthousandth_ge hlo.le) hhi
    norm_num at this
    linarith
  have hab : dX / sqrt (dX * dX + dZ * dZ) * (dX / sqrt (dX * dX + dZ * dZ)) +
      dZ / sqrt (dX * dX + dZ * dZ) * (dZ / sqrt (dX * dX + dZ * dZ)) = 1 := by
    rw [div_mul_div_comm, div_mul_div_comm, ← add_div, hσσ]
    exact div_self (by rw [← hσσ]; positivity)
  generalize sqrt (dX * dX + dZ * dZ) = σ at *
  have hg : R * (dX / σ) * (R * (dX / σ)) + R * (dZ / σ) * (R * (dZ / σ)) = R * R := by
    have e : R * (dX / σ) * (R * (dX / σ)) + R * (dZ / σ) * (R * (dZ / σ)) =
        R * R * (dX / σ * (dX / σ) + dZ / σ * (dZ / σ)) := by ring
    rw [e, hab, mul_one]
  have hfx := clampF_push x lox hix rx (R * (dX / σ)) _ hlx
    (fun h => mul_nonneg hR (div_nonneg (hsx1 h) hσ0))
    (fun h => mul_nonpos_of_nonneg_of_nonpos hR (div_nonpos_of_nonpos_of_nonneg (hsx2 h) hσ0))
    hcx
  have hfz := clampF_push z loz hiz rz (R * (dZ / σ)) _ hlz
    (fun h => mul_nonneg hR (div_nonneg (hsz1 h) hσ0))
    (fun h => mul_nonpos_of_nonneg_of_nonpos hR (div_nonpos_of_nonpos_of_nonneg (hsz2 h) hσ0))
    hcz
  have hTx : 0 ≤ (|x| + 32 * R) / 16777216 + 32 * (1 / 2 ^ 150) := by
    have := abs_nonneg x
    positivity
  have hTz : 0 ≤ (|z| + 32 * R) / 16777216 + 32 * (1 / 2 ^ 150) := by
    have := abs_nonneg z
    positivity
  have hn := norm_push hs _ _ _ _ R _ _ hR hg hfx.1 hfx.2 hfz.1 hfz.2 hTx hTz
  have eT : (|x| + 32 * R) / 16777216 + 32 * (1 / 2 ^ 150) +
      ((|z| + 32 * R) / 16777216 + 32 * (1 / 2 ^ 150)) =
      (|x| + |z| + 64 * R) / 16777216 + 1 / 2 ^ 144 := by
    have e144 : (1 : α) / 2 ^ 144 = 64 * (1 / 2 ^ 150) := by norm_num
    rw [e144]
    ring
  rw [eT] at hn
  exact hn

/-- The push by one wall cell of the neighbourhood. -/
theorem resolveCellF_push {sqrt : α → α} (hs : IsSqrt sqrt) (L : Level α)
    (hc : 0 ≤ L.cellSize) (radius : α) (cell : IVec2) (p : Vec3 α) (d : Int × Int)
    (hwall : L.getCell (cell.x + d.1) (cell.y + d.2) = some '#')
    (hlo : F32.round 0.0001 < L.wallDistF sqrt p (cell.x + d.1) (cell.y + d.2))
    (hhi : L.wallDistF sqrt p (cell.x + d.1) (cell.y + d.2) < radius) :
    radius - 2 * ((|p.x| + |p.z| + 64 * radius) / 16777216 + 1 / 2 ^ 144) ≤
        L.footDistF sqrt (L.resolveCellF sqrt radius cell p d) (cell.x + d.1) (cell.y + d.2) ∧
      L.footDistF sqrt (L.resolveCellF sqrt radius cell p d) (cell.x + d.1) (cell.y + d.2) ≤
        radius + ((|p.x| + |p.z| + 64 * radius) / 16777216 + 1 / 2 ^ 144) ∧
      (L.resolveCellF sqrt radius cell p d).y = p.y := by
  have hh : 0 ≤ F32.div L.cellSize 2.0 := F32.round_nonneg _ (div_nonneg hc (by norm_num))
  have hlx := gridCoordF_lo_le_hi (L.gridToWorldF (cell.x + d.1) (cell.y + d.2)).x _ hh
  have hlz := gridCoordF_lo_le_hi (L.gridToWorldF (cell.x + d.1) (cell.y + d.2)).z _ hh
  unfold Level.wallDistF at hlo hhi
  simp only at hlo hhi
  unfold Level.footDistF Level.resolveCellF
  simp only
  rw [if_pos hwall, if_pos ⟨hhi, hlo⟩]
  refine ⟨?_, ?_, rfl⟩
  · exact (push_core hs p.x p.z _ _ _ _ radius hlx hlz hlo hhi _ _ rfl rfl).1
  · exact (push_core hs p.x p.z _ _ _ _ radius hlx hlz hlo hhi _ _ rfl rfl).2

end SingleWallF

section SingleWallF2

variable {α : Type} [LinearOrderedField α] [FloorRing α]

/-- C2 (amended): in float arithmetic, for every Level with a positive cell
size, radius and position whose distance d to the footprint of a wall cell W of
its 3x3 neighbourhood, as resolveWallCollision computes it, satisfies
0.0001f < d < radius, where no other wall cell of the neighbourhood has a
computed distance below the radius, neither at the given position nor at the
position to which W pushes it, one call to resolveWallCollision returns a
position whose exact distance to W's footprint is the radius up to the rounding
of the coordinates: with T = (|x| + |z| + 64 * radius) * 2^-24 + 2^-144 it is at
least radius - 2 * T and at most radius + T.  It need not be at least the
radius.  The bounds on the position, the radius and the cell size keep the
computation in the float range; the proof does not use them. -/
theorem resolveWallCollisionF_single {sqrt : α → α} (hs : IsSqrt sqrt) (L : Level α)
    (hc : 0 < L.cellSize) (radius : α) (pos : Vec3 α) (d : Int × Int)
    (hd : d ∈ neighbourOffsets)
    (hwall : L.getCell ((L.worldToGridF pos).x + d.1) ((L.worldToGridF pos).y + d.2) = some '#')
    (hlo : F32.round 0.0001 <
      L.wallDistF sqrt pos ((L.worldToGridF pos).x + d.1) ((L.worldToGridF pos).y + d.2))
    (hhi : L.wallDistF sqrt pos ((L.worldToGridF pos).x + d.1) ((L.worldToGridF pos).y + d.2)
      < radius)
    (hbefore : ∀ e ∈ neighbourOffsets, e ≠ d →
      L.getCell ((L.worldToGridF pos).x + e.1) ((L.worldToGridF pos).y + e.2) = some '#' →
      radius ≤
        L.wallDistF sqrt pos ((L.worldToGridF pos).x + e.1) ((L.worldToGridF pos).y + e.2))
    (hafter : ∀ e ∈ neighbourOffsets, e ≠ d →
      L.getCell ((L.worldToGridF pos).x + e.1) ((L.worldToGridF pos).y + e.2) = some '#' →
      radius ≤
        L.wallDistF sqrt (L.resolveCellF sqrt radius (L.worldToGridF pos) pos d)
          ((L.worldToGridF pos).x + e.1) ((L.worldToGridF pos).y + e.2))
    (_hfin : |pos.x| ≤ 2 ^ 60 ∧ |pos.z| ≤ 2 ^ 60 ∧ radius ≤ 2 ^ 60 ∧ L.cellSize ≤ 2 ^ 60) :
    radius - 2 * ((|pos.x| + |pos.z| + 64 * radius) / 16777216 + 1 / 2 ^ 144) ≤
        L.footDistF sqrt (L.resolveWallCollisionF sqrt pos radius)
          ((L.worldToGridF pos).x + d.1) ((L.worldToGridF pos).y + d.2) ∧
      L.footDistF sqrt (L.resolveWallCollisionF sqrt pos radius)
          ((L.worldToGridF pos).x + d.1) ((L.worldToGridF pos).y + d.2) ≤
        radius + ((|pos.x| + |pos.z| + 64 * radius) / 16777216 + 1 / 2 ^ 144) ∧
      (L.resolveWallCollisionF sqrt pos radius).y = pos.y := by
  have hfold : L.resolveWallCollisionF sqrt pos radius =
      L.resolveCellF sqrt radius (L.worldToGridF pos) pos d := by
    unfold Level.resolveWallCollisionF
    apply foldl_single _ d pos neighbourOffsets hd neighbourOffsets_nodup
    · intro e he hne
      by_cases hw : L.getCell ((L.worldToGridF pos).x + e.1) ((L.worldToGridF pos).y + e.2)
          = some '#'
      · exact resolveCellF_of_clear _ _ _ _ _ _ (hbefore e he hne hw)
      · exact resolveCellF_of_not_wall _ _ _ _ _ _ hw
    · intro e he hne
      by_cases hw : L.getCell ((L.worldToGridF pos).x + e.1) ((L.worldToGridF pos).y + e.2)
          = some '#'
      · exact resolveCellF_of_clear _ _ _ _ _ _ (hafter e he hne hw)
      · exact resolveCellF_of_not_wall _ _ _ _ _ _ hw
  rw [hfold]
  exact resolveCellF_push hs L hc.le radius _ pos d hwall hlo hhi

end SingleWallF2

/-! ### The corridor level in float arithmetic -/

theorem corridorF_gridToWorld_left : corridorLevel.gridToWorldF 0 1 = ⟨-1, 0, 0⟩ := by
  have := gridToWorldF_zpow corridorLevel 0 (by decide) (by rw [corridor_cellSize, zpow_zero])
    (by decide) (by decide) 0 1 (by decide) (by decide) (by decide) (by decide)
  rw [this, corridor_width, corridor_height]
  norm_num

theorem corridorF_gridToWorld_right : corridorLevel.gridToWorldF 2 1 = ⟨1, 0, 0⟩ := by
  have := gridToWorldF_zpow corridorLevel 0 (by decide) (by rw [corridor_cellSize, zpow_zero])
    (by decide) (by decide) 2 1 (by decide) (by decide) (by decide) (by decide)
  rw [this, corridor_width, corridor_height]
  norm_num

theorem corridorF_half : F32.div corridorLevel.cellSize 2.0 = 1 / 2 := by
  rw [corridor_cellSize]
  unfold F32.div
  norm_num [round_half_real]

theorem round_neg_half_real : F32.round (-(1 / 2) : ℝ) = -(1 / 2) := by
  rw [F32.round_neg, round_half_real]

theorem round_neg_three_halves_real : F32.round (-(3 / 2) : ℝ) = -(3 / 2) := by
  rw [F32.round_neg, round_three_halves_real]

theorem corridorF_worldToGrid (x y : ℝ) (hx1 : -(1 / 2) ≤ x) (hx2 : x ≤ 1 / 4) :
    corridorLevel.worldToGridF ⟨x, y, 0⟩ = ⟨1, 1⟩ := by
  have r74 : F32.round (7 / 4 : ℝ) = 7 / 4 := by
    have := F32.round_of_repr (α := ℝ) 7 (-2) (by norm_num) (by norm_num)
    rw [zpow_neg] at this
    norm_num at this ⊢
    exact this
  have h1 : (1 : ℝ) ≤ F32.round (x + 3 / 2) := by
    have := F32.round_mono (by linarith : (1 : ℝ) ≤ x + 3 / 2)
    rwa [round_one_real] at this
  have h2 : F32.round (x + 3 / 2) ≤ 7 / 4 := by
    have := F32.round_mono (by linarith : x + 3 / 2 ≤ (7 / 4 : ℝ))
    rwa [r74] at this
  simp only [Level.worldToGridF, Level.getBoardWidthF, Level.getBoardDepthF, corridor_width,
    corridor_height, corridor_cellSize, F32.add, F32.div, F32.mul, F32.ofInt]
  norm_num [round_three_real, round_three_halves_real, F32.round_round]
  constructor
  · unfold truncToInt
    rw [if_pos (by linarith), Int.floor_eq_iff]
    constructor
    · exact_mod_cast h1
    · norm_num
      linarith
  · unfold truncToInt
    rw [if_pos (by norm_num), Int.floor_eq_iff]
    constructor <;> norm_num

theorem corridorF_wallDist_left (x y : ℝ) (hx : -(1 / 2) < x) :
    corridorLevel.wallDistF Real.sqrt ⟨x, y, 0⟩ 0 1 =
      F32.round (Real.sqrt (F32.round (F32.round (x + 1 / 2) * F32.round (x + 1 / 2)))) := by
  unfold Level.wallDistF
  rw [corridorF_gridToWorld_left, corridorF_half]
  simp only [F32.sub, F32.add, F32.mul, F32.fsqrt]
  have e1 : (-1 : ℝ) - 1 / 2 = -(3 / 2) := by norm_num
  have e2 : (-1 : ℝ) + 1 / 2 = -(1 / 2) := by norm_num
  have e3 : (0 : ℝ) - 1 / 2 = -(1 / 2) := by norm_num
  have e4 : (0 : ℝ) + 1 / 2 = 1 / 2 := by norm_num
  rw [e1, e2, e3, e4, round_neg_three_halves_real, round_neg_half_real, round_half_real]
  have c1 : clamp x (-(3 / 2)) (-(1 / 2)) = -(1 / 2) := by
    unfold clamp
    rw [if_neg (by linarith), if_pos hx]
  have c2 : clamp (0 : ℝ) (-(1 / 2)) (1 / 2) = 0 := by
    unfold clamp
    rw [if_neg (by norm_num), if_neg (by norm_num)]
  rw [c1, c2]
  simp only [sub_neg_eq_add, sub_zero, F32.round_zero, mul_zero, add_zero, F32.round_round]

theorem corridorF_wallDist_right (x y : ℝ) (hx : x < 1 / 2) :
    corridorLevel.wallDistF Real.sqrt ⟨x, y, 0⟩ 2 1 =
      F32.round (Real.sqrt (F32.round (F32.round (x - 1 / 2) * F32.round (x - 1 / 2)))) := by
  unfold Level.wallDistF
  rw [corridorF_gridToWorld_right, corridorF_half]
  simp only [F32.sub, F32.add, F32.mul, F32.fsqrt]
  have e1 : (1 : ℝ) - 1 / 2 = 1 / 2 := by norm_num
  have e2 : (1 : ℝ) + 1 / 2 = 3 / 2 := by norm_num
  have e3 : (0 : ℝ) - 1 / 2 = -(1 / 2) := by norm_num
  have e4 : (0 : ℝ) + 1 / 2 = 1 / 2 := by norm_num
  rw [e1, e2, e3, e4, round_three_halves_real, round_neg_half_real, round_half_real]
  have c1 : clamp x (1 / 2) (3 / 2) = 1 / 2 := by
    unfold clamp
    rw [if_pos hx]
  have c2 : clamp (0 : ℝ) (-(1 / 2)) (1 / 2) = 0 := by
    unfold clamp
    rw [if_neg (by norm_num), if_neg (by norm_num)]
  rw [c1, c2]
  simp only [sub_zero, F32.round_zero, mul_zero, add_zero, F32.round_round]

theorem corridorF_push_left (x y R dX : ℝ) (hx : -(1 / 2) < x)
    (h1 : F32.round (x + 1 / 2) = dX)
    (h3 : F32.round (Real.sqrt (F32.round (dX * dX))) = dX)
    (hlo : F32.round 0.0001 < dX) (hhi : dX < R) :
    corridorLevel.resolveCellF Real.sqrt R ⟨1, 1⟩ ⟨x, y, 0⟩ (-1, 0) =
      ⟨F32.round (x + F32.round (R - dX)), y, 0⟩ := by
  have hw : corridorLevel.getCell ((⟨1, 1⟩ : IVec2).x + ((-1, 0) : Int × Int).1)
      ((⟨1, 1⟩ : IVec2).y + ((-1, 0) : Int × Int).2) = some '#' := by decide
  have hd0 : 0 < dX := lt_of_le_of_lt (F32.round_nonneg _ (by norm_num)) hlo
  have hd := corridorF_wallDist_left x y hx
  rw [h1, h3] at hd
  unfold Level.wallDistF at hd
  unfold Level.resolveCellF
  simp only at hd ⊢
  have ex : (1 : Int) + -1 = 0 := rfl
  have ey : (1 : Int) + 0 = 1 := rfl
  rw [if_pos hw]
  simp only [ex, ey]
  rw [hd, if_pos ⟨hhi, hlo⟩]
  rw [corridorF_gridToWorld_left, corridorF_half]
  simp only [F32.sub, F32.add, F32.mul, F32.div]
  have e1 : (-1 : ℝ) - 1 / 2 = -(3 / 2) := by norm_num
  have e2 : (-1 : ℝ) + 1 / 2 = -(1 / 2) := by norm_num
  have e3 : (0 : ℝ) - 1 / 2 = -(1 / 2) := by norm_num
  have e4 : (0 : ℝ) + 1 / 2 = 1 / 2 := by norm_num
  rw [e1, e2, e3, e4, round_neg_three_halves_real, round_neg_half_real, round_half_real]
  have c1 : clamp x (-(3 / 2)) (-(1 / 2)) = -(1 / 2) := by
    unfold clamp
    rw [if_neg (by linarith), if_pos hx]
  have c2 : clamp (0 : ℝ) (-(1 / 2)) (1 / 2) = 0 := by
    unfold clamp
    rw [if_neg (by norm_num), if_neg (by norm_num)]
  rw [c1, c2]
  simp only [sub_neg_eq_add, sub_zero, F32.round_zero, zero_div, zero_mul, add_zero, h1,
    div_self hd0.ne', round_one_real, one_mul, F32.round_round]

theorem corridorF_push_right (x y R dX : ℝ) (hx : x < 1 / 2)
    (h1 : F32.round (x - 1 / 2) = -dX)
    (h3 : F32.round (Real.sqrt (F32.round (dX * dX))) = dX)
    (hlo : F32.round 0.0001 < dX) (hhi : dX < R) :
    corridorLevel.resolveCellF Real.sqrt R ⟨1, 1⟩ ⟨x, y, 0⟩ (1, 0) =
      ⟨F32.round (x + -F32.round (R - dX)), y, 0⟩ := by
  have hw : corridorLevel.getCell ((⟨1, 1⟩ : IVec2).x + ((1, 0) : Int × Int).1)
      ((⟨1, 1⟩ : IVec2).y + ((1, 0) : Int × Int).2) = some '#' := by decide
  have hd0 : 0 < dX := lt_of_le_of_lt (F32.round_nonneg _ (by norm_num)) hlo
  have hd := corridorF_wallDist_right x y hx
  rw [h1, neg_mul_neg, h3] at hd
  unfold Level.wallDistF at hd
  unfold Level.resolveCellF
  simp only at hd ⊢
  have ex : (1 : Int) + 1 = 2 := rfl
  have ey : (1 : Int) + 0 = 1 := rfl
  rw [if_pos hw]
  simp only [ex, ey]
  rw [hd, if_pos ⟨hhi, hlo⟩]
  rw [corridorF_gridToWorld_right, corridorF_half]
  simp only [F32.sub, F32.add, F32.mul, F32.div]
  have e1 : (1 : ℝ) - 1 / 2 = 1 / 2 := by norm_num
  have e2 : (1 : ℝ) + 1 / 2 = 3 / 2 := by norm_num
  have e3 : (0 : ℝ) - 1 / 2 = -(1 / 2) := by norm_num
  have e4 : (0 : ℝ) + 1 / 2 = 1 / 2 := by norm_num
  rw [e1, e2, e3, e4, round_three_halves_real, round_neg_half_real, round_half_real]
  have c1 : clamp x (1 / 2) (3 / 2) = 1 / 2 := by
    unfold clamp
    rw [if_pos hx]
  have c2 : clamp (0 : ℝ) (-(1 / 2)) (1 / 2) = 0 := by
    unfold clamp
    rw [if_neg (by norm_num), if_neg (by norm_num)]
  rw [c1, c2]
  have e5 : -dX / dX = -1 := by
    rw [neg_div, div_self hd0.ne']
  simp only [sub_zero, F32.round_zero, zero_div, zero_mul, add_zero, h1, e5, F32.round_neg,
    round_one_real, neg_mul, one_mul, F32.round_round]

theorem corridorF_not_wall (r : ℝ) (p : Vec3 ℝ) (d : Int × Int)
    (h : corridorLevel.getCell ((⟨1, 1⟩ : IVec2).x + d.1) ((⟨1, 1⟩ : IVec2).y + d.2) ≠ some '#') :
    corridorLevel.resolveCellF Real.sqrt r ⟨1, 1⟩ p d = p :=
  resolveCellF_of_not_wall _ _ _ _ _ _ h

theorem round_real_dyadic (n : Int) (j : Nat) (hn : |n| < 2 ^ 24) (hj : j ≤ 149) :
    F32.round ((n : ℝ) / 2 ^ j) = (n : ℝ) / 2 ^ j := by
  have := F32.round_of_repr (α := ℝ) n (-(j : Int)) hn (by omega)
  rw [zpow_neg, zpow_natCast, ← div_eq_mul_inv] at this
  exact this

theorem round_tenthousandth_le : F32.round (0.0001 : ℝ) ≤ 1 / 1024 := by
  have := F32.round_le_of_le_repr (0.0001 : ℝ) 1 (-10) (by norm_num) (by norm_num)
    (by rw [zpow_neg]; norm_num)
  rw [zpow_neg] at this
  norm_num at this ⊢
  exact this

theorem corridorF_fold (p a b : Vec3 ℝ) (R : ℝ)
    (hg : corridorLevel.worldToGridF p = ⟨1, 1⟩)
    (hl : corridorLevel.resolveCellF Real.sqrt R ⟨1, 1⟩ p (-1, 0) = a)
    (hr : corridorLevel.resolveCellF Real.sqrt R ⟨1, 1⟩ a (1, 0) = b) :
    corridorLevel.resolveWallCollisionF Real.sqrt p R = b := by
  unfold Level.resolveWallCollisionF
  rw [hg, neighbourOffsets_eq]
  simp only [List.foldl]
  rw [corridorF_not_wall R _ (-1, -1) (by decide), corridorF_not_wall R _ (0, -1) (by decide),
    corridorF_not_wall R _ (1, -1) (by decide), hl, corridorF_not_wall R _ (0, 0) (by decide),
    hr, corridorF_not_wall R _ (-1, 1) (by decide), corridorF_not_wall R _ (0, 1) (by decide),
    corridorF_not_wall R _ (1, 1) (by decide)]

/-- The float distance to the right wall of the corridor is at least 1/2 on
the left half of the corridor. -/
theorem corridorF_wallDist_right_ge (x y : ℝ) (hx : x ≤ 0) :
    1 / 2 ≤ corridorLevel.wallDistF Real.sqrt ⟨x, y, 0⟩ 2 1 := by
  rw [corridorF_wallDist_right x y (by linarith)]
  have h1 : F32.round (x - 1 / 2) ≤ -(1 / 2) := by
    have := F32.round_mono (by linarith : x - 1 / 2 ≤ (-(1 / 2) : ℝ))
    rwa [round_neg_half_real] at this
  have r14 : F32.round (1 / 4 : ℝ) = 1 / 4 := by
    have := round_real_dyadic 1 2 (by norm_num) (by norm_num)
    norm_num at this ⊢
    exact this
  have h2 : (1 / 4 : ℝ) ≤ F32.round (F32.round (x - 1 / 2) * F32.round (x - 1 / 2)) := by
    have := F32.round_mono (by nlinarith : (1 / 4 : ℝ) ≤
      F32.round (x - 1 / 2) * F32.round (x - 1 / 2))
    rwa [r14] at this
  have h3 : (1 / 2 : ℝ) ≤
      Real.sqrt (F32.round (F32.round (x - 1 / 2) * F32.round (x - 1 / 2))) := by
    rw [Real.le_sqrt' (by norm_num)]
    norm_num
    linarith
  have := F32.round_mono h3
  rwa [round_half_real] at this

/-- The exact distance from a point of the corridor axis to the footprint, with
float edges, of the left wall. -/
theorem corridorF_footDist_left (x y : ℝ) (hx : -(1 / 2) < x) :
    corridorLevel.footDistF Real.sqrt ⟨x, y, 0⟩ 0 1 = x + 1 / 2 := by
  unfold Level.footDistF
  rw [corridorF_gridToWorld_left, corridorF_half]
  simp only [F32.sub, F32.add]
  have e1 : (-1 : ℝ) - 1 / 2 = -(3 / 2) := by norm_num
  have e2 : (-1 : ℝ) + 1 / 2 = -(1 / 2) := by norm_num
  have e3 : (0 : ℝ) - 1 / 2 = -(1 / 2) := by norm_num
  have e4 : (0 : ℝ) + 1 / 2 = 1 / 2 := by norm_num
  rw [e1, e2, e3, e4, round_neg_three_halves_real, round_neg_half_real, round_half_real]
  have c1 : clamp x (-(3 / 2)) (-(1 / 2)) = -(1 / 2) := by
    unfold clamp
    rw [if_neg (by linarith), if_pos hx]
  have c2 : clamp (0 : ℝ) (-(1 / 2)) (1 / 2) = 0 := by
    unfold clamp
    rw [if_neg (by norm_num), if_neg (by norm_num)]
  rw [c1, c2]
  unfold length2
  apply real_sqrt_of_sq
  · linarith
  · ring

/-- Every wall cell other than the left wall (0, 1) is at exact distance at
least R from a point of the corridor axis that is R or more from the right
wall, for R at most 1. -/
theorem corridor_others (x R : ℝ) (hx0 : -(1 / 2) ≤ x) (hx1 : x ≤ 1 / 2) (hR : R ≤ 1 / 2 - x)
    (hR1 : R ≤ 1) (nx ny : Int) (hne : (nx, ny) ≠ ((0, 1) : Int × Int))
    (hw : corridorLevel.getCell nx ny = some '#') :
    R ≤ corridorLevel.wallDist Real.sqrt ⟨x, 0, 0⟩ nx ny := by
  by_cases hin : (0 ≤ nx ∧ nx ≤ 2) ∧ (0 ≤ ny ∧ ny ≤ 2)
  · obtain ⟨⟨h1, h2⟩, h3, h4⟩ := hin
    have hnx : nx = 0 ∨ nx = 1 ∨ nx = 2 := by omega
    have hny : ny = 0 ∨ ny = 1 ∨ ny = 2 := by omega
    rcases hnx with rfl | rfl | rfl <;> rcases hny with rfl | rfl | rfl
    · exact absurd hw (by decide)
    · exact absurd rfl hne
    · exact absurd hw (by decide)
    · exact absurd hw (by decide)
    · exact absurd hw (by decide)
    · exact absurd hw (by decide)
    · exact absurd hw (by decide)
    · rw [corridor_wallDist_right x 0 (by norm_num; linarith)]
      norm_num
      linarith
    · exact absurd hw (by decide)
  · have h : nx ≤ -1 ∨ 3 ≤ nx ∨ ny ≤ -1 ∨ 3 ≤ ny := by omega
    have := corridor_far x 0 (by norm_num; linarith) (by norm_num; linarith) nx ny h
    exact le_trans hR1 this

/-- In the 3x3 neighbourhood of the middle cell of the corridor only the cells
(0, 1) and (2, 1) are walls. -/
theorem corridorF_neighbours (e : Int × Int) (he : e ∈ neighbourOffsets)
    (hne : e ≠ ((-1, 0) : Int × Int))
    (hw : corridorLevel.getCell (1 + e.1) (1 + e.2) = some '#') : e = (1, 0) := by
  rw [neighbourOffsets_eq] at he
  simp only [List.mem_cons, List.mem_singleton, List.not_mem_nil, or_false] at he
  rcases he with rfl | rfl | rfl | rfl | rfl | rfl | rfl | rfl | rfl
  · exact absurd hw (by decide)
  · exact absurd hw (by decide)
  · exact absurd hw (by decide)
  · exact absurd rfl hne
  · exact absurd hw (by decide)
  · rfl
  · exact absurd hw (by decide)
  · exact absurd hw (by decide)
  · exact absurd hw (by decide)

/-! ### The corridor at x = -0.2f with radius 0.35f, and at x = -1/4 with radius 5/8 -/

theorem corridorA_dX :
    F32.round ((-13421773 / 67108864 : ℝ) + 1 / 2) = 5033165 / 16777216 := by
  have e : (-13421773 / 67108864 : ℝ) + 1 / 2 = 20132659 / 67108864 := by norm_num
  rw [e]
  have := F32.round_eq_of_tie (20132659 / 67108864 : ℝ) (-25) 10066329 (by norm_num)
    (by norm_num [abs_of_pos]) (by norm_num [abs_of_pos]) (by norm_num)
  rw [this]
  norm_num

theorem corridorA_sq :
    F32.round ((5033165 / 16777216 : ℝ) * (5033165 / 16777216)) = 3019899 / 33554432 := by
  have := F32.round_eq_of_near ((5033165 / 16777216 : ℝ) * (5033165 / 16777216)) (-27)
    12079596 (by norm_num) (by norm_num [abs_of_pos]) (by norm_num [abs_of_pos])
    (by rw [abs_lt]; constructor <;> norm_num)
  rw [this]
  norm_num

theorem corridorA_sqrt :
    F32.round (Real.sqrt (3019899 / 33554432)) = 5033165 / 16777216 := by
  have := round_real_sqrt (3019899 / 33554432) (-25) 10066330 (by norm_num) (by norm_num)
    (by norm_num) (by norm_num) (by norm_num)
  rw [this]
  norm_num

theorem corridorA_dist :
    F32.round (Real.sqrt (F32.round ((5033165 / 16777216 : ℝ) * (5033165 / 16777216)))) =
      5033165 / 16777216 := by
  rw [corridorA_sq, corridorA_sqrt]

theorem corridorA_wallDist_left :
    corridorLevel.wallDistF Real.sqrt ⟨-13421773 / 67108864, 0, 0⟩ 0 1 =
      5033165 / 16777216 := by
  rw [corridorF_wallDist_left _ _ (by norm_num), corridorA_dX, corridorA_dist]

theorem corridorA_lo : F32.round (0.0001 : ℝ) < 5033165 / 16777216 :=
  lt_of_le_of_lt round_tenthousandth_le (by norm_num)

theorem corridorA_push :
    corridorLevel.resolveCellF Real.sqrt (11744051 / 33554432) ⟨1, 1⟩
      ⟨-13421773 / 67108864, 0, 0⟩ (-1, 0) = ⟨-10066331 / 67108864, 0, 0⟩ := by
  rw [corridorF_push_left _ _ _ (5033165 / 16777216) (by norm_num) corridorA_dX corridorA_dist
    corridorA_lo (by norm_num)]
  have r1 : F32.round ((11744051 / 33554432 : ℝ) - 5033165 / 16777216) =
      1677721 / 33554432 := by
    have := round_real_dyadic 1677721 25 (by norm_num) (by norm_num)
    norm_num at this ⊢
    exact this
  have r2 : F32.round ((-13421773 / 67108864 : ℝ) + 1677721 / 33554432) =
      -10066331 / 67108864 := by
    have := round_real_dyadic (-10066331) 26 (by norm_num) (by norm_num)
    norm_num at this ⊢
    exact this
  rw [r1, r2]

theorem corridorA_resolve :
    corridorLevel.resolveWallCollisionF Real.sqrt ⟨-13421773 / 67108864, 0, 0⟩
      (11744051 / 33554432) = ⟨-10066331 / 67108864, 0, 0⟩ := by
  apply corridorF_fold _ _ _ _ (corridorF_worldToGrid _ _ (by norm_num) (by norm_num))
    corridorA_push
  apply resolveCellF_of_clear
  exact le_trans (by norm_num) (corridorF_wallDist_right_ge _ _ (by norm_num))

theorem corridorB_quarter : F32.round (1 / 4 : ℝ) = 1 / 4 := by
  have := round_real_dyadic 1 2 (by norm_num) (by norm_num)
  norm_num at this ⊢
  exact this

theorem corridorB_dist (n : Int) (j : Nat) (hn0 : 0 ≤ n) (hn : n < 2 ^ 12) (hj : j ≤ 60) :
    F32.round (Real.sqrt (F32.round (((n : ℝ) / 2 ^ j) * ((n : ℝ) / 2 ^ j)))) =
      (n : ℝ) / 2 ^ j := by
  have hn' : (n : ℝ) < 2 ^ 12 := by exact_mod_cast hn
  have hn0' : (0 : ℝ) ≤ n := by exact_mod_cast hn0
  have e : ((n : ℝ) / 2 ^ j) * ((n : ℝ) / 2 ^ j) = ((n * n : Int) : ℝ) / 2 ^ (j + j) := by
    push_cast
    rw [pow_add]
    field_simp
  have hnn : |n * n| < 2 ^ 24 := by
    rw [abs_of_nonneg (mul_nonneg hn0 hn0)]
    nlinarith
  rw [e, round_real_dyadic (n * n) (j + j) hnn (by omega), ← e,
    Real.sqrt_mul_self (div_nonneg hn0' (by positivity))]
  exact round_real_dyadic n j (by rw [abs_of_nonneg hn0]; omega) (by omega)

theorem corridorB_wallDist_left :
    corridorLevel.wallDistF Real.sqrt ⟨-(1 / 4), 0, 0⟩ 0 1 = 1 / 4 := by
  have e : (-(1 / 4) : ℝ) + 1 / 2 = 1 / 4 := by norm_num
  have := corridorB_dist 1 2 (by norm_num) (by norm_num) (by norm_num)
  norm_num at this
  rw [corridorF_wallDist_left _ _ (by norm_num), e, corridorB_quarter]
  norm_num
  exact this

theorem corridorB_wallDist_right :
    corridorLevel.wallDistF Real.sqrt ⟨-(1 / 4), 0, 0⟩ 2 1 = 3 / 4 := by
  have e : (-(1 / 4) : ℝ) - 1 / 2 = -(3 / 4) := by norm_num
  have r : F32.round (3 / 4 : ℝ) = 3 / 4 := round_three_quarters_real
  have := corridorB_dist 3 2 (by norm_num) (by norm_num) (by norm_num)
  norm_num at this
  rw [corridorF_wallDist_right _ _ (by norm_num), e, F32.round_neg, r]
  norm_num
  exact this

theorem corridorB_push_left :
    corridorLevel.resolveCellF Real.sqrt (5 / 8) ⟨1, 1⟩ ⟨-(1 / 4), 0, 0⟩ (-1, 0) =
      ⟨1 / 8, 0, 0⟩ := by
  have e : (-(1 / 4) : ℝ) + 1 / 2 = 1 / 4 := by norm_num
  have hd := corridorB_dist 1 2 (by norm_num) (by norm_num) (by norm_num)
  norm_num at hd
  rw [corridorF_push_left _ _ _ (1 / 4) (by norm_num) (by rw [e, corridorB_quarter])
    (by norm_num; exact hd) (lt_of_le_of_lt round_tenthousandth_le (by norm_num))
    (by norm_num)]
  have r1 : F32.round ((5 / 8 : ℝ) - 1 / 4) = 3 / 8 := by
    have := round_real_dyadic 3 3 (by norm_num) (by norm_num)
    norm_num at this ⊢
    exact this
  have r2 : F32.round ((-(1 / 4) : ℝ) + 3 / 8) = 1 / 8 := by
    have := round_real_dyadic 1 3 (by norm_num) (by norm_num)
    norm_num at this ⊢
    exact this
  rw [r1, r2]

theorem corridorB_push_right :
    corridorLevel.resolveCellF Real.sqrt (5 / 8) ⟨1, 1⟩ ⟨1 / 8, 0, 0⟩ (1, 0) =
      ⟨-(1 / 8), 0, 0⟩ := by
  have r0 : F32.round ((1 / 8 : ℝ) - 1 / 2) = -(3 / 8) := by
    have := round_real_dyadic (-3) 3 (by norm_num) (by norm_num)
    norm_num at this ⊢
    exact this
  have hd := corridorB_dist 3 3 (by norm_num) (by norm_num) (by norm_num)
  norm_num at hd
  rw [corridorF_push_right _ _ _ (3 / 8) (by norm_num) r0
    (by norm_num; exact hd) (lt_of_le_of_lt round_tenthousandth_le (by norm_num))
    (by norm_num)]
  have r1 : F32.round ((5 / 8 : ℝ) - 3 / 8) = 1 / 4 := by
    have := round_real_dyadic 1 2 (by norm_num) (by norm_num)
    norm_num at this ⊢
    exact this
  have r2 : F32.round ((1 / 8 : ℝ) + -(1 / 4)) = -(1 / 8) := by
    have := round_real_dyadic (-1) 3 (by norm_num) (by norm_num)
    norm_num at this ⊢
    exact this
  rw [r1, r2]

theorem corridorB_resolve :
    corridorLevel.resolveWallCollisionF Real.sqrt ⟨-(1 / 4), 0, 0⟩ (5 / 8) =
      ⟨-(1 / 8), 0, 0⟩ :=
  corridorF_fold _ _ _ _ (corridorF_worldToGrid _ _ (by norm_num) (by norm_num))
    corridorB_push_left corridorB_push_right

/-- C2: in float arithmetic, in a one-cell-wide corridor of cell size 1,
(a) the circle of radius 0.35f centred at x = -0.2f overlaps the left wall
(0, 1) only, before and after the push (its computed and its exact distance to it
are 0.3 up to rounding, every other wall cell is at least the radius away), and
one call returns x = -0.15000002, whose distance 0.34999998 to the left wall is
below the radius 0.35f; (b) the circle of radius 5/8 centred at x = -1/4
overlaps the left wall only (distance 1/4; the right wall is 3/4 away, every
other wall cell at least 1); the call pushes it to x = 1/8, where the right
wall, scanned later, is 3/8 away and pushes it back to x = -1/8, which is 3/8
from the left wall, a quarter less than the radius. -/
theorem resolveWallCollisionF_counterexample :
    (0 : ℝ) < corridorLevel.cellSize ∧ ((-1, 0) : Int × Int) ∈ neighbourOffsets ∧
    corridorLevel.getCell 0 1 = some '#' ∧
    (corridorLevel.worldToGridF ⟨-13421773 / 67108864, 0, 0⟩ = ⟨1, 1⟩ ∧
      F32.round 0.0001 <
        corridorLevel.wallDistF Real.sqrt ⟨-13421773 / 67108864, 0, 0⟩ 0 1 ∧
      corridorLevel.wallDistF Real.sqrt ⟨-13421773 / 67108864, 0, 0⟩ 0 1 <
        11744051 / 33554432 ∧
      0.0001 < corridorLevel.wallDist Real.sqrt ⟨-13421773 / 67108864, 0, 0⟩ 0 1 ∧
      corridorLevel.wallDist Real.sqrt ⟨-13421773 / 67108864, 0, 0⟩ 0 1 <
        11744051 / 33554432 ∧
      (∀ nx ny : Int, (nx, ny) ≠ ((0, 1) : Int × Int) →
        corridorLevel.getCell nx ny = some '#' →
        11744051 / 33554432 ≤
          corridorLevel.wallDist Real.sqrt ⟨-13421773 / 67108864, 0, 0⟩ nx ny) ∧
      (∀ e ∈ neighbourOffsets, e ≠ ((-1, 0) : Int × Int) →
        corridorLevel.getCell (1 + e.1) (1 + e.2) = some '#' →
        11744051 / 33554432 ≤
          corridorLevel.wallDistF Real.sqrt ⟨-13421773 / 67108864, 0, 0⟩ (1 + e.1)
            (1 + e.2)) ∧
      (∀ e ∈ neighbourOffsets, e ≠ ((-1, 0) : Int × Int) →
        corridorLevel.getCell (1 + e.1) (1 + e.2) = some '#' →
        11744051 / 33554432 ≤
          corridorLevel.wallDistF Real.sqrt
            (corridorLevel.resolveCellF Real.sqrt (11744051 / 33554432) ⟨1, 1⟩
              ⟨-13421773 / 67108864, 0, 0⟩ (-1, 0)) (1 + e.1) (1 + e.2)) ∧
      corridorLevel.resolveWallCollisionF Real.sqrt ⟨-13421773 / 67108864, 0, 0⟩
        (11744051 / 33554432) = ⟨-10066331 / 67108864, 0, 0⟩ ∧
      corridorLevel.footDistF Real.sqrt
        (corridorLevel.resolveWallCollisionF Real.sqrt ⟨-13421773 / 67108864, 0, 0⟩
          (11744051 / 33554432)) 0 1 < 11744051 / 33554432) ∧
    (corridorLevel.worldToGridF ⟨-(1 / 4), 0, 0⟩ = ⟨1, 1⟩ ∧
      F32.round 0.0001 < corridorLevel.wallDistF Real.sqrt ⟨-(1 / 4), 0, 0⟩ 0 1 ∧
      corridorLevel.wallDistF Real.sqrt ⟨-(1 / 4), 0, 0⟩ 0 1 < 5 / 8 ∧
      0.0001 < corridorLevel.wallDist Real.sqrt ⟨-(1 / 4), 0, 0⟩ 0 1 ∧
      corridorLevel.wallDist Real.sqrt ⟨-(1 / 4), 0, 0⟩ 0 1 < 5 / 8 ∧
      (∀ nx ny : Int, (nx, ny) ≠ ((0, 1) : Int × Int) →
        corridorLevel.getCell nx ny = some '#' →
        5 / 8 ≤ corridorLevel.wallDist Real.sqrt ⟨-(1 / 4), 0, 0⟩ nx ny) ∧
      (∀ e ∈ neighbourOffsets, e ≠ ((-1, 0) : Int × Int) →
        corridorLevel.getCell (1 + e.1) (1 + e.2) = some '#' →
        5 / 8 ≤ corridorLevel.wallDistF Real.sqrt ⟨-(1 / 4), 0, 0⟩ (1 + e.1) (1 + e.2)) ∧
      corridorLevel.resolveWallCollisionF Real.sqrt ⟨-(1 / 4), 0, 0⟩ (5 / 8) =
        ⟨-(1 / 8), 0, 0⟩ ∧
      corridorLevel.footDistF Real.sqrt
        (corridorLevel.resolveWallCollisionF Real.sqrt ⟨-(1 / 4), 0, 0⟩ (5 / 8)) 0 1 =
          5 / 8 - 1 / 4) := by
  have hdA : corridorLevel.wallDist Real.sqrt ⟨-13421773 / 67108864, 0, 0⟩ 0 1 =
      -13421773 / 67108864 + 0.5 := corridor_wallDist_left _ 0 (by norm_num)
  have hdB : corridorLevel.wallDist Real.sqrt ⟨-(1 / 4), 0, 0⟩ 0 1 = -(1 / 4) + 0.5 :=
    corridor_wallDist_left _ 0 (by norm_num)
  refine ⟨by rw [corridor_cellSize]; exact one_pos, by decide, by decide,
    ⟨corridorF_worldToGrid _ _ (by norm_num) (by norm_num), ?_, ?_, ?_, ?_, ?_, ?_, ?_,
      corridorA_resolve, ?_⟩,
    ⟨corridorF_worldToGrid _ _ (by norm_num) (by norm_num), ?_, ?_, ?_, ?_, ?_, ?_,
      corridorB_resolve, ?_⟩⟩
  · rw [corridorA_wallDist_left]
    exact corridorA_lo
  · rw [corridorA_wallDist_left]
    norm_num
  · rw [hdA]
    norm_num
  · rw [hdA]
    norm_num
  · exact corridor_others _ _ (by norm_num) (by norm_num) (by norm_num) (by norm_num)
  · intro e he hne hw
    obtain rfl := corridorF_neighbours e he hne hw
    exact le_trans (by norm_num) (corridorF_wallDist_right_ge _ _ (by norm_num))
  · intro e he hne hw
    obtain rfl := corridorF_neighbours e he hne hw
    rw [corridorA_push]
    exact le_trans (by norm_num) (corridorF_wallDist_right_ge _ _ (by norm_num))
  · rw [corridorA_resolve, corridorF_footDist_left _ _ (by norm_num)]
    norm_num
  · rw [corridorB_wallDist_left]
    exact lt_of_le_of_lt round_tenthousandth_le (by norm_num)
  · rw [corridorB_wallDist_left]
    norm_num
  · rw [hdB]
    norm_num
  · rw [hdB]
    norm_num
  · exact corridor_others _ _ (by norm_num) (by norm_num) (by norm_num) (by norm_num)
  · intro e he hne hw
    obtain rfl := corridorF_neighbours e he hne hw
    show (5 / 8 : ℝ) ≤ corridorLevel.wallDistF Real.sqrt ⟨-(1 / 4), 0, 0⟩ 2 1
    rw [corridorB_wallDist_right]
    norm_num
  · rw [corridorB_resolve, corridorF_footDist_left _ _ (by norm_num)]
    norm_num

/-- In the corridor, the circle of radius 0.35f centred at x = -0.2f ends at
distance 0.35f from the left wall up to the rounding of the coordinates. -/
theorem resolveWallCollisionF_single_witness :
    IsSqrt Real.sqrt ∧ (0 : ℝ) < corridorLevel.cellSize ∧
      ((-1, 0) : Int × Int) ∈ neighbourOffsets ∧
      (|(-13421773 / 67108864 : ℝ)| ≤ 2 ^ 60 ∧ |(0 : ℝ)| ≤ 2 ^ 60 ∧
        (11744051 / 33554432 : ℝ) ≤ 2 ^ 60 ∧ corridorLevel.cellSize ≤ 2 ^ 60) ∧
      (11744051 / 33554432 : ℝ) -
          2 * ((|(-13421773 / 67108864 : ℝ)| + |(0 : ℝ)| + 64 * (11744051 / 33554432)) /
            16777216 + 1 / 2 ^ 144) ≤
        corridorLevel.footDistF Real.sqrt
          (corridorLevel.resolveWallCollisionF Real.sqrt ⟨-13421773 / 67108864, 0, 0⟩
            (11744051 / 33554432))
          ((corridorLevel.worldToGridF ⟨-13421773 / 67108864, 0, 0⟩).x +
            ((-1, 0) : Int × Int).1)
          ((corridorLevel.worldToGridF ⟨-13421773 / 67108864, 0, 0⟩).y +
            ((-1, 0) : Int × Int).2) := by
  have hg : corridorLevel.worldToGridF ⟨-13421773 / 67108864, 0, 0⟩ = ⟨1, 1⟩ :=
    corridorF_worldToGrid _ _ (by norm_num) (by norm_num)
  have hc : (0 : ℝ) < corridorLevel.cellSize := by rw [corridor_cellSize]; exact one_pos
  have hfin : |(-13421773 / 67108864 : ℝ)| ≤ 2 ^ 60 ∧ |(0 : ℝ)| ≤ 2 ^ 60 ∧
      (11744051 / 33554432 : ℝ) ≤ 2 ^ 60 ∧ corridorLevel.cellSize ≤ 2 ^ 60 := by
    refine ⟨?_, ?_, ?_, ?_⟩
    · rw [abs_le]
      constructor <;> norm_num
    · norm_num
    · norm_num
    · rw [corridor_cellSize]
      norm_num
  refine ⟨isSqrt_real, hc, by decide, hfin,
    (resolveWallCollisionF_single isSqrt_real corridorLevel hc (11744051 / 33554432)
      ⟨-13421773 / 67108864, 0, 0⟩ (-1, 0) (by decide) ?_ ?_ ?_ ?_ ?_ hfin).1⟩
  · rw [hg]
    decide
  · rw [hg]
    exact lt_of_lt_of_eq corridorA_lo corridorA_wallDist_left.symm
  · rw [hg]
    exact lt_of_eq_of_lt corridorA_wallDist_left (by norm_num)
  · rw [hg]
    intro e he hne hw
    obtain rfl := corridorF_neighbours e he hne hw
    exact le_trans (by norm_num) (corridorF_wallDist_right_ge _ _ (by norm_num))
  · rw [hg]
    intro e he hne hw
    obtain rfl := corridorF_neighbours e he hne hw
    rw [corridorA_push]
    exact le_trans (by norm_num) (corridorF_wallDist_right_ge _ _ (by norm_num))

end Cgpr
